import Mathlib

/-! # Bil, module "Fully Coupled Approach" (src/Modules/ModuleFiles/Module1.c)

A shallow embedding of the driver `Algorithm` and of the mesh-level assembly
functions `ComputeExplicitTerms`, `ComputeImplicitTerms`, `ComputeMatrix` and
`ComputeResidu`.

Conventions of the embedding.
* A C `double` is a rational number: arithmetic is exact.
* A C array (a pointer into a buffer) is a total function from the index to
  the value stored there.
* The entry points of the models, the linear solver, the time step
  controller and the error metric are not part of the module: they are the
  fields of `Env`.  Each of them receives the value of a clock that the driver
  advances at every phase, so that a field of `Env` can stand for any
  deterministic behaviour of the hidden state (unknowns, element terms).
* Calls that only act on the outside (persistence, output files, messages)
  are recorded in a trace, most recent call first.
-/

namespace Bil

/-! ## Data model -/

/-- Outcome of a call to a model entry point: the integer it returns, or the
non-local jump `Exception_Interrupt` back to the environment saved by the
driver. -/
inductive Call where
  | ret (i : Int)
  | interrupt
  deriving DecidableEq, Repr

/-- Node: the matrix column index of each unknown and the matrix row index of
each equation (`Node_GetMatrixColumnIndex`, `Node_GetMatrixRowIndex`). -/
structure Node where
  MatrixColumnIndex : Nat → Int
  MatrixRowIndex : Nat → Int

/-- Element: `Material` tells whether `Element_GetMaterial` is not NULL,
`NbOfEquations` is `Material_GetNbOfEquations` of that material. -/
structure Element where
  Material : Bool
  NbOfNodes : Nat
  NbOfEquations : Nat
  RegionIndex : Int
  GetNode : Nat → Node
  UnknownPosition : Nat → Int
  EquationPosition : Nat → Int

structure Mesh where
  NbOfElements : Nat
  Element : Nat → Element
  NbOfMatrixColumns : Nat

structure Load where
  RegionIndex : Int

structure Loads where
  NbOfLoads : Nat
  Load : Nat → Load

/-- Matrix: the array of its nonzero values and the length of that array. -/
structure Matrix where
  NbOfNonZeroValues : Nat
  NonZeroValue : Nat → ℚ

/-- The collaborators of the module.  The first argument of every clocked
field is the clock, the second (for element entry points) the element index
`ie`.  `ke`, `re` and `reLoads` give the contents of the local block buffer
after the corresponding entry point has returned, `Mesh_LoadCurrentSolution`
the time of the persisted snapshot when there is one, `stack` what the local
index arrays of `ComputeMatrix` hold when it is entered. -/
structure Env where
  Element_ComputeExplicitTerms : Nat → Nat → ℚ → Call
  Element_ComputeImplicitTerms : Nat → Nat → ℚ → ℚ → Call
  Element_ComputeMatrix : Nat → Nat → ℚ → ℚ → Call
  ke : Nat → Nat → ℚ → ℚ → Nat → ℚ
  Element_ComputeResidu : Nat → Nat → ℚ → ℚ → Call
  re : Nat → Nat → ℚ → ℚ → Nat → ℚ
  Element_ComputeLoads : Nat → Nat → ℚ → ℚ → Nat → Call
  reLoads : Nat → Nat → ℚ → ℚ → Nat → Nat → ℚ
  Matrix_AssembleElementMatrix : Matrix → (Nat → ℚ) → (Nat → Int) → (Nat → Int) → Nat → Matrix
  Solver_Solve : Nat → Matrix → List ℚ → Int
  TimeStep_ComputeTimeStep : Nat → ℚ → ℚ → ℚ → ℚ → ℚ
  IterProcess_SetCurrentError : Nat → ℚ
  Mesh_LoadCurrentSolution : Option ℚ
  stack : Nat → (Nat → Int) × (Nat → Int)

/-! ## Mesh-level loops over the elements -/

/-- Loop of `ComputeExplicitTerms` over the element indices still to visit.
The second component lists the elements whose entry point was invoked. -/
def ComputeExplicitTerms.loop (mesh : Mesh) (env : Env) (clk : Nat) (t : ℚ) :
    List Nat → Call × List Nat
  | [] => (Call.ret 0, [])
  | ie :: rest =>
    if (mesh.Element ie).Material then
      match env.Element_ComputeExplicitTerms clk ie t with
      | Call.interrupt => (Call.interrupt, [ie])
      | Call.ret i =>
        if i ≠ 0 then (Call.ret i, [ie])
        else ((loop mesh env clk t rest).1, ie :: (loop mesh env clk t rest).2)
    else loop mesh env clk t rest

def ComputeExplicitTerms (mesh : Mesh) (env : Env) (clk : Nat) (t : ℚ) : Call × List Nat :=
  ComputeExplicitTerms.loop mesh env clk t (List.range mesh.NbOfElements)

/-- Loop of `ComputeImplicitTerms` over the element indices still to visit. -/
def ComputeImplicitTerms.loop (mesh : Mesh) (env : Env) (clk : Nat) (t dt : ℚ) :
    List Nat → Call × List Nat
  | [] => (Call.ret 0, [])
  | ie :: rest =>
    if (mesh.Element ie).Material then
      match env.Element_ComputeImplicitTerms clk ie t dt with
      | Call.interrupt => (Call.interrupt, [ie])
      | Call.ret i =>
        if i ≠ 0 then (Call.ret i, [ie])
        else ((loop mesh env clk t dt rest).1, ie :: (loop mesh env clk t dt rest).2)
    else loop mesh env clk t dt rest

def ComputeImplicitTerms (mesh : Mesh) (env : Env) (clk : Nat) (t dt : ℚ) : Call × List Nat :=
  ComputeImplicitTerms.loop mesh env clk t dt (List.range mesh.NbOfElements)

/-- One call of `Matrix_AssembleElementMatrix` as seen by the callee: the
element, the matrix it receives, the block and the two index arrays, and the
block size. -/
structure AssembleCall where
  ie : Nat
  a : Matrix
  ke : Nat → ℚ
  cole : Nat → Int
  lige : Nat → Int
  n : Nat

/-- What `ComputeMatrix` leaves behind: its return, the matrix, the elements
whose entry point was invoked and the scatter-add calls, both in call order. -/
structure MatrixRun where
  code : Call
  a : Matrix
  invoked : List Nat
  assembled : List AssembleCall

/-- Body of the "assembling" loops of `ComputeMatrix` for the node `i` and
the equation `j`: the assignments to `cole[ij]` (first component) and to
`lige[ij]` (second component). -/
def ComputeMatrix.setIndexes (el : Element) (i j : Nat) (cl : (Nat → Int) × (Nat → Int)) :
    (Nat → Int) × (Nat → Int) :=
  let ij := i * el.NbOfEquations + j
  let jj_col := el.UnknownPosition ij
  let jj_row := el.EquationPosition ij
  (Function.update cl.1 ij
      (if jj_col ≥ 0 then (el.GetNode i).MatrixColumnIndex jj_col.toNat else -1),
   Function.update cl.2 ij
      (if jj_row ≥ 0 then (el.GetNode i).MatrixRowIndex jj_row.toNat else -1))

/-- The "assembling" loops of `ComputeMatrix`: fill `cole` and `lige` for one
element. -/
def ComputeMatrix.indexes (el : Element) (cl : (Nat → Int) × (Nat → Int)) :
    (Nat → Int) × (Nat → Int) :=
  (List.range el.NbOfNodes).foldl (fun cl i =>
    (List.range el.NbOfEquations).foldl (fun cl j => ComputeMatrix.setIndexes el i j cl) cl) cl

/-- Loop of `ComputeMatrix` over the element indices still to visit; the
local arrays `cole`, `lige` keep their contents from one element to the next. -/
def ComputeMatrix.loop (mesh : Mesh) (env : Env) (clk : Nat) (t dt : ℚ) :
    List Nat → Matrix → (Nat → Int) × (Nat → Int) → MatrixRun
  | [], a, _ => ⟨Call.ret 0, a, [], []⟩
  | ie :: rest, a, cl =>
    if (mesh.Element ie).Material then
      match env.Element_ComputeMatrix clk ie t dt with
      | Call.interrupt => ⟨Call.interrupt, a, [ie], []⟩
      | Call.ret i =>
        if i ≠ 0 then ⟨Call.ret i, a, [ie], []⟩
        else
          let cl1 := ComputeMatrix.indexes (mesh.Element ie) cl
          let n := (mesh.Element ie).NbOfNodes * (mesh.Element ie).NbOfEquations
          let a1 := env.Matrix_AssembleElementMatrix a (env.ke clk ie t dt) cl1.1 cl1.2 n
          let r := loop mesh env clk t dt rest a1 cl1
          ⟨r.code, r.a, ie :: r.invoked,
            ⟨ie, a, env.ke clk ie t dt, cl1.1, cl1.2, n⟩ :: r.assembled⟩
    else loop mesh env clk t dt rest a cl

/-- The first loop of `ComputeMatrix`: every nonzero value is set to zero. -/
def Matrix.zeroed (a : Matrix) : Matrix :=
  { a with NonZeroValue := fun j => if j < a.NbOfNonZeroValues then 0 else a.NonZeroValue j }

/-- `ComputeMatrix(mesh,t,dt,a)`.  The local arrays `cole` and `lige` are not
initialised by the source; `cl` is what they hold on entry. -/
def ComputeMatrix (mesh : Mesh) (env : Env) (clk : Nat) (t dt : ℚ) (a : Matrix)
    (cl : (Nat → Int) × (Nat → Int)) : MatrixRun :=
  ComputeMatrix.loop mesh env clk t dt (List.range mesh.NbOfElements) a.zeroed cl

/-- Body of the "assembling" loops of `ComputeResidu` for the node `i` and the
equation `j`: `r[k] += re[ij]` under its two tests. -/
def ComputeResidu.add (el : Element) (re : Nat → ℚ) (i j : Nat) (r : Nat → ℚ) : Nat → ℚ :=
  let ij := i * el.NbOfEquations + j
  let jj := el.UnknownPosition ij
  if jj ≥ 0 then
    let k := (el.GetNode i).MatrixColumnIndex jj.toNat
    if k ≥ 0 then Function.update r k.toNat (r k.toNat + re ij) else r
  else r

/-- The "assembling" loops of `ComputeResidu` (the same text after
`Element_ComputeResidu` and after `Element_ComputeLoads`): add the block `re`
of one element into `r`. -/
def ComputeResidu.assemble (el : Element) (re : Nat → ℚ) (r : Nat → ℚ) : Nat → ℚ :=
  (List.range el.NbOfNodes).foldl (fun r i =>
    (List.range el.NbOfEquations).foldl (fun r j => ComputeResidu.add el re i j r) r) r

/-- The "Residu" loop over the element indices still to visit; `none` when an
entry point raises the interrupt.  The value returned by
`Element_ComputeResidu` is not read. -/
def ComputeResidu.residu (mesh : Mesh) (env : Env) (clk : Nat) (t dt : ℚ) :
    List Nat → (Nat → ℚ) → Option (Nat → ℚ)
  | [], r => some r
  | ie :: rest, r =>
    if (mesh.Element ie).Material then
      match env.Element_ComputeResidu clk ie t dt with
      | Call.interrupt => none
      | Call.ret _ =>
        residu mesh env clk t dt rest
          (ComputeResidu.assemble (mesh.Element ie) (env.re clk ie t dt) r)
    else residu mesh env clk t dt rest r

/-- The inner loop of "Loads": the elements whose region is that of the load
`i_cg`.  The value returned by `Element_ComputeLoads` is not read. -/
def ComputeResidu.loadElements (mesh : Mesh) (env : Env) (clk : Nat) (t dt : ℚ)
    (loads : Loads) (i_cg : Nat) : List Nat → (Nat → ℚ) → Option (Nat → ℚ)
  | [], r => some r
  | ie :: rest, r =>
    if (mesh.Element ie).RegionIndex = (loads.Load i_cg).RegionIndex then
      if (mesh.Element ie).Material then
        match env.Element_ComputeLoads clk ie t dt i_cg with
        | Call.interrupt => none
        | Call.ret _ =>
          loadElements mesh env clk t dt loads i_cg rest
            (ComputeResidu.assemble (mesh.Element ie) (env.reLoads clk ie t dt i_cg) r)
      else loadElements mesh env clk t dt loads i_cg rest r
    else loadElements mesh env clk t dt loads i_cg rest r

/-- The outer loop of "Loads" over the load indices still to visit. -/
def ComputeResidu.loads (mesh : Mesh) (env : Env) (clk : Nat) (t dt : ℚ)
    (loads : Loads) : List Nat → (Nat → ℚ) → Option (Nat → ℚ)
  | [], r => some r
  | i_cg :: rest, r =>
    match ComputeResidu.loadElements mesh env clk t dt loads i_cg
        (List.range mesh.NbOfElements) r with
    | none => none
    | some r1 => ComputeResidu.loads mesh env clk t dt loads rest r1

/-- `ComputeResidu(mesh,t,dt,r,loads)`: the contents of `r` on return, `none`
when an entry point raises the interrupt. -/
def ComputeResidu (mesh : Mesh) (env : Env) (clk : Nat) (t dt : ℚ) (r : Nat → ℚ)
    (loads : Loads) : Option (Nat → ℚ) :=
  let r0 : Nat → ℚ := fun j => if j < mesh.NbOfMatrixColumns then 0 else r j
  match ComputeResidu.residu mesh env clk t dt (List.range mesh.NbOfElements) r0 with
  | none => none
  | some r1 => ComputeResidu.loads mesh env clk t dt loads (List.range loads.NbOfLoads) r1

/-! ## The driver state -/

/-- Header of one solution of the ring: `Solution_GetTime`,
`Solution_GetTimeStep`, `Solution_GetStepIndex`. -/
structure Solution where
  Time : ℚ
  TimeStep : ℚ
  StepIndex : Int

/-- Modelled from the spec: the solution ring (`Solutions_t`, whose header is
not in the repository excerpt), "a fixed-size ring of Solution snapshots" with
a "current cursor"; `current` is the slot under the cursor and `previous` the
slot before it. -/
structure Solutions where
  NbOfSolutions : Nat
  solution : Nat → Solution
  cursor : Nat

/-- Modelled from the spec: the slot of `Solution_GetPreviousSolution(SOL_1)`,
one slot behind the cursor on the ring. -/
def Solutions.previous (sols : Solutions) : Nat :=
  (sols.cursor + sols.NbOfSolutions - 1) % sols.NbOfSolutions

/-- Modelled from the spec: `Solutions_StepForward`, "the ring cursor advances
by 1". -/
def Solutions_StepForward (sols : Solutions) : Solutions :=
  { sols with cursor := (sols.cursor + 1) % sols.NbOfSolutions }

/-- Modelled from the spec: `Solutions_StepBackward`, the cursor "retreats by 1
on step-back". -/
def Solutions_StepBackward (sols : Solutions) : Solutions :=
  { sols with cursor := sols.previous }

/-- Modelled from the spec: the iteration controller (`IterProcess_t`, whose
header is not in the repository excerpt): the limits on Newton iterations and
on repetitions, the tolerance, the two running indices and the current error. -/
structure IterProcess where
  NbOfIterations : Nat
  NbOfRepetitions : Nat
  Tolerance : ℚ
  IterationIndex : Nat
  RepetitionIndex : Nat
  CurrentError : ℚ

/-- Modelled from the spec: `IterProcess_LastIterationIsNotReached`, the Newton
index `n` is below its limit `N`. -/
def IterProcess_LastIterationIsNotReached (ip : IterProcess) : Prop :=
  ip.IterationIndex < ip.NbOfIterations

/-- Modelled from the spec: `IterProcess_LastRepetitionIsNotReached`, the
repetition index `r` is below its limit `R` (`r<R`). -/
def IterProcess_LastRepetitionIsNotReached (ip : IterProcess) : Prop :=
  ip.RepetitionIndex < ip.NbOfRepetitions

/-- Modelled from the spec: `IterProcess_ConvergenceIsMet`, "Convergence:
`err < tol`". -/
def IterProcess_ConvergenceIsMet (ip : IterProcess) : Prop :=
  ip.CurrentError < ip.Tolerance

/-- Modelled from the spec: `IterProcess_ConvergenceIsNotMet`, the negation of
`IterProcess_ConvergenceIsMet`. -/
def IterProcess_ConvergenceIsNotMet (ip : IterProcess) : Prop :=
  ¬ IterProcess_ConvergenceIsMet ip

instance (ip : IterProcess) : Decidable (IterProcess_LastIterationIsNotReached ip) := by
  unfold IterProcess_LastIterationIsNotReached; infer_instance

instance (ip : IterProcess) : Decidable (IterProcess_LastRepetitionIsNotReached ip) := by
  unfold IterProcess_LastRepetitionIsNotReached; infer_instance

instance (ip : IterProcess) : Decidable (IterProcess_ConvergenceIsMet ip) := by
  unfold IterProcess_ConvergenceIsMet; infer_instance

instance (ip : IterProcess) : Decidable (IterProcess_ConvergenceIsNotMet ip) := by
  unfold IterProcess_ConvergenceIsNotMet; infer_instance

/-- Modelled from the spec: `IterProcess_IncrementIterationIndex`. -/
def IterProcess_IncrementIterationIndex (ip : IterProcess) : IterProcess :=
  { ip with IterationIndex := ip.IterationIndex + 1 }

/-- Modelled from the spec: `IterProcess_IncrementRepetitionIndex`. -/
def IterProcess_IncrementRepetitionIndex (ip : IterProcess) : IterProcess :=
  { ip with RepetitionIndex := ip.RepetitionIndex + 1 }

/-- Modelled from the spec: the configuration of the time step controller
(`TimeStep_t`, whose header is not in the repository excerpt): `dt_ini`, the
user bounds `dt_min`, `dt_max` and the reduction factor. -/
structure TimeStep where
  InitialTimeStep : ℚ
  MinimumTimeStep : ℚ
  MaximumTimeStep : ℚ
  ReductionFactor : ℚ

structure Dates where
  NbOfDates : Nat
  Date : Nat → ℚ

/-- The data set `jdd` as far as `Algorithm` reads it.
`ContextIsInitialization` is `DataFile_ContextIsInitialization(datafile)`. -/
structure DataSet where
  mesh : Mesh
  loads : Loads
  dates : Dates
  timestep : TimeStep
  iterprocess : IterProcess
  ContextIsInitialization : Bool

/-- Calls recorded in the trace.  `Accepted` is a ghost event (no call of the
source): it marks a time step that leaves 3.1.6 with the convergence met. -/
inductive Event where
  | StepForward
  | StepBackward
  | StoreCurrentSolution (t : ℚ)
  | BackupSolutionAtPoint (t t_0 : ℚ)
  | BackupSolutionAtTime (t : ℚ) (idate : Nat)
  | InitialState (t : ℚ)
  | ExplicitTerms (t : ℚ)
  | ImplicitTerms (t dt : ℚ)
  | Repetition (irecom : Nat)
  | Step (step : Int) (t dt : ℚ)
  | Undefined (phase : Nat) (iter : Nat)
  | Accepted (t : ℚ)
  deriving DecidableEq, Repr

/-- The solver as far as the module reads it: the matrix and the right hand
side. -/
structure Solver where
  a : Matrix
  rhs : Nat → ℚ

structure State where
  sols : Solutions
  iterprocess : IterProcess
  solver : Solver
  clock : Nat
  trace : List Event

namespace State

def T_1 (s : State) : ℚ := (s.sols.solution s.sols.cursor).Time
def DT_1 (s : State) : ℚ := (s.sols.solution s.sols.cursor).TimeStep
def STEP_1 (s : State) : Int := (s.sols.solution s.sols.cursor).StepIndex
def T_n (s : State) : ℚ := (s.sols.solution s.sols.previous).Time
def DT_n (s : State) : ℚ := (s.sols.solution s.sols.previous).TimeStep
def STEP_n (s : State) : Int := (s.sols.solution s.sols.previous).StepIndex

/-- Assignment to the header of the current solution `SOL_1`. -/
def setSOL_1 (s : State) (v : Solution) : State :=
  { s with sols := { s.sols with solution := Function.update s.sols.solution s.sols.cursor v } }

def setT_1 (s : State) (v : ℚ) : State :=
  s.setSOL_1 { s.sols.solution s.sols.cursor with Time := v }

def setDT_1 (s : State) (v : ℚ) : State :=
  s.setSOL_1 { s.sols.solution s.sols.cursor with TimeStep := v }

def setSTEP_1 (s : State) (v : Int) : State :=
  s.setSOL_1 { s.sols.solution s.sols.cursor with StepIndex := v }

def setSols (s : State) (sols : Solutions) : State := { s with sols := sols }

def setIterProcess (s : State) (ip : IterProcess) : State := { s with iterprocess := ip }

def setSolver (s : State) (solver : Solver) : State := { s with solver := solver }

def log (s : State) (e : Event) : State := { s with trace := e :: s.trace }

def tick (s : State) : State := { s with clock := s.clock + 1 }

end State


/-! ## The driver `Algorithm` -/

/-- Where control goes when a block of the loop on iterations is left: on to
the next statement, out of the loop (`break`), or to one of the two labels. -/
inductive Exit where
  | next (s : State)
  | brk (s : State)
  | recommences (s : State)
  | backupandreturn (s : State)

/-- How one time step ends: at 3.1.7 with the repetitions over, or at the
label `backupandreturn`. -/
inductive Attempt where
  | done (s : State)
  | backupandreturn (s : State)

/-- Where control goes when a block of the loops on time steps and on dates is
left: on to the next statement, out of the loop (`break`), or out of
`Algorithm` with the value returned. -/
inductive Flow where
  | next (s : State)
  | brk (s : State)
  | returned (code : Int) (s : State)

/-- Sequencing of two blocks: the second one runs when the first falls
through. -/
def Exit.andThen (x : Exit) (f : State → Exit) : Exit :=
  match x with
  | Exit.next s => f s
  | other => other

/-- 3.1.5.1 The implicit terms. -/
def Newton.implicitTerms (jdd : DataSet) (env : Env) (s : State) : Exit :=
  let i := (ComputeImplicitTerms jdd.mesh env s.clock s.T_1 s.DT_1).1
  let s := (s.log (Event.ImplicitTerms s.T_1 s.DT_1)).tick
  match i with
  | Call.interrupt => Exit.backupandreturn s
  | Call.ret i =>
    if i ≠ 0 then
      if IterProcess_LastRepetitionIsNotReached s.iterprocess then
        let s := s.setIterProcess (IterProcess_IncrementRepetitionIndex s.iterprocess)
        let s := s.setDT_1 (s.DT_1 * jdd.timestep.ReductionFactor)
        let t_ini := jdd.timestep.InitialTimeStep
        let s := if s.DT_1 > t_ini then s.setDT_1 t_ini else s
        Exit.recommences s
      else
        let iter := s.iterprocess.IterationIndex
        Exit.backupandreturn (s.log (Event.Undefined 2 iter))
    else Exit.next s

/-- 3.1.5.2 The residu. -/
def Newton.residu (jdd : DataSet) (env : Env) (s : State) : Exit :=
  match ComputeResidu jdd.mesh env s.clock s.T_1 s.DT_1 s.solver.rhs jdd.loads with
  | none => Exit.backupandreturn s.tick
  | some r => Exit.next (s.tick.setSolver { s.solver with rhs := r })

/-- 3.1.5.3 The matrix. -/
def Newton.matrix (jdd : DataSet) (env : Env) (s : State) : Exit :=
  let m := ComputeMatrix jdd.mesh env s.clock s.T_1 s.DT_1 s.solver.a (env.stack s.clock)
  let s := s.tick.setSolver { s.solver with a := m.a }
  match m.code with
  | Call.interrupt => Exit.backupandreturn s
  | Call.ret i =>
    if i ≠ 0 then
      if IterProcess_LastRepetitionIsNotReached s.iterprocess then
        let s := s.setIterProcess (IterProcess_IncrementRepetitionIndex s.iterprocess)
        let s := s.setDT_1 (s.DT_1 * jdd.timestep.ReductionFactor)
        let t_ini := jdd.timestep.InitialTimeStep
        let s := if s.DT_1 > t_ini then s.setDT_1 t_ini else s
        Exit.recommences s
      else
        let iter := s.iterprocess.IterationIndex
        Exit.backupandreturn (s.log (Event.Undefined 3 iter))
    else Exit.next s

/-- 3.1.5.4 Resolution.  The solver reads the matrix and the first
`NbOfMatrixColumns` entries of the right hand side. -/
def Newton.resolution (jdd : DataSet) (env : Env) (s : State) : Exit :=
  let i := env.Solver_Solve s.clock s.solver.a
    ((List.range jdd.mesh.NbOfMatrixColumns).map s.solver.rhs)
  let s := s.tick
  if i ≠ 0 then
    if IterProcess_LastRepetitionIsNotReached s.iterprocess then
      let s := s.setIterProcess (IterProcess_IncrementRepetitionIndex s.iterprocess)
      let s := s.setDT_1 (s.DT_1 * jdd.timestep.ReductionFactor)
      let t_ini := jdd.timestep.InitialTimeStep
      let s := if s.DT_1 > t_ini then s.setDT_1 t_ini else s
      Exit.recommences s
    else
      let iter := s.iterprocess.IterationIndex
      Exit.backupandreturn (s.log (Event.Undefined 4 iter))
  else Exit.next s

/-- 3.1.5.5 to 3.1.5.7: update of the unknowns, the error, and the exit when
the convergence is met. -/
def Newton.error (env : Env) (s : State) : Exit :=
  let s := s.tick.setIterProcess
    { s.iterprocess with CurrentError := env.IterProcess_SetCurrentError s.clock }
  if IterProcess_ConvergenceIsMet s.iterprocess then Exit.brk s else Exit.next s

/-- Body of the loop on iterations (3.1.5). -/
def NewtonIteration (jdd : DataSet) (env : Env) (s : State) : Exit :=
  let s := s.setIterProcess (IterProcess_IncrementIterationIndex s.iterprocess)
  ((((Newton.implicitTerms jdd env s).andThen (Newton.residu jdd env)).andThen
    (Newton.matrix jdd env)).andThen (Newton.resolution jdd env)).andThen (Newton.error env)

/-- The loop on iterations `while(IterProcess_LastIterationIsNotReached(...))`.
The first argument bounds the number of passes; `none` when it is used up
while the loop test still holds. -/
def NewtonLoop (jdd : DataSet) (env : Env) : Nat → State → Option Exit
  | 0, s =>
    if IterProcess_LastIterationIsNotReached s.iterprocess then none
    else some (Exit.next s)
  | fuel + 1, s =>
    if IterProcess_LastIterationIsNotReached s.iterprocess then
      match NewtonIteration jdd env s with
      | Exit.next s1 => NewtonLoop jdd env fuel s1
      | other => some other
    else some (Exit.next s)

/-- 3.1.6 Back to 3.1.3 with a smaller time step: the state with which the
label `recommences` is reached again, `none` when the step is not repeated. -/
def smallerTimeStep (jdd : DataSet) (s : State) : Option State :=
  if IterProcess_ConvergenceIsNotMet s.iterprocess ∧
      IterProcess_LastRepetitionIsNotReached s.iterprocess then
    let s := s.setIterProcess (IterProcess_IncrementRepetitionIndex s.iterprocess)
    some (s.setDT_1 (s.DT_1 * jdd.timestep.ReductionFactor))
  else none

/-- From the label `recommences` to the loop on iterations (3.1.3b, 3.1.4 and
the reset of the iteration index): the messages, the time `T_1 = T_n + DT_1`
at which the attempt computes. -/
def beginAttempt (s : State) : State :=
  let irecom := s.iterprocess.RepetitionIndex
  let s := if irecom > 0 then s.log (Event.Repetition irecom) else s
  let s := s.setT_1 (s.T_n + s.DT_1)
  let s := s.log (Event.Step s.STEP_1 s.T_1 s.DT_1)
  s.setIterProcess { s.iterprocess with IterationIndex := 0 }

/-- One pass from the label `recommences` to the end of 3.1.6: the exit is
`recommences` when the step is repeated, `backupandreturn` when it is given up,
`next` when control goes on to 3.1.7. -/
def attempt (jdd : DataSet) (env : Env) (s : State) : Option Exit :=
  let s := beginAttempt s
  match NewtonLoop jdd env s.iterprocess.NbOfIterations s with
  | none => none
  | some (Exit.recommences s1) => some (Exit.recommences s1)
  | some (Exit.backupandreturn s1) => some (Exit.backupandreturn s1)
  | some (Exit.next s1) | some (Exit.brk s1) =>
    match smallerTimeStep jdd s1 with
    | some s2 => some (Exit.recommences s2)
    | none => some (Exit.next s1)

/-- From the label `recommences` to the end of 3.1.6, with the jumps back to
the label.  The first argument bounds the number of jumps; `none` when it is
used up. -/
def Recommences (jdd : DataSet) (env : Env) : Nat → State → Option Attempt
  | 0, s =>
    match attempt jdd env s with
    | none => none
    | some (Exit.recommences _) => none
    | some (Exit.backupandreturn s1) => some (Attempt.backupandreturn s1)
    | some (Exit.next s1) | some (Exit.brk s1) => some (Attempt.done s1)
  | fuel + 1, s =>
    match attempt jdd env s with
    | none => none
    | some (Exit.recommences s1) => Recommences jdd env fuel s1
    | some (Exit.backupandreturn s1) => some (Attempt.backupandreturn s1)
    | some (Exit.next s1) | some (Exit.brk s1) => some (Attempt.done s1)

/-- The block under the label `backupandreturn`, up to its `return(-1)`. -/
def backupandreturn (idate : Nat) (s : State) : State :=
  let s := s.setSols (Solutions_StepBackward s.sols)
  let s := s.log Event.StepBackward
  let s := s.log (Event.BackupSolutionAtTime s.T_1 (idate + 1))
  s.log (Event.StoreCurrentSolution s.T_1)

/-- 3.1.3 Compute and set the time step, and the reset of the repetition
index before the label `recommences`. -/
def setTimeStep (jdd : DataSet) (env : Env) (idate : Nat) (s : State) : State :=
  let dt := env.TimeStep_ComputeTimeStep s.clock s.T_n s.DT_n
    (jdd.dates.Date idate) (jdd.dates.Date (idate + 1))
  let s := s.tick
  let s := s.setDT_1 dt
  let s := s.setSTEP_1 (s.STEP_n + 1)
  s.setIterProcess { s.iterprocess with RepetitionIndex := 0 }

/-- 3.1.7 Backup for specific points and 3.1.8: the loop on time steps is left
when the convergence was not met.  The ghost event `Accepted` is recorded
first when the convergence is met. -/
def endStep (t_0 : ℚ) (s : State) : Flow :=
  let s := if IterProcess_ConvergenceIsMet s.iterprocess
    then s.log (Event.Accepted s.T_1) else s
  let s := s.log (Event.BackupSolutionAtPoint s.T_1 t_0)
  if IterProcess_ConvergenceIsNotMet s.iterprocess then Flow.brk s
  else Flow.next s

/-- Body of the loop on time steps (3.1.1 to 3.1.8).  The environment saved
at 3.1.1b by `Exception_SaveEnvironment` is where an interrupt raised by an
entry point lands: on the label `backupandreturn`. -/
def TimeStepBody (jdd : DataSet) (env : Env) (t_0 : ℚ) (idate : Nat) (s : State) :
    Option Flow :=
  let s := (s.setSols (Solutions_StepForward s.sols)).log Event.StepForward
  let i := (ComputeExplicitTerms jdd.mesh env s.clock s.T_n).1
  let s := (s.log (Event.ExplicitTerms s.T_n)).tick
  match i with
  | Call.interrupt => some (Flow.returned (-1) (backupandreturn idate s))
  | Call.ret i =>
    if i ≠ 0 then
      let s := s.log (Event.Undefined 1 0)
      if s.T_n > t_0 then some (Flow.returned (-1) (backupandreturn idate s))
      else some (Flow.returned (-1) s)
    else
      let s := setTimeStep jdd env idate s
      match Recommences jdd env s.iterprocess.NbOfRepetitions s with
      | none => none
      | some (Attempt.backupandreturn s1) =>
        some (Flow.returned (-1) (backupandreturn idate s1))
      | some (Attempt.done s1) => some (endStep t_0 s1)

/-- The loop on time steps `do ... while(T_1 < date[idate + 1])`.  The first
argument bounds the number of time steps; `none` when it is used up. -/
def TimeStepLoop (jdd : DataSet) (env : Env) (t_0 : ℚ) (idate : Nat) :
    Nat → State → Option Flow
  | 0, _ => none
  | fuel + 1, s =>
    match TimeStepBody jdd env t_0 idate s with
    | none => none
    | some (Flow.next s1) =>
      if s1.T_1 < jdd.dates.Date (idate + 1) then TimeStepLoop jdd env t_0 idate fuel s1
      else some (Flow.next s1)
    | some (Flow.brk s1) => some (Flow.next s1)
    | some (Flow.returned c s1) => some (Flow.returned c s1)

/-- The value of `nbofdates - 1` in `unsigned int` arithmetic. -/
def lastDateIndex (dates : Dates) : Nat :=
  (dates.NbOfDates + 4294967296 - 1) % 4294967296

/-- The loop on dates `for(; idate < nbofdates - 1 ; idate++)`.  `fuel` bounds
the time steps of each date, the second argument the number of dates still to
visit. -/
def DateLoop (jdd : DataSet) (env : Env) (t_0 : ℚ) (fuel : Nat) :
    Nat → Nat → State → Option Flow
  | 0, idate, s =>
    if idate < lastDateIndex jdd.dates then none
    else some (Flow.next s)
  | n + 1, idate, s =>
    if idate < lastDateIndex jdd.dates then
      match TimeStepLoop jdd env t_0 idate fuel s with
      | none => none
      | some (Flow.next s1) | some (Flow.brk s1) =>
        let s2 := s1.log (Event.BackupSolutionAtTime s1.T_1 (idate + 1))
        if IterProcess_ConvergenceIsNotMet s2.iterprocess then some (Flow.brk s2)
        else DateLoop jdd env t_0 fuel n (idate + 1) s2
      | some (Flow.returned c s1) => some (Flow.returned c s1)
    else some (Flow.next s)

/-- The loop `while(idate + 1 < nbofdates && T_1 >= date[idate + 1]) idate++`
entered on continuation. -/
def resumeIndex (dates : Dates) (T : ℚ) : Nat → Nat → Nat
  | 0, idate => idate
  | fuel + 1, idate =>
    if idate + 1 < dates.NbOfDates ∧ T ≥ dates.Date (idate + 1)
    then resumeIndex dates T fuel (idate + 1) else idate

/-- The value of `idate` when the loop on dates is entered. -/
def startIndex (jdd : DataSet) (env : Env) : Nat :=
  match env.Mesh_LoadCurrentSolution with
  | some t => resumeIndex jdd.dates t jdd.dates.NbOfDates 0
  | none => 0

/-- 1. Initialization and 2. Backup: the state when the loop on dates is
entered. -/
def initialization (jdd : DataSet) (env : Env) (sols : Solutions) (solver : Solver) : State :=
  let s : State := ⟨sols, jdd.iterprocess, solver, 0, []⟩
  let s := match env.Mesh_LoadCurrentSolution with
    | some t => s.setT_1 t
    | none => s
  let s := if jdd.ContextIsInitialization then s.log (Event.InitialState s.T_1) else s
  let t_0 := s.T_1
  let s := s.log (Event.BackupSolutionAtPoint s.T_1 t_0)
  s.log (Event.BackupSolutionAtTime s.T_1 (startIndex jdd env))

/-- 4. Store for future resume. -/
def store (s : State) : Int × State :=
  if IterProcess_ConvergenceIsMet s.iterprocess then
    (0, s.log (Event.StoreCurrentSolution s.T_1))
  else
    let s := s.setSols (Solutions_StepBackward s.sols)
    let s := s.log Event.StepBackward
    (-1, s.log (Event.StoreCurrentSolution s.T_1))

/-- `Algorithm(jdd,sols,solver,outputfiles)`: the value returned and the final
state, whose trace holds the calls made on the output files and on the
persistence.  `fuel` bounds the number of time steps of each date; the result
is `none` when it is used up. -/
def Algorithm (jdd : DataSet) (env : Env) (fuel : Nat) (sols : Solutions) (solver : Solver) :
    Option (Int × State) :=
  let s := initialization jdd env sols solver
  let t_0 := s.T_1
  let idate := startIndex jdd env
  match DateLoop jdd env t_0 fuel (lastDateIndex jdd.dates - idate) idate s with
  | none => none
  | some (Flow.returned c s1) => some (c, s1)
  | some (Flow.next s1) | some (Flow.brk s1) => some (store s1)



/-! ## Definitions used in the statements -/


/-- The common shape of the three mesh-level loops: visit the elements that
have a material until an entry point does not return 0. -/
def visit (mat : Nat → Bool) (f : Nat → Call) : List Nat → Call × List Nat
  | [] => (Call.ret 0, [])
  | ie :: rest =>
    if mat ie then
      match f ie with
      | Call.interrupt => (Call.interrupt, [ie])
      | Call.ret i =>
        if i ≠ 0 then (Call.ret i, [ie])
        else ((visit mat f rest).1, ie :: (visit mat f rest).2)
    else visit mat f rest

/-- The contract of a mesh-level loop over `n` elements, `mat` telling which
elements have a material and `f` giving the outcome of the entry point on each
element; `r` is the outcome of the loop with the list of the elements whose
entry point it invoked.  The loop returns 0 exactly when every element with a
material returns 0, and then it has invoked all of them; otherwise its outcome
is that of the first element with a material whose outcome is not "returns
0", and the elements invoked are those with a material up to that one; an
element without a material is never invoked. -/
def FirstFailureContract (n : Nat) (mat : Nat → Bool) (f : Nat → Call)
    (r : Call × List Nat) : Prop :=
  (r.1 = Call.ret 0 ↔ ∀ ie, ie < n → mat ie = true → f ie = Call.ret 0) ∧
  (r.1 = Call.ret 0 → r.2 = (List.range n).filter mat) ∧
  (∀ ie0, ie0 < n → mat ie0 = true → f ie0 ≠ Call.ret 0 →
      (∀ ie, ie < ie0 → mat ie = true → f ie = Call.ret 0) →
      r.1 = f ie0 ∧ r.2 = (List.range (ie0 + 1)).filter mat) ∧
  (∀ ie ∈ r.2, mat ie = true)


/-- The global column of the local DOF `(i,j)` of an element, in the words of
the specification: the column index of node `i` at the unknown slot of the DOF
when that slot is not negative, the sentinel `-1` otherwise. -/
def globalColumn (el : Element) (i j : Nat) : Int :=
  if 0 ≤ el.UnknownPosition (i * el.NbOfEquations + j)
  then (el.GetNode i).MatrixColumnIndex (el.UnknownPosition (i * el.NbOfEquations + j)).toNat
  else -1

/-- The global row of the local DOF `(i,j)` of an element: the row index of
node `i` at the equation slot of the DOF when that slot is not negative, the
sentinel `-1` otherwise. -/
def globalRow (el : Element) (i j : Nat) : Int :=
  if 0 ≤ el.EquationPosition (i * el.NbOfEquations + j)
  then (el.GetNode i).MatrixRowIndex (el.EquationPosition (i * el.NbOfEquations + j)).toNat
  else -1

/-- What the block `re` of the element `el` brings to the global column `k`:
the sum of `re[i*neq+j]` over the local DOFs `(i,j)` whose unknown slot is
not negative and whose node column index at that slot is `k`. -/
def dofSum (el : Element) (re : Nat → ℚ) (k : Nat) : ℚ :=
  ∑ i ∈ Finset.range el.NbOfNodes, ∑ j ∈ Finset.range el.NbOfEquations,
    if 0 ≤ el.UnknownPosition (i * el.NbOfEquations + j) ∧
        (el.GetNode i).MatrixColumnIndex (el.UnknownPosition (i * el.NbOfEquations + j)).toNat
          = (k : Int)
    then re (i * el.NbOfEquations + j) else 0

/-- The sum of the element residuals brought to the global column `k` by the
elements that have a material. -/
def residuSum (mesh : Mesh) (env : Env) (clk : Nat) (t dt : ℚ) (k : Nat) : ℚ :=
  ∑ ie ∈ Finset.range mesh.NbOfElements,
    if (mesh.Element ie).Material then dofSum (mesh.Element ie) (env.re clk ie t dt) k else 0

/-- The sum of the load blocks brought to the global column `k` by the pairs
(load, element with a material) whose region indices are equal. -/
def loadsSum (mesh : Mesh) (env : Env) (clk : Nat) (t dt : ℚ) (loads : Loads) (k : Nat) : ℚ :=
  ∑ i_cg ∈ Finset.range loads.NbOfLoads, ∑ ie ∈ Finset.range mesh.NbOfElements,
    if (mesh.Element ie).RegionIndex = (loads.Load i_cg).RegionIndex ∧
        (mesh.Element ie).Material = true
    then dofSum (mesh.Element ie) (env.reLoads clk ie t dt i_cg) k else 0

/-- The state in which a block of the loop on iterations is left. -/
def Exit.state : Exit → State
  | Exit.next s => s
  | Exit.brk s => s
  | Exit.recommences s => s
  | Exit.backupandreturn s => s

/-- The state with which the label `recommences` is reached, when the block
is left for that label: the state of the new attempt. -/
def Exit.retry? : Exit → Option State
  | Exit.recommences s => some s
  | _ => none

/-- The collaborators `env` with the values returned by `compute_residu` and
`compute_loads` replaced by `c` and `cl` (an entry point that raises the
interrupt still raises it); the blocks `re`, `reLoads` are unchanged. -/
def Env.withResiduCodes (env : Env) (c : Nat → Nat → ℚ → ℚ → Int)
    (cl : Nat → Nat → ℚ → ℚ → Nat → Int) : Env :=
  { env with
    Element_ComputeResidu := fun clk ie t dt =>
      match env.Element_ComputeResidu clk ie t dt with
      | Call.interrupt => Call.interrupt
      | Call.ret _ => Call.ret (c clk ie t dt)
    Element_ComputeLoads := fun clk ie t dt i_cg =>
      match env.Element_ComputeLoads clk ie t dt i_cg with
      | Call.interrupt => Call.interrupt
      | Call.ret _ => Call.ret (cl clk ie t dt i_cg) }

/-! ### Reading the trace -/

def Event.isStepForward : Event → Bool
  | Event.StepForward => true
  | _ => false

def Event.isStepBackward : Event → Bool
  | Event.StepBackward => true
  | _ => false

def Event.isStore : Event → Bool
  | Event.StoreCurrentSolution _ => true
  | _ => false

def Event.isAccepted : Event → Bool
  | Event.Accepted _ => true
  | _ => false

def Event.isStep : Event → Bool
  | Event.Step _ _ _ => true
  | _ => false

def Event.isImplicitTerms : Event → Bool
  | Event.ImplicitTerms _ _ => true
  | _ => false

def Event.isUndefined : Event → Bool
  | Event.Undefined _ _ => true
  | _ => false

/-- The events of an attempt that goes on: the message of the attempt, the
message of the repetition and the call of `ComputeImplicitTerms`. -/
def Event.quiet : Event → Bool
  | Event.ImplicitTerms _ _ => true
  | Event.Repetition _ => true
  | Event.Step _ _ _ => true
  | _ => false

/-- The events that are neither a move of the ring, nor a call on the
persistence or on the output files, nor the mark of an accepted step. -/
def Event.minor : Event → Bool
  | Event.InitialState _ => true
  | Event.ExplicitTerms _ => true
  | Event.ImplicitTerms _ _ => true
  | Event.Repetition _ => true
  | Event.Step _ _ _ => true
  | Event.Undefined _ _ => true
  | _ => false

/-- Number of calls of `Solutions_StepForward` in a trace. -/
def nbStepForward (tr : List Event) : Nat := tr.countP Event.isStepForward

/-- Number of calls of `Solutions_StepBackward` in a trace. -/
def nbStepBackward (tr : List Event) : Nat := tr.countP Event.isStepBackward

/-- Number of calls of `Mesh_StoreCurrentSolution` in a trace. -/
def nbStore (tr : List Event) : Nat := tr.countP Event.isStore

/-- Number of accepted time steps in a trace. -/
def nbAccepted (tr : List Event) : Nat := tr.countP Event.isAccepted

/-- Number of attempts (messages "Step ...") in a trace. -/
def nbStep (tr : List Event) : Nat := tr.countP Event.isStep

/-- Number of Newton iterations (calls of `ComputeImplicitTerms`) in a trace. -/
def nbImplicitTerms (tr : List Event) : Nat := tr.countP Event.isImplicitTerms

/-- Number of diagnostics "Algorithm(k): undefined ..." in a trace. -/
def nbUndefined (tr : List Event) : Nat := tr.countP Event.isUndefined

/-- The time of the last accepted solution according to a trace (most recent
event first): the time of the most recent accepted step, the starting time
`t_0` when no step has been accepted. -/
def lastAccepted (t_0 : ℚ) : List Event → ℚ
  | [] => t_0
  | Event.Accepted t :: _ => t
  | _ :: tr => lastAccepted t_0 tr

/-- `Reach m s s1`: the state `s1` is obtained from `s` by recording the events
`m` (most recent first) and by assignments to the clock, to the solver, to
the header of the current solution and to the iteration controller that leave
its limits and its tolerance as they are. -/
inductive Reach : List Event → State → State → Prop where
  | refl (s : State) : Reach [] s s
  | log {m : List Event} {s s1 : State} (e : Event) :
      Reach m s s1 → Reach (e :: m) s (s1.log e)
  | tick {m : List Event} {s s1 : State} : Reach m s s1 → Reach m s s1.tick
  | setSolver {m : List Event} {s s1 : State} (sv : Solver) :
      Reach m s s1 → Reach m s (s1.setSolver sv)
  | setSOL_1 {m : List Event} {s s1 : State} (v : Solution) :
      Reach m s s1 → Reach m s (s1.setSOL_1 v)
  | setIterProcess {m : List Event} {s s1 : State} (ip : IterProcess) :
      Reach m s s1 → ip.NbOfIterations = s1.iterprocess.NbOfIterations →
      ip.NbOfRepetitions = s1.iterprocess.NbOfRepetitions →
      ip.Tolerance = s1.iterprocess.Tolerance → Reach m s (s1.setIterProcess ip)

/-- The block is left for the label `backupandreturn`. -/
def Exit.isAbort : Exit → Bool
  | Exit.backupandreturn _ => true
  | _ => false

/-- The block is left for the label `recommences`. -/
def Exit.isRetry : Exit → Bool
  | Exit.recommences _ => true
  | _ => false

/-- What a block of the loop on iterations does to the state `s` when it is
left by `x`: it records events `m`, at most `k` of them calls of
`ComputeImplicitTerms` and none the message of an attempt, only a diagnostic
when it is left for `backupandreturn`; the iteration index is kept; the
repetition index is incremented, from below its limit, exactly when the block
is left for `recommences`. -/
def PhaseSpec (k : Nat) (s : State) (x : Exit) : Prop :=
  ∃ m, Reach m s x.state ∧ (∀ e ∈ m, e.minor = true) ∧
    (x.isAbort = false → ∀ e ∈ m, e.quiet = true) ∧
    nbStep m = 0 ∧ nbImplicitTerms m ≤ k ∧
    x.state.iterprocess.IterationIndex = s.iterprocess.IterationIndex ∧
    (x.isRetry = true →
      x.state.iterprocess.RepetitionIndex = s.iterprocess.RepetitionIndex + 1 ∧
      s.iterprocess.RepetitionIndex < s.iterprocess.NbOfRepetitions) ∧
    (x.isRetry = false →
      x.state.iterprocess.RepetitionIndex = s.iterprocess.RepetitionIndex)

/-- What a run of blocks does to the state `s` when it is left by `x`: it
records events `m`, `n` of them messages of an attempt and at most `k` calls of
`ComputeImplicitTerms`, only a diagnostic when it is left for
`backupandreturn`; the repetition index is incremented, from below its limit,
exactly when the run is left for `recommences`. -/
def RunSpec (n k : Nat) (s : State) (x : Exit) : Prop :=
  ∃ m, Reach m s x.state ∧ (∀ e ∈ m, e.minor = true) ∧
    (x.isAbort = false → ∀ e ∈ m, e.quiet = true) ∧
    nbStep m = n ∧ nbImplicitTerms m ≤ k ∧
    (x.isRetry = true →
      x.state.iterprocess.RepetitionIndex = s.iterprocess.RepetitionIndex + 1 ∧
      s.iterprocess.RepetitionIndex < s.iterprocess.NbOfRepetitions) ∧
    (x.isRetry = false →
      x.state.iterprocess.RepetitionIndex = s.iterprocess.RepetitionIndex)

/-- The state in which a time step ends. -/
def Attempt.state : Attempt → State
  | Attempt.done s => s
  | Attempt.backupandreturn s => s

def Attempt.isAbort : Attempt → Bool
  | Attempt.backupandreturn _ => true
  | _ => false

/-- What the attempts of one time step do to the state `s`: they record events
`m`, one message per attempt and at most `NbOfIterations` calls of
`ComputeImplicitTerms` per attempt, only a diagnostic when the step is given
up; the repetition index grows by one per repeated attempt and stays within
its limit; a step that ends at 3.1.7 is not to be repeated. -/
def StepSpec (jdd : DataSet) (s : State) (a : Attempt) : Prop :=
  ∃ m, Reach m s a.state ∧ (∀ e ∈ m, e.minor = true) ∧
    (a.isAbort = false → ∀ e ∈ m, e.quiet = true) ∧
    nbStep m = a.state.iterprocess.RepetitionIndex - s.iterprocess.RepetitionIndex + 1 ∧
    s.iterprocess.RepetitionIndex ≤ a.state.iterprocess.RepetitionIndex ∧
    (s.iterprocess.RepetitionIndex ≤ s.iterprocess.NbOfRepetitions →
      a.state.iterprocess.RepetitionIndex ≤ s.iterprocess.NbOfRepetitions) ∧
    nbImplicitTerms m ≤ nbStep m * s.iterprocess.NbOfIterations ∧
    (a.isAbort = false → smallerTimeStep jdd a.state = none)

/-- The invariant of the loops on dates and on time steps, at the head of a
time step: the ring has at least two slots, nothing has been persisted, the
ring has never stepped back, it has stepped forward once per accepted step and
its cursor is that many slots after `c0`, the time of the current solution is
the time of the last accepted solution, and no diagnostic was emitted. -/
structure LoopInv (c0 : Nat) (t_0 : ℚ) (s : State) : Prop where
  ring : 2 ≤ s.sols.NbOfSolutions
  cur_lt : s.sols.cursor < s.sols.NbOfSolutions
  noStore : nbStore s.trace = 0
  noBack : nbStepBackward s.trace = 0
  count : nbStepForward s.trace = nbAccepted s.trace
  cursor : s.sols.cursor = (c0 + nbAccepted s.trace) % s.sols.NbOfSolutions
  last : s.T_1 = lastAccepted t_0 s.trace
  noUndef : nbUndefined s.trace = 0

/-- The state after a time step that ended without convergence: the ring is
one slot ahead of the accepted steps and the previous solution is the last
accepted one. -/
structure Pending (c0 : Nat) (t_0 : ℚ) (s : State) : Prop where
  ring : 2 ≤ s.sols.NbOfSolutions
  cur_lt : s.sols.cursor < s.sols.NbOfSolutions
  noStore : nbStore s.trace = 0
  noBack : nbStepBackward s.trace = 0
  count : nbStepForward s.trace = nbAccepted s.trace + 1
  cursor : s.sols.cursor = (c0 + nbAccepted s.trace + 1) % s.sols.NbOfSolutions
  last : s.T_n = lastAccepted t_0 s.trace
  noUndef : nbUndefined s.trace = 0
  notMet : IterProcess_ConvergenceIsNotMet s.iterprocess

/-- The date intervals `k` with `lo ≤ k < hi` have been traversed according to
the trace: each ended with an accepted step at a time `t ≥ date[k+1]`,
followed by the point output and by the full-field output of date `k+1` at
that time. -/
def DatesDone (jdd : DataSet) (t_0 : ℚ) (lo hi : Nat) (tr : List Event) : Prop :=
  ∀ k, lo ≤ k → k < hi → ∃ t tr1 tr2,
    tr = tr1 ++ Event.BackupSolutionAtTime t (k + 1) :: Event.BackupSolutionAtPoint t t_0 ::
      Event.Accepted t :: tr2 ∧ jdd.dates.Date (k + 1) ≤ t

/-- `Algorithm` returns 0: the convergence is met, the last call is the one
persisting the current solution at its time, and before it the trace is that
of a run without failure. -/
def ReturnsZero (c0 : Nat) (t_0 : ℚ) (s : State) : Prop :=
  IterProcess_ConvergenceIsMet s.iterprocess ∧
  ∃ tr, s.trace = Event.StoreCurrentSolution s.T_1 :: tr ∧ nbStore tr = 0 ∧
    nbStepBackward tr = 0 ∧ nbStepForward tr = nbAccepted tr ∧
    s.sols.cursor = (c0 + nbAccepted tr) % s.sols.NbOfSolutions ∧
    s.T_1 = lastAccepted t_0 tr ∧ nbUndefined tr = 0

/-- `Algorithm` returns -1 after a step back: the ring steps back once, from
one slot ahead of the accepted steps, then (after the full-field output when
the label `backupandreturn` was taken) the solution it points at is persisted
at its time, which is the time of the last accepted solution. -/
def ReturnsBackup (c0 : Nat) (t_0 : ℚ) (s : State) : Prop :=
  ∃ pre tr, s.trace = Event.StoreCurrentSolution s.T_1 :: pre ++ Event.StepBackward :: tr ∧
    (pre = [] ∨ ∃ k, pre = [Event.BackupSolutionAtTime s.T_1 k]) ∧
    nbStore tr = 0 ∧ nbStepBackward tr = 0 ∧ nbStepForward tr = nbAccepted tr + 1 ∧
    s.sols.cursor = (c0 + nbAccepted tr) % s.sols.NbOfSolutions ∧
    s.T_1 = lastAccepted t_0 tr

/-- `Algorithm` returns -1 at "Algorithm(1): undefined explicit terms" without
backup: the explicit terms failed at a time `tn` that is not after `t_0`;
nothing is persisted and the ring stays one slot ahead of the accepted steps. -/
def ReturnsExplicit (c0 : Nat) (t_0 : ℚ) (s : State) : Prop :=
  ∃ tn tr, s.trace = Event.Undefined 1 0 :: Event.ExplicitTerms tn :: Event.StepForward :: tr ∧
    ¬ tn > t_0 ∧ nbStore tr = 0 ∧ nbStepBackward tr = 0 ∧
    nbStepForward tr = nbAccepted tr ∧
    s.sols.cursor = (c0 + nbAccepted tr + 1) % s.sols.NbOfSolutions ∧ nbUndefined tr = 0

/-- What the body of the loop on time steps establishes from a state `s`. -/
def BodySpec (c0 : Nat) (t_0 : ℚ) (s : State) : Flow → Prop
  | Flow.next s1 => LoopInv c0 t_0 s1 ∧ IterProcess_ConvergenceIsMet s1.iterprocess ∧
      ∃ m, s1.trace = Event.BackupSolutionAtPoint s1.T_1 t_0 :: Event.Accepted s1.T_1 ::
        m ++ s.trace
  | Flow.brk s1 => Pending c0 t_0 s1 ∧ ∃ m, s1.trace = m ++ s.trace
  | Flow.returned c s1 => c = -1 ∧ (ReturnsBackup c0 t_0 s1 ∨ ReturnsExplicit c0 t_0 s1)

/-- The state `x` is inside the time step begun from `s`: the ring has stepped
forward once, the solutions other than the current one are those of `s`, and
the events `m` recorded since the step forward are minor ones. -/
def InStep (s x : State) (m : List Event) : Prop :=
  x.sols.NbOfSolutions = s.sols.NbOfSolutions ∧
  x.sols.cursor = (s.sols.cursor + 1) % s.sols.NbOfSolutions ∧
  (∀ i, i ≠ x.sols.cursor → x.sols.solution i = s.sols.solution i) ∧
  x.trace = m ++ Event.StepForward :: s.trace ∧
  (∀ e ∈ m, e.minor = true)

/-- What the loop on time steps of the date interval `idate` establishes from
a state `s`: it ends on an accepted step at or after `date[idate+1]`, or on a
pending step, or `Algorithm` returns -1. -/
def StepsSpec (jdd : DataSet) (c0 : Nat) (t_0 : ℚ) (idate : Nat) (s : State) : Flow → Prop
  | Flow.next s1 => (∃ m, s1.trace = m ++ s.trace) ∧
      ((LoopInv c0 t_0 s1 ∧ IterProcess_ConvergenceIsMet s1.iterprocess ∧
        ¬ s1.T_1 < jdd.dates.Date (idate + 1) ∧
        ∃ tr, s1.trace = Event.BackupSolutionAtPoint s1.T_1 t_0 :: Event.Accepted s1.T_1 :: tr) ∨
       Pending c0 t_0 s1)
  | Flow.brk _ => False
  | Flow.returned c s1 => c = -1 ∧ (ReturnsBackup c0 t_0 s1 ∨ ReturnsExplicit c0 t_0 s1)

/-- What the loop on dates establishes when it is entered at the date index
`idate0`: all the date intervals are traversed, or it is left on a pending
step, or `Algorithm` returns -1. -/
def DatesSpec (jdd : DataSet) (c0 : Nat) (t_0 : ℚ) (idate0 : Nat) : Flow → Prop
  | Flow.next s1 => LoopInv c0 t_0 s1 ∧ IterProcess_ConvergenceIsMet s1.iterprocess ∧
      DatesDone jdd t_0 idate0 (lastDateIndex jdd.dates) s1.trace
  | Flow.brk s1 => Pending c0 t_0 s1
  | Flow.returned c s1 => c = -1 ∧ (ReturnsBackup c0 t_0 s1 ∨ ReturnsExplicit c0 t_0 s1)

/-- `Algorithm` returns -1 without having entered the loop on dates: the
convergence flag it was given is not met, the ring steps back and the solution
it then points at is persisted. -/
def ReturnsIdle (jdd : DataSet) (env : Env) (s0 s : State) : Prop :=
  ¬ startIndex jdd env < lastDateIndex jdd.dates ∧
  ¬ IterProcess_ConvergenceIsMet jdd.iterprocess ∧
  s.trace = Event.StoreCurrentSolution s.T_1 :: Event.StepBackward :: s0.trace

/-- The four ways in which `Algorithm` returns the value `c` in the state `s`,
from the ring `sols`: with 0 after all the date intervals, with -1 after a
step back, with -1 at the explicit terms without backup, and with -1 without
having entered the loop on dates. -/
def AlgorithmSpec (jdd : DataSet) (env : Env) (sols : Solutions) (solver : Solver)
    (c : Int) (s : State) : Prop :=
  (c = 0 ∧ ReturnsZero sols.cursor (initialization jdd env sols solver).T_1 s ∧
    DatesDone jdd (initialization jdd env sols solver).T_1 (startIndex jdd env)
      (lastDateIndex jdd.dates) s.trace) ∨
  (c = -1 ∧ ReturnsBackup sols.cursor (initialization jdd env sols solver).T_1 s) ∨
  (c = -1 ∧ ReturnsExplicit sols.cursor (initialization jdd env sols solver).T_1 s) ∨
  (c = -1 ∧ ReturnsIdle jdd env (initialization jdd env sols solver) s)

/-! ## Concrete data for the witnesses and the counterexamples -/

namespace Example

/-- A node whose only unknown sits in the global column and row `k`. -/
def node (k : Int) : Node := ⟨fun _ => k, fun _ => k⟩

/-- A two-node element with one equation, a material, in region 0, between the
global columns 0 and 1. -/
def bar : Element :=
  ⟨true, 2, 1, 0, fun i => node i, fun _ => 0, fun _ => 0⟩

/-- An element of region 0 without a material. -/
def bare : Element :=
  ⟨false, 2, 1, 0, fun i => node i, fun _ => 0, fun _ => 0⟩

/-- The element `bar` followed by the element `bare`; two matrix columns. -/
def mesh : Mesh := ⟨2, fun ie => if ie = 0 then bar else bare, 2⟩

/-- One load on region 0. -/
def loads : Loads := ⟨1, fun _ => ⟨0⟩⟩

/-- Collaborators that never fail: every entry point returns 0, the element
residual is `[1, 2]`, the load block `[10, 10]`, the solver succeeds, the time
step controller proposes `dt = 1`, and the error after every solve is 0. -/
def env : Env where
  Element_ComputeExplicitTerms := fun _ _ _ => Call.ret 0
  Element_ComputeImplicitTerms := fun _ _ _ _ => Call.ret 0
  Element_ComputeMatrix := fun _ _ _ _ => Call.ret 0
  ke := fun _ _ _ _ _ => 1
  Element_ComputeResidu := fun _ _ _ _ => Call.ret 0
  re := fun _ _ _ _ ij => ij + 1
  Element_ComputeLoads := fun _ _ _ _ _ => Call.ret 0
  reLoads := fun _ _ _ _ _ _ => 10
  Matrix_AssembleElementMatrix := fun a _ _ _ _ => a
  Solver_Solve := fun _ _ _ => 0
  TimeStep_ComputeTimeStep := fun _ _ _ _ _ => 1
  IterProcess_SetCurrentError := fun _ => 0
  Mesh_LoadCurrentSolution := none
  stack := fun _ => (fun _ => 0, fun _ => 0)

end Example

namespace Example

/-- Collaborators as in `env`, except that `compute_implicit_terms` fails (it
returns 1) whenever the time step exceeds `1/2`. -/
def envImplicit : Env :=
  { env with Element_ComputeImplicitTerms := fun _ _ _ dt => if dt > 1 / 2 then Call.ret 1 else Call.ret 0 }

/-- Collaborators as in `envImplicit`, except that the linear solve fails too
(it returns 1). -/
def envBoth : Env := { envImplicit with Solver_Solve := fun _ _ _ => 1 }

/-- Two dates `0` and `1`; `dt_ini = 2`, `dt_min = 1`, `dt_max = 4`, reduction
factor `1/2`; at most one Newton iteration and one repetition, tolerance 1. -/
def jdd : DataSet where
  mesh := mesh
  loads := loads
  dates := ⟨2, fun i => i⟩
  timestep := ⟨2, 1, 4, 1 / 2⟩
  iterprocess := ⟨1, 1, 1, 0, 0, 0⟩
  ContextIsInitialization := true

/-- A ring of two solutions at time 0, the cursor on the first one. -/
def sols : Solutions := ⟨2, fun _ => ⟨0, 0, 0⟩, 0⟩

def solver : Solver := ⟨⟨0, fun _ => 0⟩, fun _ => 0⟩

/-- A driver state inside the first attempt of a step of time step `dt`: the
convergence is not met (error 1, tolerance 1) and the repetition index 0 is
below the limit 1. -/
def state (dt : ℚ) : State :=
  ⟨⟨2, fun _ => ⟨0, dt, 0⟩, 0⟩, ⟨1, 1, 1, 0, 0, 1⟩, solver, 0, []⟩

end Example

namespace Example

/-- Collaborators as in `env`, except that `compute_residu` and
`compute_loads` return 1 on every call. -/
def envResidu : Env := env.withResiduCodes (fun _ _ _ _ => 1) (fun _ _ _ _ _ => 1)

end Example

namespace Example

/-- Collaborators as in `env`, except that `compute_explicit_terms` fails (it
returns 1) on every call. -/
def envExplicit : Env := { env with Element_ComputeExplicitTerms := fun _ _ _ => Call.ret 1 }

/-- The data set `jdd` with the repetition limit 0. -/
def jddNoRepetition : DataSet := { jdd with iterprocess := ⟨1, 0, 1, 0, 0, 0⟩ }

end Example

namespace Example

/-- Collaborators as in `env`, except that `compute_residu` returns -1 on
every call. -/
def envResiduFails : Env := env.withResiduCodes (fun _ _ _ _ => -1) (fun _ _ _ _ _ => 0)

/-- Two dates `0` and `7`; `dt_ini = 1`, `dt_min = 1/4`, `dt_max = 4`, reduction
factor `1/2`; at most one Newton iteration and one repetition, tolerance 1. -/
def jddLong : DataSet :=
  { jdd with dates := ⟨2, fun i => 7 * i⟩, timestep := ⟨1, 1 / 4, 4, 1 / 2⟩ }

/-- Collaborators as in `env`, except that the time step controller proposes
`dt_ini = 1` at the first date and then twice the previous time step, kept
below `dt_max = 4` and below the time left to the next date. -/
def envGrow : Env :=
  { env with TimeStep_ComputeTimeStep := fun _ t_n dt_n d0 d1 =>
      if t_n = d0 then 1
      else if 2 * dt_n ≤ 4 then (if 2 * dt_n ≤ d1 - t_n then 2 * dt_n else d1 - t_n)
      else (if 4 ≤ d1 - t_n then 4 else d1 - t_n) }

/-- Collaborators as in `envGrow`, except that `compute_implicit_terms` fails
(it returns 1) at every time after 3. -/
def envGrowImplicit : Env :=
  { envGrow with Element_ComputeImplicitTerms := fun _ _ t _ =>
      if t > 3 then Call.ret 1 else Call.ret 0 }

/-- Collaborators as in `envGrow`, except that the error after a solve is 1
from the clock 14 on, that is from the third time step on: the Newton loop
does not converge any more. -/
def envGrowDiverge : Env :=
  { envGrow with IterProcess_SetCurrentError := fun clk => if clk ≥ 14 then 1 else 0 }

end Example

namespace Example

/-- Collaborators as in `env`, with a persisted snapshot of time `t` to
resume from. -/
def envResume (t : ℚ) : Env := { env with Mesh_LoadCurrentSolution := some t }

/-- The data set `jdd` in the context "no initialization". -/
def jddContinuation : DataSet := { jdd with ContextIsInitialization := false }

end Example

/-! ### The rows of the point output -/

/-- The time of a call of `OutputFiles_BackupSolutionAtPoint`. -/
def Event.pointTime : Event → Option ℚ
  | Event.BackupSolutionAtPoint t _ => some t
  | _ => none

/-- The time of an accepted step. -/
def Event.acceptedTime : Event → Option ℚ
  | Event.Accepted t => some t
  | _ => none

/-- The times of the calls of `OutputFiles_BackupSolutionAtPoint` in a trace,
most recent first: the rows of the point output. -/
def pointRows (tr : List Event) : List ℚ := tr.filterMap Event.pointTime

/-- The times of the accepted steps in a trace, most recent first. -/
def acceptedTimes (tr : List Event) : List ℚ := tr.filterMap Event.acceptedTime

/-- What the body of the loop on time steps adds to the rows of the point
output and to the accepted steps. -/
def BodyRows (s : State) : Flow → Prop
  | Flow.next s1 => IterProcess_ConvergenceIsMet s1.iterprocess ∧
      pointRows s1.trace = s1.T_1 :: pointRows s.trace ∧
      acceptedTimes s1.trace = s1.T_1 :: acceptedTimes s.trace
  | Flow.brk s1 => IterProcess_ConvergenceIsNotMet s1.iterprocess ∧
      pointRows s1.trace = s1.T_1 :: pointRows s.trace ∧
      acceptedTimes s1.trace = acceptedTimes s.trace
  | Flow.returned c s1 => c = -1 ∧ pointRows s1.trace = pointRows s.trace ∧
      acceptedTimes s1.trace = acceptedTimes s.trace

/-- The rows of the point output are the starting time and the accepted
steps. -/
def RowsMatch (t_0 : ℚ) (s : State) : Prop :=
  pointRows s.trace = acceptedTimes s.trace ++ [t_0]

/-- The rows of the point output are the starting time, the accepted steps
and one more, the most recent, written while the convergence is not met. -/
def RowsAhead (t_0 : ℚ) (s : State) : Prop :=
  IterProcess_ConvergenceIsNotMet s.iterprocess ∧
  ∃ t, pointRows s.trace = t :: acceptedTimes s.trace ++ [t_0]

/-- What the loops on time steps and on dates establish on the rows of the
point output. -/
def LoopRows (t_0 : ℚ) : Flow → Prop
  | Flow.next s1 => RowsMatch t_0 s1 ∨ RowsAhead t_0 s1
  | Flow.brk s1 => RowsAhead t_0 s1
  | Flow.returned c s1 => c = -1 ∧ RowsMatch t_0 s1

namespace Example

/-- Collaborators as in `env`, except that the error after every solve is 1,
which is not below the tolerance 1 of `jdd`: the Newton loop never converges. -/
def envDiverge : Env := { env with IterProcess_SetCurrentError := fun _ => 1 }

end Example

/-! ### Repeated attempts of a time step -/

/-- The state in which the label `recommences` is reached for the `k`-th
repetition of a time step begun in the state `s`: `none` when one of the first
`k` attempts is not repeated. -/
def repeated (jdd : DataSet) (env : Env) : Nat → State → Option State
  | 0, s => some s
  | k + 1, s =>
    match attempt jdd env s with
    | some (Exit.recommences s1) => repeated jdd env k s1
    | _ => none

namespace Example

/-- Collaborators as in `env`, except that `compute_implicit_terms` fails (it
returns 1) exactly when the time step exceeds `1/4`, and that the time step
controller proposes `dt = 1/2`. -/
def envQuarter : Env :=
  { env with
    Element_ComputeImplicitTerms := fun _ _ _ dt => if dt > 1 / 4 then Call.ret 1 else Call.ret 0
    TimeStep_ComputeTimeStep := fun _ _ _ _ _ => 1 / 2 }

end Example

/-! ### Reordering the elements and the loads -/

/-- The mesh whose element list is reordered: its element `ie` is the element
`σ ie` of `mesh`. -/
def Mesh.permute (mesh : Mesh) (σ : Nat → Nat) : Mesh :=
  { mesh with Element := fun ie => mesh.Element (σ ie) }

/-- The load list reordered: its load `i_cg` is the load `τ i_cg` of `loads`. -/
def Loads.permute (loads : Loads) (τ : Nat → Nat) : Loads :=
  { loads with Load := fun i_cg => loads.Load (τ i_cg) }

/-- The collaborators seen through the reordering: the entry points
`compute_residu` and `compute_loads` of the element `ie` and of the load
`i_cg` of the reordered lists are those of the element `σ ie` and of the load
`τ i_cg`. -/
def Env.permute (env : Env) (σ τ : Nat → Nat) : Env :=
  { env with
    Element_ComputeResidu := fun clk ie => env.Element_ComputeResidu clk (σ ie)
    re := fun clk ie => env.re clk (σ ie)
    Element_ComputeLoads := fun clk ie t dt i_cg =>
      env.Element_ComputeLoads clk (σ ie) t dt (τ i_cg)
    reLoads := fun clk ie t dt i_cg => env.reLoads clk (σ ie) t dt (τ i_cg) }

/-- An entry point called by `ComputeResidu` raises the interrupt. -/
def ComputeResidu.interrupted (mesh : Mesh) (env : Env) (clk : Nat) (t dt : ℚ)
    (loads : Loads) : Prop :=
  (∃ ie, ie < mesh.NbOfElements ∧ (mesh.Element ie).Material = true ∧
    env.Element_ComputeResidu clk ie t dt = Call.interrupt) ∨
  (∃ i_cg, i_cg < loads.NbOfLoads ∧ ∃ ie, ie < mesh.NbOfElements ∧
    (mesh.Element ie).RegionIndex = (loads.Load i_cg).RegionIndex ∧
    (mesh.Element ie).Material = true ∧
    env.Element_ComputeLoads clk ie t dt i_cg = Call.interrupt)

/-! ## The model ESAC2 (src/Models/ModelFiles/ESAC2.c)

The element entry points `ComputeResidu` and `ComputeImplicitTerms` of the
model "External sulfate attack of concrete".  The arrays of implicit terms `f`
and `f_n` and the residual `r` are functions of the index; the constitutive
functions `ComputeVariables`, `ComputeVariables2`, `ComputeVariableFluxes` and
the geometric services of `FVM` and `FEM` are collaborators. -/

namespace ESAC2

def NEQ : Nat := 7

/-! Equation indexes. -/

def E_S : Nat := 0
def E_q : Nat := 1
def E_Ca : Nat := 2
def E_K : Nat := 3
def E_Al : Nat := 4
def E_el : Nat := 5
def E_Mech : Nat := 6

/-! Places of the implicit terms in `f` and `f_n` (the macros `N_S(n)`, ...,
`PRESSURE`). -/

def N_S (n : Nat) : Nat := n
def N_q (n : Nat) : Nat := 2 + n
def N_Ca (n : Nat) : Nat := 4 + n
def N_Si (n : Nat) : Nat := 6 + n
def N_K (n : Nat) : Nat := 8 + n
def N_Cl (n : Nat) : Nat := 10 + n
def N_Al (n : Nat) : Nat := 12 + n
def W_S : Nat := 14
def W_q : Nat := 15
def W_Ca : Nat := 16
def W_Si : Nat := 17
def W_K : Nat := 18
def W_Cl : Nat := 19
def W_Al : Nat := 20
def N_CH (n : Nat) : Nat := 21 + n
def N_CSH2 (n : Nat) : Nat := 23 + n
def N_AH3 (n : Nat) : Nat := 25 + n
def N_AFm (n : Nat) : Nat := 27 + n
def N_AFt (n : Nat) : Nat := 29 + n
def N_C3AH6 (n : Nat) : Nat := 31 + n
def PHI (n : Nat) : Nat := 33 + n
def PHI_C (n : Nat) : Nat := 35 + n
def PoreRadius (n : Nat) : Nat := 41 + n
def SIG : Nat := 43
def PRESSURE : Nat := 61

/-! Places of the variables computed by `ComputeVariables` (in `x`), by
`ComputeVariables2` (in `y`) and by `ComputeVariableFluxes` (in `w`). -/

def I_N_Q : Nat := NEQ + 4
def I_N_S : Nat := NEQ + 5
def I_N_Ca : Nat := NEQ + 6
def I_N_Si : Nat := NEQ + 7
def I_N_K : Nat := NEQ + 8
def I_N_Cl : Nat := NEQ + 9
def I_N_Al : Nat := NEQ + 10
def I_N_CH : Nat := NEQ + 11
def I_N_CSH2 : Nat := NEQ + 12
def I_N_AH3 : Nat := NEQ + 13
def I_N_AFm : Nat := NEQ + 14
def I_N_AFt : Nat := NEQ + 15
def I_N_C3AH6 : Nat := NEQ + 16
def I_PHI : Nat := NEQ + 22
def I_PHI_C : Nat := NEQ + 23
def I_Radius : Nat := NEQ + 46
def I_STRESS : Nat := 3
def I_PRESSURE : Nat := 21
def I_W_S : Nat := 0
def I_W_Ca : Nat := 1
def I_W_Si : Nat := 2
def I_W_K : Nat := 3
def I_W_Cl : Nat := 4
def I_W_q : Nat := 5
def I_W_Al : Nat := 6

/-- The element as the two entry points read it: its number of nodes, whether
it is a submanifold (`Element_IsSubmanifold`), the dimension of the space, the
number of integration points, its current and previous implicit terms, the
cell volumes and surface areas of `FVM`, and the strain work residual of `FEM`
as a function of the stresses it is given. -/
structure Element where
  NbOfNodes : Nat
  IsSubmanifold : Bool
  DimensionOfSpace : Nat
  NbOfIntPoints : Nat
  f : Nat → ℚ
  f_n : Nat → ℚ
  volume : Nat → ℚ
  area : Nat → ℚ
  FEM_ComputeStrainWorkResidu : (Nat → ℚ) → Nat → ℚ

/-- The statement `r[k] -= v`. -/
def sub (r : Nat → ℚ) (k : Nat) (v : ℚ) : Nat → ℚ := Function.update r k (r k - v)

/-- The macro `R(n,i)` of `ComputeResidu`: the place of the equation `i` of the
node `n` in `r`. -/
def R (n i : Nat) : Nat := n * NEQ + i

/-- The loop "Mechanics (stresses)" of `ComputeResidu`. -/
def ComputeResidu.mechanics (el : Element) (rw : Nat → ℚ) (r : Nat → ℚ) : Nat → ℚ :=
  (List.range el.NbOfNodes).foldl (fun r i =>
    (List.range el.DimensionOfSpace).foldl (fun r j =>
      sub r (R i (E_Mech + j)) (rw (i * el.DimensionOfSpace + j))) r) r

/-- `ComputeResidu(el,t,dt,r)`: the value returned and the contents of `r`
(the time `t` is not read). -/
def ComputeResidu (el : Element) (dt : ℚ) (r : Nat → ℚ) : Int × (Nat → ℚ) :=
  let f := el.f
  let f_n := el.f_n
  let nn := el.NbOfNodes
  let ndof := nn * NEQ
  let volume := el.volume
  let r : Nat → ℚ := fun i => if i < ndof then 0 else r i
  if el.IsSubmanifold then (0, r)
  else
    let surf := el.area 1
    let r := sub r (R 0 E_S) (volume 0 * (f (N_S 0) - f_n (N_S 0)) + dt * surf * f W_S)
    let r := sub r (R 1 E_S) (volume 1 * (f (N_S 1) - f_n (N_S 1)) - dt * surf * f W_S)
    let r := sub r (R 0 E_Ca) (volume 0 * (f (N_Ca 0) - f_n (N_Ca 0)) + dt * surf * f W_Ca)
    let r := sub r (R 1 E_Ca) (volume 1 * (f (N_Ca 1) - f_n (N_Ca 1)) - dt * surf * f W_Ca)
    let r := sub r (R 0 E_K) (volume 0 * (f (N_K 0) - f_n (N_K 0)) + dt * surf * f W_K)
    let r := sub r (R 1 E_K) (volume 1 * (f (N_K 1) - f_n (N_K 1)) - dt * surf * f W_K)
    let r := sub r (R 0 E_Al) (volume 0 * (f (N_Al 0) - f_n (N_Al 0)) + dt * surf * f W_Al)
    let r := sub r (R 1 E_Al) (volume 1 * (f (N_Al 1) - f_n (N_Al 1)) - dt * surf * f W_Al)
    let r := sub r (R 0 E_q) (dt * surf * f W_q)
    let r := sub r (R 1 E_q) (-(dt * surf * f W_q))
    let r := sub r (R 0 E_el) (volume 0 * f (N_q 0))
    let r := sub r (R 1 E_el) (volume 1 * f (N_q 1))
    let rw := el.FEM_ComputeStrainWorkResidu (fun i => f (SIG + i))
    (0, ComputeResidu.mechanics el rw r)

end ESAC2

namespace ESAC2

/-- A two-node line element of a one-dimensional space, with unit cell volumes
and surface areas, the implicit terms `f[i] = i` and `f_n[i] = 0`. -/
def bar : Element where
  NbOfNodes := 2
  IsSubmanifold := false
  DimensionOfSpace := 1
  NbOfIntPoints := 1
  f := fun i => i
  f_n := fun _ => 0
  volume := fun _ => 1
  area := fun _ => 1
  FEM_ComputeStrainWorkResidu := fun _ _ => 1

end ESAC2

namespace ESAC2

/-- The constitutive functions called by `ComputeImplicitTerms`, for the
element, the unknowns and the time step at hand: the variables `x` computed by
`ComputeVariables` at the node `i`, the variables `y` computed by
`ComputeVariables2` at the integration point `p`, the fluxes `w` computed by
`ComputeVariableFluxes(el,0,1)`; `none` when the call does not return (an
exception is raised). -/
structure Model where
  ComputeVariables : Nat → Option (Nat → ℚ)
  ComputeVariables2 : Nat → Option (Nat → ℚ)
  ComputeVariableFluxes : Option (Nat → ℚ)

/-- The "Backup" of the variables `x` of the node `i` into the implicit terms
`f`, in the order of the source. -/
def ComputeImplicitTerms.store (x : Nat → ℚ) (i : Nat) (f : Nat → ℚ) : Nat → ℚ :=
  let f := Function.update f (N_S i) (x I_N_S)
  let f := Function.update f (N_Ca i) (x I_N_Ca)
  let f := Function.update f (N_Si i) (x I_N_Si)
  let f := Function.update f (N_K i) (x I_N_K)
  let f := Function.update f (N_Cl i) (x I_N_Cl)
  let f := Function.update f (N_Al i) (x I_N_Al)
  let f := Function.update f (N_q i) (x I_N_Q)
  let f := Function.update f (N_CH i) (x I_N_CH)
  let f := Function.update f (N_CSH2 i) (x I_N_CSH2)
  let f := Function.update f (N_AFm i) (x I_N_AFm)
  let f := Function.update f (N_AFt i) (x I_N_AFt)
  let f := Function.update f (N_C3AH6 i) (x I_N_C3AH6)
  let f := Function.update f (PHI i) (x I_PHI)
  let f := Function.update f (PHI_C i) (x I_PHI_C)
  Function.update f (PoreRadius i) (x I_Radius)

/-- The loop over the nodes still to visit.  The first component is the value
returned from inside the loop, `none` when the loop ends; the last one lists
the nodes examined.  The result is `none` when `ComputeVariables` does not
return.  `GetProperties` and the copy of the chemical potentials
(`HardenedCementChemistry_CopyChemicalPotential`) write to static objects of
the model, none of which is an array of the element; the messages printed
before `return(-1)` are left out. -/
def ComputeImplicitTerms.nodes (m : Model) :
    List Nat → (Nat → ℚ) → Option (Option Int × (Nat → ℚ) × List Nat)
  | [], f => some (none, f, [])
  | i :: rest, f =>
    match m.ComputeVariables i with
    | none => none
    | some x =>
      let f := ComputeImplicitTerms.store x i f
      let test : Int := if x I_PHI < 0 then -1 else 0
      if test < 0 then some (some (-1), f, [i])
      else
        match ComputeImplicitTerms.nodes m rest f with
        | none => none
        | some (c, f1, seen) => some (c, f1, i :: seen)

/-- The loop "Mechanics" over the integration points still to visit. -/
def ComputeImplicitTerms.mechanics (m : Model) : List Nat → (Nat → ℚ) → Option (Nat → ℚ)
  | [], f => some f
  | p :: rest, f =>
    match m.ComputeVariables2 p with
    | none => none
    | some y =>
      let f := Function.update f (PRESSURE + p) (y I_PRESSURE)
      let f := (List.range 9).foldl
        (fun f i => Function.update f (SIG + p * 9 + i) (y (I_STRESS + i))) f
      ComputeImplicitTerms.mechanics m rest f

/-- The block "Flux". -/
def ComputeImplicitTerms.flux (w : Nat → ℚ) (f : Nat → ℚ) : Nat → ℚ :=
  let f := Function.update f W_S (w I_W_S)
  let f := Function.update f W_Ca (w I_W_Ca)
  let f := Function.update f W_Si (w I_W_Si)
  let f := Function.update f W_q (w I_W_q)
  let f := Function.update f W_K (w I_W_K)
  let f := Function.update f W_Cl (w I_W_Cl)
  Function.update f W_Al (w I_W_Al)

/-- `ComputeImplicitTerms(el,t,dt)`: the value returned, the implicit terms
`f` on return and the nodes examined; `none` when a constitutive function does
not return. -/
def ComputeImplicitTerms (el : Element) (m : Model) : Option (Int × (Nat → ℚ) × List Nat) :=
  match ComputeImplicitTerms.nodes m (List.range el.NbOfNodes) el.f with
  | none => none
  | some (some c, f, seen) => some (c, f, seen)
  | some (none, f, seen) =>
    if el.IsSubmanifold then some (0, f, seen)
    else
      match ComputeImplicitTerms.mechanics m (List.range el.NbOfIntPoints) f with
      | none => none
      | some f =>
        match m.ComputeVariableFluxes with
        | none => none
        | some w => some (0, ComputeImplicitTerms.flux w f, seen)

/-- Constitutive functions for `bar`: the porosity computed at the node `i` is
`1/2 - i`, negative at the second node. -/
def model : Model where
  ComputeVariables := fun i => some (fun _ => 1 / 2 - i)
  ComputeVariables2 := fun _ => some (fun _ => 0)
  ComputeVariableFluxes := some (fun _ => 0)

end ESAC2

/-! ## The command line (src/Main/Context.c)

A C string is a `String` (the characters before the terminating NUL), `argv`
the list of the `argc` arguments; a pointer `argv + i` stored in the context
is the index `i`. -/

/-- The function `strncmp` of the C library, on strings without an inner NUL:
0 when the first `n` characters of `a` and `b` agree, the strings ending
together if one ends before; otherwise a value that is not 0 (its sign is not
read by the callers and is not modelled). -/
def strncmp (a b : String) (n : Nat) : Int :=
  if a.toList.take n = b.toList.take n then 0 else 1

/-- The function `strlen` of the C library. -/
def strlen (a : String) : Nat := a.length

/-- The entries of `Context_t` set by `Context_Initialize`: each one is null
(`none`) or points into `argv`. -/
structure Context where
  PrintUsage : Option Nat
  InputFileName : Option Nat
  PrintInfo : Option Nat
  HelpOnline : Option Nat
  Solver : Option Nat
  Debug : Option Nat
  PrintLevel : Option Nat
  UseModule : Option Nat
  PrintModel : Option Nat
  PrintModule : Option Nat
  ReadOnly : Option Nat
  Graph : Option Nat
  InversePermutation : Option Nat
  ElementOrdering : Option Nat
  NodalOrdering : Option Nat
  PostProcessing : Option Nat
  Miscellaneous : Option Nat
  Test : Option Nat
deriving DecidableEq, Repr

/-- How one pass of the loop on the arguments ends: on to the increment of the
loop with the value `i` of the index, in a fatal error, or in a read of
`argv[k]` with `k ≥ argc`. -/
inductive Pass where
  | next (i : Nat) (ctx : Context)
  | fatal (msg : String)
  | outside (k : Nat)
deriving DecidableEq, Repr

/-- How `Context_Initialize` ends: it returns, or `Message_FatalError` ends
the program with its message, or `argv[k]` is read with `k ≥ argc`. -/
inductive Result where
  | done (ctx : Context)
  | fatal (msg : String)
  | outside (k : Nat)
deriving DecidableEq, Repr

/-- Modelled from the spec: `Message_FatalError` (Message.c is not in the
repository excerpt) makes the program "fail with" its message: it does not
return, and the pass in which it is called ends there. -/
@[reducible] def Message_FatalError (msg : String) : Pass := Pass.fatal msg

/-- The pattern `if(i + 1 < argc) i++ ; else Message_FatalError(msg) ;` of the
options that take a value. -/
def Context_Initialize.value (argc i : Nat) (ctx : Context) (msg : String) : Pass :=
  if i + 1 < argc then Pass.next (i + 1) ctx else Message_FatalError msg

/-- The option `-solver`: its value, then the look-ahead for `-ff`. -/
def Context_Initialize.solver (argv : List String) (i : Nat) (ctx : Context) : Pass :=
  let ctx := { ctx with Solver := some i }
  if i + 1 < argv.length then
    let i := i + 1
    match argv[i + 1]? with
    | none => Pass.outside (i + 1)
    | some a =>
      if strncmp a "-ff" (strlen a) = 0 then
        if i + 2 < argv.length then Pass.next (i + 2) ctx
        else Message_FatalError "Missing solver"
      else Pass.next i ctx
  else Message_FatalError "Missing solver"

/-- Body of the loop `for(i = 1 ; i < argc ; i++)` of `Context_Initialize`. -/
def Context_Initialize.body (argv : List String) (i : Nat) (ctx : Context) : Pass :=
  match argv[i]? with
  | none => Pass.outside i
  | some a =>
    if a.toList.head? ≠ some '-' then Pass.next i { ctx with InputFileName := some i }
    else if strncmp a "-info" 5 = 0 then Pass.next i { ctx with PrintInfo := some i }
    else if strncmp a "-help" 5 = 0 then Pass.next i { ctx with HelpOnline := some i }
    else if strncmp a "-solver" (strlen a) = 0 then Context_Initialize.solver argv i ctx
    else if strncmp a "-debug" (strlen a) = 0 then
      Context_Initialize.value argv.length i { ctx with Debug := some i }
        "Missing name of data to be printed"
    else if strncmp a "-level" (strlen a) = 0 then
      Context_Initialize.value argv.length i { ctx with PrintLevel := some i } "Missing level"
    else if strncmp a "-with" (strlen a) = 0 then
      Context_Initialize.value argv.length i { ctx with UseModule := some i } "Missing module"
    else if strncmp a "-models" (strlen a) = 0 then
      Pass.next i { ctx with PrintModel := some i }
    else if strncmp a "-modules" (strlen a) = 0 then
      Pass.next i { ctx with PrintModule := some i }
    else if strncmp a "-readonly" (strlen a) = 0 then
      if i + 1 ≥ argv.length then Message_FatalError "Missing file name"
      else Pass.next i { ctx with ReadOnly := some i }
    else if strncmp a "-graph" (strlen a) = 0 then
      Context_Initialize.value argv.length i { ctx with Graph := some i }
        "Missing graph method"
    else if strncmp a "-iperm" (strlen a) = 0 then
      Pass.next i { ctx with InversePermutation := some i }
    else if strncmp a "-eordering" (strlen a) = 0 then
      Context_Initialize.value argv.length i { ctx with ElementOrdering := some i }
        "Missing element ordering method"
    else if strncmp a "-nordering" (strlen a) = 0 then
      Context_Initialize.value argv.length i { ctx with NodalOrdering := some i }
        "Missing nodal ordering method"
    else if strncmp a "-postprocessing" (strlen a) = 0 then
      Context_Initialize.value argv.length i { ctx with PostProcessing := some i }
        "Missing post-processing method"
    else if strncmp a "-miscellaneous" (strlen a) = 0 then
      Pass.next i { ctx with Miscellaneous := some i }
    else if strncmp a "-test" (strlen a) = 0 then Pass.next i { ctx with Test := some i }
    else Message_FatalError "Unknown option"

/-- The loop `for(i = 1 ; i < argc ; i++)`.  The first argument bounds the
number of passes, `none` when it is used up; the second component of the
result lists the indices `i` with which the body was entered, in order. -/
def Context_Initialize.loop (argv : List String) : Nat → Nat → Context → Option (Result × List Nat)
  | 0, i, ctx => if i < argv.length then none else some (Result.done ctx, [])
  | fuel + 1, i, ctx =>
    if i < argv.length then
      match Context_Initialize.body argv i ctx with
      | Pass.next i1 ctx1 =>
        match Context_Initialize.loop argv fuel (i1 + 1) ctx1 with
        | none => none
        | some (r, passes) => some (r, i :: passes)
      | Pass.fatal msg => some (Result.fatal msg, [i])
      | Pass.outside k => some (Result.outside k, [i])
    else some (Result.done ctx, [])

/-- `Context_Initialize(ctx)` on the command line `argv`. -/
def Context_Initialize (argv : List String) (ctx : Context) : Option (Result × List Nat) :=
  if argv.length = 1 then some (Result.done { ctx with PrintUsage := some 0 }, [])
  else Context_Initialize.loop argv argv.length 1 ctx

/-- A context whose entries are all null. -/
def Context.null : Context :=
  ⟨none, none, none, none, none, none, none, none, none, none, none, none, none, none, none,
    none, none, none⟩

/-- The flags that `Context_Initialize` recognizes from any of their
abbreviations (an argument matches when it is a beginning of the flag). -/
def Context_Initialize.flags : List String :=
  ["-solver", "-debug", "-level", "-with", "-models", "-modules", "-readonly", "-graph",
    "-iperm", "-eordering", "-nordering", "-postprocessing", "-miscellaneous", "-test"]

/-- An argument that is not recognized: it begins with `-`, does not begin
with `-info` nor with `-help`, and is not a beginning of one of the other
flags. -/
def UnknownOption (a : String) : Prop :=
  a.toList.head? = some '-' ∧ ¬ "-info".toList <+: a.toList ∧ ¬ "-help".toList <+: a.toList ∧
  ∀ F ∈ Context_Initialize.flags, ¬ a.toList <+: F.toList

/-! ## `ESAC2.c`: the layout of the implicit and constant terms -/

namespace ESAC2

/-- The macro `NVI`: the number of implicit terms of an element. -/
def NVI : Nat := 63

/-- The macro `NV0`: the number of constant terms of an element. -/
def NV0 : Nat := 20

/-- The place in `v0` of the macro `V_Cem0(n)`. -/
def V_Cem0 (n : Nat) : Nat := 0 + n

/-- The place in `v0` where the block `SIG0` starts. -/
def SIG0 : Nat := 2

/-- The implicit terms that the macros of `ESAC2.c` name: the nodal quantities
at the node `n`, the fluxes, the component `k` of the stress at the integration
point `p` (`(SIG + p*9)[k]`) and the pressure at the integration point `p`
(`PRESSURE[p]`). -/
inductive ImplicitTerm where
  | N_S (n : Nat)
  | N_q (n : Nat)
  | N_Ca (n : Nat)
  | N_Si (n : Nat)
  | N_K (n : Nat)
  | N_Cl (n : Nat)
  | N_Al (n : Nat)
  | W_S
  | W_q
  | W_Ca
  | W_Si
  | W_K
  | W_Cl
  | W_Al
  | N_CH (n : Nat)
  | N_CSH2 (n : Nat)
  | N_AH3 (n : Nat)
  | N_AFm (n : Nat)
  | N_AFt (n : Nat)
  | N_C3AH6 (n : Nat)
  | PHI (n : Nat)
  | PHI_C (n : Nat)
  | PoreRadius (n : Nat)
  | SIG (p k : Nat)
  | PRESSURE (p : Nat)
  deriving DecidableEq, Repr

/-- The place in `f` that the macro of the term expands to. -/
def ImplicitTerm.index : ImplicitTerm → Nat
  | .N_S n => ESAC2.N_S n
  | .N_q n => ESAC2.N_q n
  | .N_Ca n => ESAC2.N_Ca n
  | .N_Si n => ESAC2.N_Si n
  | .N_K n => ESAC2.N_K n
  | .N_Cl n => ESAC2.N_Cl n
  | .N_Al n => ESAC2.N_Al n
  | .W_S => ESAC2.W_S
  | .W_q => ESAC2.W_q
  | .W_Ca => ESAC2.W_Ca
  | .W_Si => ESAC2.W_Si
  | .W_K => ESAC2.W_K
  | .W_Cl => ESAC2.W_Cl
  | .W_Al => ESAC2.W_Al
  | .N_CH n => ESAC2.N_CH n
  | .N_CSH2 n => ESAC2.N_CSH2 n
  | .N_AH3 n => ESAC2.N_AH3 n
  | .N_AFm n => ESAC2.N_AFm n
  | .N_AFt n => ESAC2.N_AFt n
  | .N_C3AH6 n => ESAC2.N_C3AH6 n
  | .PHI n => ESAC2.PHI n
  | .PHI_C n => ESAC2.PHI_C n
  | .PoreRadius n => ESAC2.PoreRadius n
  | .SIG p k => ESAC2.SIG + p * 9 + k
  | .PRESSURE p => ESAC2.PRESSURE + p

/-- The node of the term, when it is a nodal quantity. -/
def ImplicitTerm.node : ImplicitTerm → Option Nat
  | .N_S n | .N_q n | .N_Ca n | .N_Si n | .N_K n | .N_Cl n | .N_Al n
  | .N_CH n | .N_CSH2 n | .N_AH3 n | .N_AFm n | .N_AFt n | .N_C3AH6 n
  | .PHI n | .PHI_C n | .PoreRadius n => some n
  | _ => none

/-- The term belongs to an element of two nodes and `np` integration points:
node indices below 2, integration points below `np`, stress components below
9. -/
def ImplicitTerm.valid (np : Nat) : ImplicitTerm → Prop
  | .SIG p k => p < np ∧ k < 9
  | .PRESSURE p => p < np
  | a => ∀ n, a.node = some n → n < 2

/-- The ways `ComputeInitialState` ends: it returns a code and leaves the
implicit terms `f` and the constant terms `v0`; it is stopped by `arret`; or a
constitutive function it calls does not return. -/
inductive Outcome where
  | returned (code : Int) (f v0 : Nat → ℚ)
  | stopped (msg : String)
  | raised

/-- Modelled from the spec: `arret` (declared in `Message.h`, which is not
among the files at hand) reports its message and ends the program, so that
nothing after the call is executed. -/
@[reducible] def arret (msg : String) : Outcome := Outcome.stopped msg

/-- The values that the block "Pre-initialization" of `ComputeInitialState`
computes at a node from the unknowns and the cement chemistry, before it
stores them. -/
structure PreInitialization where
  n_ch : ℚ
  n_csh2 : ℚ
  n_afm : ℚ
  n_aft : ℚ
  n_c3ah6 : ℚ
  phi : ℚ
  phi_c : ℚ
  v_cem : ℚ

/-- The loop "Pre-initialization" of `ComputeInitialState` over the nodes still
to visit: the stores into `f` and `v0`, in the order of the source. -/
def ComputeInitialState.preinit (pre : Nat → PreInitialization) (PoreEntryRadiusMax : ℚ) :
    List Nat → (Nat → ℚ) → (Nat → ℚ) → (Nat → ℚ) × (Nat → ℚ)
  | [], f, v0 => (f, v0)
  | i :: rest, f, v0 =>
    let f := Function.update f (N_CH i) (pre i).n_ch
    let f := Function.update f (N_CSH2 i) (pre i).n_csh2
    let f := Function.update f (N_AFm i) (pre i).n_afm
    let f := Function.update f (N_AFt i) (pre i).n_aft
    let f := Function.update f (N_C3AH6 i) (pre i).n_c3ah6
    let f := Function.update f (PHI i) (pre i).phi
    let f := Function.update f (PHI_C i) (pre i).phi_c
    let v0 := Function.update v0 (V_Cem0 i) (pre i).v_cem
    let f := Function.update f (PoreRadius i) PoreEntryRadiusMax
    ComputeInitialState.preinit pre PoreEntryRadiusMax rest f v0

/-- The second loop of `ComputeInitialState` over the nodes still to visit: the
"Backup" of the variables of each node, which stores the same terms in the
same order as the one of `ComputeImplicitTerms`; `none` when
`ComputeVariables` does not return. -/
def ComputeInitialState.nodes (m : Model) : List Nat → (Nat → ℚ) → Option (Nat → ℚ)
  | [], f => some f
  | i :: rest, f =>
    match m.ComputeVariables i with
    | none => none
    | some x => ComputeInitialState.nodes m rest (ComputeImplicitTerms.store x i f)

/-- The loop "Mechanics" of `ComputeInitialState` over the integration points
still to visit: the pressure and the nine stresses are set to zero, then to the
values of `ComputeVariables2`. -/
def ComputeInitialState.mechanics (m : Model) : List Nat → (Nat → ℚ) → Option (Nat → ℚ)
  | [], f => some f
  | p :: rest, f =>
    let f := Function.update f (PRESSURE + p) 0
    let f := (List.range 9).foldl (fun f i => Function.update f (SIG + p * 9 + i) 0) f
    match m.ComputeVariables2 p with
    | none => none
    | some y =>
      let f := Function.update f (PRESSURE + p) (y I_PRESSURE)
      let f := (List.range 9).foldl
        (fun f i => Function.update f (SIG + p * 9 + i) (y (I_STRESS + i))) f
      ComputeInitialState.mechanics m rest f

/-- `ComputeInitialState(el)`, on the implicit terms `el.f` and the constant
terms `v0`.  `ComputeTransferCoefficients` writes the explicit terms only,
which are not followed here. -/
def ComputeInitialState (el : Element) (m : Model) (pre : Nat → PreInitialization)
    (PoreEntryRadiusMax : ℚ) (v0 : Nat → ℚ) : Outcome :=
  let s := ComputeInitialState.preinit pre PoreEntryRadiusMax (List.range el.NbOfNodes) el.f v0
  match ComputeInitialState.nodes m (List.range el.NbOfNodes) s.1 with
  | none => Outcome.raised
  | some f =>
    if el.IsSubmanifold then Outcome.returned 0 f s.2
    else if el.NbOfIntPoints > 2 then
      arret "ComputeInitialState: more than 2 integration points"
    else
      match ComputeInitialState.mechanics m (List.range el.NbOfIntPoints) f with
      | none => Outcome.raised
      | some f =>
        match m.ComputeVariableFluxes with
        | none => Outcome.raised
        | some w => Outcome.returned 0 (ComputeImplicitTerms.flux w f) s.2

/-- The constitutive values of an example: every value computed before the
stores is `1`. -/
def pre : Nat → PreInitialization := fun _ => ⟨1, 1, 1, 1, 1, 1, 1, 1⟩

/-- A two-node element of three integration points. -/
def bar3 : Element := { bar with NbOfIntPoints := 3 }

end ESAC2

/-! ## `MTD1c.c`: the layout of the term arrays -/

namespace MTD1c

/-- The macro `NEQ`. -/
def NEQ : Nat := 7

/-- The macro `NVE`, for an element of `NN` nodes;
`CementSolutionDiffusion_NbOfConcentrations` is a constant of a header that is
not among the files at hand and is taken as a parameter. -/
def NVE (NbOfConcentrations NN : Nat) : Nat := (65 + NbOfConcentrations) * NN

/-- The macro `NVI`, for an element of `NN` nodes. -/
def NVI (NN : Nat) : Nat := 7 * NN * NN + 2 * NN

/-- The macro `NV0`. -/
def NV0 : Nat := 2

/-- The place of `MassAndFlux(f,i,j)` in the array where `f` starts at the
place `f`. -/
def MassAndFlux (NN f i j : Nat) : Nat := f + (i * NN + j)

def N_C (NN i : Nat) : Nat := MassAndFlux NN 0 i i
def W_C (NN i j : Nat) : Nat := MassAndFlux NN 0 i j
def N_q (NN i : Nat) : Nat := MassAndFlux NN (NN * NN) i i
def W_q (NN i j : Nat) : Nat := MassAndFlux NN (NN * NN) i j
def Mass (NN i : Nat) : Nat := MassAndFlux NN (2 * NN * NN) i i
def W_m (NN i j : Nat) : Nat := MassAndFlux NN (2 * NN * NN) i j
def N_Ca (NN i : Nat) : Nat := MassAndFlux NN (3 * NN * NN) i i
def W_Ca (NN i j : Nat) : Nat := MassAndFlux NN (3 * NN * NN) i j
def N_Na (NN i : Nat) : Nat := MassAndFlux NN (4 * NN * NN) i i
def W_Na (NN i j : Nat) : Nat := MassAndFlux NN (4 * NN * NN) i j
def N_K (NN i : Nat) : Nat := MassAndFlux NN (5 * NN * NN) i i
def W_K (NN i j : Nat) : Nat := MassAndFlux NN (5 * NN * NN) i j
def N_Si (NN i : Nat) : Nat := MassAndFlux NN (6 * NN * NN) i i
def W_Si (NN i j : Nat) : Nat := MassAndFlux NN (6 * NN * NN) i j

/-- The place in `f` of `N_CH(i)`. -/
def N_CH (NN i : Nat) : Nat := 7 * NN * NN + i

/-- The place in `va` where the block `TransferCoefficient(va,n)` starts. -/
def TransferCoefficient (NN f n : Nat) : Nat := f + n * NN

/-- The place in `va` where the block `CONCENTRATION(i)` starts. -/
def CONCENTRATION (NbOfConcentrations NN i : Nat) : Nat :=
  TransferCoefficient NN 0 65 + i * NbOfConcentrations

/-- The place in `v0` of `V_S0(n)`. -/
def V_S0 (n : Nat) : Nat := 0 + n

/-- The sizes of the term arrays of an element. -/
structure Sizes where
  NbOfImplicitTerms : Nat
  NbOfExplicitTerms : Nat
  NbOfConstantTerms : Nat
  deriving DecidableEq, Repr

/-- `DefineElementProp(el,intfcts)`: the sizes it gives to the element. -/
def DefineElementProp (NbOfConcentrations NN : Nat) (IsSubmanifold : Bool) : Sizes where
  NbOfImplicitTerms := NVI NN
  NbOfExplicitTerms := if IsSubmanifold then 0 else NVE NbOfConcentrations NN
  NbOfConstantTerms := NV0

/-- The loop "Pre-initialization" of `ComputeInitialState` over the nodes still
to visit, on the implicit terms `f` and the constant terms `v0`: `v_s0 i` and
`n_ch i` are the values computed at the node `i` from the unknowns and the
cement chemistry (the stores `C_Na(i)`, `C_K(i)` go to the nodal unknowns). -/
def ComputeInitialState.preinit (NN : Nat) (v_s0 n_ch : Nat → ℚ) :
    List Nat → (Nat → ℚ) → (Nat → ℚ) → (Nat → ℚ) × (Nat → ℚ)
  | [], f, v0 => (f, v0)
  | i :: rest, f, v0 =>
    let v0 := Function.update v0 (V_S0 i) (v_s0 i)
    let f := Function.update f (N_CH NN i) (n_ch i)
    ComputeInitialState.preinit NN v_s0 n_ch rest f v0

end MTD1c

/-! ## `Material.h` and the material properties of `ESAC2.c` -/

/-- The macro `Material_MaxNbOfProperties` of `Material.h`: "Max nb of scalar
inputs". -/
def Material_MaxNbOfProperties : Nat := 100

namespace ESAC2

/-- `pm(s)`: the place of the property named `s` in the array of the material
properties, `-1` when the name is not recognised. -/
def pm (s : String) : Int :=
  if s = "porosity" then 0
  else if s = "N_CH" then 1
  else if s = "N_Si" then 2
  else if s = "N_CSH" then 2
  else if s = "T_CH" then 3
  else if s = "T_CSH2" then 4
  else if s = "N_CSH2" then 5
  else if s = "N_AH3" then 6
  else if s = "N_AFm" then 7
  else if s = "N_AFt" then 8
  else if s = "N_C3AH6" then 9
  else if s = "T_AFm" then 10
  else if s = "T_AFt" then 11
  else if s = "R_AFm" then 12
  else if s = "R_AFt" then 13
  else if s = "R_C3AH6" then 14
  else if s = "R_CSH2" then 15
  else if s = "a_AFt" then 16
  else if s = "Poisson" then 17
  else if s = "Young" then 18
  else if s = "Cijkl" then 19
  else if s = "BiotCoef" then 100
  else -1

/-- The macro `GetProperty(a)`, on the array `pr` of the properties of the
material of the element. -/
def GetProperty (pr : Nat → ℚ) (a : String) : ℚ := pr (pm a).toNat

/-- The static variables that `GetProperties` sets; `cijkl` is the place in the
array of the properties that the pointer `cijkl` points to. -/
structure Properties where
  phi0 : ℚ
  n_ca_ref : ℚ
  n_si_ref : ℚ
  n_al_ref : ℚ
  n_csh2_0 : ℚ
  n_afm_0 : ℚ
  n_aft_0 : ℚ
  n_c3ah6_0 : ℚ
  r_afm : ℚ
  r_aft : ℚ
  r_c3ah6 : ℚ
  r_csh2 : ℚ
  a_AFt : ℚ
  cijkl : Nat
  biot : ℚ

/-- `GetProperties(el)`, on the array `pr` of the properties of the material of
the element (the curve `satcurve` is left out). -/
def GetProperties (pr : Nat → ℚ) : Properties where
  phi0 := GetProperty pr "porosity"
  n_ca_ref := GetProperty pr "N_CH"
  n_si_ref := GetProperty pr "N_CSH"
  n_al_ref := GetProperty pr "N_AH3"
  n_csh2_0 := GetProperty pr "N_CSH2"
  n_afm_0 := GetProperty pr "N_AFm"
  n_aft_0 := GetProperty pr "N_AFt"
  n_c3ah6_0 := GetProperty pr "N_C3AH6"
  r_afm := GetProperty pr "R_AFm"
  r_aft := GetProperty pr "R_AFt"
  r_c3ah6 := GetProperty pr "R_C3AH6"
  r_csh2 := GetProperty pr "R_CSH2"
  a_AFt := GetProperty pr "a_AFt"
  cijkl := (pm "Cijkl").toNat
  biot := GetProperty pr "BiotCoef"

/-- The macro `C(i,j,k,l)` of `IsotropicElasticTensor`, as a place in the array
where `c` starts at the place `c`. -/
def IsotropicElasticTensor.C (c i j k l : Nat) : Nat := c + (((i * 3 + j) * 3 + k) * 3 + l)

/-- The statement `a[k] += v`. -/
def add (a : Nat → ℚ) (k : Nat) (v : ℚ) : Nat → ℚ := Function.update a k (a k + v)

/-- `IsotropicElasticTensor(Young,Poisson,c)`, where `c` points to the place `c`
of the array `a`: the contents of the array on return. -/
def IsotropicElasticTensor (Young Poisson : ℚ) (c : Nat) (a : Nat → ℚ) : Nat → ℚ :=
  let twomu := Young / (1 + Poisson)
  let mu := twomu / 2
  let lame := twomu * Poisson / (1 - 2 * Poisson)
  let a := (List.range 81).foldl (fun a i => Function.update a (c + i) 0) a
  (List.range 3).foldl (fun a i =>
    (List.range 3).foldl (fun a j =>
      let a := add a (IsotropicElasticTensor.C c i i j j) lame
      let a := add a (IsotropicElasticTensor.C c i j i j) mu
      add a (IsotropicElasticTensor.C c i j j i) mu) a) a

/-- The block "Self-initialization" of `ReadMatProp`, before the properties
are scanned. -/
def ReadMatProp.selfInitialization (pr : Nat → ℚ) : Nat → ℚ :=
  let pr := Function.update pr (pm "N_CH").toNat 1
  let pr := Function.update pr (pm "N_Si").toNat 1
  let pr := Function.update pr (pm "N_AH3").toNat 1
  let pr := Function.update pr (pm "N_CSH2").toNat 0
  let pr := Function.update pr (pm "N_AFm").toNat 0
  let pr := Function.update pr (pm "N_AFt").toNat 0
  let pr := Function.update pr (pm "N_C3AH6").toNat 0
  let pr := Function.update pr (pm "R_AFm").toNat (46 / 100000)
  let pr := Function.update pr (pm "R_AFt").toNat (46 / 100000)
  let pr := Function.update pr (pm "R_C3AH6").toNat (1 / 10000000000)
  Function.update pr (pm "R_CSH2").toNat (1 / 10000000000)

/-- `ReadMatProp(mat,datafile)`: the value returned and the properties of the
material on return, `none` when `arret` stops the program because the
material has no curve `S_r`.  `Material_ScanProperties` reads the properties
of the data file into the array (it is handed `pm`); the objects created for the
chemistry and the curves attached to them are not followed. -/
def ReadMatProp (pr : Nat → ℚ) (Material_ScanProperties : (Nat → ℚ) → (Nat → ℚ))
    (S_r : Bool) : Option (Int × (Nat → ℚ)) :=
  let NbOfProp : Int := 101
  let pr := Material_ScanProperties (ReadMatProp.selfInitialization pr)
  if ¬ S_r then none
  else
    let c := (pm "Cijkl").toNat
    let young := pr (pm "Young").toNat
    let poisson := pr (pm "Poisson").toNat
    some (NbOfProp, IsotropicElasticTensor young poisson c pr)

/-! ## `ESAC2.c`: the pore radius -/

/-- The curve and the laws that `Radius` reads: the saturation curve (its value,
its derivative and the upper end of its range), the equilibrium saturation
index of AFt with its derivative and its inverse, and the kinetic coefficient
`a_AFt`. -/
structure Laws where
  LiquidSaturationDegree : ℚ → ℚ
  dLiquidSaturationDegree : ℚ → ℚ
  PoreEntryRadiusMax : ℚ
  EquilibriumAFtSaturationIndex : ℚ → ℚ
  dEquilibriumAFtSaturationIndex : ℚ → ℚ
  InverseOfEquilibriumAFtSaturationIndex : ℚ → ℚ
  a_AFt : ℚ

/-- The ways `Radius` ends: it returns `r`; it has not converged, warns and
raises `Exception_Interrupt` with the last iterate `r`; or the iterate has
become a NaN (after a quotient by `s_aft = 0`), and what the later passes do
with it is not followed. -/
inductive Radius.Result where
  | returned (r : ℚ)
  | interrupted (r : ℚ)
  | notANumber
  deriving DecidableEq

/-- The variable `r_inf` of `Radius`. -/
def Radius.r_inf (w : Laws) (s_aft : ℚ) : ℚ :=
  let r_max := w.PoreEntryRadiusMax
  let beta_min := w.EquilibriumAFtSaturationIndex r_max
  if s_aft > beta_min then w.InverseOfEquilibriumAFtSaturationIndex s_aft else r_max

/-- The raw increment `dr = (fabs(deq) > 0) ? - eq/deq : 0.` of one iteration
of `Radius`, from the iterate `r`; `none` when it is a NaN.  The only divisor
that can be zero is `s_aft`.  When `s_aft` is 0, `dt*a_AFt*dbeta/s_aft` is a
NaN if its numerator is 0: then `deq` is a NaN, the test `fabs(deq) > 0` fails
and `dr` is 0.  If the numerator is not 0, `deq` is infinite and `eq` is
infinite or a NaN (`dt*a_AFt` is not 0 and `beta/s_aft` is infinite or a NaN),
so that `- eq/deq` is a NaN. -/
def Radius.newton (w : Laws) (r_n s_aft dt r : ℚ) : Option ℚ :=
  let s_ln := w.LiquidSaturationDegree r_n
  let s_l := w.LiquidSaturationDegree r
  let ds_l := w.dLiquidSaturationDegree r
  let beta := w.EquilibriumAFtSaturationIndex r
  let dbeta := w.dEquilibriumAFtSaturationIndex r
  if s_aft = 0 then
    if dt * w.a_AFt * dbeta = 0 then some 0 else none
  else
    let eq := s_l - s_ln + dt * w.a_AFt * (1 - beta / s_aft)
    let deq := ds_l - dt * w.a_AFt * dbeta / s_aft
    some (if |deq| > 0 then -eq / deq else 0)

/-- The increment `dr` of one iteration of `Radius`, from the iterate `r`, for
`r_n` other than `r_inf` (the loop is not entered otherwise); `none` when it is
a NaN: a NaN raw increment makes `a` a NaN, which neither `a < 0` nor `a > 1`
holds of, and the increment a NaN. -/
def Radius.dr (w : Laws) (r_n s_aft dt r_inf r : ℚ) : Option ℚ :=
  match Radius.newton w r_n s_aft dt r with
  | none => none
  | some dr =>
    let b : ℚ := 1 / 2
    let a := (dr / b - r_n + r) / (r_inf - r_n)
    let a := if a < 0 then 0 else a
    let a := if a > 1 then 1 else a
    some (b * (a * (r_inf - r) + (1 - a) * (r_n - r)))

/-- The loop of `Radius` with `n` iterations left, from the iterate `r`.  In
the test `fabs(dr/r_n) < tol` the quotient is infinite or a NaN when `r_n` is
0, and the test fails. -/
def Radius.loop (w : Laws) (r_n s_aft dt r_inf : ℚ) : Nat → ℚ → Radius.Result
  | 0, r => Radius.Result.interrupted r
  | n + 1, r =>
    match Radius.dr w r_n s_aft dt r_inf r with
    | none => Radius.Result.notANumber
    | some dr =>
      let r := r + dr
      if r_n ≠ 0 ∧ |dr / r_n| < 1 / 1000000 then Radius.Result.returned r
      else Radius.loop w r_n s_aft dt r_inf n r

/-- `Radius(r_n,s_aft,dt,el)`. -/
def Radius (w : Laws) (r_n s_aft dt : ℚ) : Radius.Result :=
  let r_inf := Radius.r_inf w s_aft
  if r_n = r_inf then Radius.Result.returned r_n
  else Radius.loop w r_n s_aft dt r_inf 40 r_n

end ESAC2

/-! ## Notions used by the statements on the term arrays and the tensors -/

/-- Two arrays agree from the index `N` on. -/
def AgreeFrom (N : Nat) (f g : Nat → ℚ) : Prop := ∀ k, N ≤ k → f k = g k

/-- The Kronecker delta. -/
def delta (i j : Nat) : ℚ := if i = j then 1 else 0

namespace ESAC2

end ESAC2

/-! ## `ComputeOutputs` of `ESAC2.c` and `MTD1c.c` -/

/-- The results stored so far by `ComputeOutputs`, each with the place `i` of
`r + i` it was stored at, its name and its number of values, and the running
index `i`. -/
structure Outputs where
  stored : List (Nat × String × Nat)
  i : Nat

/-- The call `Result_Store(r + i++,v,name,n)`; the values `v` are computed by
the constitutive functions and are not followed. -/
def Result_Store (o : Outputs) (name : String) (n : Nat) : Outputs :=
  ⟨o.stored ++ [(o.i, name, n)], o.i + 1⟩

/-- The ways `ComputeOutputs` ends: it returns a code, having stored the
results listed; it reports an error; or a constitutive function it calls does
not return. -/
inductive Outputs.Exit where
  | returned (code : Int) (stored : List (Nat × String × Nat))
  | error (msg : String)
  | raised
  deriving DecidableEq

/-- Modelled from the spec: `Message_RuntimeError` (declared in `Message.h`,
which is not among the files at hand) reports its message and ends the
program. -/
@[reducible] def Message_RuntimeError (msg : String) : Outputs.Exit := Outputs.Exit.error msg

namespace ESAC2

/-- The calls of `Result_Store` of `ComputeOutputs`, in the order of the
source. -/
def ComputeOutputs.store (o : Outputs) : Outputs :=
  let o := Result_Store o "ph" 1
  let o := Result_Store o "c_oh" 1
  let o := Result_Store o "c_h" 1
  let o := Result_Store o "c_ca" 1
  let o := Result_Store o "c_caoh" 1
  let o := Result_Store o "c_h2sio4" 1
  let o := Result_Store o "c_h3sio4" 1
  let o := Result_Store o "c_h4sio4" 1
  let o := Result_Store o "c_cah2sio4" 1
  let o := Result_Store o "c_cah3sio4" 1
  let o := Result_Store o "c_h2so4" 1
  let o := Result_Store o "c_hso4" 1
  let o := Result_Store o "c_so4" 1
  let o := Result_Store o "c_caso4aq" 1
  let o := Result_Store o "c_cahso4" 1
  let o := Result_Store o "c_k" 1
  let o := Result_Store o "c_koh" 1
  let o := Result_Store o "zn_ca_s" 1
  let o := Result_Store o "zn_si_s" 1
  let o := Result_Store o "s_ch" 1
  let o := Result_Store o "s_csh2" 1
  let o := Result_Store o "n_ch" 1
  let o := Result_Store o "n_csh2" 1
  let o := Result_Store o "n_csh" 1
  let o := Result_Store o "porosite" 1
  let o := Result_Store o "potentiel_electrique" 1
  let o := Result_Store o "charge" 1
  let o := Result_Store o "V_CSH" 1
  let o := Result_Store o "C/S" 1
  let o := Result_Store o "W_Si" 1
  let o := Result_Store o "W_Ca" 1
  let o := Result_Store o "W_S" 1
  let o := Result_Store o "P_CSH2" 1
  let o := Result_Store o "c_al" 1
  let o := Result_Store o "c_alo4h4" 1
  let o := Result_Store o "zn_al_s" 1
  let o := Result_Store o "s_ah3" 1
  let o := Result_Store o "s_afm" 1
  let o := Result_Store o "s_aft" 1
  let o := Result_Store o "s_c3ah6" 1
  let o := Result_Store o "n_ah3" 1
  let o := Result_Store o "n_afm" 1
  let o := Result_Store o "n_aft" 1
  let o := Result_Store o "n_c3ah6" 1
  let o := Result_Store o "W_Al" 1
  let o := Result_Store o "W_q" 1
  let o := Result_Store o "N_Ca" 1
  let o := Result_Store o "N_Si" 1
  let o := Result_Store o "N_S" 1
  let o := Result_Store o "N_Al" 1
  let o := Result_Store o "N_K" 1
  let o := Result_Store o "N_Cl" 1
  let o := Result_Store o "Saturation degree of crystal" 1
  let o := Result_Store o "Pore entry radius" 1
  let o := Result_Store o "Equilibrium saturation index of AFt" 1
  let o := Result_Store o "Crystallization pressure" 1
  let o := Result_Store o "Displacement" 1
  Result_Store o "Stresses" 9

/-- `ComputeOutputs(el,t,s,r)` of `ESAC2.c`, where `j` is the cell that
`FVM_FindLocalCellIndex` finds. -/
def ComputeOutputs (el : Element) (m : Model) (j : Nat) : Outputs.Exit :=
  let nso : Nat := 58
  if el.IsSubmanifold then Outputs.Exit.returned 0 []
  else
    match m.ComputeVariables j with
    | none => Outputs.Exit.raised
    | some _ =>
      let o := ComputeOutputs.store ⟨[], 0⟩
      if o.i ≠ nso then Message_RuntimeError "ComputeOutputs: wrong number of outputs"
      else Outputs.Exit.returned nso o.stored

end ESAC2

namespace MTD1c

/-- The calls of `Result_Store` of `ComputeOutputs`, in the order of the
source. -/
def ComputeOutputs.store (o : Outputs) : Outputs :=
  let o := Result_Store o "x_co2" 1
  let o := Result_Store o "ph" 1
  let o := Result_Store o "n_Si_s" 1
  let o := Result_Store o "porosite" 1
  let o := Result_Store o "n_CH" 1
  let o := Result_Store o "x_ca" 1
  let o := Result_Store o "x_co3" 1
  let o := Result_Store o "x_hco3" 1
  let o := Result_Store o "n_CC" 1
  let o := Result_Store o "x_h" 1
  let o := Result_Store o "x_oh" 1
  let o := Result_Store o "saturation" 1
  let o := Result_Store o "grad_psi" 1
  let o := Result_Store o "charge" 1
  let o := Result_Store o "x_na" 1
  let o := Result_Store o "x_naoh" 1
  let o := Result_Store o "x_nahco3" 1
  let o := Result_Store o "x_naco3" 1
  let o := Result_Store o "x_k" 1
  let o := Result_Store o "x_koh" 1
  let o := Result_Store o "x_caoh" 1
  let o := Result_Store o "x_cahco3" 1
  let o := Result_Store o "x_caco3aq" 1
  let o := Result_Store o "x_caoh2aq" 1
  let o := Result_Store o "p_l" 1
  let o := Result_Store o "x_h3sio4" 1
  let o := Result_Store o "n_Na" 1
  let o := Result_Store o "n_Ca" 1
  let o := Result_Store o "n_Si" 1
  let o := Result_Store o "n_Ca_s" 1
  let o := Result_Store o "x_cah2sio4" 1
  let o := Result_Store o "x_cah3sio4" 1
  let o := Result_Store o "CsurS" 1
  let o := Result_Store o "x_h4sio4" 1
  let o := Result_Store o "x_h2sio4" 1
  let o := Result_Store o "I" 1
  let o := Result_Store o "x_csh" 1
  let o := Result_Store o "n_si_s" 1
  let o := Result_Store o "s_ch" 1
  let o := Result_Store o "s_sh" 1
  let o := Result_Store o "k_l" 1
  let o := Result_Store o "verma-pruess" 1
  let o := Result_Store o "dn_chsdt" 1
  let o := Result_Store o "dn1sdt" 1
  let o := Result_Store o "coeff_dnCH" 1
  let o := Result_Store o "v_csh" 1
  let o := Result_Store o "v_ch" 1
  Result_Store o "v_cc" 1

/-- `ComputeOutputs(el,t,s,r)` of `MTD1c.c`; `ComputeComponents` is the outcome
of the call `ComputeComponents(el,u,f,0,j)`, `none` when it does not return.
The program is ended by `arret` when the running index differs from `nso`. -/
def ComputeOutputs (IsSubmanifold : Bool) (ComputeComponents : Option (Nat → ℚ)) :
    Outputs.Exit :=
  let nso : Nat := 48
  if IsSubmanifold then Outputs.Exit.returned 0 []
  else
    match ComputeComponents with
    | none => Outputs.Exit.raised
    | some _ =>
      let o := ComputeOutputs.store ⟨[], 0⟩
      if o.i ≠ nso then Outputs.Exit.error "ComputeOutputs"
      else Outputs.Exit.returned nso o.stored

end MTD1c

/-! ## `MTD1c.c`: permeability, zeta unknowns and tangent matrix -/

/-- Modelled from the spec: the macro `MAX` (of a header that is not among the
files at hand) gives the larger of its two arguments. -/
def MAX (a b : ℚ) : ℚ := max a b

/-- Modelled from the spec: the macro `MIN` (of a header that is not among the
files at hand) gives the smaller of its two arguments. -/
def MIN (a b : ℚ) : ℚ := min a b

namespace MTD1c

/-- The places of the unknowns in the unknowns of a node. -/
def U_C_CO2 : Nat := 0
def U_PSI : Nat := 1
def U_P_L : Nat := 2
def U_ZN_Ca_S : Nat := 3
def U_ZN_Si_S : Nat := 4
def U_C_Na : Nat := 5
def U_C_K : Nat := 6

set_option linter.unusedVariables false in
/-- `PermeabilityCoefficient(el,phi)`, with the properties `phii`, `frac` and
`phi_r` of the material that `GetProperties` has read. -/
def PermeabilityCoefficient (phii frac phi_r phi : ℚ) : ℚ :=
  let kozeny_carman := (phi / phii) ^ 3 * ((1 - phii) / (1 - phi)) ^ 2
  let S_s := (phii - phi) / phii
  let w := 1 + (1 / frac) / (1 / phi_r - 1)
  let t := (1 - S_s - phi_r) / (1 - phi_r)
  let verma_pruess :=
    if t > 0 then
      t * t * (1 - frac + (frac / (w * w))) / (1 - frac + frac * ((t / (t + w - 1)) ^ 2))
    else 0
  let coeff_permeability := verma_pruess
  coeff_permeability

/-- The macro `CalciumContentInCHAndCC(zn_ca_s)`, with `n_ca_ref = n_ch0`. -/
def CalciumContentInCHAndCC (n_ch0 zn_ca_s : ℚ) : ℚ := n_ch0 * MAX zn_ca_s 0

/-- The macro `SiliconContentInCSH(zn_si_s)`, with `n_si_ref = n_csh0`. -/
def SiliconContentInCSH (n_csh0 zn_si_s : ℚ) : ℚ := n_csh0 * MAX zn_si_s 0

/-- The inputs `SI_Ca` and `SI_Si` that `ComputeSecondaryComponents` hands to
the cement chemistry, from the components `x`. -/
def ComputeSecondaryComponents.inputs (x : Nat → ℚ) : ℚ × ℚ :=
  let zn_ca_s := x U_ZN_Ca_S
  let zn_si_s := x U_ZN_Si_S
  (MIN zn_ca_s 0, MIN zn_si_s 0)

/-- The solid contents of `ComputeSecondaryComponents`. -/
structure SolidContents where
  n_ch_cc : ℚ
  n_ch : ℚ
  n_cc : ℚ
  n_si_s : ℚ

/-- The block "Solid contents" of `ComputeSecondaryComponents`, from the
components `x`, the saturation indexes `s_ch` and `s_cc` given by the cement
chemistry and the content `n_chn + dt*dn_chsdt` of the kinetics. -/
def ComputeSecondaryComponents.solid (n_ch0 n_csh0 : ℚ) (x : Nat → ℚ) (s_ch s_cc kinetics : ℚ) :
    SolidContents :=
  let zn_ca_s := x U_ZN_Ca_S
  let zn_si_s := x U_ZN_Si_S
  let n_ch_cc := CalciumContentInCHAndCC n_ch0 zn_ca_s
  let n_ch_ki := MAX kinetics 0
  let n_ch := if s_cc > s_ch then n_ch_ki else n_ch_cc
  let n_cc := if s_cc > s_ch then n_ch_cc - n_ch_ki else 0
  let n_si_s := SiliconContentInCSH n_csh0 zn_si_s
  ⟨n_ch_cc, n_ch, n_cc, n_si_s⟩

/-- The macro `K(i,j)` of `ComputeMatrix`. -/
def ComputeMatrix.K (ndof i j : Nat) : Nat := i * ndof + j

/-- The statement `k[p] *= v`. -/
def mul (k : Nat → ℚ) (p : Nat) (v : ℚ) : Nat → ℚ := Function.update k p (k p * v)

/-- `ComputeMatrix(el,t,dt,k)`: the value returned and the contents of `k`.
`km` is the matrix that `FVM_ComputeMassAndIsotropicConductionMatrix` gives
for the coefficients of `TangentCoefficients`; `Ln10` is the constant
`Math_Ln10`, `pow` the function of the C library and `u` the nodal unknowns,
`C_CO2(n)` being `pow(10,UNKNOWN(n,U_C_CO2))`. -/
def ComputeMatrix (nn : Nat) (IsSubmanifold : Bool) (km : Nat → ℚ) (Ln10 : ℚ)
    (pow : ℚ → ℚ → ℚ) (u : Nat → Nat → ℚ) (k : Nat → ℚ) : Int × (Nat → ℚ) :=
  let ndof := nn * NEQ
  let C_CO2 := fun n => pow 10 (u n U_C_CO2)
  let k : Nat → ℚ := fun i => if i < ndof * ndof then 0 else k i
  if IsSubmanifold then (0, k)
  else
    let k : Nat → ℚ := fun i => if i < ndof * ndof then km i else k i
    let k := (List.range (2 * NEQ)).foldl (fun k i =>
      let k := mul k (ComputeMatrix.K ndof i U_C_CO2) (Ln10 * C_CO2 0)
      mul k (ComputeMatrix.K ndof i (U_C_CO2 + NEQ)) (Ln10 * C_CO2 1)) k
    (0, k)

end MTD1c

/-! ## `HardenedCementChemistry.c`: the systems with sulfates -/

/-- The solid phases whose saturation indexes are stored. -/
inductive Solid where
  | CH | SH | AH3 | CSH2 | AFm | AFt | C3AH6 | C2AH8 | CAH10
  deriving DecidableEq, Repr

/-- The species whose activities are read back from the solution. -/
inductive Species where
  | Ca | SO4 | Al | AlO4H4 | H | H2O
  deriving DecidableEq, Repr

/-- The systems handed to `CementSolutionChemistry_ComputeSystem`. -/
inductive System where
  | CaO_SiO2_Na2O_K2O_SO3_H2O
  | CaO_SiO2_Na2O_K2O_SO3_Al2O3_H2O
  deriving DecidableEq, Repr

/-- The inputs of the chemistry of the solution. -/
structure CementSolutionChemistry_Input where
  LogQ_CH : ℚ
  LogQ_SH : ℚ
  LogA_H2SO4 : ℚ
  LogA_Na : ℚ
  LogA_K : ℚ
  LogA_OH : ℚ
  LogQ_AH3 : ℚ

/-- The chemistry of the solution: its inputs and the logarithms of the
activities it holds. -/
structure CementSolutionChemistry_t where
  Input : CementSolutionChemistry_Input
  LogActivityOf : Species → ℚ

/-- The inputs of the chemistry of the hardened cement. -/
structure HardenedCementChemistry_Input where
  SI_Ca : ℚ
  SI_Si : ℚ
  SI_Al : ℚ
  LogA_H2SO4 : ℚ
  LogA_Na : ℚ
  LogA_K : ℚ
  LogA_OH : ℚ

/-- The chemistry of the hardened cement, as the solvers read and write it:
the inputs, the chemistry of the solution, the constants (activity of H2SO4 at
the invariant point, solubility products), the three curves (as the functions
that `Curve_ComputeValue` computes) and the results. -/
structure HardenedCementChemistry_t where
  Input : HardenedCementChemistry_Input
  CementSolutionChemistry : CementSolutionChemistry_t
  Log10EquilibriumH2SO4Activity : ℚ
  Log10SolubilityProductConstantOf : Solid → ℚ
  CurveOfSaturationIndexOfSH : ℚ → ℚ
  CurveOfCalciumSiliconRatioInCSH : ℚ → ℚ
  CurveOfWaterSiliconRatioInCSH : ℚ → ℚ
  SaturationIndexOf : Solid → ℚ
  Log10SaturationIndexOf : Solid → ℚ
  CalciumSiliconRatioInCSH : ℚ
  WaterSiliconRatioInCSH : ℚ

/-- The functions that the solvers call and that are not among the files at
hand: `pow` and `log10` of the C library, and the solver of the chemistry of
the solution with the update of the solution that follows it, a function of
the system and of the state it is given. -/
structure Library where
  pow : ℚ → ℚ → ℚ
  log10 : ℚ → ℚ
  CementSolutionChemistry_ComputeSystem : System → CementSolutionChemistry_t →
    CementSolutionChemistry_t
  CementSolutionChemistry_UpdateSolution : CementSolutionChemistry_t → CementSolutionChemistry_t

/-- The macro `Log10SaturationIndexOfCH(si_ca)`. -/
def Log10SaturationIndexOfCH (si_ca : ℚ) : ℚ := si_ca

/-- The macro `Log10S_CH_H2SO4eq(loga_h2so4)`. -/
def Log10S_CH_H2SO4eq (hcc : HardenedCementChemistry_t) (loga_h2so4 : ℚ) : ℚ :=
  MIN (hcc.Log10EquilibriumH2SO4Activity - loga_h2so4) 0

/-- The macro `Log10SaturationIndexOfCH_H2SO4(si_ca,loga_h2so4)`. -/
def Log10SaturationIndexOfCH_H2SO4 (hcc : HardenedCementChemistry_t) (si_ca loga_h2so4 : ℚ) : ℚ :=
  si_ca + Log10S_CH_H2SO4eq hcc loga_h2so4

/-- The macro `Log10SaturationIndexOfSH(si_si,s_ch)`. -/
def Log10SaturationIndexOfSH (lib : Library) (hcc : HardenedCementChemistry_t) (si_si s_ch : ℚ) :
    ℚ :=
  si_si + lib.log10 (hcc.CurveOfSaturationIndexOfSH s_ch)

/-- The macro `Log10SaturationIndexOfAH3(si_al)`. -/
def Log10SaturationIndexOfAH3 (si_al : ℚ) : ℚ := si_al

/-- The solver of the system CaO-SiO2-Na2O-K2O-SO3-H2O, where `SI_Ca` is the
saturation index of CH-CSH2. -/
def HardenedCementChemistry_ComputeSystem_CaO_SiO2_Na2O_K2O_SO3_H2O (lib : Library)
    (hcc : HardenedCementChemistry_t) : HardenedCementChemistry_t :=
  let si_ca := hcc.Input.SI_Ca
  let si_si := hcc.Input.SI_Si
  let loga_h2so4 := hcc.Input.LogA_H2SO4
  let loga_na := hcc.Input.LogA_Na
  let loga_k := hcc.Input.LogA_K
  let loga_oh := hcc.Input.LogA_OH
  let logs_ch := Log10SaturationIndexOfCH_H2SO4 hcc si_ca loga_h2so4
  let s_ch := lib.pow 10 logs_ch
  let logs_sh := Log10SaturationIndexOfSH lib hcc si_si s_ch
  let s_sh := lib.pow 10 logs_sh
  let logk_ch := hcc.Log10SolubilityProductConstantOf Solid.CH
  let logq_ch := logs_ch + logk_ch
  let logk_sh := hcc.Log10SolubilityProductConstantOf Solid.SH
  let logq_sh := logs_sh + logk_sh
  let csc := hcc.CementSolutionChemistry
  let csc := { csc with Input := { csc.Input with
    LogQ_CH := logq_ch, LogQ_SH := logq_sh, LogA_H2SO4 := loga_h2so4, LogA_Na := loga_na,
    LogA_K := loga_k, LogA_OH := loga_oh } }
  let csc := lib.CementSolutionChemistry_ComputeSystem System.CaO_SiO2_Na2O_K2O_SO3_H2O csc
  let csc := lib.CementSolutionChemistry_UpdateSolution csc
  let s := Function.update hcc.SaturationIndexOf Solid.CH s_ch
  let s := Function.update s Solid.SH s_sh
  let l := Function.update hcc.Log10SaturationIndexOf Solid.CH logs_ch
  let l := Function.update l Solid.SH logs_sh
  let loga_ca := csc.LogActivityOf Species.Ca
  let loga_so4 := csc.LogActivityOf Species.SO4
  let loga_h2o : ℚ := 0
  let logk_csh2 := hcc.Log10SolubilityProductConstantOf Solid.CSH2
  let logs_csh2 := loga_ca + loga_so4 + 2 * loga_h2o - logk_csh2
  let s_csh2 := lib.pow 10 logs_csh2
  let s := Function.update s Solid.CSH2 s_csh2
  let l := Function.update l Solid.CSH2 logs_csh2
  let x_csh := hcc.CurveOfCalciumSiliconRatioInCSH s_ch
  let z_csh := hcc.CurveOfWaterSiliconRatioInCSH x_csh
  { hcc with
    CementSolutionChemistry := csc, SaturationIndexOf := s, Log10SaturationIndexOf := l,
    CalciumSiliconRatioInCSH := x_csh, WaterSiliconRatioInCSH := z_csh }

/-- The solver `..._SO3_H2O_2`, where `SI_Ca` is the saturation index of calcium
hydroxide. -/
def HardenedCementChemistry_ComputeSystem_CaO_SiO2_Na2O_K2O_SO3_H2O_2 (lib : Library)
    (hcc : HardenedCementChemistry_t) : HardenedCementChemistry_t :=
  let si_ca := hcc.Input.SI_Ca
  let si_si := hcc.Input.SI_Si
  let loga_h2so4 := hcc.Input.LogA_H2SO4
  let loga_na := hcc.Input.LogA_Na
  let loga_k := hcc.Input.LogA_K
  let loga_oh := hcc.Input.LogA_OH
  let logs_ch := Log10SaturationIndexOfCH si_ca
  let s_ch := lib.pow 10 logs_ch
  let logs_sh := Log10SaturationIndexOfSH lib hcc si_si s_ch
  let s_sh := lib.pow 10 logs_sh
  let logk_ch := hcc.Log10SolubilityProductConstantOf Solid.CH
  let logq_ch := logs_ch + logk_ch
  let logk_sh := hcc.Log10SolubilityProductConstantOf Solid.SH
  let logq_sh := logs_sh + logk_sh
  let csc := hcc.CementSolutionChemistry
  let csc := { csc with Input := { csc.Input with
    LogQ_CH := logq_ch, LogQ_SH := logq_sh, LogA_H2SO4 := loga_h2so4, LogA_Na := loga_na,
    LogA_K := loga_k, LogA_OH := loga_oh } }
  let csc := lib.CementSolutionChemistry_ComputeSystem System.CaO_SiO2_Na2O_K2O_SO3_H2O csc
  let csc := lib.CementSolutionChemistry_UpdateSolution csc
  let s := Function.update hcc.SaturationIndexOf Solid.CH s_ch
  let s := Function.update s Solid.SH s_sh
  let l := Function.update hcc.Log10SaturationIndexOf Solid.CH logs_ch
  let l := Function.update l Solid.SH logs_sh
  let loga_ca := csc.LogActivityOf Species.Ca
  let loga_so4 := csc.LogActivityOf Species.SO4
  let loga_h2o : ℚ := 0
  let logk_csh2 := hcc.Log10SolubilityProductConstantOf Solid.CSH2
  let logs_csh2 := loga_ca + loga_so4 + 2 * loga_h2o - logk_csh2
  let s_csh2 := lib.pow 10 logs_csh2
  let s := Function.update s Solid.CSH2 s_csh2
  let l := Function.update l Solid.CSH2 logs_csh2
  let x_csh := hcc.CurveOfCalciumSiliconRatioInCSH s_ch
  let z_csh := hcc.CurveOfWaterSiliconRatioInCSH x_csh
  { hcc with
    CementSolutionChemistry := csc, SaturationIndexOf := s, Log10SaturationIndexOf := l,
    CalciumSiliconRatioInCSH := x_csh, WaterSiliconRatioInCSH := z_csh }

/-- The solver of the system CaO-SiO2-Na2O-K2O-SO3-Al2O3-H2O, where `SI_Ca` is
the saturation index of CH-CSH2. -/
def HardenedCementChemistry_ComputeSystem_CaO_SiO2_Na2O_K2O_SO3_Al2O3_H2O (lib : Library)
    (hcc : HardenedCementChemistry_t) : HardenedCementChemistry_t :=
  let si_ca := hcc.Input.SI_Ca
  let si_si := hcc.Input.SI_Si
  let si_al := hcc.Input.SI_Al
  let loga_h2so4 := hcc.Input.LogA_H2SO4
  let loga_na := hcc.Input.LogA_Na
  let loga_k := hcc.Input.LogA_K
  let loga_oh := hcc.Input.LogA_OH
  let logs_ch := Log10SaturationIndexOfCH_H2SO4 hcc si_ca loga_h2so4
  let s_ch := lib.pow 10 logs_ch
  let logs_sh := Log10SaturationIndexOfSH lib hcc si_si s_ch
  let s_sh := lib.pow 10 logs_sh
  let logs_ah3 := Log10SaturationIndexOfAH3 si_al
  let s_ah3 := lib.pow 10 logs_ah3
  let logk_ch := hcc.Log10SolubilityProductConstantOf Solid.CH
  let logq_ch := logs_ch + logk_ch
  let logk_sh := hcc.Log10SolubilityProductConstantOf Solid.SH
  let logq_sh := logs_sh + logk_sh
  let logk_ah3 := hcc.Log10SolubilityProductConstantOf Solid.AH3
  let logq_ah3 := logs_ah3 + logk_ah3
  let csc := hcc.CementSolutionChemistry
  let csc := { csc with Input := {
    LogQ_CH := logq_ch, LogQ_SH := logq_sh, LogA_H2SO4 := loga_h2so4, LogA_Na := loga_na,
    LogA_K := loga_k, LogA_OH := loga_oh, LogQ_AH3 := logq_ah3 } }
  let csc := lib.CementSolutionChemistry_ComputeSystem System.CaO_SiO2_Na2O_K2O_SO3_Al2O3_H2O csc
  let csc := lib.CementSolutionChemistry_UpdateSolution csc
  let s := Function.update hcc.SaturationIndexOf Solid.CH s_ch
  let s := Function.update s Solid.SH s_sh
  let s := Function.update s Solid.AH3 s_ah3
  let l := Function.update hcc.Log10SaturationIndexOf Solid.CH logs_ch
  let l := Function.update l Solid.SH logs_sh
  let l := Function.update l Solid.AH3 logs_ah3
  let loga_ca := csc.LogActivityOf Species.Ca
  let loga_so4 := csc.LogActivityOf Species.SO4
  let loga_al := csc.LogActivityOf Species.Al
  let loga_alo4h4 := csc.LogActivityOf Species.AlO4H4
  let loga_h := csc.LogActivityOf Species.H
  let loga_h2o := csc.LogActivityOf Species.H2O
  let logq_csh2 := loga_ca + loga_so4 + 2 * loga_h2o
  let logk_csh2 := hcc.Log10SolubilityProductConstantOf Solid.CSH2
  let logs_csh2 := logq_csh2 - logk_csh2
  let s_csh2 := lib.pow 10 logs_csh2
  let logq_afm := 4 * loga_ca + 2 * loga_al + loga_so4 + 18 * loga_h2o - 12 * loga_h
  let logk_afm := hcc.Log10SolubilityProductConstantOf Solid.AFm
  let logs_afm := logq_afm - logk_afm
  let s_afm := lib.pow 10 logs_afm
  let logq_aft := 6 * loga_ca + 2 * loga_al + 3 * loga_so4 + 38 * loga_h2o - 12 * loga_h
  let logk_aft := hcc.Log10SolubilityProductConstantOf Solid.AFt
  let logs_aft := logq_aft - logk_aft
  let s_aft := lib.pow 10 logs_aft
  let logq_c3ah6 := 3 * loga_ca + 2 * loga_al + 12 * loga_h2o - 12 * loga_h
  let logk_c3ah6 := hcc.Log10SolubilityProductConstantOf Solid.C3AH6
  let logs_c3ah6 := logq_c3ah6 - logk_c3ah6
  let s_c3ah6 := lib.pow 10 logs_c3ah6
  let logq_c2ah8 := 2 * loga_ca + 2 * loga_alo4h4 + 2 * loga_oh + 3 * loga_h2o
  let logk_c2ah8 := hcc.Log10SolubilityProductConstantOf Solid.C2AH8
  let logs_c2ah8 := logq_c2ah8 - logk_c2ah8
  let s_c2ah8 := lib.pow 10 logs_c2ah8
  let logq_cah10 := loga_ca + 2 * loga_alo4h4 + 6 * loga_h2o
  let logk_cah10 := hcc.Log10SolubilityProductConstantOf Solid.CAH10
  let logs_cah10 := logq_cah10 - logk_cah10
  let s_cah10 := lib.pow 10 logs_cah10
  let s := Function.update s Solid.CSH2 s_csh2
  let s := Function.update s Solid.AFm s_afm
  let s := Function.update s Solid.AFt s_aft
  let s := Function.update s Solid.C3AH6 s_c3ah6
  let s := Function.update s Solid.C2AH8 s_c2ah8
  let s := Function.update s Solid.CAH10 s_cah10
  let l := Function.update l Solid.CSH2 logs_csh2
  let l := Function.update l Solid.AFm logs_afm
  let l := Function.update l Solid.AFt logs_aft
  let l := Function.update l Solid.C3AH6 logs_c3ah6
  let l := Function.update l Solid.C2AH8 logs_c2ah8
  let l := Function.update l Solid.CAH10 logs_cah10
  let x_csh := hcc.CurveOfCalciumSiliconRatioInCSH s_ch
  let z_csh := hcc.CurveOfWaterSiliconRatioInCSH x_csh
  { hcc with
    CementSolutionChemistry := csc, SaturationIndexOf := s, Log10SaturationIndexOf := l,
    CalciumSiliconRatioInCSH := x_csh, WaterSiliconRatioInCSH := z_csh }

/-- The solver `..._SO3_Al2O3_H2O_2`, where `SI_Ca` is the saturation index of CH. -/
def HardenedCementChemistry_ComputeSystem_CaO_SiO2_Na2O_K2O_SO3_Al2O3_H2O_2 (lib : Library)
    (hcc : HardenedCementChemistry_t) : HardenedCementChemistry_t :=
  let si_ca := hcc.Input.SI_Ca
  let si_si := hcc.Input.SI_Si
  let si_al := hcc.Input.SI_Al
  let loga_h2so4 := hcc.Input.LogA_H2SO4
  let loga_na := hcc.Input.LogA_Na
  let loga_k := hcc.Input.LogA_K
  let loga_oh := hcc.Input.LogA_OH
  let logs_ch := Log10SaturationIndexOfCH si_ca
  let s_ch := lib.pow 10 logs_ch
  let logs_sh := Log10SaturationIndexOfSH lib hcc si_si s_ch
  let s_sh := lib.pow 10 logs_sh
  let logs_ah3 := Log10SaturationIndexOfAH3 si_al
  let s_ah3 := lib.pow 10 logs_ah3
  let logk_ch := hcc.Log10SolubilityProductConstantOf Solid.CH
  let logq_ch := logs_ch + logk_ch
  let logk_sh := hcc.Log10SolubilityProductConstantOf Solid.SH
  let logq_sh := logs_sh + logk_sh
  let logk_ah3 := hcc.Log10SolubilityProductConstantOf Solid.AH3
  let logq_ah3 := logs_ah3 + logk_ah3
  let csc := hcc.CementSolutionChemistry
  let csc := { csc with Input := {
    LogQ_CH := logq_ch, LogQ_SH := logq_sh, LogA_H2SO4 := loga_h2so4, LogA_Na := loga_na,
    LogA_K := loga_k, LogA_OH := loga_oh, LogQ_AH3 := logq_ah3 } }
  let csc := lib.CementSolutionChemistry_ComputeSystem System.CaO_SiO2_Na2O_K2O_SO3_Al2O3_H2O csc
  let csc := lib.CementSolutionChemistry_UpdateSolution csc
  let s := Function.update hcc.SaturationIndexOf Solid.CH s_ch
  let s := Function.update s Solid.SH s_sh
  let s := Function.update s Solid.AH3 s_ah3
  let l := Function.update hcc.Log10SaturationIndexOf Solid.CH logs_ch
  let l := Function.update l Solid.SH logs_sh
  let l := Function.update l Solid.AH3 logs_ah3
  let loga_ca := csc.LogActivityOf Species.Ca
  let loga_so4 := csc.LogActivityOf Species.SO4
  let loga_al := csc.LogActivityOf Species.Al
  let loga_alo4h4 := csc.LogActivityOf Species.AlO4H4
  let loga_h := csc.LogActivityOf Species.H
  let loga_h2o := csc.LogActivityOf Species.H2O
  let logq_csh2 := loga_ca + loga_so4 + 2 * loga_h2o
  let logk_csh2 := hcc.Log10SolubilityProductConstantOf Solid.CSH2
  let logs_csh2 := logq_csh2 - logk_csh2
  let s_csh2 := lib.pow 10 logs_csh2
  let logq_afm := 4 * loga_ca + 2 * loga_al + loga_so4 + 18 * loga_h2o - 12 * loga_h
  let logk_afm := hcc.Log10SolubilityProductConstantOf Solid.AFm
  let logs_afm := logq_afm - logk_afm
  let s_afm := lib.pow 10 logs_afm
  let logq_aft := 6 * loga_ca + 2 * loga_al + 3 * loga_so4 + 38 * loga_h2o - 12 * loga_h
  let logk_aft := hcc.Log10SolubilityProductConstantOf Solid.AFt
  let logs_aft := logq_aft - logk_aft
  let s_aft := lib.pow 10 logs_aft
  let logq_c3ah6 := 3 * loga_ca + 2 * loga_al + 12 * loga_h2o - 12 * loga_h
  let logk_c3ah6 := hcc.Log10SolubilityProductConstantOf Solid.C3AH6
  let logs_c3ah6 := logq_c3ah6 - logk_c3ah6
  let s_c3ah6 := lib.pow 10 logs_c3ah6
  let logq_c2ah8 := 2 * loga_ca + 2 * loga_alo4h4 + 2 * loga_oh + 3 * loga_h2o
  let logk_c2ah8 := hcc.Log10SolubilityProductConstantOf Solid.C2AH8
  let logs_c2ah8 := logq_c2ah8 - logk_c2ah8
  let s_c2ah8 := lib.pow 10 logs_c2ah8
  let logq_cah10 := loga_ca + 2 * loga_alo4h4 + 6 * loga_h2o
  let logk_cah10 := hcc.Log10SolubilityProductConstantOf Solid.CAH10
  let logs_cah10 := logq_cah10 - logk_cah10
  let s_cah10 := lib.pow 10 logs_cah10
  let s := Function.update s Solid.CSH2 s_csh2
  let s := Function.update s Solid.AFm s_afm
  let s := Function.update s Solid.AFt s_aft
  let s := Function.update s Solid.C3AH6 s_c3ah6
  let s := Function.update s Solid.C2AH8 s_c2ah8
  let s := Function.update s Solid.CAH10 s_cah10
  let l := Function.update l Solid.CSH2 logs_csh2
  let l := Function.update l Solid.AFm logs_afm
  let l := Function.update l Solid.AFt logs_aft
  let l := Function.update l Solid.C3AH6 logs_c3ah6
  let l := Function.update l Solid.C2AH8 logs_c2ah8
  let l := Function.update l Solid.CAH10 logs_cah10
  let x_csh := hcc.CurveOfCalciumSiliconRatioInCSH s_ch
  let z_csh := hcc.CurveOfWaterSiliconRatioInCSH x_csh
  { hcc with
    CementSolutionChemistry := csc, SaturationIndexOf := s, Log10SaturationIndexOf := l,
    CalciumSiliconRatioInCSH := x_csh, WaterSiliconRatioInCSH := z_csh }

namespace Example

/-- A library for the examples: `pow` and `log10` are replaced by the
identity on their last argument, and the solver of the solution stores the
sum of its inputs `LogQ_CH` and `LogA_H2SO4` as the activity of every
species. -/
def lib : Library where
  pow := fun _ y => y
  log10 := fun x => x
  CementSolutionChemistry_ComputeSystem := fun _ csc =>
    { csc with LogActivityOf := fun _ => csc.Input.LogQ_CH + csc.Input.LogA_H2SO4 }
  CementSolutionChemistry_UpdateSolution := fun csc => csc

/-- A chemistry whose invariant point is at `Log10a_H2SO4eq = 0`, with the
input `LogA_H2SO4 = loga`. -/
def hcc (loga : ℚ) : HardenedCementChemistry_t where
  Input := ⟨-1, -2, -3, loga, 0, 0, 0⟩
  CementSolutionChemistry := ⟨⟨0, 0, 0, 0, 0, 0, 0⟩, fun _ => 0⟩
  Log10EquilibriumH2SO4Activity := 0
  Log10SolubilityProductConstantOf := fun _ => 1
  CurveOfSaturationIndexOfSH := fun x => x
  CurveOfCalciumSiliconRatioInCSH := fun x => x
  CurveOfWaterSiliconRatioInCSH := fun x => x
  SaturationIndexOf := fun _ => 0
  Log10SaturationIndexOf := fun _ => 0
  CalciumSiliconRatioInCSH := 0
  WaterSiliconRatioInCSH := 0

end Example

/-! # Theorems -/

/-! ## Elementary facts on the driver state -/

namespace State

@[simp] theorem log_sols (s : State) (e : Event) : (s.log e).sols = s.sols := rfl
@[simp] theorem log_iterprocess (s : State) (e : Event) : (s.log e).iterprocess = s.iterprocess := rfl
@[simp] theorem log_solver (s : State) (e : Event) : (s.log e).solver = s.solver := rfl
@[simp] theorem log_clock (s : State) (e : Event) : (s.log e).clock = s.clock := rfl
@[simp] theorem log_trace (s : State) (e : Event) : (s.log e).trace = e :: s.trace := rfl
@[simp] theorem log_T_1 (s : State) (e : Event) : (s.log e).T_1 = s.T_1 := rfl
@[simp] theorem log_DT_1 (s : State) (e : Event) : (s.log e).DT_1 = s.DT_1 := rfl
@[simp] theorem log_T_n (s : State) (e : Event) : (s.log e).T_n = s.T_n := rfl

@[simp] theorem tick_sols (s : State) : s.tick.sols = s.sols := rfl
@[simp] theorem tick_iterprocess (s : State) : s.tick.iterprocess = s.iterprocess := rfl
@[simp] theorem tick_solver (s : State) : s.tick.solver = s.solver := rfl
@[simp] theorem tick_trace (s : State) : s.tick.trace = s.trace := rfl
@[simp] theorem tick_T_1 (s : State) : s.tick.T_1 = s.T_1 := rfl
@[simp] theorem tick_DT_1 (s : State) : s.tick.DT_1 = s.DT_1 := rfl
@[simp] theorem tick_T_n (s : State) : s.tick.T_n = s.T_n := rfl

@[simp] theorem setIterProcess_sols (s : State) (ip : IterProcess) :
    (s.setIterProcess ip).sols = s.sols := rfl
@[simp] theorem setIterProcess_iterprocess (s : State) (ip : IterProcess) :
    (s.setIterProcess ip).iterprocess = ip := rfl
@[simp] theorem setIterProcess_solver (s : State) (ip : IterProcess) :
    (s.setIterProcess ip).solver = s.solver := rfl
@[simp] theorem setIterProcess_clock (s : State) (ip : IterProcess) :
    (s.setIterProcess ip).clock = s.clock := rfl
@[simp] theorem setIterProcess_trace (s : State) (ip : IterProcess) :
    (s.setIterProcess ip).trace = s.trace := rfl
@[simp] theorem setIterProcess_T_1 (s : State) (ip : IterProcess) :
    (s.setIterProcess ip).T_1 = s.T_1 := rfl
@[simp] theorem setIterProcess_DT_1 (s : State) (ip : IterProcess) :
    (s.setIterProcess ip).DT_1 = s.DT_1 := rfl
@[simp] theorem setIterProcess_T_n (s : State) (ip : IterProcess) :
    (s.setIterProcess ip).T_n = s.T_n := rfl

@[simp] theorem setSolver_sols (s : State) (sv : Solver) : (s.setSolver sv).sols = s.sols := rfl
@[simp] theorem setSolver_iterprocess (s : State) (sv : Solver) :
    (s.setSolver sv).iterprocess = s.iterprocess := rfl
@[simp] theorem setSolver_solver (s : State) (sv : Solver) : (s.setSolver sv).solver = sv := rfl
@[simp] theorem setSolver_clock (s : State) (sv : Solver) : (s.setSolver sv).clock = s.clock := rfl
@[simp] theorem setSolver_trace (s : State) (sv : Solver) : (s.setSolver sv).trace = s.trace := rfl
@[simp] theorem setSolver_T_1 (s : State) (sv : Solver) : (s.setSolver sv).T_1 = s.T_1 := rfl
@[simp] theorem setSolver_DT_1 (s : State) (sv : Solver) : (s.setSolver sv).DT_1 = s.DT_1 := rfl
@[simp] theorem setSolver_T_n (s : State) (sv : Solver) : (s.setSolver sv).T_n = s.T_n := rfl

@[simp] theorem setSols_sols (s : State) (x : Solutions) : (s.setSols x).sols = x := rfl
@[simp] theorem setSols_iterprocess (s : State) (x : Solutions) :
    (s.setSols x).iterprocess = s.iterprocess := rfl
@[simp] theorem setSols_solver (s : State) (x : Solutions) : (s.setSols x).solver = s.solver := rfl
@[simp] theorem setSols_clock (s : State) (x : Solutions) : (s.setSols x).clock = s.clock := rfl
@[simp] theorem setSols_trace (s : State) (x : Solutions) : (s.setSols x).trace = s.trace := rfl

@[simp] theorem setSOL_1_cursor (s : State) (v : Solution) :
    (s.setSOL_1 v).sols.cursor = s.sols.cursor := rfl
@[simp] theorem setSOL_1_NbOfSolutions (s : State) (v : Solution) :
    (s.setSOL_1 v).sols.NbOfSolutions = s.sols.NbOfSolutions := rfl
@[simp] theorem setSOL_1_previous (s : State) (v : Solution) :
    (s.setSOL_1 v).sols.previous = s.sols.previous := rfl
@[simp] theorem setSOL_1_iterprocess (s : State) (v : Solution) :
    (s.setSOL_1 v).iterprocess = s.iterprocess := rfl
@[simp] theorem setSOL_1_solver (s : State) (v : Solution) :
    (s.setSOL_1 v).solver = s.solver := rfl
@[simp] theorem setSOL_1_clock (s : State) (v : Solution) :
    (s.setSOL_1 v).clock = s.clock := rfl
@[simp] theorem setSOL_1_trace (s : State) (v : Solution) :
    (s.setSOL_1 v).trace = s.trace := rfl
@[simp] theorem setSOL_1_current (s : State) (v : Solution) :
    (s.setSOL_1 v).sols.solution s.sols.cursor = v := by
  simp [setSOL_1]
theorem setSOL_1_other (s : State) (v : Solution) (i : Nat) (h : i ≠ s.sols.cursor) :
    (s.setSOL_1 v).sols.solution i = s.sols.solution i := by
  simp [setSOL_1, Function.update_noteq h]

@[simp] theorem setDT_1_DT_1 (s : State) (v : ℚ) : (s.setDT_1 v).DT_1 = v := by
  simp [setDT_1, DT_1]
@[simp] theorem setDT_1_T_1 (s : State) (v : ℚ) : (s.setDT_1 v).T_1 = s.T_1 := by
  simp [setDT_1, T_1]
@[simp] theorem setT_1_T_1 (s : State) (v : ℚ) : (s.setT_1 v).T_1 = v := by
  simp [setT_1, T_1]
@[simp] theorem setT_1_DT_1 (s : State) (v : ℚ) : (s.setT_1 v).DT_1 = s.DT_1 := by
  simp [setT_1, DT_1]
@[simp] theorem setSTEP_1_T_1 (s : State) (v : Int) : (s.setSTEP_1 v).T_1 = s.T_1 := by
  simp [setSTEP_1, T_1]
@[simp] theorem setSTEP_1_DT_1 (s : State) (v : Int) : (s.setSTEP_1 v).DT_1 = s.DT_1 := by
  simp [setSTEP_1, DT_1]

@[simp] theorem setDT_1_iterprocess (s : State) (v : ℚ) :
    (s.setDT_1 v).iterprocess = s.iterprocess := rfl
@[simp] theorem setT_1_iterprocess (s : State) (v : ℚ) :
    (s.setT_1 v).iterprocess = s.iterprocess := rfl
@[simp] theorem setSTEP_1_iterprocess (s : State) (v : Int) :
    (s.setSTEP_1 v).iterprocess = s.iterprocess := rfl
@[simp] theorem setDT_1_trace (s : State) (v : ℚ) : (s.setDT_1 v).trace = s.trace := rfl
@[simp] theorem setT_1_trace (s : State) (v : ℚ) : (s.setT_1 v).trace = s.trace := rfl
@[simp] theorem setSTEP_1_trace (s : State) (v : Int) : (s.setSTEP_1 v).trace = s.trace := rfl
@[simp] theorem setDT_1_cursor (s : State) (v : ℚ) :
    (s.setDT_1 v).sols.cursor = s.sols.cursor := rfl
@[simp] theorem setT_1_cursor (s : State) (v : ℚ) :
    (s.setT_1 v).sols.cursor = s.sols.cursor := rfl
@[simp] theorem setSTEP_1_cursor (s : State) (v : Int) :
    (s.setSTEP_1 v).sols.cursor = s.sols.cursor := rfl
@[simp] theorem setDT_1_NbOfSolutions (s : State) (v : ℚ) :
    (s.setDT_1 v).sols.NbOfSolutions = s.sols.NbOfSolutions := rfl
@[simp] theorem setT_1_NbOfSolutions (s : State) (v : ℚ) :
    (s.setT_1 v).sols.NbOfSolutions = s.sols.NbOfSolutions := rfl
@[simp] theorem setSTEP_1_NbOfSolutions (s : State) (v : Int) :
    (s.setSTEP_1 v).sols.NbOfSolutions = s.sols.NbOfSolutions := rfl

end State



/-! ## The mesh-level loops stop at the first failing element -/

theorem ComputeExplicitTerms_loop_eq_visit (mesh : Mesh) (env : Env) (clk : Nat) (t : ℚ)
    (l : List Nat) :
    ComputeExplicitTerms.loop mesh env clk t l
      = visit (fun ie => (mesh.Element ie).Material)
          (fun ie => env.Element_ComputeExplicitTerms clk ie t) l := by
  induction l with
  | nil => rfl
  | cons ie rest ih =>
    simp only [ComputeExplicitTerms.loop, visit, ih]

theorem ComputeImplicitTerms_loop_eq_visit (mesh : Mesh) (env : Env) (clk : Nat) (t dt : ℚ)
    (l : List Nat) :
    ComputeImplicitTerms.loop mesh env clk t dt l
      = visit (fun ie => (mesh.Element ie).Material)
          (fun ie => env.Element_ComputeImplicitTerms clk ie t dt) l := by
  induction l with
  | nil => rfl
  | cons ie rest ih =>
    simp only [ComputeImplicitTerms.loop, visit, ih]

theorem ComputeMatrix_loop_eq_visit (mesh : Mesh) (env : Env) (clk : Nat) (t dt : ℚ)
    (l : List Nat) (a : Matrix) (cl : (Nat → Int) × (Nat → Int)) :
    ((ComputeMatrix.loop mesh env clk t dt l a cl).code,
      (ComputeMatrix.loop mesh env clk t dt l a cl).invoked)
      = visit (fun ie => (mesh.Element ie).Material)
          (fun ie => env.Element_ComputeMatrix clk ie t dt) l := by
  induction l generalizing a cl with
  | nil => rfl
  | cons ie rest ih =>
    simp only [ComputeMatrix.loop, visit]
    by_cases hm : (mesh.Element ie).Material = true
    · simp only [hm, if_true]
      cases hc : env.Element_ComputeMatrix clk ie t dt with
      | interrupt => rfl
      | ret i =>
        by_cases hi : i = 0
        · have h := ih (env.Matrix_AssembleElementMatrix a (env.ke clk ie t dt)
              (ComputeMatrix.indexes (mesh.Element ie) cl).1 (ComputeMatrix.indexes (mesh.Element ie) cl).2
              ((mesh.Element ie).NbOfNodes * (mesh.Element ie).NbOfEquations))
              (ComputeMatrix.indexes (mesh.Element ie) cl)
          simp [hi, ← h]
        · simp [hi]
    · simp only [hm, if_false]
      exact ih a cl

theorem visit_ok_iff (mat : Nat → Bool) (f : Nat → Call) (l : List Nat) :
    (visit mat f l).1 = Call.ret 0 ↔ ∀ ie ∈ l, mat ie = true → f ie = Call.ret 0 := by
  induction l with
  | nil => simp [visit]
  | cons ie rest ih =>
    simp only [visit, List.mem_cons, forall_eq_or_imp]
    by_cases hm : mat ie = true
    · simp only [hm, if_true, true_implies]
      cases hf : f ie with
      | interrupt => simp
      | ret i =>
        by_cases hi : i = 0
        · simp [hi, ih]
        · simp [hi]
    · simp [hm, ih]

theorem visit_ok_invoked (mat : Nat → Bool) (f : Nat → Call) (l : List Nat)
    (h : ∀ ie ∈ l, mat ie = true → f ie = Call.ret 0) :
    visit mat f l = (Call.ret 0, l.filter mat) := by
  induction l with
  | nil => simp [visit]
  | cons ie rest ih =>
    have h1 := ih (fun x hx => h x (List.mem_cons_of_mem _ hx))
    by_cases hm : mat ie = true
    · have h0 := h ie (List.mem_cons_self _ _) hm
      simp [visit, hm, h0, h1]
    · simp [visit, hm, h1]

theorem visit_first_failure (mat : Nat → Bool) (f : Nat → Call) (l1 l2 : List Nat) (ie0 : Nat)
    (h1 : ∀ ie ∈ l1, mat ie = true → f ie = Call.ret 0)
    (hm : mat ie0 = true) (hf : f ie0 ≠ Call.ret 0) :
    visit mat f (l1 ++ ie0 :: l2) = (f ie0, l1.filter mat ++ [ie0]) := by
  induction l1 with
  | nil =>
    simp only [List.nil_append, visit, hm, if_true, List.filter_nil]
    cases hc : f ie0 with
    | interrupt => rfl
    | ret i =>
      have hi : i ≠ 0 := by
        intro h0; apply hf; rw [hc, h0]
      simp [hi]
  | cons ie rest ih =>
    have h2 := ih (fun x hx => h1 x (List.mem_cons_of_mem _ hx))
    by_cases hme : mat ie = true
    · have h0 := h1 ie (List.mem_cons_self _ _) hme
      simp [visit, hme, h0, h2]
    · simp [visit, hme, h2]

theorem range_split (n ie0 : Nat) (h : ie0 < n) :
    ∃ l2, List.range n = List.range ie0 ++ ie0 :: l2 := by
  obtain ⟨k, rfl⟩ : ∃ k, n = ie0 + (k + 1) := ⟨n - ie0 - 1, by omega⟩
  refine ⟨(List.range k).map (fun x => ie0 + (x + 1)), ?_⟩
  rw [List.range_add, List.range_succ_eq_map]
  simp [Function.comp_def]

theorem visit_contract (n : Nat) (mat : Nat → Bool) (f : Nat → Call) :
    FirstFailureContract n mat f (visit mat f (List.range n)) := by
  refine ⟨?_, ?_, ?_, ?_⟩
  · rw [visit_ok_iff]; simp [List.mem_range]
  · intro h
    rw [visit_ok_iff] at h
    rw [visit_ok_invoked mat f _ h]
  · intro ie0 h0 hm hf hlt
    obtain ⟨l2, hl⟩ := range_split n ie0 h0
    rw [hl, visit_first_failure mat f _ _ _ (by simpa [List.mem_range] using hlt) hm hf]
    simp [List.range_succ, List.filter_append, hm]
  · intro ie hie
    by_cases hall : ∀ ie, ie < n → mat ie = true → f ie = Call.ret 0
    · rw [visit_ok_invoked mat f _ (by simpa [List.mem_range] using hall)] at hie
      simp at hie; exact hie.2
    · -- least failing element
      have hex : ∃ ie0, ie0 < n ∧ mat ie0 = true ∧ f ie0 ≠ Call.ret 0 := by
        push_neg at hall; exact hall
      classical
      let ie0 := Nat.find hex
      have hs := Nat.find_spec hex
      have hmin : ∀ ie, ie < ie0 → mat ie = true → f ie = Call.ret 0 := by
        intro x hx hmx
        by_contra hne
        exact Nat.find_min hex hx ⟨lt_trans hx hs.1, hmx, hne⟩
      obtain ⟨l2, hl⟩ := range_split n ie0 hs.1
      rw [hl, visit_first_failure mat f _ _ _ (by simpa [List.mem_range] using hmin) hs.2.1 hs.2.2] at hie
      simp at hie
      rcases hie with h | h
      · exact h.2
      · rw [h]; exact hs.2.1


/-- C9: `ComputeExplicitTerms`, `ComputeImplicitTerms` and `ComputeMatrix`
return 0 if and only if the entry point returns 0 for every element that has a
material; otherwise their outcome is that of the first element (in mesh order)
with a material that does not return 0, a non-zero code when that element
returns, and no later element is invoked; elements without a material are
never invoked. -/
theorem C9_first_failing_element (mesh : Mesh) (env : Env) (clk : Nat) (t dt : ℚ)
    (a : Matrix) (cl : (Nat → Int) × (Nat → Int)) :
    FirstFailureContract mesh.NbOfElements (fun ie => (mesh.Element ie).Material)
        (fun ie => env.Element_ComputeExplicitTerms clk ie t)
        (ComputeExplicitTerms mesh env clk t) ∧
    FirstFailureContract mesh.NbOfElements (fun ie => (mesh.Element ie).Material)
        (fun ie => env.Element_ComputeImplicitTerms clk ie t dt)
        (ComputeImplicitTerms mesh env clk t dt) ∧
    FirstFailureContract mesh.NbOfElements (fun ie => (mesh.Element ie).Material)
        (fun ie => env.Element_ComputeMatrix clk ie t dt)
        ((ComputeMatrix mesh env clk t dt a cl).code,
          (ComputeMatrix mesh env clk t dt a cl).invoked) := by
  refine ⟨?_, ?_, ?_⟩
  · rw [ComputeExplicitTerms, ComputeExplicitTerms_loop_eq_visit]
    exact visit_contract _ _ _
  · rw [ComputeImplicitTerms, ComputeImplicitTerms_loop_eq_visit]
    exact visit_contract _ _ _
  · rw [ComputeMatrix, ComputeMatrix_loop_eq_visit]
    exact visit_contract _ _ _

/-! ## The index arrays handed to the scatter-add -/

theorem setIndexes_at (el : Element) (i j : Nat) (cl : (Nat → Int) × (Nat → Int)) :
    (ComputeMatrix.setIndexes el i j cl).1 (i * el.NbOfEquations + j) = globalColumn el i j ∧
    (ComputeMatrix.setIndexes el i j cl).2 (i * el.NbOfEquations + j) = globalRow el i j := by
  simp [ComputeMatrix.setIndexes, globalColumn, globalRow]

theorem setIndexes_off (el : Element) (i j x : Nat) (cl : (Nat → Int) × (Nat → Int))
    (hx : x ≠ i * el.NbOfEquations + j) :
    (ComputeMatrix.setIndexes el i j cl).1 x = cl.1 x ∧
    (ComputeMatrix.setIndexes el i j cl).2 x = cl.2 x := by
  simp [ComputeMatrix.setIndexes, Function.update_noteq hx]

theorem setIndexes_fold (el : Element) (i m : Nat) (cl : (Nat → Int) × (Nat → Int)) :
    (∀ j, j < m →
      ((List.range m).foldl (fun cl j => ComputeMatrix.setIndexes el i j cl) cl).1
          (i * el.NbOfEquations + j) = globalColumn el i j ∧
      ((List.range m).foldl (fun cl j => ComputeMatrix.setIndexes el i j cl) cl).2
          (i * el.NbOfEquations + j) = globalRow el i j) ∧
    (∀ x, (x < i * el.NbOfEquations ∨ i * el.NbOfEquations + m ≤ x) →
      ((List.range m).foldl (fun cl j => ComputeMatrix.setIndexes el i j cl) cl).1 x = cl.1 x ∧
      ((List.range m).foldl (fun cl j => ComputeMatrix.setIndexes el i j cl) cl).2 x = cl.2 x) := by
  induction m with
  | zero => simp
  | succ m ih =>
    obtain ⟨ih1, ih2⟩ := ih
    simp only [List.range_succ, List.foldl_append, List.foldl_cons, List.foldl_nil]
    constructor
    · intro j hj
      by_cases hjm : j = m
      · subst hjm
        exact setIndexes_at el i j _
      · have hne : i * el.NbOfEquations + j ≠ i * el.NbOfEquations + m := by omega
        have h := setIndexes_off el i m _
          ((List.range m).foldl (fun cl j => ComputeMatrix.setIndexes el i j cl) cl) hne
        rw [h.1, h.2]
        exact ih1 j (by omega)
    · intro x hx
      have hne : x ≠ i * el.NbOfEquations + m := by omega
      have h := setIndexes_off el i m _
        ((List.range m).foldl (fun cl j => ComputeMatrix.setIndexes el i j cl) cl) hne
      rw [h.1, h.2]
      exact ih2 x (by omega)

theorem indexes_fold (el : Element) (n : Nat) (cl : (Nat → Int) × (Nat → Int)) :
    (∀ i j, i < n → j < el.NbOfEquations →
      ((List.range n).foldl (fun cl i => (List.range el.NbOfEquations).foldl
          (fun cl j => ComputeMatrix.setIndexes el i j cl) cl) cl).1
          (i * el.NbOfEquations + j) = globalColumn el i j ∧
      ((List.range n).foldl (fun cl i => (List.range el.NbOfEquations).foldl
          (fun cl j => ComputeMatrix.setIndexes el i j cl) cl) cl).2
          (i * el.NbOfEquations + j) = globalRow el i j) ∧
    (∀ x, n * el.NbOfEquations ≤ x →
      ((List.range n).foldl (fun cl i => (List.range el.NbOfEquations).foldl
          (fun cl j => ComputeMatrix.setIndexes el i j cl) cl) cl).1 x = cl.1 x ∧
      ((List.range n).foldl (fun cl i => (List.range el.NbOfEquations).foldl
          (fun cl j => ComputeMatrix.setIndexes el i j cl) cl) cl).2 x = cl.2 x) := by
  induction n with
  | zero => simp
  | succ n ih =>
    obtain ⟨ih1, ih2⟩ := ih
    simp only [List.range_succ, List.foldl_append, List.foldl_cons, List.foldl_nil]
    have hin := setIndexes_fold el n el.NbOfEquations
      ((List.range n).foldl (fun cl i => (List.range el.NbOfEquations).foldl
          (fun cl j => ComputeMatrix.setIndexes el i j cl) cl) cl)
    constructor
    · intro i j hi hj
      by_cases hin' : i = n
      · subst hin'
        exact hin.1 j hj
      · have hlt : i * el.NbOfEquations + j < n * el.NbOfEquations := by
          have h1 : (i + 1) * el.NbOfEquations ≤ n * el.NbOfEquations :=
            Nat.mul_le_mul_right _ (by omega)
          have h2 : (i + 1) * el.NbOfEquations = i * el.NbOfEquations + el.NbOfEquations := by
            ring
          omega
        have h := hin.2 (i * el.NbOfEquations + j) (Or.inl hlt)
        rw [h.1, h.2]
        exact ih1 i j (by omega) hj
    · intro x hx
      have h2 : (n + 1) * el.NbOfEquations = n * el.NbOfEquations + el.NbOfEquations := by ring
      have h := hin.2 x (Or.inr (by omega))
      rw [h.1, h.2]
      exact ih2 x (by omega)

theorem indexes_spec (el : Element) (cl : (Nat → Int) × (Nat → Int)) (i j : Nat)
    (hi : i < el.NbOfNodes) (hj : j < el.NbOfEquations) :
    (ComputeMatrix.indexes el cl).1 (i * el.NbOfEquations + j) = globalColumn el i j ∧
    (ComputeMatrix.indexes el cl).2 (i * el.NbOfEquations + j) = globalRow el i j :=
  (indexes_fold el el.NbOfNodes cl).1 i j hi hj

/-- What every scatter-add of `ComputeMatrix` is handed over. -/
theorem loop_assembled (mesh : Mesh) (env : Env) (clk : Nat) (t dt : ℚ) (l : List Nat) :
    ∀ (a : Matrix) (cl : (Nat → Int) × (Nat → Int)),
    ∀ c ∈ (ComputeMatrix.loop mesh env clk t dt l a cl).assembled,
      c.ie ∈ l ∧ (mesh.Element c.ie).Material = true ∧
      c.n = (mesh.Element c.ie).NbOfNodes * (mesh.Element c.ie).NbOfEquations ∧
      c.ke = env.ke clk c.ie t dt ∧
      ∀ i j, i < (mesh.Element c.ie).NbOfNodes → j < (mesh.Element c.ie).NbOfEquations →
        c.cole (i * (mesh.Element c.ie).NbOfEquations + j) = globalColumn (mesh.Element c.ie) i j ∧
        c.lige (i * (mesh.Element c.ie).NbOfEquations + j) = globalRow (mesh.Element c.ie) i j := by
  induction l with
  | nil => intro a cl c hc; simp [ComputeMatrix.loop] at hc
  | cons ie rest ih =>
    intro a cl c hc
    simp only [ComputeMatrix.loop] at hc
    by_cases hm : (mesh.Element ie).Material = true
    · simp only [hm, if_true] at hc
      cases hcall : env.Element_ComputeMatrix clk ie t dt with
      | interrupt => simp [hcall] at hc
      | ret i =>
        by_cases hi : i = 0
        · simp only [hcall, hi, ne_eq, not_true_eq_false, if_false, List.mem_cons] at hc
          rcases hc with hc | hc
          · subst hc
            refine ⟨List.mem_cons_self _ _, hm, rfl, rfl, ?_⟩
            intro i j hi hj
            exact indexes_spec (mesh.Element ie) cl i j hi hj
          · obtain ⟨h1, h2⟩ := ih _ _ c hc
            exact ⟨List.mem_cons_of_mem _ h1, h2⟩
        · simp [hcall, hi] at hc
    · simp only [hm] at hc
      obtain ⟨h1, h2⟩ := ih _ _ c hc
      exact ⟨List.mem_cons_of_mem _ h1, h2⟩

/-- The first scatter-add receives the matrix the loop was entered with. -/
theorem loop_assembled_head (mesh : Mesh) (env : Env) (clk : Nat) (t dt : ℚ) (l : List Nat) :
    ∀ (a : Matrix) (cl : (Nat → Int) × (Nat → Int)) (c : AssembleCall),
      (ComputeMatrix.loop mesh env clk t dt l a cl).assembled.head? = some c → c.a = a := by
  induction l with
  | nil => intro a cl c hc; simp [ComputeMatrix.loop] at hc
  | cons ie rest ih =>
    intro a cl c hc
    simp only [ComputeMatrix.loop] at hc
    by_cases hm : (mesh.Element ie).Material = true
    · simp only [hm, if_true] at hc
      cases hcall : env.Element_ComputeMatrix clk ie t dt with
      | interrupt => simp [hcall] at hc
      | ret i =>
        by_cases hi : i = 0
        · simp only [hcall, hi, ne_eq, not_true_eq_false, if_false, List.head?_cons,
            Option.some.injEq] at hc
          rw [← hc]
        · simp [hcall, hi] at hc
    · simp only [hm] at hc
      exact ih a cl c hc

/-- Without a scatter-add the matrix is returned as the loop was entered. -/
theorem loop_assembled_nil (mesh : Mesh) (env : Env) (clk : Nat) (t dt : ℚ) (l : List Nat) :
    ∀ (a : Matrix) (cl : (Nat → Int) × (Nat → Int)),
      (ComputeMatrix.loop mesh env clk t dt l a cl).assembled = [] →
      (ComputeMatrix.loop mesh env clk t dt l a cl).a = a := by
  induction l with
  | nil => intro a cl _; rfl
  | cons ie rest ih =>
    intro a cl hc
    simp only [ComputeMatrix.loop] at hc ⊢
    by_cases hm : (mesh.Element ie).Material = true
    · simp only [hm, if_true] at hc ⊢
      cases hcall : env.Element_ComputeMatrix clk ie t dt with
      | interrupt => simp
      | ret i =>
        by_cases hi : i = 0
        · simp [hcall, hi] at hc
        · simp [hi]
    · simp only [hm] at hc ⊢
      exact ih a cl hc

/-- When the loop returns 0 the scatter-adds are those of the invoked elements. -/
theorem loop_assembled_ok (mesh : Mesh) (env : Env) (clk : Nat) (t dt : ℚ) (l : List Nat) :
    ∀ (a : Matrix) (cl : (Nat → Int) × (Nat → Int)),
      (ComputeMatrix.loop mesh env clk t dt l a cl).code = Call.ret 0 →
      (ComputeMatrix.loop mesh env clk t dt l a cl).assembled.map (fun c => c.ie)
        = (ComputeMatrix.loop mesh env clk t dt l a cl).invoked := by
  induction l with
  | nil => intro a cl _; rfl
  | cons ie rest ih =>
    intro a cl hc
    simp only [ComputeMatrix.loop] at hc ⊢
    by_cases hm : (mesh.Element ie).Material = true
    · simp only [hm, if_true] at hc ⊢
      cases hcall : env.Element_ComputeMatrix clk ie t dt with
      | interrupt => simp [hcall] at hc
      | ret i =>
        by_cases hi : i = 0
        · simp only [hcall, hi, ne_eq, not_true_eq_false, if_false] at hc ⊢
          simp only [List.map_cons, List.cons.injEq, true_and]
          exact ih _ _ hc
        · simp [hcall, hi] at hc
    · simp only [hm] at hc ⊢
      exact ih a cl hc

/-- C7: in `ComputeMatrix` the first scatter-add receives a matrix whose
nonzero values are all zero (and so does the caller when no scatter-add is
made); when the assembly returns 0 there is one scatter-add for each element
that has a material, in mesh order; and every scatter-add is handed, for an
element with a material, the block size `nn*neq` and, at every local DOF
`ij = i*neq + j` with `i < nn` and `j < neq`, the column index of node `i` at
the unknown slot when that slot is `>= 0` and `-1` otherwise, and the row index
of node `i` at the equation slot when that slot is `>= 0` and `-1` otherwise. -/
theorem C7_tangent_assembly (mesh : Mesh) (env : Env) (clk : Nat) (t dt : ℚ) (a : Matrix)
    (cl : (Nat → Int) × (Nat → Int)) :
    (∀ c, (ComputeMatrix mesh env clk t dt a cl).assembled.head? = some c →
      c.a.NbOfNonZeroValues = a.NbOfNonZeroValues ∧
      ∀ j, j < a.NbOfNonZeroValues → c.a.NonZeroValue j = 0) ∧
    ((ComputeMatrix mesh env clk t dt a cl).assembled = [] →
      ∀ j, j < a.NbOfNonZeroValues → (ComputeMatrix mesh env clk t dt a cl).a.NonZeroValue j = 0) ∧
    ((ComputeMatrix mesh env clk t dt a cl).code = Call.ret 0 →
      (ComputeMatrix mesh env clk t dt a cl).assembled.map (fun c => c.ie)
        = (List.range mesh.NbOfElements).filter (fun ie => (mesh.Element ie).Material)) ∧
    (∀ c ∈ (ComputeMatrix mesh env clk t dt a cl).assembled,
      c.ie < mesh.NbOfElements ∧ (mesh.Element c.ie).Material = true ∧
      c.n = (mesh.Element c.ie).NbOfNodes * (mesh.Element c.ie).NbOfEquations ∧
      c.ke = env.ke clk c.ie t dt ∧
      ∀ i j, i < (mesh.Element c.ie).NbOfNodes → j < (mesh.Element c.ie).NbOfEquations →
        c.cole (i * (mesh.Element c.ie).NbOfEquations + j)
          = (if 0 ≤ (mesh.Element c.ie).UnknownPosition (i * (mesh.Element c.ie).NbOfEquations + j)
             then ((mesh.Element c.ie).GetNode i).MatrixColumnIndex
               ((mesh.Element c.ie).UnknownPosition (i * (mesh.Element c.ie).NbOfEquations + j)).toNat
             else -1) ∧
        c.lige (i * (mesh.Element c.ie).NbOfEquations + j)
          = (if 0 ≤ (mesh.Element c.ie).EquationPosition (i * (mesh.Element c.ie).NbOfEquations + j)
             then ((mesh.Element c.ie).GetNode i).MatrixRowIndex
               ((mesh.Element c.ie).EquationPosition (i * (mesh.Element c.ie).NbOfEquations + j)).toNat
             else -1)) := by
  refine ⟨?_, ?_, ?_, ?_⟩
  · intro c hc
    have h := loop_assembled_head mesh env clk t dt _ _ _ c hc
    rw [h]
    refine ⟨rfl, ?_⟩
    intro j hj
    simp [Matrix.zeroed, hj]
  · intro hnil j hj
    have h := loop_assembled_nil mesh env clk t dt _ _ _ hnil
    rw [ComputeMatrix, h]
    simp [Matrix.zeroed, hj]
  · intro hok
    have h := loop_assembled_ok mesh env clk t dt _ _ _ hok
    rw [ComputeMatrix] at hok ⊢
    rw [h]
    have hv := ComputeMatrix_loop_eq_visit mesh env clk t dt
      (List.range mesh.NbOfElements) a.zeroed cl
    have hc := visit_contract mesh.NbOfElements (fun ie => (mesh.Element ie).Material)
      (fun ie => env.Element_ComputeMatrix clk ie t dt)
    rw [← hv] at hc
    exact hc.2.1 hok
  · intro c hc
    obtain ⟨h1, h2, h3, h4, h5⟩ := loop_assembled mesh env clk t dt _ _ _ c hc
    refine ⟨List.mem_range.1 h1, h2, h3, h4, ?_⟩
    intro i j hi hj
    exact h5 i j hi hj

/-! ## The residual is the sum of the element blocks -/

theorem add_apply (el : Element) (re : Nat → ℚ) (i j : Nat) (r : Nat → ℚ) (k : Nat) :
    ComputeResidu.add el re i j r k = r k +
      (if 0 ≤ el.UnknownPosition (i * el.NbOfEquations + j) ∧
          (el.GetNode i).MatrixColumnIndex (el.UnknownPosition (i * el.NbOfEquations + j)).toNat
            = (k : Int)
       then re (i * el.NbOfEquations + j) else 0) := by
  unfold ComputeResidu.add
  by_cases h1 : 0 ≤ el.UnknownPosition (i * el.NbOfEquations + j)
  · by_cases h2 : 0 ≤ (el.GetNode i).MatrixColumnIndex
        (el.UnknownPosition (i * el.NbOfEquations + j)).toNat
    · by_cases h3 : (el.GetNode i).MatrixColumnIndex
          (el.UnknownPosition (i * el.NbOfEquations + j)).toNat = (k : Int)
      · have h4 : ((el.GetNode i).MatrixColumnIndex
            (el.UnknownPosition (i * el.NbOfEquations + j)).toNat).toNat = k := by
          rw [h3]; simp
        simp [h1, h2, h3, h4]
      · have h4 : k ≠ ((el.GetNode i).MatrixColumnIndex
            (el.UnknownPosition (i * el.NbOfEquations + j)).toNat).toNat := by
          intro h
          apply h3
          rw [h, Int.toNat_of_nonneg h2]
        simp [h1, h2, h3, Function.update_noteq h4]
    · have h3 : ¬ (el.GetNode i).MatrixColumnIndex
          (el.UnknownPosition (i * el.NbOfEquations + j)).toNat = (k : Int) := by
        intro h; apply h2; rw [h]; exact Int.natCast_nonneg k
      simp [h1, h2, h3]
  · simp [h1]

theorem add_fold (el : Element) (re : Nat → ℚ) (i m : Nat) (r : Nat → ℚ) (k : Nat) :
    (List.range m).foldl (fun r j => ComputeResidu.add el re i j r) r k = r k +
      ∑ j ∈ Finset.range m,
        (if 0 ≤ el.UnknownPosition (i * el.NbOfEquations + j) ∧
            (el.GetNode i).MatrixColumnIndex (el.UnknownPosition (i * el.NbOfEquations + j)).toNat
              = (k : Int)
         then re (i * el.NbOfEquations + j) else 0) := by
  induction m with
  | zero => simp
  | succ m ih =>
    simp only [List.range_succ, List.foldl_append, List.foldl_cons, List.foldl_nil]
    rw [add_apply, ih, Finset.sum_range_succ]
    ring

theorem assemble_fold (el : Element) (re : Nat → ℚ) (n : Nat) (r : Nat → ℚ) (k : Nat) :
    (List.range n).foldl (fun r i => (List.range el.NbOfEquations).foldl
        (fun r j => ComputeResidu.add el re i j r) r) r k = r k +
      ∑ i ∈ Finset.range n, ∑ j ∈ Finset.range el.NbOfEquations,
        (if 0 ≤ el.UnknownPosition (i * el.NbOfEquations + j) ∧
            (el.GetNode i).MatrixColumnIndex (el.UnknownPosition (i * el.NbOfEquations + j)).toNat
              = (k : Int)
         then re (i * el.NbOfEquations + j) else 0) := by
  induction n with
  | zero => simp
  | succ n ih =>
    simp only [List.range_succ, List.foldl_append, List.foldl_cons, List.foldl_nil]
    rw [add_fold, ih, Finset.sum_range_succ]
    ring

theorem assemble_apply (el : Element) (re : Nat → ℚ) (r : Nat → ℚ) (k : Nat) :
    ComputeResidu.assemble el re r k = r k + dofSum el re k :=
  assemble_fold el re el.NbOfNodes r k

theorem sum_map_range (f : Nat → ℚ) (n : Nat) :
    ((List.range n).map f).sum = ∑ i ∈ Finset.range n, f i := by
  induction n with
  | zero => simp
  | succ n ih =>
    rw [List.range_succ, List.map_append, List.sum_append, ih, Finset.sum_range_succ]
    simp

theorem residu_loop (mesh : Mesh) (env : Env) (clk : Nat) (t dt : ℚ) (l : List Nat) :
    ∀ r : Nat → ℚ,
    (∀ ie ∈ l, (mesh.Element ie).Material = true →
        env.Element_ComputeResidu clk ie t dt ≠ Call.interrupt) →
    ∃ r1, ComputeResidu.residu mesh env clk t dt l r = some r1 ∧
      ∀ k, r1 k = r k + (l.map (fun ie =>
        if (mesh.Element ie).Material then dofSum (mesh.Element ie) (env.re clk ie t dt) k
        else 0)).sum := by
  induction l with
  | nil => intro r _; exact ⟨r, rfl, by simp⟩
  | cons ie rest ih =>
    intro r h
    have hrest : ∀ x ∈ rest, (mesh.Element x).Material = true →
        env.Element_ComputeResidu clk x t dt ≠ Call.interrupt :=
      fun x hx => h x (List.mem_cons_of_mem _ hx)
    simp only [ComputeResidu.residu]
    by_cases hm : (mesh.Element ie).Material = true
    · have hne := h ie (List.mem_cons_self _ _) hm
      cases hc : env.Element_ComputeResidu clk ie t dt with
      | interrupt => exact absurd hc hne
      | ret i =>
        obtain ⟨r1, h1, h2⟩ := ih
          (ComputeResidu.assemble (mesh.Element ie) (env.re clk ie t dt) r) hrest
        refine ⟨r1, by simp [hm, h1], ?_⟩
        intro k
        rw [h2 k, assemble_apply]
        simp [hm]
        ring
    · obtain ⟨r1, h1, h2⟩ := ih r hrest
      refine ⟨r1, by simp [hm, h1], ?_⟩
      intro k
      rw [h2 k]
      simp [hm]

theorem loadElements_loop (mesh : Mesh) (env : Env) (clk : Nat) (t dt : ℚ) (loads : Loads)
    (i_cg : Nat) (l : List Nat) :
    ∀ r : Nat → ℚ,
    (∀ ie ∈ l, (mesh.Element ie).RegionIndex = (loads.Load i_cg).RegionIndex →
        (mesh.Element ie).Material = true →
        env.Element_ComputeLoads clk ie t dt i_cg ≠ Call.interrupt) →
    ∃ r1, ComputeResidu.loadElements mesh env clk t dt loads i_cg l r = some r1 ∧
      ∀ k, r1 k = r k + (l.map (fun ie =>
        if (mesh.Element ie).RegionIndex = (loads.Load i_cg).RegionIndex ∧
            (mesh.Element ie).Material = true
        then dofSum (mesh.Element ie) (env.reLoads clk ie t dt i_cg) k else 0)).sum := by
  induction l with
  | nil => intro r _; exact ⟨r, rfl, by simp⟩
  | cons ie rest ih =>
    intro r h
    have hrest : ∀ x ∈ rest, (mesh.Element x).RegionIndex = (loads.Load i_cg).RegionIndex →
        (mesh.Element x).Material = true →
        env.Element_ComputeLoads clk x t dt i_cg ≠ Call.interrupt :=
      fun x hx => h x (List.mem_cons_of_mem _ hx)
    simp only [ComputeResidu.loadElements]
    by_cases hr : (mesh.Element ie).RegionIndex = (loads.Load i_cg).RegionIndex
    · by_cases hm : (mesh.Element ie).Material = true
      · have hne := h ie (List.mem_cons_self _ _) hr hm
        cases hc : env.Element_ComputeLoads clk ie t dt i_cg with
        | interrupt => exact absurd hc hne
        | ret i =>
          obtain ⟨r1, h1, h2⟩ := ih
            (ComputeResidu.assemble (mesh.Element ie) (env.reLoads clk ie t dt i_cg) r) hrest
          refine ⟨r1, by simp [hr, hm, h1], ?_⟩
          intro k
          rw [h2 k, assemble_apply]
          simp [hr, hm]
          ring
      · obtain ⟨r1, h1, h2⟩ := ih r hrest
        refine ⟨r1, by simp [hr, hm, h1], ?_⟩
        intro k
        rw [h2 k]
        simp [hm]
    · obtain ⟨r1, h1, h2⟩ := ih r hrest
      refine ⟨r1, by simp [hr, h1], ?_⟩
      intro k
      rw [h2 k]
      simp [hr]

theorem loads_loop (mesh : Mesh) (env : Env) (clk : Nat) (t dt : ℚ) (loads : Loads)
    (l : List Nat) :
    ∀ r : Nat → ℚ,
    (∀ i_cg ∈ l, ∀ ie, ie < mesh.NbOfElements →
        (mesh.Element ie).RegionIndex = (loads.Load i_cg).RegionIndex →
        (mesh.Element ie).Material = true →
        env.Element_ComputeLoads clk ie t dt i_cg ≠ Call.interrupt) →
    ∃ r1, ComputeResidu.loads mesh env clk t dt loads l r = some r1 ∧
      ∀ k, r1 k = r k + (l.map (fun i_cg => ∑ ie ∈ Finset.range mesh.NbOfElements,
        if (mesh.Element ie).RegionIndex = (loads.Load i_cg).RegionIndex ∧
            (mesh.Element ie).Material = true
        then dofSum (mesh.Element ie) (env.reLoads clk ie t dt i_cg) k else 0)).sum := by
  induction l with
  | nil => intro r _; exact ⟨r, rfl, by simp⟩
  | cons i_cg rest ih =>
    intro r h
    obtain ⟨r0, h01, h02⟩ := loadElements_loop mesh env clk t dt loads i_cg
      (List.range mesh.NbOfElements) r
      (fun ie hie => h i_cg (List.mem_cons_self _ _) ie (List.mem_range.1 hie))
    obtain ⟨r1, h1, h2⟩ := ih r0 (fun x hx => h x (List.mem_cons_of_mem _ hx))
    refine ⟨r1, by simp [ComputeResidu.loads, h01, h1], ?_⟩
    intro k
    rw [h2 k, h02 k, sum_map_range]
    simp only [List.map_cons, List.sum_cons]
    ring

/-- The contents of `r` after `ComputeResidu`, at every index. -/
theorem ComputeResidu_apply (mesh : Mesh) (env : Env) (clk : Nat) (t dt : ℚ) (r : Nat → ℚ)
    (loads : Loads)
    (hres : ∀ ie, ie < mesh.NbOfElements → (mesh.Element ie).Material = true →
      env.Element_ComputeResidu clk ie t dt ≠ Call.interrupt)
    (hload : ∀ i_cg, i_cg < loads.NbOfLoads → ∀ ie, ie < mesh.NbOfElements →
      (mesh.Element ie).RegionIndex = (loads.Load i_cg).RegionIndex →
      (mesh.Element ie).Material = true →
      env.Element_ComputeLoads clk ie t dt i_cg ≠ Call.interrupt) :
    ∃ r1, ComputeResidu mesh env clk t dt r loads = some r1 ∧
      ∀ k, r1 k = (if k < mesh.NbOfMatrixColumns then 0 else r k)
        + residuSum mesh env clk t dt k + loadsSum mesh env clk t dt loads k := by
  obtain ⟨r0, h01, h02⟩ := residu_loop mesh env clk t dt (List.range mesh.NbOfElements)
    (fun j => if j < mesh.NbOfMatrixColumns then 0 else r j)
    (fun ie hie => hres ie (List.mem_range.1 hie))
  obtain ⟨r1, h1, h2⟩ := loads_loop mesh env clk t dt loads (List.range loads.NbOfLoads) r0
    (fun i_cg hi => hload i_cg (List.mem_range.1 hi))
  refine ⟨r1, by simp [ComputeResidu, h01, h1], ?_⟩
  intro k
  rw [h2 k, h02 k, sum_map_range, sum_map_range]
  rfl

/-- C6: when no entry point raises the interrupt, `ComputeResidu` returns and
each entry `r[k]` with `k < NbOfMatrixColumns` is the sum, over the elements
that have a material and over their local DOFs `(i,j)` whose unknown slot is
`>= 0` and whose node column index at that slot is `k`, of the element
residual `re[i*neq+j]`, plus the same sum of the load blocks over the pairs
(load, element) whose region indices are equal; DOFs with a negative slot or a
negative column index are in no such sum, and the previous contents `r`, `r2`
of the array do not matter. -/
theorem C6_residu_is_sum_of_blocks (mesh : Mesh) (env : Env) (clk : Nat) (t dt : ℚ)
    (r r2 : Nat → ℚ) (loads : Loads)
    (hres : ∀ ie, ie < mesh.NbOfElements → (mesh.Element ie).Material = true →
      env.Element_ComputeResidu clk ie t dt ≠ Call.interrupt)
    (hload : ∀ i_cg, i_cg < loads.NbOfLoads → ∀ ie, ie < mesh.NbOfElements →
      (mesh.Element ie).RegionIndex = (loads.Load i_cg).RegionIndex →
      (mesh.Element ie).Material = true →
      env.Element_ComputeLoads clk ie t dt i_cg ≠ Call.interrupt) :
    ∃ r1 r3, ComputeResidu mesh env clk t dt r loads = some r1 ∧
      ComputeResidu mesh env clk t dt r2 loads = some r3 ∧
      ∀ k, k < mesh.NbOfMatrixColumns →
        r1 k = residuSum mesh env clk t dt k + loadsSum mesh env clk t dt loads k ∧
        r3 k = r1 k := by
  obtain ⟨r1, h1, h2⟩ := ComputeResidu_apply mesh env clk t dt r loads hres hload
  obtain ⟨r3, h3, h4⟩ := ComputeResidu_apply mesh env clk t dt r2 loads hres hload
  refine ⟨r1, r3, h1, h3, ?_⟩
  intro k hk
  rw [h2 k, h4 k]
  simp [hk]

/-- Witness of C6 on the two-element mesh `Example.mesh` with one load. -/
theorem C6_residu_is_sum_of_blocks_witness :
    ∃ r1 r3, ComputeResidu Example.mesh Example.env 0 0 1 (fun _ => 5) Example.loads = some r1 ∧
      ComputeResidu Example.mesh Example.env 0 0 1 (fun _ => 7) Example.loads = some r3 ∧
      ∀ k, k < Example.mesh.NbOfMatrixColumns →
        r1 k = residuSum Example.mesh Example.env 0 0 1 k
          + loadsSum Example.mesh Example.env 0 0 1 Example.loads k ∧
        r3 k = r1 k :=
  C6_residu_is_sum_of_blocks Example.mesh Example.env 0 0 1 (fun _ => 5) (fun _ => 7)
    Example.loads (by simp [Example.env]) (by simp [Example.env])

/-! ## The retry of a step -/

theorem andThen_recommences (x : Exit) (f : State → Exit) (s1 : State)
    (h : x.andThen f = Exit.recommences s1) :
    x = Exit.recommences s1 ∨ ∃ s0, x = Exit.next s0 ∧ f s0 = Exit.recommences s1 := by
  cases x with
  | next s0 => exact Or.inr ⟨s0, rfl, h⟩
  | brk s0 => simp [Exit.andThen] at h
  | recommences s0 => left; simpa [Exit.andThen] using h
  | backupandreturn s0 => simp [Exit.andThen] at h

theorem andThen_next (x : Exit) (f : State → Exit) (s1 : State)
    (h : x.andThen f = Exit.next s1) :
    ∃ s0, x = Exit.next s0 ∧ f s0 = Exit.next s1 := by
  cases x with
  | next s0 => exact ⟨s0, rfl, h⟩
  | brk s0 => simp [Exit.andThen] at h
  | recommences s0 => simp [Exit.andThen] at h
  | backupandreturn s0 => simp [Exit.andThen] at h

/-- The state update written three times in the loop on iterations (after a
failure of the implicit terms, of the matrix and of the resolution). -/
theorem retry_update (s : State) (rf t_ini : ℚ) :
    (if ((s.setIterProcess (IterProcess_IncrementRepetitionIndex s.iterprocess)).setDT_1
          ((s.setIterProcess (IterProcess_IncrementRepetitionIndex s.iterprocess)).DT_1 * rf)).DT_1
          > t_ini
      then ((s.setIterProcess (IterProcess_IncrementRepetitionIndex s.iterprocess)).setDT_1
          ((s.setIterProcess (IterProcess_IncrementRepetitionIndex s.iterprocess)).DT_1 * rf)).setDT_1
          t_ini
      else (s.setIterProcess (IterProcess_IncrementRepetitionIndex s.iterprocess)).setDT_1
          ((s.setIterProcess (IterProcess_IncrementRepetitionIndex s.iterprocess)).DT_1 * rf)).DT_1
      = min (s.DT_1 * rf) t_ini ∧
    (if ((s.setIterProcess (IterProcess_IncrementRepetitionIndex s.iterprocess)).setDT_1
          ((s.setIterProcess (IterProcess_IncrementRepetitionIndex s.iterprocess)).DT_1 * rf)).DT_1
          > t_ini
      then ((s.setIterProcess (IterProcess_IncrementRepetitionIndex s.iterprocess)).setDT_1
          ((s.setIterProcess (IterProcess_IncrementRepetitionIndex s.iterprocess)).DT_1 * rf)).setDT_1
          t_ini
      else (s.setIterProcess (IterProcess_IncrementRepetitionIndex s.iterprocess)).setDT_1
          ((s.setIterProcess (IterProcess_IncrementRepetitionIndex s.iterprocess)).DT_1 * rf)).iterprocess
      = IterProcess_IncrementRepetitionIndex s.iterprocess := by
  by_cases h : s.DT_1 * rf > t_ini
  · simp [h, min_eq_right (le_of_lt h)]
  · simp [h, min_eq_left (not_lt.1 h)]

/-- The retry taken after a failure of `ComputeImplicitTerms`. -/
theorem implicitTerms_recommences (jdd : DataSet) (env : Env) (s s1 : State)
    (h : Newton.implicitTerms jdd env s = Exit.recommences s1) :
    s1.DT_1 = min (s.DT_1 * jdd.timestep.ReductionFactor) jdd.timestep.InitialTimeStep ∧
    s1.iterprocess = IterProcess_IncrementRepetitionIndex s.iterprocess ∧
    IterProcess_LastRepetitionIsNotReached s.iterprocess := by
  unfold Newton.implicitTerms at h
  simp only at h
  split at h
  · exact absurd h (by simp)
  · split at h
    · split at h
      · rename_i hrep
        simp only [Exit.recommences.injEq] at h
        subst h
        have hu := retry_update (s.log (Event.ImplicitTerms s.T_1 s.DT_1)).tick
          jdd.timestep.ReductionFactor jdd.timestep.InitialTimeStep
        exact ⟨hu.1, hu.2, hrep⟩
      · exact absurd h (by simp)
    · exact absurd h (by simp)

theorem implicitTerms_next (jdd : DataSet) (env : Env) (s s1 : State)
    (h : Newton.implicitTerms jdd env s = Exit.next s1) :
    s1.DT_1 = s.DT_1 ∧ s1.iterprocess = s.iterprocess := by
  unfold Newton.implicitTerms at h
  simp only at h
  split at h
  · exact absurd h (by simp)
  · split at h
    · split at h <;> exact absurd h (by simp)
    · simp only [Exit.next.injEq] at h
      subst h
      exact ⟨rfl, rfl⟩

theorem residu_recommences (jdd : DataSet) (env : Env) (s s1 : State) :
    Newton.residu jdd env s ≠ Exit.recommences s1 := by
  unfold Newton.residu
  split <;> simp

theorem residu_next (jdd : DataSet) (env : Env) (s s1 : State)
    (h : Newton.residu jdd env s = Exit.next s1) :
    s1.DT_1 = s.DT_1 ∧ s1.iterprocess = s.iterprocess := by
  unfold Newton.residu at h
  split at h
  · exact absurd h (by simp)
  · simp only [Exit.next.injEq] at h
    subst h
    exact ⟨rfl, rfl⟩

/-- The retry taken after a failure of `ComputeMatrix`. -/
theorem matrix_recommences (jdd : DataSet) (env : Env) (s s1 : State)
    (h : Newton.matrix jdd env s = Exit.recommences s1) :
    s1.DT_1 = min (s.DT_1 * jdd.timestep.ReductionFactor) jdd.timestep.InitialTimeStep ∧
    s1.iterprocess = IterProcess_IncrementRepetitionIndex s.iterprocess ∧
    IterProcess_LastRepetitionIsNotReached s.iterprocess := by
  unfold Newton.matrix at h
  simp only at h
  split at h
  · exact absurd h (by simp)
  · split at h
    · split at h
      · rename_i hrep
        simp only [Exit.recommences.injEq] at h
        subst h
        have hu := retry_update (s.tick.setSolver { s.solver with a :=
            (ComputeMatrix jdd.mesh env s.clock s.T_1 s.DT_1 s.solver.a (env.stack s.clock)).a })
          jdd.timestep.ReductionFactor jdd.timestep.InitialTimeStep
        exact ⟨hu.1, hu.2, hrep⟩
      · exact absurd h (by simp)
    · exact absurd h (by simp)

theorem matrix_next (jdd : DataSet) (env : Env) (s s1 : State)
    (h : Newton.matrix jdd env s = Exit.next s1) :
    s1.DT_1 = s.DT_1 ∧ s1.iterprocess = s.iterprocess := by
  unfold Newton.matrix at h
  simp only at h
  split at h
  · exact absurd h (by simp)
  · split at h
    · split at h <;> exact absurd h (by simp)
    · simp only [Exit.next.injEq] at h
      subst h
      exact ⟨rfl, rfl⟩

/-- The retry taken after a failure of `Solver_Solve`. -/
theorem resolution_recommences (jdd : DataSet) (env : Env) (s s1 : State)
    (h : Newton.resolution jdd env s = Exit.recommences s1) :
    s1.DT_1 = min (s.DT_1 * jdd.timestep.ReductionFactor) jdd.timestep.InitialTimeStep ∧
    s1.iterprocess = IterProcess_IncrementRepetitionIndex s.iterprocess ∧
    IterProcess_LastRepetitionIsNotReached s.iterprocess := by
  unfold Newton.resolution at h
  simp only at h
  split at h
  · split at h
    · rename_i hrep
      simp only [Exit.recommences.injEq] at h
      subst h
      have hu := retry_update s.tick jdd.timestep.ReductionFactor jdd.timestep.InitialTimeStep
      exact ⟨hu.1, hu.2, hrep⟩
    · exact absurd h (by simp)
  · exact absurd h (by simp)

theorem resolution_next (jdd : DataSet) (env : Env) (s s1 : State)
    (h : Newton.resolution jdd env s = Exit.next s1) :
    s1.DT_1 = s.DT_1 ∧ s1.iterprocess = s.iterprocess := by
  unfold Newton.resolution at h
  simp only at h
  split at h
  · split at h <;> exact absurd h (by simp)
  · simp only [Exit.next.injEq] at h
    subst h
    exact ⟨rfl, rfl⟩

theorem error_recommences (env : Env) (s s1 : State) :
    Newton.error env s ≠ Exit.recommences s1 := by
  unfold Newton.error
  simp only
  split <;> simp

/-- Every retry decided inside the loop on iterations: the new time step is
`min(dt*rf, dt_ini)` and the repetition index, which was below its limit, is
incremented. -/
theorem NewtonIteration_recommences (jdd : DataSet) (env : Env) (s s1 : State)
    (h : NewtonIteration jdd env s = Exit.recommences s1) :
    s1.DT_1 = min (s.DT_1 * jdd.timestep.ReductionFactor) jdd.timestep.InitialTimeStep ∧
    s1.iterprocess.RepetitionIndex = s.iterprocess.RepetitionIndex + 1 ∧
    s.iterprocess.RepetitionIndex < s.iterprocess.NbOfRepetitions := by
  unfold NewtonIteration at h
  simp only at h
  have key : ∀ s0 : State, s0.DT_1 = s.DT_1 →
      s0.iterprocess = IterProcess_IncrementIterationIndex s.iterprocess →
      s1.DT_1 = min (s0.DT_1 * jdd.timestep.ReductionFactor) jdd.timestep.InitialTimeStep →
      s1.iterprocess = IterProcess_IncrementRepetitionIndex s0.iterprocess →
      IterProcess_LastRepetitionIsNotReached s0.iterprocess →
      s1.DT_1 = min (s.DT_1 * jdd.timestep.ReductionFactor) jdd.timestep.InitialTimeStep ∧
      s1.iterprocess.RepetitionIndex = s.iterprocess.RepetitionIndex + 1 ∧
      s.iterprocess.RepetitionIndex < s.iterprocess.NbOfRepetitions := by
    intro s0 hdt hip h1 h2 h3
    rw [hdt] at h1
    rw [hip] at h2 h3
    refine ⟨h1, ?_, ?_⟩
    · rw [h2]; rfl
    · exact h3
  rcases andThen_recommences _ _ _ h with h4 | ⟨s4, _, h5⟩
  · rcases andThen_recommences _ _ _ h4 with h3 | ⟨s3, h3, h5⟩
    · rcases andThen_recommences _ _ _ h3 with h2 | ⟨s2, h2, h5⟩
      · rcases andThen_recommences _ _ _ h2 with h1 | ⟨sa, _, h5⟩
        · obtain ⟨a, b, c⟩ := implicitTerms_recommences _ _ _ _ h1
          exact key (s.setIterProcess (IterProcess_IncrementIterationIndex s.iterprocess))
            rfl rfl a b c
        · exact absurd h5 (residu_recommences _ _ _ _)
      · obtain ⟨sa, h1, h6⟩ := andThen_next _ _ _ h2
        obtain ⟨a1, b1⟩ := implicitTerms_next _ _ _ _ h1
        obtain ⟨a2, b2⟩ := residu_next _ _ _ _ h6
        obtain ⟨a, b, c⟩ := matrix_recommences _ _ _ _ h5
        exact key s2 (by rw [a2, a1]; rfl) (by rw [b2, b1]; rfl) a b c
    · obtain ⟨s2, h2, h6⟩ := andThen_next _ _ _ h3
      obtain ⟨sa, h1, h7⟩ := andThen_next _ _ _ h2
      obtain ⟨a1, b1⟩ := implicitTerms_next _ _ _ _ h1
      obtain ⟨a2, b2⟩ := residu_next _ _ _ _ h7
      obtain ⟨a3, b3⟩ := matrix_next _ _ _ _ h6
      obtain ⟨a, b, c⟩ := resolution_recommences _ _ _ _ h5
      exact key s3 (by rw [a3, a2, a1]; rfl) (by rw [b3, b2, b1]; rfl) a b c
  · exact absurd h5 (error_recommences _ _ _)

theorem eq_recommences_state (x : Exit) (h : x.retry?.isSome = true) :
    x = Exit.recommences x.state := by
  cases x <;> simp [Exit.retry?, Exit.state] at h ⊢

theorem smallerTimeStep_some (jdd : DataSet) (s s1 : State)
    (h : smallerTimeStep jdd s = some s1) :
    s1.DT_1 = s.DT_1 * jdd.timestep.ReductionFactor ∧
    s1.iterprocess = IterProcess_IncrementRepetitionIndex s.iterprocess ∧
    IterProcess_ConvergenceIsNotMet s.iterprocess ∧
    IterProcess_LastRepetitionIsNotReached s.iterprocess := by
  unfold smallerTimeStep at h
  split at h
  · rename_i hc
    simp only [Option.some.injEq] at h
    subst h
    exact ⟨by simp, rfl, hc.1, hc.2⟩
  · exact absurd h (by simp)

/-- C3, counterexample: with `dt = 1`, reduction factor `1/2`, `dt_ini = 2` and
`dt_min = 1`, a failure of `compute_implicit_terms` makes the driver retry the
step with the time step `1/2`, which is not `max(dt*rf, dt_min) = 1` and is
below `dt_min`. -/
theorem C3_retry_below_dt_min :
    (NewtonIteration Example.jdd Example.envImplicit (Example.state 1)).retry?.map State.DT_1
      = some (1 / 2) ∧
    (1 / 2 : ℚ) ≠ max ((Example.state 1).DT_1 * Example.jdd.timestep.ReductionFactor)
      Example.jdd.timestep.MinimumTimeStep ∧
    (1 / 2 : ℚ) < Example.jdd.timestep.MinimumTimeStep := by
  refine ⟨?_, ?_, ?_⟩
  · simp [NewtonIteration, Exit.andThen, Exit.retry?, Newton.implicitTerms,
      ComputeImplicitTerms, ComputeImplicitTerms.loop, Example.jdd, Example.envImplicit,
      Example.env, Example.state, Example.mesh, Example.bar, List.range, List.range.loop,
      State.DT_1, State.T_1, State.log, State.tick, State.setDT_1, State.setSOL_1,
      State.setIterProcess, IterProcess_LastRepetitionIsNotReached,
      IterProcess_IncrementRepetitionIndex, IterProcess_IncrementIterationIndex]
    norm_num [Exit.andThen, Exit.retry?]
  · norm_num [Example.state, Example.jdd, State.DT_1]
  · norm_num [Example.jdd]

/-- C3, amended: a retry decided inside the loop on iterations (failure of
`compute_implicit_terms`, of the matrix computation or of the linear solve)
starts the new attempt with the time step `min(dt * reduction_factor, dt_ini)`,
and a retry decided after the loop on iterations (non-convergence) with
`dt * reduction_factor`, where `dt` is the time step of the failed attempt;
`dt_min` is not read. -/
theorem C3_retry_time_step (jdd : DataSet) (env : Env) (s s1 : State) :
    (NewtonIteration jdd env s = Exit.recommences s1 →
      s1.DT_1 = min (s.DT_1 * jdd.timestep.ReductionFactor) jdd.timestep.InitialTimeStep) ∧
    (smallerTimeStep jdd s = some s1 →
      s1.DT_1 = s.DT_1 * jdd.timestep.ReductionFactor) :=
  ⟨fun h => (NewtonIteration_recommences jdd env s s1 h).1,
   fun h => (smallerTimeStep_some jdd s s1 h).1⟩

/-- Witness of C3 (amended) on the failing attempt of the counterexample. -/
theorem C3_retry_time_step_witness :
    (NewtonIteration Example.jdd Example.envImplicit (Example.state 1)).state.DT_1
      = min ((Example.state 1).DT_1 * Example.jdd.timestep.ReductionFactor)
          Example.jdd.timestep.InitialTimeStep :=
  (C3_retry_time_step Example.jdd Example.envImplicit (Example.state 1) _).1
    (eq_recommences_state _ (by
      simp [NewtonIteration, Exit.andThen, Exit.retry?, Newton.implicitTerms,
        ComputeImplicitTerms, ComputeImplicitTerms.loop, Example.jdd, Example.envImplicit,
        Example.env, Example.state, Example.mesh, Example.bar, List.range, List.range.loop,
        State.DT_1, State.T_1, State.log, State.tick, State.setDT_1, State.setSOL_1,
        State.setIterProcess, IterProcess_LastRepetitionIsNotReached,
        IterProcess_IncrementRepetitionIndex, IterProcess_IncrementIterationIndex]
      norm_num [Exit.andThen, Exit.retry?]))

/-- C5, counterexample: two runs of `Algorithm` on the data set `jddLong`
(`dt_ini = 1`, `dt_max = 4`, reduction factor `1/2`, dates 0 and 7, one
repetition allowed), with the same time step controller.  Both accept the
steps of time steps 1 and 2 and begin the third step at the time 3 with the
time step 4 and the repetition index 0.  Where `compute_implicit_terms` fails
in that attempt, the retry has the time step `min(4 * 1/2, 1) = 1`
(`Step 3 4 1`); where the Newton loop does not converge, the retry has the time
step `4 * 1/2 = 2` (`Step 3 5 2`). -/
theorem C5_recovery_differs :
    (Algorithm Example.jddLong Example.envGrowImplicit 3 Example.sols Example.solver).map
        (fun r => (r.1, r.2.trace))
      = some (-1, [Event.StoreCurrentSolution 3, Event.BackupSolutionAtTime 3 1,
          Event.StepBackward, Event.Undefined 2 1, Event.ImplicitTerms 4 1, Event.Step 3 4 1,
          Event.Repetition 1, Event.ImplicitTerms 7 4, Event.Step 3 7 4,
          Event.ExplicitTerms 3, Event.StepForward, Event.BackupSolutionAtPoint 3 0,
          Event.Accepted 3, Event.ImplicitTerms 3 2, Event.Step 2 3 2, Event.ExplicitTerms 1,
          Event.StepForward, Event.BackupSolutionAtPoint 1 0, Event.Accepted 1,
          Event.ImplicitTerms 1 1, Event.Step 1 1 1, Event.ExplicitTerms 0, Event.StepForward,
          Event.BackupSolutionAtTime 0 0, Event.BackupSolutionAtPoint 0 0,
          Event.InitialState 0]) ∧
    (Algorithm Example.jddLong Example.envGrowDiverge 3 Example.sols Example.solver).map
        (fun r => (r.1, r.2.trace))
      = some (-1, [Event.StoreCurrentSolution 3, Event.StepBackward,
          Event.BackupSolutionAtTime 5 1, Event.BackupSolutionAtPoint 5 0,
          Event.ImplicitTerms 5 2, Event.Step 3 5 2,
          Event.Repetition 1, Event.ImplicitTerms 7 4, Event.Step 3 7 4,
          Event.ExplicitTerms 3, Event.StepForward, Event.BackupSolutionAtPoint 3 0,
          Event.Accepted 3, Event.ImplicitTerms 3 2, Event.Step 2 3 2, Event.ExplicitTerms 1,
          Event.StepForward, Event.BackupSolutionAtPoint 1 0, Event.Accepted 1,
          Event.ImplicitTerms 1 1, Event.Step 1 1 1, Event.ExplicitTerms 0, Event.StepForward,
          Event.BackupSolutionAtTime 0 0, Event.BackupSolutionAtPoint 0 0,
          Event.InitialState 0]) := by
  constructor
  · norm_num [Algorithm, DateLoop, TimeStepLoop, TimeStepBody, setTimeStep, endStep,
      initialization, startIndex, lastDateIndex, store, Recommences, attempt, beginAttempt,
      smallerTimeStep, NewtonLoop, NewtonIteration, backupandreturn,
      Exit.andThen, Newton.implicitTerms, Newton.residu, Newton.matrix, Newton.resolution,
      Newton.error, ComputeExplicitTerms, ComputeExplicitTerms.loop, ComputeImplicitTerms,
      ComputeImplicitTerms.loop, ComputeResidu, ComputeResidu.residu, ComputeResidu.loads,
      ComputeResidu.loadElements, ComputeMatrix, ComputeMatrix.loop,
      Example.jddLong, Example.envGrowImplicit, Example.envGrow,
      Example.jdd, Example.env, Example.sols, Example.solver, Example.mesh,
      Example.bar, Example.bare, Example.loads, State.log, State.tick, State.T_1, State.T_n,
      State.DT_1, State.DT_n, State.STEP_1, State.STEP_n, State.setT_1, State.setDT_1,
      State.setSTEP_1, State.setSOL_1, State.setSols, State.setIterProcess, State.setSolver,
      Solutions_StepForward, Solutions_StepBackward, Solutions.previous,
      IterProcess_LastIterationIsNotReached, IterProcess_LastRepetitionIsNotReached,
      IterProcess_ConvergenceIsMet, IterProcess_ConvergenceIsNotMet,
      IterProcess_IncrementIterationIndex, IterProcess_IncrementRepetitionIndex, List.range,
      List.range.loop, Function.update]
  · norm_num [Algorithm, DateLoop, TimeStepLoop, TimeStepBody, setTimeStep, endStep,
      initialization, startIndex, lastDateIndex, store, Recommences, attempt, beginAttempt,
      smallerTimeStep, NewtonLoop, NewtonIteration, backupandreturn,
      Exit.andThen, Newton.implicitTerms, Newton.residu, Newton.matrix, Newton.resolution,
      Newton.error, ComputeExplicitTerms, ComputeExplicitTerms.loop, ComputeImplicitTerms,
      ComputeImplicitTerms.loop, ComputeResidu, ComputeResidu.residu, ComputeResidu.loads,
      ComputeResidu.loadElements, ComputeMatrix, ComputeMatrix.loop,
      Example.jddLong, Example.envGrowDiverge, Example.envGrow,
      Example.jdd, Example.env, Example.sols, Example.solver, Example.mesh,
      Example.bar, Example.bare, Example.loads, State.log, State.tick, State.T_1, State.T_n,
      State.DT_1, State.DT_n, State.STEP_1, State.STEP_n, State.setT_1, State.setDT_1,
      State.setSTEP_1, State.setSOL_1, State.setSols, State.setIterProcess, State.setSolver,
      Solutions_StepForward, Solutions_StepBackward, Solutions.previous,
      IterProcess_LastIterationIsNotReached, IterProcess_LastRepetitionIsNotReached,
      IterProcess_ConvergenceIsMet, IterProcess_ConvergenceIsNotMet,
      IterProcess_IncrementIterationIndex, IterProcess_IncrementRepetitionIndex, List.range,
      List.range.loop, Function.update]

/-- C5, amended: starting from states with the same time step and the same
repetition index, a retry triggered by a failure of the linear solve (or of the
matrix computation) starts with the same time step and the same repetition
index as a retry triggered by a failure of `compute_implicit_terms`; a retry
triggered by the non-convergence has the same repetition index, starts with the
time step `dt * reduction_factor`, and that is the same time step whenever
`dt * reduction_factor` does not exceed `dt_ini`. -/
theorem C5_same_recovery (jdd : DataSet) (env : Env) (sa sb s1 s2 : State)
    (hdt : sa.DT_1 = sb.DT_1)
    (hrep : sa.iterprocess.RepetitionIndex = sb.iterprocess.RepetitionIndex)
    (h1 : Newton.implicitTerms jdd env sa = Exit.recommences s1) :
    (Newton.resolution jdd env sb = Exit.recommences s2 →
      s2.DT_1 = s1.DT_1 ∧ s2.iterprocess.RepetitionIndex = s1.iterprocess.RepetitionIndex) ∧
    (Newton.matrix jdd env sb = Exit.recommences s2 →
      s2.DT_1 = s1.DT_1 ∧ s2.iterprocess.RepetitionIndex = s1.iterprocess.RepetitionIndex) ∧
    (smallerTimeStep jdd sb = some s2 →
      s2.iterprocess.RepetitionIndex = s1.iterprocess.RepetitionIndex ∧
      s2.DT_1 = sb.DT_1 * jdd.timestep.ReductionFactor ∧
      (sb.DT_1 * jdd.timestep.ReductionFactor ≤ jdd.timestep.InitialTimeStep →
        s2.DT_1 = s1.DT_1)) := by
  obtain ⟨a1, b1, _⟩ := implicitTerms_recommences jdd env sa s1 h1
  have hr1 : s1.iterprocess.RepetitionIndex = sb.iterprocess.RepetitionIndex + 1 := by
    rw [b1, ← hrep]; rfl
  refine ⟨?_, ?_, ?_⟩
  · intro h2
    obtain ⟨a2, b2, _⟩ := resolution_recommences jdd env sb s2 h2
    exact ⟨by rw [a1, a2, hdt], by rw [hr1, b2]; rfl⟩
  · intro h2
    obtain ⟨a2, b2, _⟩ := matrix_recommences jdd env sb s2 h2
    exact ⟨by rw [a1, a2, hdt], by rw [hr1, b2]; rfl⟩
  · intro h2
    obtain ⟨a2, b2, _⟩ := smallerTimeStep_some jdd sb s2 h2
    refine ⟨by rw [hr1, b2]; rfl, a2, ?_⟩
    intro hle
    rw [a1, a2, hdt, min_eq_left hle]

/-- Witness of C5 (amended): from the state of time step 1 and repetition
index 0, with collaborators for which both `compute_implicit_terms` and the
linear solve fail, the two retries start with the same time step and the same
repetition index. -/
theorem C5_same_recovery_witness :
    (Newton.resolution Example.jdd Example.envBoth (Example.state 1)).state.DT_1
      = (Newton.implicitTerms Example.jdd Example.envBoth (Example.state 1)).state.DT_1 ∧
    (Newton.resolution Example.jdd Example.envBoth (Example.state 1)).state.iterprocess.RepetitionIndex
      = (Newton.implicitTerms Example.jdd Example.envBoth
          (Example.state 1)).state.iterprocess.RepetitionIndex :=
  (C5_same_recovery Example.jdd Example.envBoth (Example.state 1) (Example.state 1) _ _ rfl rfl
    (eq_recommences_state _ (by
      simp [Exit.retry?, Newton.implicitTerms,
        ComputeImplicitTerms, ComputeImplicitTerms.loop, Example.jdd, Example.envImplicit,
        Example.envBoth, Example.env, Example.state, Example.mesh, Example.bar, List.range,
        List.range.loop, State.DT_1, State.T_1, State.log, State.tick, State.setDT_1,
        State.setSOL_1, State.setIterProcess, IterProcess_LastRepetitionIsNotReached,
        IterProcess_IncrementRepetitionIndex]
      norm_num [Exit.retry?]))).1
    (eq_recommences_state _ (by
      simp [Exit.retry?, Newton.resolution, Example.jdd, Example.envImplicit,
        Example.envBoth, Example.env, Example.state, State.tick, State.setDT_1,
        State.setSOL_1, State.setIterProcess, IterProcess_LastRepetitionIsNotReached,
        IterProcess_IncrementRepetitionIndex]))

/-! ## The values returned by the entry points of an iteration -/

theorem residu_withResiduCodes (mesh : Mesh) (env : Env) (c : Nat → Nat → ℚ → ℚ → Int)
    (cl : Nat → Nat → ℚ → ℚ → Nat → Int) (clk : Nat) (t dt : ℚ) (l : List Nat) :
    ∀ r, ComputeResidu.residu mesh (env.withResiduCodes c cl) clk t dt l r
      = ComputeResidu.residu mesh env clk t dt l r := by
  induction l with
  | nil => intro r; rfl
  | cons ie rest ih =>
    intro r
    simp only [ComputeResidu.residu, Env.withResiduCodes]
    by_cases hm : (mesh.Element ie).Material = true
    · simp only [hm, if_true]
      cases hc : env.Element_ComputeResidu clk ie t dt with
      | interrupt => rfl
      | ret i => exact ih _
    · simp only [hm]
      exact ih _

theorem loadElements_withResiduCodes (mesh : Mesh) (env : Env) (c : Nat → Nat → ℚ → ℚ → Int)
    (cl : Nat → Nat → ℚ → ℚ → Nat → Int) (clk : Nat) (t dt : ℚ) (loads : Loads) (i_cg : Nat)
    (l : List Nat) :
    ∀ r, ComputeResidu.loadElements mesh (env.withResiduCodes c cl) clk t dt loads i_cg l r
      = ComputeResidu.loadElements mesh env clk t dt loads i_cg l r := by
  induction l with
  | nil => intro r; rfl
  | cons ie rest ih =>
    intro r
    simp only [ComputeResidu.loadElements, Env.withResiduCodes]
    by_cases hr : (mesh.Element ie).RegionIndex = (loads.Load i_cg).RegionIndex
    · by_cases hm : (mesh.Element ie).Material = true
      · simp only [hr, hm, if_true]
        cases hc : env.Element_ComputeLoads clk ie t dt i_cg with
        | interrupt => rfl
        | ret i => exact ih _
      · simp only [hr, hm, if_true]
        exact ih _
    · simp only [hr, if_false]
      exact ih _

theorem loads_withResiduCodes (mesh : Mesh) (env : Env) (c : Nat → Nat → ℚ → ℚ → Int)
    (cl : Nat → Nat → ℚ → ℚ → Nat → Int) (clk : Nat) (t dt : ℚ) (loads : Loads)
    (l : List Nat) :
    ∀ r, ComputeResidu.loads mesh (env.withResiduCodes c cl) clk t dt loads l r
      = ComputeResidu.loads mesh env clk t dt loads l r := by
  induction l with
  | nil => intro r; rfl
  | cons i_cg rest ih =>
    intro r
    simp only [ComputeResidu.loads, loadElements_withResiduCodes]
    cases ComputeResidu.loadElements mesh env clk t dt loads i_cg
        (List.range mesh.NbOfElements) r with
    | none => rfl
    | some r1 => exact ih r1

theorem ComputeResidu_withResiduCodes (mesh : Mesh) (env : Env)
    (c : Nat → Nat → ℚ → ℚ → Int) (cl : Nat → Nat → ℚ → ℚ → Nat → Int) (clk : Nat)
    (t dt : ℚ) (r : Nat → ℚ) (loads : Loads) :
    ComputeResidu mesh (env.withResiduCodes c cl) clk t dt r loads
      = ComputeResidu mesh env clk t dt r loads := by
  simp only [ComputeResidu, residu_withResiduCodes, loads_withResiduCodes]

theorem ComputeExplicitTerms_withResiduCodes (mesh : Mesh) (env : Env)
    (c : Nat → Nat → ℚ → ℚ → Int) (cl : Nat → Nat → ℚ → ℚ → Nat → Int) (clk : Nat) (t : ℚ) :
    ComputeExplicitTerms mesh (env.withResiduCodes c cl) clk t
      = ComputeExplicitTerms mesh env clk t := by
  simp only [ComputeExplicitTerms, ComputeExplicitTerms_loop_eq_visit]
  rfl

theorem ComputeImplicitTerms_withResiduCodes (mesh : Mesh) (env : Env)
    (c : Nat → Nat → ℚ → ℚ → Int) (cl : Nat → Nat → ℚ → ℚ → Nat → Int) (clk : Nat)
    (t dt : ℚ) :
    ComputeImplicitTerms mesh (env.withResiduCodes c cl) clk t dt
      = ComputeImplicitTerms mesh env clk t dt := by
  simp only [ComputeImplicitTerms, ComputeImplicitTerms_loop_eq_visit]
  rfl

theorem ComputeMatrix_loop_withResiduCodes (mesh : Mesh) (env : Env)
    (c : Nat → Nat → ℚ → ℚ → Int) (cl : Nat → Nat → ℚ → ℚ → Nat → Int) (clk : Nat)
    (t dt : ℚ) (l : List Nat) :
    ∀ a x, ComputeMatrix.loop mesh (env.withResiduCodes c cl) clk t dt l a x
      = ComputeMatrix.loop mesh env clk t dt l a x := by
  induction l with
  | nil => intro a x; rfl
  | cons ie rest ih =>
    intro a x
    simp only [ComputeMatrix.loop, Env.withResiduCodes]
    by_cases hm : (mesh.Element ie).Material = true
    · simp only [hm, if_true]
      cases hc : env.Element_ComputeMatrix clk ie t dt with
      | interrupt => rfl
      | ret i =>
        by_cases hi : i = 0
        · simp only [hi, ne_eq, not_true_eq_false, if_false]
          have h := ih (env.Matrix_AssembleElementMatrix a (env.ke clk ie t dt)
            (ComputeMatrix.indexes (mesh.Element ie) x).1
            (ComputeMatrix.indexes (mesh.Element ie) x).2
            ((mesh.Element ie).NbOfNodes * (mesh.Element ie).NbOfEquations))
            (ComputeMatrix.indexes (mesh.Element ie) x)
          simp only [Env.withResiduCodes] at h
          rw [h]
        · simp only [hi, ne_eq, not_false_eq_true, if_true]
    · simp only [hm]
      exact ih a x

theorem NewtonIteration_withResiduCodes (jdd : DataSet) (env : Env)
    (c : Nat → Nat → ℚ → ℚ → Int) (cl : Nat → Nat → ℚ → ℚ → Nat → Int) :
    NewtonIteration jdd (env.withResiduCodes c cl) = NewtonIteration jdd env := by
  funext s
  have h1 : Newton.implicitTerms jdd (env.withResiduCodes c cl) = Newton.implicitTerms jdd env := by
    funext s
    simp only [Newton.implicitTerms, ComputeImplicitTerms_withResiduCodes]
  have h2 : Newton.residu jdd (env.withResiduCodes c cl) = Newton.residu jdd env := by
    funext s
    simp only [Newton.residu, ComputeResidu_withResiduCodes]
  have h3 : Newton.matrix jdd (env.withResiduCodes c cl) = Newton.matrix jdd env := by
    funext s
    simp only [Newton.matrix, ComputeMatrix, ComputeMatrix_loop_withResiduCodes]
    rfl
  have h4 : Newton.resolution jdd (env.withResiduCodes c cl) = Newton.resolution jdd env := rfl
  have h5 : Newton.error (env.withResiduCodes c cl) = Newton.error env := rfl
  simp only [NewtonIteration, h1, h2, h3, h4, h5]

theorem NewtonLoop_withResiduCodes (jdd : DataSet) (env : Env)
    (c : Nat → Nat → ℚ → ℚ → Int) (cl : Nat → Nat → ℚ → ℚ → Nat → Int) (fuel : Nat) :
    ∀ s, NewtonLoop jdd (env.withResiduCodes c cl) fuel s = NewtonLoop jdd env fuel s := by
  induction fuel with
  | zero => intro s; rfl
  | succ n ih =>
    intro s
    simp only [NewtonLoop, NewtonIteration_withResiduCodes]
    split
    · cases NewtonIteration jdd env s with
      | next s1 => exact ih s1
      | brk s1 => rfl
      | recommences s1 => rfl
      | backupandreturn s1 => rfl
    · rfl

theorem attempt_withResiduCodes (jdd : DataSet) (env : Env)
    (c : Nat → Nat → ℚ → ℚ → Int) (cl : Nat → Nat → ℚ → ℚ → Nat → Int) (s : State) :
    attempt jdd (env.withResiduCodes c cl) s = attempt jdd env s := by
  simp only [attempt, NewtonLoop_withResiduCodes]

theorem Recommences_withResiduCodes (jdd : DataSet) (env : Env)
    (c : Nat → Nat → ℚ → ℚ → Int) (cl : Nat → Nat → ℚ → ℚ → Nat → Int) (fuel : Nat) :
    ∀ s, Recommences jdd (env.withResiduCodes c cl) fuel s = Recommences jdd env fuel s := by
  induction fuel with
  | zero => intro s; simp only [Recommences, attempt_withResiduCodes]
  | succ n ih =>
    intro s
    simp only [Recommences, attempt_withResiduCodes, ih]

theorem TimeStepBody_withResiduCodes (jdd : DataSet) (env : Env)
    (c : Nat → Nat → ℚ → ℚ → Int) (cl : Nat → Nat → ℚ → ℚ → Nat → Int) (t_0 : ℚ)
    (idate : Nat) (s : State) :
    TimeStepBody jdd (env.withResiduCodes c cl) t_0 idate s = TimeStepBody jdd env t_0 idate s := by
  simp only [TimeStepBody, ComputeExplicitTerms_withResiduCodes, Recommences_withResiduCodes]
  rfl

theorem TimeStepLoop_withResiduCodes (jdd : DataSet) (env : Env)
    (c : Nat → Nat → ℚ → ℚ → Int) (cl : Nat → Nat → ℚ → ℚ → Nat → Int) (t_0 : ℚ)
    (idate : Nat) (fuel : Nat) :
    ∀ s, TimeStepLoop jdd (env.withResiduCodes c cl) t_0 idate fuel s
      = TimeStepLoop jdd env t_0 idate fuel s := by
  induction fuel with
  | zero => intro s; rfl
  | succ n ih =>
    intro s
    simp only [TimeStepLoop, TimeStepBody_withResiduCodes, ih]

theorem DateLoop_withResiduCodes (jdd : DataSet) (env : Env)
    (c : Nat → Nat → ℚ → ℚ → Int) (cl : Nat → Nat → ℚ → ℚ → Nat → Int) (t_0 : ℚ)
    (fuel : Nat) (n : Nat) :
    ∀ idate s, DateLoop jdd (env.withResiduCodes c cl) t_0 fuel n idate s
      = DateLoop jdd env t_0 fuel n idate s := by
  induction n with
  | zero => intro idate s; rfl
  | succ n ih =>
    intro idate s
    simp only [DateLoop, TimeStepLoop_withResiduCodes, ih]

theorem Algorithm_withResiduCodes (jdd : DataSet) (env : Env)
    (c : Nat → Nat → ℚ → ℚ → Int) (cl : Nat → Nat → ℚ → ℚ → Nat → Int) (fuel : Nat)
    (sols : Solutions) (solver : Solver) :
    Algorithm jdd (env.withResiduCodes c cl) fuel sols solver
      = Algorithm jdd env fuel sols solver := by
  have h1 : initialization jdd (env.withResiduCodes c cl) sols solver
      = initialization jdd env sols solver := rfl
  have h2 : startIndex jdd (env.withResiduCodes c cl) = startIndex jdd env := rfl
  simp only [Algorithm, h1, h2, DateLoop_withResiduCodes]

theorem visit_failure (mat : Nat → Bool) (f : Nat → Call) (n ie : Nat) (hie : ie < n)
    (hm : mat ie = true) (hf : f ie ≠ Call.ret 0) :
    (visit mat f (List.range n)).1 ≠ Call.ret 0 := by
  intro h
  exact hf ((visit_contract n mat f).1.1 h ie hie hm)

/-- A failure of `ComputeImplicitTerms` ends the iteration at one of the two
labels: at `recommences` when the repetition limit is not reached and the
entry points returned, at `backupandreturn` otherwise. -/
theorem implicitTerms_failure (jdd : DataSet) (env : Env) (s : State)
    (h : (ComputeImplicitTerms jdd.mesh env s.clock s.T_1 s.DT_1).1 ≠ Call.ret 0) :
    ∃ s1, (Newton.implicitTerms jdd env s = Exit.recommences s1 ∧
        IterProcess_LastRepetitionIsNotReached s.iterprocess) ∨
      (Newton.implicitTerms jdd env s = Exit.backupandreturn s1 ∧
        (¬ IterProcess_LastRepetitionIsNotReached s.iterprocess ∨
          (ComputeImplicitTerms jdd.mesh env s.clock s.T_1 s.DT_1).1 = Call.interrupt)) := by
  cases hx : Newton.implicitTerms jdd env s with
  | next s1 =>
    exfalso
    unfold Newton.implicitTerms at hx
    simp only at hx
    split at hx
    · exact absurd hx (by simp)
    · rename_i i hc
      split at hx
      · split at hx <;> exact absurd hx (by simp)
      · rename_i hi
        apply h
        rw [hc, not_not.1 hi]
  | brk s1 =>
    exfalso
    unfold Newton.implicitTerms at hx
    simp only at hx
    split at hx
    · exact absurd hx (by simp)
    · split at hx
      · split at hx <;> exact absurd hx (by simp)
      · exact absurd hx (by simp)
  | recommences s1 =>
    exact ⟨s1, Or.inl ⟨rfl, (implicitTerms_recommences jdd env s s1 hx).2.2⟩⟩
  | backupandreturn s1 =>
    refine ⟨s1, Or.inr ⟨rfl, ?_⟩⟩
    unfold Newton.implicitTerms at hx
    simp only at hx
    split at hx
    · rename_i hc
      exact Or.inr hc
    · split at hx
      · split at hx
        · exact absurd hx (by simp)
        · rename_i hr
          exact Or.inl hr
      · exact absurd hx (by simp)

/-- A failure of `ComputeMatrix` ends the iteration at one of the two labels. -/
theorem matrix_failure (jdd : DataSet) (env : Env) (s : State)
    (h : (ComputeMatrix jdd.mesh env s.clock s.T_1 s.DT_1 s.solver.a (env.stack s.clock)).code
      ≠ Call.ret 0) :
    ∃ s1, (Newton.matrix jdd env s = Exit.recommences s1 ∧
        IterProcess_LastRepetitionIsNotReached s.iterprocess) ∨
      (Newton.matrix jdd env s = Exit.backupandreturn s1 ∧
        (¬ IterProcess_LastRepetitionIsNotReached s.iterprocess ∨
          (ComputeMatrix jdd.mesh env s.clock s.T_1 s.DT_1 s.solver.a (env.stack s.clock)).code
            = Call.interrupt)) := by
  cases hx : Newton.matrix jdd env s with
  | next s1 =>
    exfalso
    unfold Newton.matrix at hx
    simp only at hx
    split at hx
    · exact absurd hx (by simp)
    · rename_i i hc
      split at hx
      · split at hx <;> exact absurd hx (by simp)
      · rename_i hi
        apply h
        rw [hc, not_not.1 hi]
  | brk s1 =>
    exfalso
    unfold Newton.matrix at hx
    simp only at hx
    split at hx
    · exact absurd hx (by simp)
    · split at hx
      · split at hx <;> exact absurd hx (by simp)
      · exact absurd hx (by simp)
  | recommences s1 =>
    exact ⟨s1, Or.inl ⟨rfl, (matrix_recommences jdd env s s1 hx).2.2⟩⟩
  | backupandreturn s1 =>
    refine ⟨s1, Or.inr ⟨rfl, ?_⟩⟩
    unfold Newton.matrix at hx
    simp only at hx
    split at hx
    · rename_i hc
      exact Or.inr hc
    · split at hx
      · split at hx
        · exact absurd hx (by simp)
        · rename_i hr
          exact Or.inl hr
      · exact absurd hx (by simp)

/-- C8, counterexample: every call of `compute_residu` and of `compute_loads`
returns 1, and the driver accepts the first attempt of the step (one `Step`,
no `Repetition`, no `Undefined` in the trace) and returns 0. -/
theorem C8_residu_code_ignored :
    (∀ clk ie t dt, Example.envResidu.Element_ComputeResidu clk ie t dt = Call.ret 1) ∧
    (∀ clk ie t dt i_cg, Example.envResidu.Element_ComputeLoads clk ie t dt i_cg = Call.ret 1) ∧
    (Algorithm Example.jdd Example.envResidu 1 Example.sols Example.solver).map
        (fun r => (r.1, r.2.trace))
      = some (0, [Event.StoreCurrentSolution 1, Event.BackupSolutionAtTime 1 1,
          Event.BackupSolutionAtPoint 1 0, Event.Accepted 1, Event.ImplicitTerms 1 1,
          Event.Step 1 1 1, Event.ExplicitTerms 0, Event.StepForward,
          Event.BackupSolutionAtTime 0 0, Event.BackupSolutionAtPoint 0 0,
          Event.InitialState 0]) := by
  refine ⟨?_, ?_, ?_⟩
  · intro clk ie t dt
    simp [Example.envResidu, Env.withResiduCodes, Example.env]
  · intro clk ie t dt i_cg
    simp [Example.envResidu, Env.withResiduCodes, Example.env]
  · simp [Algorithm, DateLoop, TimeStepLoop, TimeStepBody, setTimeStep, endStep,
      initialization, startIndex,
      lastDateIndex, store, Recommences, attempt, beginAttempt, smallerTimeStep, NewtonLoop, NewtonIteration,
      Exit.andThen, Newton.implicitTerms, Newton.residu, Newton.matrix, Newton.resolution,
      Newton.error, ComputeExplicitTerms, ComputeExplicitTerms.loop, ComputeImplicitTerms,
      ComputeImplicitTerms.loop, ComputeResidu, ComputeResidu.residu, ComputeResidu.loads,
      ComputeResidu.loadElements, ComputeMatrix, ComputeMatrix.loop, Example.envResidu,
      Env.withResiduCodes, Example.jdd, Example.env, Example.sols, Example.solver, Example.mesh,
      Example.bar, Example.bare, Example.loads, State.log, State.tick, State.T_1, State.T_n,
      State.DT_1, State.DT_n, State.STEP_1, State.STEP_n, State.setT_1, State.setDT_1,
      State.setSTEP_1, State.setSOL_1, State.setSols, State.setIterProcess, State.setSolver,
      Solutions_StepForward, Solutions_StepBackward, Solutions.previous,
      IterProcess_LastIterationIsNotReached, IterProcess_LastRepetitionIsNotReached,
      IterProcess_ConvergenceIsMet, IterProcess_ConvergenceIsNotMet,
      IterProcess_IncrementIterationIndex, IterProcess_IncrementRepetitionIndex, List.range,
      List.range.loop, Function.update]

/-- C8, amended: a non-zero return of `compute_implicit_terms` or of
`compute_matrix` by an element that has a material is a failure of the
attempt: the iteration goes to the label `recommences` while the repetition
limit is not reached, and to `backupandreturn` when it is reached (or when an
entry point raised the interrupt).  The values returned by `compute_residu`
and `compute_loads` are not read: replacing them by any others leaves the run
of `Algorithm` unchanged. -/
theorem C8_failures_of_an_iteration (jdd : DataSet) (env : Env) (s : State) (fuel : Nat)
    (sols : Solutions) (solver : Solver) (c : Nat → Nat → ℚ → ℚ → Int)
    (cl : Nat → Nat → ℚ → ℚ → Nat → Int) :
    (∀ ie i, ie < jdd.mesh.NbOfElements → (jdd.mesh.Element ie).Material = true →
      env.Element_ComputeImplicitTerms s.clock ie s.T_1 s.DT_1 = Call.ret i → i ≠ 0 →
      ∃ s1, (NewtonIteration jdd env s = Exit.recommences s1 ∧
          s.iterprocess.RepetitionIndex < s.iterprocess.NbOfRepetitions) ∨
        (NewtonIteration jdd env s = Exit.backupandreturn s1 ∧
          (¬ s.iterprocess.RepetitionIndex < s.iterprocess.NbOfRepetitions ∨
            (ComputeImplicitTerms jdd.mesh env s.clock s.T_1 s.DT_1).1 = Call.interrupt))) ∧
    (∀ ie i, ie < jdd.mesh.NbOfElements → (jdd.mesh.Element ie).Material = true →
      env.Element_ComputeMatrix s.clock ie s.T_1 s.DT_1 = Call.ret i → i ≠ 0 →
      ∃ s1, (Newton.matrix jdd env s = Exit.recommences s1 ∧
          s.iterprocess.RepetitionIndex < s.iterprocess.NbOfRepetitions) ∨
        (Newton.matrix jdd env s = Exit.backupandreturn s1 ∧
          (¬ s.iterprocess.RepetitionIndex < s.iterprocess.NbOfRepetitions ∨
            (ComputeMatrix jdd.mesh env s.clock s.T_1 s.DT_1 s.solver.a
              (env.stack s.clock)).code = Call.interrupt))) ∧
    Algorithm jdd (env.withResiduCodes c cl) fuel sols solver
      = Algorithm jdd env fuel sols solver := by
  refine ⟨?_, ?_, Algorithm_withResiduCodes jdd env c cl fuel sols solver⟩
  · intro ie i hie hm hc hi
    have hne : (ComputeImplicitTerms jdd.mesh env s.clock s.T_1 s.DT_1).1 ≠ Call.ret 0 := by
      rw [ComputeImplicitTerms, ComputeImplicitTerms_loop_eq_visit]
      refine visit_failure _ _ _ ie hie hm ?_
      simp only [hc]
      intro h0
      exact hi (Call.ret.inj h0)
    obtain ⟨s1, h1⟩ := implicitTerms_failure jdd env
      (s.setIterProcess (IterProcess_IncrementIterationIndex s.iterprocess)) hne
    refine ⟨s1, ?_⟩
    unfold NewtonIteration
    simp only
    rcases h1 with ⟨h1, h2⟩ | ⟨h1, h2⟩
    · left
      rw [h1]
      exact ⟨rfl, h2⟩
    · right
      rw [h1]
      exact ⟨rfl, h2⟩
  · intro ie i hie hm hc hi
    have hne : (ComputeMatrix jdd.mesh env s.clock s.T_1 s.DT_1 s.solver.a
        (env.stack s.clock)).code ≠ Call.ret 0 := by
      have hv := ComputeMatrix_loop_eq_visit jdd.mesh env s.clock s.T_1 s.DT_1
        (List.range jdd.mesh.NbOfElements) s.solver.a.zeroed (env.stack s.clock)
      have hf := visit_failure (fun ie => (jdd.mesh.Element ie).Material)
        (fun ie => env.Element_ComputeMatrix s.clock ie s.T_1 s.DT_1) _ ie hie hm
        (by simp only [hc]; intro h0; exact hi (Call.ret.inj h0))
      rw [← hv] at hf
      exact hf
    exact matrix_failure jdd env s hne

/-! ## What the loop on iterations and the repetitions leave untouched -/

theorem Reach.trans {m1 m2 : List Event} {s s0 s1 : State}
    (h1 : Reach m1 s s0) (h2 : Reach m2 s0 s1) : Reach (m2 ++ m1) s s1 := by
  induction h2 with
  | refl => simpa using h1
  | log e _ ih => exact Reach.log e (ih h1)
  | tick _ ih => exact Reach.tick (ih h1)
  | setSolver sv _ ih => exact Reach.setSolver sv (ih h1)
  | setSOL_1 v _ ih => exact Reach.setSOL_1 v (ih h1)
  | setIterProcess ip _ a b c ih => exact Reach.setIterProcess ip (ih h1) a b c

theorem Reach.trace {m : List Event} {s s1 : State} (h : Reach m s s1) :
    s1.trace = m ++ s.trace := by
  induction h with
  | refl => rfl
  | log e _ ih => simp [ih]
  | tick _ ih => simpa using ih
  | setSolver sv _ ih => simpa using ih
  | setSOL_1 v _ ih => simpa using ih
  | setIterProcess ip _ _ _ _ ih => simpa using ih

theorem Reach.NbOfSolutions {m : List Event} {s s1 : State} (h : Reach m s s1) :
    s1.sols.NbOfSolutions = s.sols.NbOfSolutions := by
  induction h with
  | refl => rfl
  | log e _ ih => simpa using ih
  | tick _ ih => simpa using ih
  | setSolver sv _ ih => simpa using ih
  | setSOL_1 v _ ih => simpa using ih
  | setIterProcess ip _ _ _ _ ih => simpa using ih

theorem Reach.cursor {m : List Event} {s s1 : State} (h : Reach m s s1) :
    s1.sols.cursor = s.sols.cursor := by
  induction h with
  | refl => rfl
  | log e _ ih => simpa using ih
  | tick _ ih => simpa using ih
  | setSolver sv _ ih => simpa using ih
  | setSOL_1 v _ ih => simpa using ih
  | setIterProcess ip _ _ _ _ ih => simpa using ih

theorem Reach.solution {m : List Event} {s s1 : State} (h : Reach m s s1) (i : Nat)
    (hi : i ≠ s.sols.cursor) : s1.sols.solution i = s.sols.solution i := by
  induction h with
  | refl => rfl
  | log e _ ih => simpa using ih hi
  | tick _ ih => simpa using ih hi
  | setSolver sv _ ih => simpa using ih hi
  | setSOL_1 v h0 ih =>
    rw [State.setSOL_1_other _ _ _ (by rw [h0.cursor]; exact hi)]
    exact ih hi
  | setIterProcess ip _ _ _ _ ih => simpa using ih hi

theorem Reach.limits {m : List Event} {s s1 : State} (h : Reach m s s1) :
    s1.iterprocess.NbOfIterations = s.iterprocess.NbOfIterations ∧
    s1.iterprocess.NbOfRepetitions = s.iterprocess.NbOfRepetitions ∧
    s1.iterprocess.Tolerance = s.iterprocess.Tolerance := by
  induction h with
  | refl => exact ⟨rfl, rfl, rfl⟩
  | log e _ ih => simpa using ih
  | tick _ ih => simpa using ih
  | setSolver sv _ ih => simpa using ih
  | setSOL_1 v _ ih => simpa using ih
  | setIterProcess ip _ a b c ih =>
    simp only [State.setIterProcess_iterprocess]
    exact ⟨a.trans ih.1, b.trans ih.2.1, c.trans ih.2.2⟩

theorem retry_reach (s : State) (rf t_ini : ℚ) :
    Reach [] s
      (if ((s.setIterProcess (IterProcess_IncrementRepetitionIndex s.iterprocess)).setDT_1
          ((s.setIterProcess (IterProcess_IncrementRepetitionIndex s.iterprocess)).DT_1 * rf)).DT_1
          > t_ini
      then ((s.setIterProcess (IterProcess_IncrementRepetitionIndex s.iterprocess)).setDT_1
          ((s.setIterProcess (IterProcess_IncrementRepetitionIndex s.iterprocess)).DT_1 * rf)).setDT_1
          t_ini
      else (s.setIterProcess (IterProcess_IncrementRepetitionIndex s.iterprocess)).setDT_1
          ((s.setIterProcess (IterProcess_IncrementRepetitionIndex s.iterprocess)).DT_1 * rf)) := by
  have h0 : Reach [] s (s.setIterProcess (IterProcess_IncrementRepetitionIndex s.iterprocess)) :=
    Reach.setIterProcess _ (Reach.refl s) rfl rfl rfl
  split
  · exact Reach.setSOL_1 _ (Reach.setSOL_1 _ h0)
  · exact Reach.setSOL_1 _ h0

theorem implicitTerms_spec (jdd : DataSet) (env : Env) (s : State) :
    PhaseSpec 1 s (Newton.implicitTerms jdd env s) := by
  have h0 : Reach [Event.ImplicitTerms s.T_1 s.DT_1] s
      (s.log (Event.ImplicitTerms s.T_1 s.DT_1)).tick :=
    Reach.tick (Reach.log _ (Reach.refl s))
  unfold Newton.implicitTerms
  simp only
  split
  · exact ⟨_, h0, by simp [Event.minor], by simp [Exit.isAbort], by simp [nbStep, Event.isStep],
      by simp [nbImplicitTerms, Event.isImplicitTerms], rfl, by simp [Exit.isRetry],
      fun _ => rfl⟩
  · split
    · split
      · rename_i hr
        have hu := retry_update (s.log (Event.ImplicitTerms s.T_1 s.DT_1)).tick
          jdd.timestep.ReductionFactor jdd.timestep.InitialTimeStep
        refine ⟨_, (h0.trans (retry_reach _ jdd.timestep.ReductionFactor
          jdd.timestep.InitialTimeStep)), by simp [Event.minor], by simp [Event.quiet],
          by simp [nbStep, Event.isStep], by simp [nbImplicitTerms, Event.isImplicitTerms],
          ?_, ?_, by simp [Exit.isRetry]⟩
        · simp only [Exit.state]
          rw [hu.2]; rfl
        · intro _
          simp only [Exit.state]
          rw [hu.2]
          exact ⟨rfl, hr⟩
      · exact ⟨_, Reach.log _ h0, by simp [Event.minor], by simp [Exit.isAbort],
          by simp [nbStep, Event.isStep], by simp [nbImplicitTerms, Event.isImplicitTerms],
          rfl, by simp [Exit.isRetry], fun _ => rfl⟩
    · exact ⟨_, h0, by simp [Event.minor], by simp [Event.quiet],
        by simp [nbStep, Event.isStep], by simp [nbImplicitTerms, Event.isImplicitTerms],
        rfl, by simp [Exit.isRetry], fun _ => rfl⟩

theorem residu_spec (jdd : DataSet) (env : Env) (s : State) :
    PhaseSpec 0 s (Newton.residu jdd env s) := by
  unfold Newton.residu
  split
  · exact ⟨[], Reach.tick (Reach.refl s), by simp, by simp, by simp [nbStep],
      by simp [nbImplicitTerms], rfl, by simp [Exit.isRetry], fun _ => rfl⟩
  · exact ⟨[], Reach.setSolver _ (Reach.tick (Reach.refl s)), by simp, by simp, by simp [nbStep],
      by simp [nbImplicitTerms], rfl, by simp [Exit.isRetry], fun _ => rfl⟩

theorem matrix_spec (jdd : DataSet) (env : Env) (s : State) :
    PhaseSpec 0 s (Newton.matrix jdd env s) := by
  have h0 : Reach [] s (s.tick.setSolver { s.solver with a :=
      (ComputeMatrix jdd.mesh env s.clock s.T_1 s.DT_1 s.solver.a (env.stack s.clock)).a }) :=
    Reach.setSolver _ (Reach.tick (Reach.refl s))
  unfold Newton.matrix
  simp only
  split
  · exact ⟨_, h0, by simp, by simp, by simp [nbStep],
      by simp [nbImplicitTerms], rfl, by simp [Exit.isRetry], fun _ => rfl⟩
  · split
    · split
      · rename_i hr
        have hu := retry_update (s.tick.setSolver { s.solver with a :=
            (ComputeMatrix jdd.mesh env s.clock s.T_1 s.DT_1 s.solver.a (env.stack s.clock)).a })
          jdd.timestep.ReductionFactor jdd.timestep.InitialTimeStep
        refine ⟨_, (h0.trans (retry_reach _ jdd.timestep.ReductionFactor
          jdd.timestep.InitialTimeStep)), by simp, by simp,
          by simp [nbStep], by simp [nbImplicitTerms],
          ?_, ?_, by simp [Exit.isRetry]⟩
        · simp only [Exit.state]
          rw [hu.2]; rfl
        · intro _
          simp only [Exit.state]
          rw [hu.2]
          exact ⟨rfl, hr⟩
      · exact ⟨_, Reach.log _ h0, by simp [Event.minor], by simp [Exit.isAbort],
          by simp [nbStep, Event.isStep], by simp [nbImplicitTerms, Event.isImplicitTerms],
          rfl, by simp [Exit.isRetry], fun _ => rfl⟩
    · exact ⟨_, h0, by simp, by simp, by simp [nbStep], by simp [nbImplicitTerms],
        rfl, by simp [Exit.isRetry], fun _ => rfl⟩

theorem resolution_spec (jdd : DataSet) (env : Env) (s : State) :
    PhaseSpec 0 s (Newton.resolution jdd env s) := by
  have h0 : Reach [] s s.tick := Reach.tick (Reach.refl s)
  unfold Newton.resolution
  simp only
  split
  · split
    · rename_i hr
      have hu := retry_update s.tick jdd.timestep.ReductionFactor jdd.timestep.InitialTimeStep
      refine ⟨_, (h0.trans (retry_reach _ jdd.timestep.ReductionFactor
        jdd.timestep.InitialTimeStep)), by simp, by simp,
        by simp [nbStep], by simp [nbImplicitTerms],
        ?_, ?_, by simp [Exit.isRetry]⟩
      · simp only [Exit.state]
        rw [hu.2]; rfl
      · intro _
        simp only [Exit.state]
        rw [hu.2]
        exact ⟨rfl, hr⟩
    · exact ⟨_, Reach.log _ h0, by simp [Event.minor], by simp [Exit.isAbort],
        by simp [nbStep, Event.isStep], by simp [nbImplicitTerms, Event.isImplicitTerms],
        rfl, by simp [Exit.isRetry], fun _ => rfl⟩
  · exact ⟨_, h0, by simp, by simp, by simp [nbStep], by simp [nbImplicitTerms],
      rfl, by simp [Exit.isRetry], fun _ => rfl⟩

theorem error_spec (env : Env) (s : State) : PhaseSpec 0 s (Newton.error env s) := by
  have h0 : Reach [] s (s.tick.setIterProcess
      { s.iterprocess with CurrentError := env.IterProcess_SetCurrentError s.clock }) :=
    Reach.setIterProcess _ (Reach.tick (Reach.refl s)) rfl rfl rfl
  unfold Newton.error
  simp only
  split
  · exact ⟨_, h0, by simp, by simp, by simp [nbStep], by simp [nbImplicitTerms],
      rfl, by simp [Exit.isRetry], fun _ => rfl⟩
  · exact ⟨_, h0, by simp, by simp, by simp [nbStep], by simp [nbImplicitTerms],
      rfl, by simp [Exit.isRetry], fun _ => rfl⟩

theorem nbStep_append (m1 m2 : List Event) : nbStep (m1 ++ m2) = nbStep m1 + nbStep m2 := by
  simp [nbStep]

theorem nbImplicitTerms_append (m1 m2 : List Event) :
    nbImplicitTerms (m1 ++ m2) = nbImplicitTerms m1 + nbImplicitTerms m2 := by
  simp [nbImplicitTerms]

theorem PhaseSpec.andThen {k1 k2 : Nat} {s : State} {x : Exit} {f : State → Exit}
    (h1 : PhaseSpec k1 s x) (h2 : ∀ s0, PhaseSpec k2 s0 (f s0)) :
    PhaseSpec (k1 + k2) s (x.andThen f) := by
  cases x with
  | next s0 =>
    obtain ⟨m1, r1, a1, b1, c1, d1, e1, _, g1⟩ := h1
    obtain ⟨m2, r2, a2, b2, c2, d2, e2, f2, g2⟩ := h2 s0
    simp only [Exit.state] at r1 e1 g1
    refine ⟨m2 ++ m1, r1.trans r2, ?_, ?_, ?_, ?_, ?_, ?_, ?_⟩
    · intro e he
      rcases List.mem_append.1 he with h | h
      · exact a2 e h
      · exact a1 e h
    · intro hab e he
      rcases List.mem_append.1 he with h | h
      · exact b2 hab e h
      · exact b1 rfl e h
    · rw [nbStep_append, c1, c2]
    · rw [nbImplicitTerms_append]; omega
    · exact e2.trans e1
    · intro hr
      obtain ⟨u, v⟩ := f2 hr
      rw [g1 rfl] at u v
      rw [r1.limits.2.1] at v
      exact ⟨u, v⟩
    · intro hr
      exact (g2 hr).trans (g1 rfl)
  | brk s0 =>
    obtain ⟨m1, r1, a1, b1, c1, d1, e1, f1, g1⟩ := h1
    exact ⟨m1, r1, a1, b1, c1, by omega, e1, f1, g1⟩
  | recommences s0 =>
    obtain ⟨m1, r1, a1, b1, c1, d1, e1, f1, g1⟩ := h1
    exact ⟨m1, r1, a1, b1, c1, by omega, e1, f1, g1⟩
  | backupandreturn s0 =>
    obtain ⟨m1, r1, a1, b1, c1, d1, e1, f1, g1⟩ := h1
    exact ⟨m1, r1, a1, b1, c1, by omega, e1, f1, g1⟩

/-- One pass of the loop on iterations, seen from the state in which the
iteration index has been incremented. -/
theorem NewtonIteration_spec (jdd : DataSet) (env : Env) (s : State) :
    PhaseSpec 1 (s.setIterProcess (IterProcess_IncrementIterationIndex s.iterprocess))
      (NewtonIteration jdd env s) := by
  unfold NewtonIteration
  simp only
  exact ((((implicitTerms_spec jdd env _).andThen (residu_spec jdd env)).andThen
    (matrix_spec jdd env)).andThen (resolution_spec jdd env)).andThen (error_spec env)

theorem PhaseSpec.run {k : Nat} {s : State} {x : Exit} (h : PhaseSpec k s x) :
    RunSpec 0 k s x := by
  obtain ⟨m, r, a, b, c, d, _, f, g⟩ := h
  exact ⟨m, r, a, b, c, d, f, g⟩

/-- The loop on iterations terminates within `NbOfIterations - IterationIndex`
passes, each with one call of `ComputeImplicitTerms`. -/
theorem NewtonLoop_spec (jdd : DataSet) (env : Env) (fuel : Nat) :
    ∀ s : State, s.iterprocess.NbOfIterations - s.iterprocess.IterationIndex ≤ fuel →
    ∃ x, NewtonLoop jdd env fuel s = some x ∧
      RunSpec 0 (s.iterprocess.NbOfIterations - s.iterprocess.IterationIndex) s x := by
  induction fuel with
  | zero =>
    intro s hf
    have hc : ¬ IterProcess_LastIterationIsNotReached s.iterprocess := by
      unfold IterProcess_LastIterationIsNotReached; omega
    refine ⟨Exit.next s, by simp [NewtonLoop, hc], [], Reach.refl s, by simp, by simp,
      by simp [nbStep], by simp [nbImplicitTerms], by simp [Exit.isRetry], fun _ => rfl⟩
  | succ fuel ih =>
    intro s hf
    by_cases hc : IterProcess_LastIterationIsNotReached s.iterprocess
    · have hlt : s.iterprocess.IterationIndex < s.iterprocess.NbOfIterations := hc
      obtain ⟨m1, r1, a1, b1, c1, d1, e1, f1, g1⟩ := NewtonIteration_spec jdd env s
      have r0 : Reach [] s
          (s.setIterProcess (IterProcess_IncrementIterationIndex s.iterprocess)) :=
        Reach.setIterProcess _ (Reach.refl s) rfl rfl rfl
      have r01 := r0.trans r1
      simp only [List.append_nil] at r01
      simp only [State.setIterProcess_iterprocess] at e1 f1 g1
      have e1' : (NewtonIteration jdd env s).state.iterprocess.IterationIndex
          = s.iterprocess.IterationIndex + 1 := e1
      have f1' : (NewtonIteration jdd env s).isRetry = true →
          (NewtonIteration jdd env s).state.iterprocess.RepetitionIndex
            = s.iterprocess.RepetitionIndex + 1 ∧
          s.iterprocess.RepetitionIndex < s.iterprocess.NbOfRepetitions := f1
      have g1' : (NewtonIteration jdd env s).isRetry = false →
          (NewtonIteration jdd env s).state.iterprocess.RepetitionIndex
            = s.iterprocess.RepetitionIndex := g1
      have hdirect : RunSpec 0 (s.iterprocess.NbOfIterations - s.iterprocess.IterationIndex) s
          (NewtonIteration jdd env s) :=
        ⟨m1, r01, a1, b1, c1, by omega, f1', g1'⟩
      cases hx : NewtonIteration jdd env s with
      | next s1 =>
        rw [hx] at r01 e1' g1'
        simp only [Exit.state] at r01 e1' g1'
        have hN := r01.limits.1
        obtain ⟨x, hx2, m2, r2, a2, b2, c2, d2, f2, g2⟩ := ih s1 (by omega)
        refine ⟨x, by simp [NewtonLoop, hc, hx, hx2], m2 ++ m1, r01.trans r2, ?_, ?_, ?_, ?_,
          ?_, ?_⟩
        · intro e he
          rcases List.mem_append.1 he with h | h
          · exact a2 e h
          · exact a1 e h
        · intro hab e he
          rcases List.mem_append.1 he with h | h
          · exact b2 hab e h
          · exact b1 (by rw [hx]; rfl) e h
        · rw [nbStep_append, c1, c2]
        · rw [nbImplicitTerms_append]; omega
        · intro hr
          obtain ⟨u, v⟩ := f2 hr
          rw [g1' rfl] at u v
          rw [r01.limits.2.1] at v
          exact ⟨u, v⟩
        · intro hr
          exact (g2 hr).trans (g1' rfl)
      | brk s1 =>
        rw [hx] at hdirect
        exact ⟨_, by simp [NewtonLoop, hc, hx], hdirect⟩
      | recommences s1 =>
        rw [hx] at hdirect
        exact ⟨_, by simp [NewtonLoop, hc, hx], hdirect⟩
      | backupandreturn s1 =>
        rw [hx] at hdirect
        exact ⟨_, by simp [NewtonLoop, hc, hx], hdirect⟩
    · refine ⟨Exit.next s, by simp [NewtonLoop, hc], [], Reach.refl s, by simp, by simp,
        by simp [nbStep], by simp [nbImplicitTerms], by simp [Exit.isRetry], fun _ => rfl⟩

theorem beginAttempt_reach (s : State) :
    ∃ m, Reach m s (beginAttempt s) ∧ (∀ e ∈ m, e.quiet = true) ∧ nbStep m = 1 ∧
      nbImplicitTerms m = 0 ∧
      (beginAttempt s).iterprocess.RepetitionIndex = s.iterprocess.RepetitionIndex ∧
      (beginAttempt s).iterprocess.IterationIndex = 0 := by
  unfold beginAttempt
  simp only
  by_cases h : s.iterprocess.RepetitionIndex > 0
  · simp only [h, if_true]
    exact ⟨_, Reach.setIterProcess _ (Reach.log _ (Reach.setSOL_1 _ (Reach.log _ (Reach.refl s))))
      rfl rfl rfl, by simp [Event.quiet], by simp [nbStep, Event.isStep],
      by simp [nbImplicitTerms, Event.isImplicitTerms], rfl, rfl⟩
  · simp only [h, if_false]
    exact ⟨_, Reach.setIterProcess _ (Reach.log _ (Reach.setSOL_1 _ (Reach.refl s)))
      rfl rfl rfl, by simp [Event.quiet], by simp [nbStep, Event.isStep],
      by simp [nbImplicitTerms, Event.isImplicitTerms], rfl, rfl⟩

theorem quiet_minor (e : Event) (h : e.quiet = true) : e.minor = true := by
  cases e <;> simp [Event.quiet] at h <;> rfl

theorem smallerTimeStep_reach (jdd : DataSet) (s s1 : State)
    (h : smallerTimeStep jdd s = some s1) : Reach [] s s1 := by
  unfold smallerTimeStep at h
  split at h
  · simp only [Option.some.injEq] at h
    subst h
    exact Reach.setSOL_1 _ (Reach.setIterProcess _ (Reach.refl s) rfl rfl rfl)
  · exact absurd h (by simp)

/-- One attempt always ends, with one message "Step ..." and at most
`NbOfIterations` calls of `ComputeImplicitTerms`. -/
theorem attempt_spec (jdd : DataSet) (env : Env) (s : State) :
    ∃ x, attempt jdd env s = some x ∧ RunSpec 1 s.iterprocess.NbOfIterations s x ∧
      (∀ s1, x ≠ Exit.brk s1) ∧ (∀ s1, x = Exit.next s1 → smallerTimeStep jdd s1 = none) := by
  obtain ⟨m0, r0, q0, n0, i0, rep0, it0⟩ := beginAttempt_reach s
  have hN0 := r0.limits.1
  obtain ⟨x0, hx0, m1, r1, a1, b1, c1, d1, f1, g1⟩ := NewtonLoop_spec jdd env
    (beginAttempt s).iterprocess.NbOfIterations (beginAttempt s) (by omega)
  rw [it0, hN0, Nat.sub_zero] at d1
  rw [rep0, r0.limits.2.1] at f1
  rw [rep0] at g1
  have r01 := r0.trans r1
  have hmin : ∀ e ∈ m1 ++ m0, e.minor = true := by
    intro e he
    rcases List.mem_append.1 he with h | h
    · exact a1 e h
    · exact quiet_minor e (q0 e h)
  have hquiet : x0.isAbort = false → ∀ e ∈ m1 ++ m0, e.quiet = true := by
    intro hab e he
    rcases List.mem_append.1 he with h | h
    · exact b1 hab e h
    · exact q0 e h
  have hst : nbStep (m1 ++ m0) = 1 := by rw [nbStep_append, c1, n0]
  have him : nbImplicitTerms (m1 ++ m0) ≤ s.iterprocess.NbOfIterations := by
    rw [nbImplicitTerms_append, i0]; omega
  have hdirect : RunSpec 1 s.iterprocess.NbOfIterations s x0 :=
    ⟨m1 ++ m0, r01, hmin, hquiet, hst, him, f1, g1⟩
  -- the exit of the loop on iterations decides
  have hcont : ∀ s1, x0.state = s1 → x0.isAbort = false → x0.isRetry = false →
      ∃ x, (match smallerTimeStep jdd s1 with
          | some s2 => some (Exit.recommences s2)
          | none => some (Exit.next s1)) = some x ∧
        RunSpec 1 s.iterprocess.NbOfIterations s x ∧
        (∀ s1, x ≠ Exit.brk s1) ∧ (∀ s1, x = Exit.next s1 → smallerTimeStep jdd s1 = none) := by
    intro s1 hs1 hab hre
    rw [hs1] at r01 g1
    cases hsm : smallerTimeStep jdd s1 with
    | none =>
      refine ⟨Exit.next s1, rfl, ⟨m1 ++ m0, r01, hmin, fun _ => hquiet hab, hst, him,
        by simp [Exit.isRetry], fun _ => g1 hre⟩, by simp, ?_⟩
      intro s2 h2
      simp only [Exit.next.injEq] at h2
      rw [← h2]; exact hsm
    | some s2 =>
      obtain ⟨_, hip, _, hrep⟩ := smallerTimeStep_some jdd s1 s2 hsm
      have r2 := r01.trans (smallerTimeStep_reach jdd s1 s2 hsm)
      simp only [List.nil_append] at r2
      refine ⟨Exit.recommences s2, rfl, ⟨m1 ++ m0, r2, hmin, fun _ => hquiet hab, hst, him,
        ?_, by simp [Exit.isRetry]⟩, by simp, by simp⟩
      intro _
      simp only [Exit.state]
      constructor
      · rw [hip, ← g1 hre]; rfl
      · have : s1.iterprocess.RepetitionIndex < s1.iterprocess.NbOfRepetitions := hrep
        rw [g1 hre, r01.limits.2.1] at this
        exact this
  unfold attempt
  simp only [hx0]
  cases x0 with
  | next s1 => exact hcont s1 rfl rfl rfl
  | brk s1 => exact hcont s1 rfl rfl rfl
  | recommences s1 => exact ⟨_, rfl, hdirect, by simp, by simp⟩
  | backupandreturn s1 => exact ⟨_, rfl, hdirect, by simp, by simp⟩

/-- The attempts of one time step end within `NbOfRepetitions -
RepetitionIndex` jumps back to the label `recommences`. -/
theorem Recommences_spec (jdd : DataSet) (env : Env) (fuel : Nat) :
    ∀ s : State, s.iterprocess.NbOfRepetitions - s.iterprocess.RepetitionIndex ≤ fuel →
    ∃ a, Recommences jdd env fuel s = some a ∧ StepSpec jdd s a := by
  induction fuel with
  | zero =>
    intro s hf
    obtain ⟨x, hx, ⟨m1, r1, a1, b1, c1, d1, f1, g1⟩, hbrk, hnext⟩ := attempt_spec jdd env s
    cases x with
    | next s1 =>
      have hg := g1 rfl
      simp only [Exit.state] at r1 hg
      refine ⟨Attempt.done s1, by simp [Recommences, hx], m1, r1, a1, fun _ => b1 rfl, ?_, ?_, ?_,
        ?_, fun _ => hnext s1 rfl⟩
      · simp only [Attempt.state]; rw [c1, hg]; omega
      · simp only [Attempt.state]; omega
      · intro h; simp only [Attempt.state]; omega
      · rw [c1]; omega
    | brk s1 => exact absurd rfl (hbrk s1)
    | recommences s1 =>
      have := (f1 rfl).2
      omega
    | backupandreturn s1 =>
      have hg := g1 rfl
      simp only [Exit.state] at r1 hg
      refine ⟨Attempt.backupandreturn s1, by simp [Recommences, hx], m1, r1, a1, by simp [Attempt.isAbort],
        ?_, ?_, ?_, ?_, by simp [Attempt.isAbort]⟩
      · simp only [Attempt.state]; rw [c1, hg]; omega
      · simp only [Attempt.state]; omega
      · intro h; simp only [Attempt.state]; omega
      · rw [c1]; omega
  | succ fuel ih =>
    intro s hf
    obtain ⟨x, hx, ⟨m1, r1, a1, b1, c1, d1, f1, g1⟩, hbrk, hnext⟩ := attempt_spec jdd env s
    cases x with
    | next s1 =>
      have hg := g1 rfl
      simp only [Exit.state] at r1 hg
      refine ⟨Attempt.done s1, by simp [Recommences, hx], m1, r1, a1, fun _ => b1 rfl, ?_, ?_, ?_,
        ?_, fun _ => hnext s1 rfl⟩
      · simp only [Attempt.state]; rw [c1, hg]; omega
      · simp only [Attempt.state]; omega
      · intro h; simp only [Attempt.state]; omega
      · rw [c1]; omega
    | brk s1 => exact absurd rfl (hbrk s1)
    | recommences s1 =>
      obtain ⟨hr1, hr2⟩ := f1 rfl
      simp only [Exit.state] at r1 hr1
      have hR := r1.limits.2.1
      have hN := r1.limits.1
      obtain ⟨a, ha, m2, r2, a2, b2, c2, le2, up2, d2, e2⟩ := ih s1 (by omega)
      refine ⟨a, by simp [Recommences, hx, ha], m2 ++ m1, r1.trans r2, ?_, ?_, ?_, ?_, ?_, ?_,
        e2⟩
      · intro e he
        rcases List.mem_append.1 he with h | h
        · exact a2 e h
        · exact a1 e h
      · intro hab e he
        rcases List.mem_append.1 he with h | h
        · exact b2 hab e h
        · exact b1 rfl e h
      · rw [nbStep_append, c1, c2]; omega
      · omega
      · intro h
        have := up2 (by omega)
        omega
      · rw [nbImplicitTerms_append, nbStep_append, c1, Nat.add_mul, Nat.one_mul]
        rw [hN] at d2
        omega
    | backupandreturn s1 =>
      have hg := g1 rfl
      simp only [Exit.state] at r1 hg
      refine ⟨Attempt.backupandreturn s1, by simp [Recommences, hx], m1, r1, a1, by simp [Attempt.isAbort],
        ?_, ?_, ?_, ?_, by simp [Attempt.isAbort]⟩
      · simp only [Attempt.state]; rw [c1, hg]; omega
      · simp only [Attempt.state]; omega
      · intro h; simp only [Attempt.state]; omega
      · rw [c1]; omega

/-! ## The invariant of the loops on time steps and on dates -/

theorem succ_mod_ne (n c : Nat) (hn : 2 ≤ n) (hc : c < n) : (c + 1) % n ≠ c := by
  by_cases h : c + 1 < n
  · rw [Nat.mod_eq_of_lt h]; omega
  · have : c + 1 = n := by omega
    rw [this, Nat.mod_self]; omega

theorem previous_succ_mod (n c : Nat) (hn : 1 ≤ n) (hc : c < n) :
    ((c + 1) % n + n - 1) % n = c := by
  by_cases h : c + 1 < n
  · rw [Nat.mod_eq_of_lt h]
    have : c + 1 + n - 1 = c + n := by omega
    rw [this, Nat.add_mod_right, Nat.mod_eq_of_lt hc]
  · have : c + 1 = n := by omega
    rw [this, Nat.mod_self]
    have : 0 + n - 1 = c := by omega
    rw [this, Nat.mod_eq_of_lt hc]

theorem minor_counts (m : List Event) (h : ∀ e ∈ m, e.minor = true) :
    nbStore m = 0 ∧ nbStepBackward m = 0 ∧ nbStepForward m = 0 ∧ nbAccepted m = 0 := by
  induction m with
  | nil => simp [nbStore, nbStepBackward, nbStepForward, nbAccepted]
  | cons e m ih =>
    have he := h e (List.mem_cons_self _ _)
    obtain ⟨a, b, c, d⟩ := ih (fun x hx => h x (List.mem_cons_of_mem _ hx))
    simp only [nbStore, nbStepBackward, nbStepForward, nbAccepted] at a b c d ⊢
    cases e <;> simp [Event.minor] at he <;>
      simp [List.countP_cons, Event.isStore, Event.isStepBackward, Event.isStepForward,
        Event.isAccepted, a, b, c, d]

theorem minor_lastAccepted (t_0 : ℚ) (m tr : List Event) (h : ∀ e ∈ m, e.minor = true) :
    lastAccepted t_0 (m ++ tr) = lastAccepted t_0 tr := by
  induction m with
  | nil => rfl
  | cons e m ih =>
    have he := h e (List.mem_cons_self _ _)
    have := ih (fun x hx => h x (List.mem_cons_of_mem _ hx))
    cases e <;> simp [Event.minor] at he <;> simpa [lastAccepted] using this

theorem quiet_nbUndefined (m : List Event) (h : ∀ e ∈ m, e.quiet = true) :
    nbUndefined m = 0 := by
  induction m with
  | nil => simp [nbUndefined]
  | cons e m ih =>
    have he := h e (List.mem_cons_self _ _)
    have := ih (fun x hx => h x (List.mem_cons_of_mem _ hx))
    simp only [nbUndefined] at this ⊢
    cases e <;> simp [Event.quiet] at he <;>
      simp [List.countP_cons, Event.isUndefined, this]

theorem nbStore_append (a b : List Event) : nbStore (a ++ b) = nbStore a + nbStore b := by
  simp [nbStore]

theorem nbStepBackward_append (a b : List Event) :
    nbStepBackward (a ++ b) = nbStepBackward a + nbStepBackward b := by
  simp [nbStepBackward]

theorem nbStepForward_append (a b : List Event) :
    nbStepForward (a ++ b) = nbStepForward a + nbStepForward b := by
  simp [nbStepForward]

theorem nbAccepted_append (a b : List Event) :
    nbAccepted (a ++ b) = nbAccepted a + nbAccepted b := by
  simp [nbAccepted]

theorem nbUndefined_append (a b : List Event) :
    nbUndefined (a ++ b) = nbUndefined a + nbUndefined b := by
  simp [nbUndefined]

theorem DatesDone.append {jdd : DataSet} {t_0 : ℚ} {lo hi : Nat} {tr : List Event}
    (h : DatesDone jdd t_0 lo hi tr) (m : List Event) : DatesDone jdd t_0 lo hi (m ++ tr) := by
  intro k h1 h2
  obtain ⟨t, tr1, tr2, e, ht⟩ := h k h1 h2
  exact ⟨t, m ++ tr1, tr2, by rw [e, List.append_assoc], ht⟩

theorem InStep.forward (s : State) :
    InStep s ((s.setSols (Solutions_StepForward s.sols)).log Event.StepForward) [] := by
  refine ⟨rfl, rfl, fun i _ => rfl, rfl, by simp⟩

theorem InStep.reach {s x y : State} {m m2 : List Event} (h : InStep s x m)
    (r : Reach m2 x y) (hm : ∀ e ∈ m2, e.minor = true) : InStep s y (m2 ++ m) := by
  obtain ⟨a, b, c, d, e⟩ := h
  refine ⟨r.NbOfSolutions.trans a, r.cursor.trans b, ?_, ?_, ?_⟩
  · intro i hi
    rw [r.cursor] at hi
    rw [r.solution i hi]
    exact c i hi
  · rw [r.trace, d, List.append_assoc]
  · intro ev hev
    rcases List.mem_append.1 hev with h1 | h1
    · exact hm ev h1
    · exact e ev h1

/-- Inside a step the previous solution is the current solution of the head
of the step. -/
theorem InStep.previous {c0 : Nat} {t_0 : ℚ} {s x : State} {m : List Event}
    (hinv : LoopInv c0 t_0 s) (h : InStep s x m) :
    x.sols.previous = s.sols.cursor ∧ x.sols.cursor ≠ s.sols.cursor ∧
    x.sols.solution s.sols.cursor = s.sols.solution s.sols.cursor := by
  obtain ⟨a, b, c, _, _⟩ := h
  have hne : x.sols.cursor ≠ s.sols.cursor := by
    rw [b]; exact succ_mod_ne _ _ hinv.ring hinv.cur_lt
  refine ⟨?_, hne, c _ (Ne.symm hne)⟩
  unfold Solutions.previous
  rw [a, b]
  exact previous_succ_mod _ _ (by have := hinv.ring; omega) hinv.cur_lt

theorem InStep.stepCounts {c0 : Nat} {t_0 : ℚ} {s x : State} {m : List Event}
    (hinv : LoopInv c0 t_0 s) (h : InStep s x m) :
    nbStore x.trace = 0 ∧ nbStepBackward x.trace = 0 ∧
    nbStepForward x.trace = nbAccepted x.trace + 1 ∧
    nbAccepted x.trace = nbAccepted s.trace ∧
    lastAccepted t_0 x.trace = lastAccepted t_0 s.trace ∧
    nbUndefined x.trace = nbUndefined m := by
  obtain ⟨_, _, _, d, e⟩ := h
  obtain ⟨m1, m2, m3, m4⟩ := minor_counts m e
  rw [d]
  refine ⟨?_, ?_, ?_, ?_, ?_, ?_⟩
  · rw [nbStore_append, m1]
    simpa [nbStore, List.countP_cons, Event.isStore] using hinv.noStore
  · rw [nbStepBackward_append, m2]
    simpa [nbStepBackward, List.countP_cons, Event.isStepBackward] using hinv.noBack
  · rw [nbStepForward_append, nbAccepted_append, m3, m4]
    have := hinv.count
    simp only [nbStepForward, nbAccepted] at this ⊢
    simp [List.countP_cons, Event.isStepForward, Event.isAccepted, this]
  · rw [nbAccepted_append, m4]
    simp [nbAccepted, List.countP_cons, Event.isAccepted]
  · rw [minor_lastAccepted t_0 m _ e]
    rfl
  · rw [nbUndefined_append]
    have := hinv.noUndef
    simp only [nbUndefined] at this ⊢
    simp [List.countP_cons, Event.isUndefined, this]

/-- The block `backupandreturn` taken inside a step. -/
theorem backupandreturn_spec {c0 : Nat} {t_0 : ℚ} {s x : State} {m : List Event} (idate : Nat)
    (hinv : LoopInv c0 t_0 s) (h : InStep s x m) :
    ReturnsBackup c0 t_0 (backupandreturn idate x) := by
  obtain ⟨hp, _, hsol⟩ := h.previous hinv
  obtain ⟨k1, k2, k3, k4, k5, _⟩ := h.stepCounts hinv
  have hT : (backupandreturn idate x).T_1 = s.T_1 := by
    simp only [backupandreturn, State.T_1, State.log_sols, State.setSols_sols,
      Solutions_StepBackward, hp, hsol]
  have hc : (backupandreturn idate x).sols.cursor = s.sols.cursor := by
    simp only [backupandreturn, State.log_sols, State.setSols_sols, Solutions_StepBackward, hp]
  have hn : (backupandreturn idate x).sols.NbOfSolutions = s.sols.NbOfSolutions := by
    simp only [backupandreturn, State.log_sols, State.setSols_sols, Solutions_StepBackward]
    exact h.1
  have htr : (backupandreturn idate x).trace
      = Event.StoreCurrentSolution (backupandreturn idate x).T_1 ::
        [Event.BackupSolutionAtTime (backupandreturn idate x).T_1 (idate + 1)] ++
        Event.StepBackward :: x.trace := by
    simp only [backupandreturn, State.log_trace, State.setSols_trace, State.log_T_1]
    rfl
  refine ⟨_, _, htr, Or.inr ⟨_, rfl⟩, k1, k2, k3, ?_, ?_⟩
  · rw [hc, hn, k4]; exact hinv.cursor
  · rw [hT, k5]; exact hinv.last

/-- The return at "undefined explicit terms" when `T_n` is not after `t_0`. -/
theorem explicit_spec {c0 : Nat} {t_0 tn : ℚ} {s x : State}
    (hinv : LoopInv c0 t_0 s) (h : InStep s x [Event.ExplicitTerms tn]) (hle : ¬ tn > t_0) :
    ReturnsExplicit c0 t_0 (x.log (Event.Undefined 1 0)) := by
  obtain ⟨a, b, _, d, _⟩ := h
  refine ⟨tn, s.trace, ?_, hle, hinv.noStore, hinv.noBack, hinv.count, ?_, hinv.noUndef⟩
  · simp [d]
  · simp only [State.log_sols]
    rw [b, a, hinv.cursor, Nat.mod_add_mod]

/-- The end of a step whose convergence is met. -/
theorem accepted_spec {c0 : Nat} {t_0 : ℚ} {s x : State} {m : List Event}
    (hinv : LoopInv c0 t_0 s) (h : InStep s x m) (hu : nbUndefined m = 0) :
    LoopInv c0 t_0 ((x.log (Event.Accepted x.T_1)).log
      (Event.BackupSolutionAtPoint (x.log (Event.Accepted x.T_1)).T_1 t_0)) := by
  obtain ⟨k1, k2, k3, k4, _, k6⟩ := h.stepCounts hinv
  obtain ⟨a, b, _, _, _⟩ := h
  have hn := hinv.ring
  refine ⟨?_, ?_, ?_, ?_, ?_, ?_, ?_, ?_⟩
  · simp only [State.log_sols]; rw [a]; exact hinv.ring
  · simp only [State.log_sols]; rw [a, b]; exact Nat.mod_lt _ (by omega)
  · simpa [nbStore, List.countP_cons, Event.isStore] using k1
  · simpa [nbStepBackward, List.countP_cons, Event.isStepBackward] using k2
  · simp only [nbStepForward, nbAccepted] at k3 ⊢
    simp [List.countP_cons, Event.isStepForward, Event.isAccepted, k3]
  · simp only [State.log_sols, State.log_trace]
    have : nbAccepted (Event.BackupSolutionAtPoint (x.log (Event.Accepted x.T_1)).T_1 t_0 ::
        Event.Accepted x.T_1 :: x.trace) = nbAccepted s.trace + 1 := by
      rw [← k4]
      simp [nbAccepted, List.countP_cons, Event.isAccepted]
    rw [this, a, b, hinv.cursor, Nat.mod_add_mod, Nat.add_assoc]
  · simp [lastAccepted]
  · rw [hu] at k6
    simp only [nbUndefined] at k6 ⊢
    simp [List.countP_cons, Event.isUndefined, k6]

/-- The end of a step whose convergence is not met. -/
theorem pending_spec {c0 : Nat} {t_0 : ℚ} {s x : State} {m : List Event}
    (hinv : LoopInv c0 t_0 s) (h : InStep s x m) (hu : nbUndefined m = 0)
    (hc : IterProcess_ConvergenceIsNotMet x.iterprocess) :
    Pending c0 t_0 (x.log (Event.BackupSolutionAtPoint x.T_1 t_0)) := by
  obtain ⟨hp, _, hsol⟩ := h.previous hinv
  obtain ⟨k1, k2, k3, k4, k5, k6⟩ := h.stepCounts hinv
  obtain ⟨a, b, _, _, _⟩ := h
  have hn := hinv.ring
  refine ⟨?_, ?_, ?_, ?_, ?_, ?_, ?_, ?_, hc⟩
  · simp only [State.log_sols]; rw [a]; exact hinv.ring
  · simp only [State.log_sols]; rw [a, b]; exact Nat.mod_lt _ (by omega)
  · simpa [nbStore, List.countP_cons, Event.isStore] using k1
  · simpa [nbStepBackward, List.countP_cons, Event.isStepBackward] using k2
  · simp only [nbStepForward, nbAccepted] at k3 ⊢
    simp [List.countP_cons, Event.isStepForward, Event.isAccepted, k3]
  · simp only [State.log_sols, State.log_trace]
    have : nbAccepted (Event.BackupSolutionAtPoint x.T_1 t_0 :: x.trace)
        = nbAccepted s.trace := by
      rw [← k4]
      simp [nbAccepted, List.countP_cons, Event.isAccepted]
    rw [this, a, b, hinv.cursor, Nat.mod_add_mod]
  · simp only [State.log_T_n, State.log_trace, lastAccepted]
    rw [k5, ← hinv.last]
    simp only [State.T_n, State.T_1, hp, hsol]
  · rw [hu] at k6
    simp only [nbUndefined] at k6 ⊢
    simp [List.countP_cons, Event.isUndefined, k6]

theorem setTimeStep_reach (jdd : DataSet) (env : Env) (idate : Nat) (s : State) :
    Reach [] s (setTimeStep jdd env idate s) ∧
    (setTimeStep jdd env idate s).iterprocess.RepetitionIndex = 0 :=
  ⟨Reach.setIterProcess _ (Reach.setSOL_1 _ (Reach.setSOL_1 _ (Reach.tick (Reach.refl s))))
    rfl rfl rfl, rfl⟩

theorem endStep_spec {c0 : Nat} {t_0 : ℚ} {s x : State} {m : List Event}
    (hinv : LoopInv c0 t_0 s) (h : InStep s x m) (hu : nbUndefined m = 0) :
    BodySpec c0 t_0 s (endStep t_0 x) := by
  unfold endStep
  by_cases hc : IterProcess_ConvergenceIsMet x.iterprocess
  · have hn : ¬ IterProcess_ConvergenceIsNotMet x.iterprocess := fun h => h hc
    simp only [hc, if_true, State.log_iterprocess, hn, if_false]
    refine ⟨accepted_spec hinv h hu, hc, m ++ [Event.StepForward], ?_⟩
    simp [h.2.2.2.1]
  · have hn : IterProcess_ConvergenceIsNotMet x.iterprocess := hc
    simp only [hc, if_false, State.log_iterprocess, hn, if_true]
    refine ⟨pending_spec hinv h hu hn, Event.BackupSolutionAtPoint x.T_1 t_0 :: m ++
      [Event.StepForward], ?_⟩
    simp [h.2.2.2.1]

/-- The body of the loop on time steps keeps the invariant, or leaves a
pending step, or returns -1 in one of the two ways. -/
theorem TimeStepBody_spec (jdd : DataSet) (env : Env) (t_0 : ℚ) (idate c0 : Nat) (s : State)
    (hinv : LoopInv c0 t_0 s) :
    ∃ fl, TimeStepBody jdd env t_0 idate s = some fl ∧ BodySpec c0 t_0 s fl := by
  have hsf := InStep.forward s
  have hse := hsf.reach
    (Reach.tick (Reach.log (Event.ExplicitTerms
      ((s.setSols (Solutions_StepForward s.sols)).log Event.StepForward).T_n)
      (Reach.refl _))) (by simp [Event.minor])
  simp only [List.append_nil] at hse
  unfold TimeStepBody
  simp only
  split
  · exact ⟨_, rfl, rfl, Or.inl (backupandreturn_spec idate hinv hse)⟩
  · split
    · have hsu := hse.reach (Reach.log (Event.Undefined 1 0) (Reach.refl _))
        (by simp [Event.minor])
      split
      · exact ⟨_, rfl, rfl, Or.inl (backupandreturn_spec idate hinv hsu)⟩
      · rename_i hle
        exact ⟨_, rfl, rfl, Or.inr (explicit_spec hinv hse hle)⟩
    · obtain ⟨r0, hrep⟩ := setTimeStep_reach jdd env idate
        ((((s.setSols (Solutions_StepForward s.sols)).log Event.StepForward).log
          (Event.ExplicitTerms
            ((s.setSols (Solutions_StepForward s.sols)).log Event.StepForward).T_n)).tick)
      obtain ⟨a, ha, m, r1, a1, b1, _, _, _, _, _⟩ := Recommences_spec jdd env _ _
        (Nat.sub_le _ _)
      rw [ha]
      have hin := (hse.reach r0 (by simp)).reach r1 a1
      cases a with
      | done s1 =>
        refine ⟨_, rfl, endStep_spec hinv hin ?_⟩
        simp only [nbUndefined_append, quiet_nbUndefined m (b1 rfl)]
        simp [nbUndefined, Event.isUndefined]
      | backupandreturn s1 =>
        exact ⟨_, rfl, rfl, Or.inl (backupandreturn_spec idate hinv hin)⟩

theorem TimeStepLoop_spec (jdd : DataSet) (env : Env) (t_0 : ℚ) (idate c0 : Nat) (fuel : Nat) :
    ∀ s, LoopInv c0 t_0 s → ∀ fl, TimeStepLoop jdd env t_0 idate fuel s = some fl →
      StepsSpec jdd c0 t_0 idate s fl := by
  induction fuel with
  | zero => intro s _ fl h; simp [TimeStepLoop] at h
  | succ fuel ih =>
    intro s hinv fl h
    obtain ⟨fl0, h0, hb⟩ := TimeStepBody_spec jdd env t_0 idate c0 s hinv
    simp only [TimeStepLoop, h0] at h
    cases fl0 with
    | next s1 =>
      obtain ⟨hinv1, hc1, m1, htr1⟩ := hb
      simp only at h
      split at h
      · have hrec := ih s1 hinv1 fl h
        cases fl with
        | next s2 =>
          obtain ⟨⟨m2, h2⟩, rest⟩ := hrec
          exact ⟨⟨m2 ++ Event.BackupSolutionAtPoint s1.T_1 t_0 :: Event.Accepted s1.T_1 :: m1,
            by rw [h2, htr1]; simp⟩, rest⟩
        | brk s2 => exact hrec
        | returned c s2 => exact hrec
      · rename_i hdate
        simp only [Option.some.injEq] at h
        subst h
        exact ⟨⟨_, htr1⟩, Or.inl ⟨hinv1, hc1, hdate, _, htr1⟩⟩
    | brk s1 =>
      simp only [Option.some.injEq] at h
      subst h
      exact ⟨hb.2, Or.inr hb.1⟩
    | returned c s1 =>
      simp only [Option.some.injEq] at h
      subst h
      exact hb

theorem LoopInv.loopLogTime {c0 : Nat} {t_0 : ℚ} {s : State} (h : LoopInv c0 t_0 s) (t : ℚ)
    (k : Nat) : LoopInv c0 t_0 (s.log (Event.BackupSolutionAtTime t k)) := by
  obtain ⟨a, b, c, d, e, f, g, i⟩ := h
  refine ⟨a, b, ?_, ?_, ?_, ?_, ?_, ?_⟩
  · simpa [nbStore, List.countP_cons, Event.isStore] using c
  · simpa [nbStepBackward, List.countP_cons, Event.isStepBackward] using d
  · simp only [nbStepForward, nbAccepted] at e ⊢
    simp [List.countP_cons, Event.isStepForward, Event.isAccepted, e]
  · simp only [nbAccepted] at f ⊢
    simp [List.countP_cons, Event.isAccepted, f]
  · simpa [lastAccepted] using g
  · simpa [nbUndefined, List.countP_cons, Event.isUndefined] using i

theorem Pending.pendingLogTime {c0 : Nat} {t_0 : ℚ} {s : State} (h : Pending c0 t_0 s) (t : ℚ)
    (k : Nat) : Pending c0 t_0 (s.log (Event.BackupSolutionAtTime t k)) := by
  obtain ⟨a, b, c, d, e, f, g, i, j⟩ := h
  refine ⟨a, b, ?_, ?_, ?_, ?_, ?_, ?_, j⟩
  · simpa [nbStore, List.countP_cons, Event.isStore] using c
  · simpa [nbStepBackward, List.countP_cons, Event.isStepBackward] using d
  · simp only [nbStepForward, nbAccepted] at e ⊢
    simp [List.countP_cons, Event.isStepForward, Event.isAccepted, e]
  · simp only [nbAccepted] at f ⊢
    simp [List.countP_cons, Event.isAccepted, f]
  · simpa [lastAccepted] using g
  · simpa [nbUndefined, List.countP_cons, Event.isUndefined] using i

theorem DateLoop_spec (jdd : DataSet) (env : Env) (t_0 : ℚ) (c0 idate0 fuel : Nat) (n : Nat) :
    ∀ idate s, idate0 ≤ idate → LoopInv c0 t_0 s → DatesDone jdd t_0 idate0 idate s.trace →
      (IterProcess_ConvergenceIsMet s.iterprocess ∨ idate < lastDateIndex jdd.dates) →
      ∀ fl, DateLoop jdd env t_0 fuel n idate s = some fl → DatesSpec jdd c0 t_0 idate0 fl := by
  have hexit : ∀ idate s, LoopInv c0 t_0 s → DatesDone jdd t_0 idate0 idate s.trace →
      (IterProcess_ConvergenceIsMet s.iterprocess ∨ idate < lastDateIndex jdd.dates) →
      ¬ idate < lastDateIndex jdd.dates → DatesSpec jdd c0 t_0 idate0 (Flow.next s) := by
    intro idate s hinv hd hc hlast
    refine ⟨hinv, hc.resolve_right hlast, ?_⟩
    intro k h1 h2
    exact hd k h1 (by omega)
  induction n with
  | zero =>
    intro idate s _ hinv hd hc fl h
    simp only [DateLoop] at h
    split at h
    · exact absurd h (by simp)
    · rename_i hlast
      simp only [Option.some.injEq] at h
      subst h
      exact hexit idate s hinv hd hc hlast
  | succ n ih =>
    intro idate s hle hinv hd hc fl h
    simp only [DateLoop] at h
    split at h
    · cases hl : TimeStepLoop jdd env t_0 idate fuel s with
      | none => simp [hl] at h
      | some fl0 =>
        have hs := TimeStepLoop_spec jdd env t_0 idate c0 fuel s hinv fl0 hl
        rw [hl] at h
        cases fl0 with
        | next s1 =>
          obtain ⟨⟨m, hm⟩, hcase⟩ := hs
          simp only [State.log_iterprocess] at h
          rcases hcase with ⟨hinv1, hc1, hdate, tr, htr⟩ | hp
          · have hn : ¬ IterProcess_ConvergenceIsNotMet s1.iterprocess := fun h => h hc1
            simp only [hn, if_false] at h
            refine ih (idate + 1) _ (by omega) (hinv1.loopLogTime _ _) ?_ (Or.inl hc1) fl h
            intro k h1 h2
            by_cases hk : k = idate
            · subst hk
              exact ⟨s1.T_1, [], tr, by simp [htr], not_lt.1 hdate⟩
            · obtain ⟨t, tr1, tr2, e, ht⟩ := hd k h1 (by omega)
              refine ⟨t, Event.BackupSolutionAtTime s1.T_1 (idate + 1) :: m ++ tr1, tr2, ?_, ht⟩
              simp [hm, e]
          · have hn : IterProcess_ConvergenceIsNotMet s1.iterprocess := hp.notMet
            simp only [hn, if_true, Option.some.injEq] at h
            subst h
            exact hp.pendingLogTime _ _
        | brk s1 => exact absurd hs (by simp [StepsSpec])
        | returned c s1 =>
          simp only [Option.some.injEq] at h
          subst h
          exact hs
    · rename_i hlast
      simp only [Option.some.injEq] at h
      subst h
      exact hexit idate s hinv hd hc hlast

theorem initialization_facts (jdd : DataSet) (env : Env) (sols : Solutions) (solver : Solver) :
    (initialization jdd env sols solver).sols.cursor = sols.cursor ∧
    (initialization jdd env sols solver).sols.NbOfSolutions = sols.NbOfSolutions ∧
    (initialization jdd env sols solver).iterprocess = jdd.iterprocess ∧
    ∃ m, (initialization jdd env sols solver).trace
        = Event.BackupSolutionAtTime (initialization jdd env sols solver).T_1
            (startIndex jdd env) ::
          Event.BackupSolutionAtPoint (initialization jdd env sols solver).T_1
            (initialization jdd env sols solver).T_1 :: m ∧
      (m = [] ∨ ∃ t, m = [Event.InitialState t]) := by
  unfold initialization
  simp only
  cases env.Mesh_LoadCurrentSolution <;> cases jdd.ContextIsInitialization <;>
    simp

theorem initialization_inv (jdd : DataSet) (env : Env) (sols : Solutions) (solver : Solver)
    (hring : 2 ≤ sols.NbOfSolutions) (hcur : sols.cursor < sols.NbOfSolutions) :
    LoopInv sols.cursor (initialization jdd env sols solver).T_1
      (initialization jdd env sols solver) := by
  obtain ⟨a, b, _, m, htr, hm0⟩ := initialization_facts jdd env sols solver
  have hm : ∀ e ∈ m, e.minor = true := by
    rcases hm0 with h | ⟨t, h⟩ <;> simp [h, Event.minor]
  obtain ⟨m1, m2, m3, m4⟩ := minor_counts m hm
  have hu : nbUndefined m = 0 := by
    rcases hm0 with h | ⟨t, h⟩ <;> simp [h, nbUndefined, Event.isUndefined]
  have hl : lastAccepted (initialization jdd env sols solver).T_1 m
      = (initialization jdd env sols solver).T_1 := by
    have := minor_lastAccepted (initialization jdd env sols solver).T_1 m [] hm
    simpa [lastAccepted] using this
  refine ⟨by rw [b]; exact hring, by rw [a, b]; exact hcur, ?_, ?_, ?_, ?_, ?_, ?_⟩
  · rw [htr]; simpa [nbStore, List.countP_cons, Event.isStore] using m1
  · rw [htr]; simpa [nbStepBackward, List.countP_cons, Event.isStepBackward] using m2
  · rw [htr]
    simp only [nbStepForward, nbAccepted] at m3 m4 ⊢
    simp [List.countP_cons, Event.isStepForward, Event.isAccepted, m3, m4]
  · rw [htr, a, b]
    simp only [nbAccepted] at m4 ⊢
    simp [List.countP_cons, Event.isAccepted, m4, Nat.mod_eq_of_lt hcur]
  · conv_rhs => rw [htr]
    simp only [lastAccepted]
    exact hl.symm
  · rw [htr]; simpa [nbUndefined, List.countP_cons, Event.isUndefined] using hu

theorem store_zero {c0 : Nat} {t_0 : ℚ} {s : State} (hinv : LoopInv c0 t_0 s)
    (hc : IterProcess_ConvergenceIsMet s.iterprocess) :
    (store s).1 = 0 ∧ ReturnsZero c0 t_0 (store s).2 := by
  have hs : store s = (0, s.log (Event.StoreCurrentSolution s.T_1)) := by
    unfold store; simp only [hc, if_true]
  rw [hs]
  exact ⟨rfl, hc, s.trace, rfl, hinv.noStore, hinv.noBack, hinv.count, hinv.cursor, hinv.last,
    hinv.noUndef⟩

theorem store_pending {c0 : Nat} {t_0 : ℚ} {s : State} (hp : Pending c0 t_0 s) :
    (store s).1 = -1 ∧ ReturnsBackup c0 t_0 (store s).2 := by
  have hn : ¬ IterProcess_ConvergenceIsMet s.iterprocess := hp.notMet
  have hs : store s = (-1, ((s.setSols (Solutions_StepBackward s.sols)).log
      Event.StepBackward).log (Event.StoreCurrentSolution
        ((s.setSols (Solutions_StepBackward s.sols)).log Event.StepBackward).T_1)) := by
    unfold store; simp only [hn, if_false]
  rw [hs]
  refine ⟨rfl, [], s.trace, rfl, Or.inl rfl, hp.noStore, hp.noBack, hp.count, ?_, ?_⟩
  · simp only [State.log_sols, State.setSols_sols, Solutions_StepBackward, Solutions.previous]
    rw [hp.cursor, ← Nat.mod_add_mod]
    exact previous_succ_mod _ _ (by have := hp.ring; omega)
      (Nat.mod_lt _ (by have := hp.ring; omega))
  · rw [← hp.last]
    rfl

/-- Every return of `Algorithm` is of one of four kinds. -/
theorem Algorithm_spec (jdd : DataSet) (env : Env) (fuel : Nat) (sols : Solutions)
    (solver : Solver) (c : Int) (s : State)
    (hring : 2 ≤ sols.NbOfSolutions) (hcur : sols.cursor < sols.NbOfSolutions)
    (h : Algorithm jdd env fuel sols solver = some (c, s)) :
    AlgorithmSpec jdd env sols solver c s := by
  have hinv := initialization_inv jdd env sols solver hring hcur
  have hip := (initialization_facts jdd env sols solver).2.2.1
  unfold Algorithm at h
  simp only at h
  by_cases hgo : IterProcess_ConvergenceIsMet jdd.iterprocess ∨
      startIndex jdd env < lastDateIndex jdd.dates
  · have hd : DatesDone jdd (initialization jdd env sols solver).T_1 (startIndex jdd env)
        (startIndex jdd env) (initialization jdd env sols solver).trace := by
      intro k h1 h2; omega
    cases hl : DateLoop jdd env (initialization jdd env sols solver).T_1 fuel
        (lastDateIndex jdd.dates - startIndex jdd env) (startIndex jdd env)
        (initialization jdd env sols solver) with
    | none => simp [hl] at h
    | some fl =>
      have hs := DateLoop_spec jdd env _ sols.cursor (startIndex jdd env) fuel _ _ _
        (le_refl _) hinv hd (by rw [hip]; exact hgo) fl hl
      rw [hl] at h
      cases fl with
      | next s1 =>
        obtain ⟨hinv1, hc1, hd1⟩ := hs
        simp only [Option.some.injEq] at h
        obtain ⟨z1, z2⟩ := store_zero hinv1 hc1
        rw [h] at z1 z2
        simp only at z1 z2
        refine Or.inl ⟨z1, z2, ?_⟩
        obtain ⟨_, tr, htr, _⟩ := z2
        have : (store s1).2.trace = [Event.StoreCurrentSolution s1.T_1] ++ s1.trace := by
          unfold store; simp only [hc1, if_true]; rfl
        rw [h] at this
        simp only at this
        rw [this]
        exact hd1.append _
      | brk s1 =>
        simp only [Option.some.injEq] at h
        obtain ⟨z1, z2⟩ := store_pending hs
        rw [h] at z1 z2
        exact Or.inr (Or.inl ⟨z1, z2⟩)
      | returned c1 s1 =>
        simp only [Option.some.injEq, Prod.mk.injEq] at h
        obtain ⟨rfl, rfl⟩ := h
        rcases hs with ⟨hc, h1 | h1⟩
        · exact Or.inr (Or.inl ⟨hc, h1⟩)
        · exact Or.inr (Or.inr (Or.inl ⟨hc, h1⟩))
  · push_neg at hgo
    obtain ⟨hnc, hnl⟩ := hgo
    have hl : DateLoop jdd env (initialization jdd env sols solver).T_1 fuel
        (lastDateIndex jdd.dates - startIndex jdd env) (startIndex jdd env)
        (initialization jdd env sols solver)
        = some (Flow.next (initialization jdd env sols solver)) := by
      have hnl' : ¬ startIndex jdd env < lastDateIndex jdd.dates := by omega
      cases hk : lastDateIndex jdd.dates - startIndex jdd env <;>
        simp [DateLoop, hnl']
    rw [hl] at h
    simp only [Option.some.injEq] at h
    have hn : ¬ IterProcess_ConvergenceIsMet
        (initialization jdd env sols solver).iterprocess := by rw [hip]; exact hnc
    have h1 : (store (initialization jdd env sols solver)).1 = -1 := by
      unfold store; simp only [hn, if_false]
    have h2 : (store (initialization jdd env sols solver)).2.trace
        = Event.StoreCurrentSolution (store (initialization jdd env sols solver)).2.T_1 ::
          Event.StepBackward :: (initialization jdd env sols solver).trace := by
      unfold store; simp only [hn, if_false]; rfl
    rw [h] at h1 h2
    exact Or.inr (Or.inr (Or.inr ⟨h1, by omega, hnc, h2⟩))

/-! ## What is persisted when `Algorithm` returns -/

theorem not_mem_of_nbUndefined (tr : List Event) (h : nbUndefined tr = 0) (k it : Nat) :
    Event.Undefined k it ∉ tr := by
  intro hm
  have := List.countP_eq_zero.1 h (Event.Undefined k it) hm
  simp [Event.isUndefined] at this

theorem ReturnsZero.zeroCounts {c0 : Nat} {t_0 : ℚ} {s : State} (h : ReturnsZero c0 t_0 s) :
    nbStore s.trace = 1 ∧ nbStepBackward s.trace = 0 ∧
    nbStepForward s.trace = nbAccepted s.trace ∧ nbUndefined s.trace = 0 ∧
    s.sols.cursor = (c0 + nbAccepted s.trace) % s.sols.NbOfSolutions := by
  obtain ⟨_, tr, htr, a, b, c, d, _, f⟩ := h
  rw [htr]
  simp only [nbStore, nbStepBackward, nbStepForward, nbAccepted, nbUndefined] at a b c d f ⊢
  refine ⟨?_, ?_, ?_, ?_, ?_⟩ <;>
    simp [List.countP_cons, Event.isStore, Event.isStepBackward, Event.isStepForward,
      Event.isAccepted, Event.isUndefined, a, b, c, d, f]

theorem ReturnsBackup.backupCounts {c0 : Nat} {t_0 : ℚ} {s : State} (h : ReturnsBackup c0 t_0 s) :
    nbStore s.trace = 1 ∧ nbStepBackward s.trace = 1 ∧
    nbStepForward s.trace = nbAccepted s.trace + 1 ∧
    s.sols.cursor = (c0 + nbAccepted s.trace) % s.sols.NbOfSolutions := by
  obtain ⟨pre, tr, htr, hpre, a, b, c, d, _⟩ := h
  rw [htr]
  simp only [nbStore, nbStepBackward, nbStepForward, nbAccepted] at a b c d ⊢
  rcases hpre with hp | ⟨k, hp⟩ <;> subst hp <;> refine ⟨?_, ?_, ?_, ?_⟩ <;>
    simp [List.countP_cons, Event.isStore, Event.isStepBackward, Event.isStepForward,
      Event.isAccepted, a, b, c, d]

theorem ReturnsExplicit.explicitCounts {c0 : Nat} {t_0 : ℚ} {s : State}
    (h : ReturnsExplicit c0 t_0 s) :
    nbStore s.trace = 0 ∧ nbStepBackward s.trace = 0 ∧
    nbStepForward s.trace = nbAccepted s.trace + 1 ∧
    s.sols.cursor = (c0 + nbAccepted s.trace + 1) % s.sols.NbOfSolutions := by
  obtain ⟨tn, tr, htr, _, a, b, c, d, _⟩ := h
  rw [htr]
  simp only [nbStore, nbStepBackward, nbStepForward, nbAccepted] at a b c d ⊢
  refine ⟨?_, ?_, ?_, ?_⟩ <;>
    simp [List.countP_cons, Event.isStore, Event.isStepBackward, Event.isStepForward,
      Event.isAccepted, a, b, c, d]

/-- C1, counterexample: with the repetition limit 0 and a
`compute_explicit_terms` that fails on its first call, `Algorithm` returns -1
and the trace holds no call of `Mesh_StoreCurrentSolution` and no step back:
nothing is persisted. -/
theorem C1_nothing_persisted :
    (Algorithm Example.jddNoRepetition Example.envExplicit 1 Example.sols Example.solver).map
        (fun r => (r.1, r.2.trace))
      = some (-1, [Event.Undefined 1 0, Event.ExplicitTerms 0, Event.StepForward,
          Event.BackupSolutionAtTime 0 0, Event.BackupSolutionAtPoint 0 0,
          Event.InitialState 0]) := by
  simp [Algorithm, DateLoop, TimeStepLoop, TimeStepBody, initialization, startIndex,
    lastDateIndex, ComputeExplicitTerms, ComputeExplicitTerms.loop, Example.jddNoRepetition,
    Example.jdd, Example.envExplicit, Example.env, Example.sols, Example.solver, Example.mesh,
    Example.bar, Example.bare, State.log, State.tick, State.T_1, State.T_n, State.setSols,
    Solutions_StepForward, Solutions.previous, List.range, List.range.loop]

/-- C1, amended: when `Algorithm` returns from a run that enters the loop on
dates, it returns 0 or -1.  If it returns 0, `Mesh_StoreCurrentSolution` has
been called exactly once, last, without any step back, with the time `T_1` of
the current solution, which is the last accepted one.  If it returns -1, either
`Mesh_StoreCurrentSolution` has been called exactly once, last, after the ring
was stepped back, with the time of the last accepted solution (the starting
time when no step was accepted), or `compute_explicit_terms` failed at a time
`T_n` that is not after the starting time `t_0` and then nothing is persisted
and the ring is not stepped back.  A diagnostic other than "undefined explicit
terms" in the trace (a failure of the implicit terms, of the matrix or of the
solve with the repetitions exhausted) comes with the return of -1 in the first
way. -/
theorem C1_persisted_solution (jdd : DataSet) (env : Env) (fuel : Nat) (sols : Solutions)
    (solver : Solver) (r : Int × State)
    (hring : 2 ≤ sols.NbOfSolutions) (hcur : sols.cursor < sols.NbOfSolutions)
    (hdates : startIndex jdd env < lastDateIndex jdd.dates)
    (h : Algorithm jdd env fuel sols solver = some r) :
    (r.1 = 0 ∨ r.1 = -1) ∧
    (r.1 = 0 → nbStore r.2.trace = 1 ∧
      ∃ tr, r.2.trace = Event.StoreCurrentSolution r.2.T_1 :: tr ∧ nbStepBackward tr = 0 ∧
        r.2.T_1 = lastAccepted (initialization jdd env sols solver).T_1 tr) ∧
    (r.1 = -1 →
      (nbStore r.2.trace = 1 ∧
        ∃ pre tr, r.2.trace = Event.StoreCurrentSolution r.2.T_1 :: pre ++
            Event.StepBackward :: tr ∧
          r.2.T_1 = lastAccepted (initialization jdd env sols solver).T_1 tr) ∨
      (nbStore r.2.trace = 0 ∧ nbStepBackward r.2.trace = 0 ∧
        ∃ tn tr, r.2.trace = Event.Undefined 1 0 :: Event.ExplicitTerms tn ::
            Event.StepForward :: tr ∧
          ¬ tn > (initialization jdd env sols solver).T_1)) ∧
    (∀ k it, k ≠ 1 → Event.Undefined k it ∈ r.2.trace →
      r.1 = -1 ∧ nbStore r.2.trace = 1 ∧
        ∃ pre tr, r.2.trace = Event.StoreCurrentSolution r.2.T_1 :: pre ++
            Event.StepBackward :: tr ∧
          r.2.T_1 = lastAccepted (initialization jdd env sols solver).T_1 tr) := by
  have hs := Algorithm_spec jdd env fuel sols solver r.1 r.2 hring hcur h
  rcases hs with ⟨hc, hz, _⟩ | ⟨hc, hb⟩ | ⟨hc, he⟩ | ⟨_, hi⟩
  · have hz' := hz
    obtain ⟨_, tr, htr, _, hback, _, _, hlast, hund⟩ := hz'
    refine ⟨Or.inl hc, fun _ => ⟨hz.zeroCounts.1, tr, htr, hback, hlast⟩, ?_, ?_⟩
    · intro h1; rw [hc] at h1; exact absurd h1 (by decide)
    · intro k it _ hm
      rw [htr] at hm
      rcases List.mem_cons.1 hm with h1 | h1
      · exact absurd h1 (by simp)
      · exact absurd h1 (not_mem_of_nbUndefined tr hund k it)
  · have hb' := hb
    obtain ⟨pre, tr, htr, _, _, _, _, _, hlast⟩ := hb'
    refine ⟨Or.inr hc, ?_, fun _ => Or.inl ⟨hb.backupCounts.1, pre, tr, htr, hlast⟩,
      fun _ _ _ _ => ⟨hc, hb.backupCounts.1, pre, tr, htr, hlast⟩⟩
    intro h0; rw [hc] at h0; exact absurd h0 (by decide)
  · have he' := he
    obtain ⟨tn, tr, htr, hle, _, _, _, _, hund⟩ := he'
    refine ⟨Or.inr hc, ?_, fun _ => Or.inr ⟨he.explicitCounts.1, he.explicitCounts.2.1, tn, tr, htr, hle⟩, ?_⟩
    · intro h0; rw [hc] at h0; exact absurd h0 (by decide)
    · intro k it hk hm
      rw [htr] at hm
      rcases List.mem_cons.1 hm with h1 | h1
      · simp only [Event.Undefined.injEq] at h1
        exact absurd h1.1 hk
      · rcases List.mem_cons.1 h1 with h2 | h2
        · exact absurd h2 (by simp)
        · rcases List.mem_cons.1 h2 with h3 | h3
          · exact absurd h3 (by simp)
          · exact absurd h3 (not_mem_of_nbUndefined tr hund k it)
  · exact absurd hdates hi.1

/-- The run with the repetition limit 0 in which `compute_implicit_terms`
fails on its first call. -/
theorem run_implicit_failure :
    (Algorithm Example.jddNoRepetition Example.envImplicit 1 Example.sols Example.solver).map
        (fun r => (r.1, r.2.trace))
      = some (-1, [Event.StoreCurrentSolution 0, Event.BackupSolutionAtTime 0 1,
          Event.StepBackward, Event.Undefined 2 1, Event.ImplicitTerms 1 1, Event.Step 1 1 1,
          Event.ExplicitTerms 0, Event.StepForward, Event.BackupSolutionAtTime 0 0,
          Event.BackupSolutionAtPoint 0 0, Event.InitialState 0]) := by
  norm_num [Algorithm, DateLoop, TimeStepLoop, TimeStepBody, setTimeStep, endStep, backupandreturn,
    initialization, startIndex, lastDateIndex, store, Recommences, attempt, beginAttempt,
    smallerTimeStep, NewtonLoop, NewtonIteration, Exit.andThen, Newton.implicitTerms,
    ComputeExplicitTerms, ComputeExplicitTerms.loop, ComputeImplicitTerms,
    ComputeImplicitTerms.loop, Example.jddNoRepetition, Example.envImplicit, Example.jdd,
    Example.env, Example.sols, Example.solver, Example.mesh, Example.bar, Example.bare,
    Example.loads, State.log, State.tick, State.T_1, State.T_n, State.DT_1, State.DT_n,
    State.STEP_1, State.STEP_n, State.setT_1, State.setDT_1, State.setSTEP_1, State.setSOL_1,
    State.setSols, State.setIterProcess, State.setSolver, Solutions_StepForward,
    Solutions_StepBackward, Solutions.previous, IterProcess_LastIterationIsNotReached,
    IterProcess_LastRepetitionIsNotReached, IterProcess_ConvergenceIsMet,
    IterProcess_ConvergenceIsNotMet, IterProcess_IncrementIterationIndex,
    IterProcess_IncrementRepetitionIndex, List.range, List.range.loop, Function.update]

theorem startIndex_example (env : Env) (h : env.Mesh_LoadCurrentSolution = none) (jdd : DataSet) :
    startIndex jdd env = 0 := by
  simp [startIndex, h]

/-- Witness of C1 (amended): the run with the repetition limit 0 in which
`compute_implicit_terms` fails on its first call returns -1 having persisted,
after the step back, the starting solution. -/
theorem C1_persisted_solution_witness :
    2 ≤ Example.sols.NbOfSolutions ∧ Example.sols.cursor < Example.sols.NbOfSolutions ∧
    startIndex Example.jddNoRepetition Example.envImplicit
      < lastDateIndex Example.jddNoRepetition.dates ∧
    ∃ r, Algorithm Example.jddNoRepetition Example.envImplicit 1 Example.sols Example.solver
        = some r ∧
      r.1 = -1 ∧ nbStore r.2.trace = 1 ∧
      ∃ pre tr, r.2.trace = Event.StoreCurrentSolution r.2.T_1 :: pre ++
          Event.StepBackward :: tr ∧
        r.2.T_1 = lastAccepted (initialization Example.jddNoRepetition Example.envImplicit
          Example.sols Example.solver).T_1 tr := by
  have h1 : 2 ≤ Example.sols.NbOfSolutions := by simp [Example.sols]
  have h2 : Example.sols.cursor < Example.sols.NbOfSolutions := by simp [Example.sols]
  have h3 : startIndex Example.jddNoRepetition Example.envImplicit
      < lastDateIndex Example.jddNoRepetition.dates := by
    rw [startIndex_example _ rfl]
    simp [lastDateIndex, Example.jddNoRepetition, Example.jdd]
  refine ⟨h1, h2, h3, ?_⟩
  have hrun := run_implicit_failure
  cases h : Algorithm Example.jddNoRepetition Example.envImplicit 1 Example.sols
      Example.solver with
  | none => rw [h] at hrun; simp at hrun
  | some r =>
    rw [h] at hrun
    simp only [Option.map_some', Option.some.injEq, Prod.mk.injEq] at hrun
    exact ⟨r, rfl, (C1_persisted_solution Example.jddNoRepetition Example.envImplicit 1
      Example.sols Example.solver r h1 h2 h3 h).2.2.2 2 1 (by decide)
        (by rw [hrun.2]; simp)⟩

/-! ## The ring cursor and the accepted steps -/

/-- C2, counterexample: `compute_explicit_terms` fails on the first step of the
run; `Algorithm` returns -1 after one step forward and no step backward, with
no accepted step, and the cursor is left one slot ahead. -/
theorem C2_ring_left_ahead :
    (Algorithm Example.jdd Example.envExplicit 1 Example.sols Example.solver).map
        (fun r => (r.1, nbStepForward r.2.trace, nbStepBackward r.2.trace,
          nbAccepted r.2.trace, r.2.sols.cursor))
      = some (-1, 1, 0, 0, 1) := by
  simp [Algorithm, DateLoop, TimeStepLoop, TimeStepBody, initialization, startIndex,
    lastDateIndex, ComputeExplicitTerms, ComputeExplicitTerms.loop,
    Example.jdd, Example.envExplicit, Example.env, Example.sols, Example.solver, Example.mesh,
    Example.bar, Example.bare, State.log, State.tick, State.T_1, State.T_n, State.setSols,
    Solutions_StepForward, Solutions.previous, List.range, List.range.loop,
    nbStepForward, nbStepBackward, nbAccepted, Event.isStepForward, Event.isStepBackward,
    Event.isAccepted]

/-- C2, amended: at every return of `Algorithm` from a run that enters the
loop on dates (or whose convergence flag is met on entry), the number of
`Solutions_StepForward` calls minus the number of `Solutions_StepBackward`
calls equals the number of accepted time steps and the ring cursor is that many
slots after its initial position; except when `compute_explicit_terms` fails at
a time `T_n` that is not after the starting time `t_0`: then `Algorithm`
returns -1 without stepping back, one step forward ahead of the accepted
steps. -/
theorem C2_ring_cursor (jdd : DataSet) (env : Env) (fuel : Nat) (sols : Solutions)
    (solver : Solver) (r : Int × State)
    (hring : 2 ≤ sols.NbOfSolutions) (hcur : sols.cursor < sols.NbOfSolutions)
    (hgo : IterProcess_ConvergenceIsMet jdd.iterprocess ∨
      startIndex jdd env < lastDateIndex jdd.dates)
    (h : Algorithm jdd env fuel sols solver = some r) :
    (nbStepForward r.2.trace = nbStepBackward r.2.trace + nbAccepted r.2.trace ∧
      r.2.sols.cursor = (sols.cursor + nbAccepted r.2.trace) % r.2.sols.NbOfSolutions) ∨
    (r.1 = -1 ∧
      nbStepForward r.2.trace = nbStepBackward r.2.trace + nbAccepted r.2.trace + 1 ∧
      r.2.sols.cursor = (sols.cursor + nbAccepted r.2.trace + 1) % r.2.sols.NbOfSolutions ∧
      ∃ tn tr, r.2.trace = Event.Undefined 1 0 :: Event.ExplicitTerms tn ::
          Event.StepForward :: tr ∧
        ¬ tn > (initialization jdd env sols solver).T_1) := by
  have hs := Algorithm_spec jdd env fuel sols solver r.1 r.2 hring hcur h
  rcases hs with ⟨_, hz, _⟩ | ⟨_, hb⟩ | ⟨hc, he⟩ | ⟨_, hi⟩
  · obtain ⟨_, a, b, _, c⟩ := hz.zeroCounts
    exact Or.inl ⟨by omega, c⟩
  · obtain ⟨_, a, b, c⟩ := hb.backupCounts
    exact Or.inl ⟨by omega, c⟩
  · obtain ⟨_, a, b, c⟩ := he.explicitCounts
    obtain ⟨tn, tr, htr, hle, _⟩ := he
    exact Or.inr ⟨hc, by omega, c, tn, tr, htr, hle⟩
  · rcases hgo with h1 | h1
    · exact absurd h1 hi.2.1
    · exact absurd h1 hi.1

/-- The run of the collaborators that never fail. -/
theorem run_success :
    (Algorithm Example.jdd Example.env 1 Example.sols Example.solver).map
        (fun r => (r.1, r.2.trace))
      = some (0, [Event.StoreCurrentSolution 1, Event.BackupSolutionAtTime 1 1,
          Event.BackupSolutionAtPoint 1 0, Event.Accepted 1, Event.ImplicitTerms 1 1,
          Event.Step 1 1 1, Event.ExplicitTerms 0, Event.StepForward,
          Event.BackupSolutionAtTime 0 0, Event.BackupSolutionAtPoint 0 0,
          Event.InitialState 0]) := by
  simp [Algorithm, DateLoop, TimeStepLoop, TimeStepBody, setTimeStep, endStep,
    initialization, startIndex, lastDateIndex, store, Recommences, attempt, beginAttempt,
    smallerTimeStep, NewtonLoop, NewtonIteration,
    Exit.andThen, Newton.implicitTerms, Newton.residu, Newton.matrix, Newton.resolution,
    Newton.error, ComputeExplicitTerms, ComputeExplicitTerms.loop, ComputeImplicitTerms,
    ComputeImplicitTerms.loop, ComputeResidu, ComputeResidu.residu, ComputeResidu.loads,
    ComputeResidu.loadElements, ComputeMatrix, ComputeMatrix.loop,
    Example.jdd, Example.env, Example.sols, Example.solver, Example.mesh,
    Example.bar, Example.bare, Example.loads, State.log, State.tick, State.T_1, State.T_n,
    State.DT_1, State.DT_n, State.STEP_1, State.STEP_n, State.setT_1, State.setDT_1,
    State.setSTEP_1, State.setSOL_1, State.setSols, State.setIterProcess, State.setSolver,
    Solutions_StepForward, Solutions_StepBackward, Solutions.previous,
    IterProcess_LastIterationIsNotReached, IterProcess_LastRepetitionIsNotReached,
    IterProcess_ConvergenceIsMet, IterProcess_ConvergenceIsNotMet,
    IterProcess_IncrementIterationIndex, IterProcess_IncrementRepetitionIndex, List.range,
    List.range.loop, Function.update]

theorem example_enters_dates (env : Env) (h : env.Mesh_LoadCurrentSolution = none) :
    startIndex Example.jdd env < lastDateIndex Example.jdd.dates := by
  rw [startIndex_example _ h]
  simp [lastDateIndex, Example.jdd]

/-- Witness of C2 (amended): the run of the collaborators that never fail. -/
theorem C2_ring_cursor_witness :
    2 ≤ Example.sols.NbOfSolutions ∧ Example.sols.cursor < Example.sols.NbOfSolutions ∧
    startIndex Example.jdd Example.env < lastDateIndex Example.jdd.dates ∧
    ∃ r, Algorithm Example.jdd Example.env 1 Example.sols Example.solver = some r ∧
      ((nbStepForward r.2.trace = nbStepBackward r.2.trace + nbAccepted r.2.trace ∧
        r.2.sols.cursor
          = (Example.sols.cursor + nbAccepted r.2.trace) % r.2.sols.NbOfSolutions) ∨
      (r.1 = -1 ∧
        nbStepForward r.2.trace = nbStepBackward r.2.trace + nbAccepted r.2.trace + 1 ∧
        r.2.sols.cursor
          = (Example.sols.cursor + nbAccepted r.2.trace + 1) % r.2.sols.NbOfSolutions ∧
        ∃ tn tr, r.2.trace = Event.Undefined 1 0 :: Event.ExplicitTerms tn ::
            Event.StepForward :: tr ∧
          ¬ tn > (initialization Example.jdd Example.env Example.sols Example.solver).T_1)) := by
  have h1 : 2 ≤ Example.sols.NbOfSolutions := by simp [Example.sols]
  have h2 : Example.sols.cursor < Example.sols.NbOfSolutions := by simp [Example.sols]
  have h3 := example_enters_dates Example.env rfl
  refine ⟨h1, h2, h3, ?_⟩
  have hrun := run_success
  cases h : Algorithm Example.jdd Example.env 1 Example.sols Example.solver with
  | none => rw [h] at hrun; simp at hrun
  | some r =>
    exact ⟨r, rfl, C2_ring_cursor Example.jdd Example.env 1 Example.sols Example.solver r
      h1 h2 (Or.inr h3) h⟩

/-! ## The value returned and the dates -/

/-- C10, counterexample: `compute_residu` returns -1 on every call, for the
element 0 that has a material, and the run of `Algorithm` is the one of the
collaborators that never fail: the step is accepted and 0 is returned. -/
theorem C10_model_failure_returns_zero :
    (Example.mesh.Element 0).Material = true ∧
    (∀ clk ie t dt, Example.envResiduFails.Element_ComputeResidu clk ie t dt = Call.ret (-1)) ∧
    (Algorithm Example.jdd Example.envResiduFails 1 Example.sols Example.solver).map
        (fun r => (r.1, r.2.trace))
      = some (0, [Event.StoreCurrentSolution 1, Event.BackupSolutionAtTime 1 1,
          Event.BackupSolutionAtPoint 1 0, Event.Accepted 1, Event.ImplicitTerms 1 1,
          Event.Step 1 1 1, Event.ExplicitTerms 0, Event.StepForward,
          Event.BackupSolutionAtTime 0 0, Event.BackupSolutionAtPoint 0 0,
          Event.InitialState 0]) := by
  refine ⟨by simp [Example.mesh, Example.bar], ?_, ?_⟩
  · intro clk ie t dt
    simp [Example.envResiduFails, Env.withResiduCodes, Example.env]
  · have e : Algorithm Example.jdd Example.envResiduFails 1 Example.sols Example.solver
        = Algorithm Example.jdd Example.env 1 Example.sols Example.solver :=
      Algorithm_withResiduCodes Example.jdd Example.env _ _ 1 Example.sols Example.solver
    rw [e]
    exact run_success

lemma nbUndefined_explicit {c0 : Nat} {t_0 : ℚ} {s : State} (h : ReturnsExplicit c0 t_0 s) :
    nbUndefined s.trace ≠ 0 := by
  obtain ⟨tn, tr, htr, _⟩ := h
  rw [htr]
  simp [nbUndefined, List.countP_cons, Event.isUndefined]

lemma nbStepBackward_idle {jdd : DataSet} {env : Env} {s0 s : State}
    (h : ReturnsIdle jdd env s0 s) : nbStepBackward s.trace ≠ 0 := by
  obtain ⟨_, _, htr⟩ := h
  rw [htr]
  simp [nbStepBackward, List.countP_cons, Event.isStepBackward, Event.isStore]

/-- C10, amended: for a data set with at least two dates (their number being
an `unsigned int`), `Algorithm` returns 0 or -1.  It returns 0 only if the
convergence is met at the end, no step back and no diagnostic occurred, and
every date interval `k` from the starting index to the last ended with an
accepted step at a time `t ≥ date[k+1]`, followed by the point output and by
the full-field output of date `k+1` at that time.  It returns -1 exactly when
the ring was stepped back or a diagnostic (undefined explicit terms, undefined
implicit terms, undefined matrix, unable to solve) was issued, and whenever the
convergence is not met at the end.  The values returned by `compute_residu` and
`compute_loads` are not read: the run is the same whatever they are. -/
theorem C10_zero_only_after_all_dates (jdd : DataSet) (env : Env) (fuel : Nat)
    (sols : Solutions) (solver : Solver) (r : Int × State)
    (hring : 2 ≤ sols.NbOfSolutions) (hcur : sols.cursor < sols.NbOfSolutions)
    (hdates : 2 ≤ jdd.dates.NbOfDates) (hword : jdd.dates.NbOfDates < 4294967296)
    (h : Algorithm jdd env fuel sols solver = some r) :
    (r.1 = 0 ∨ r.1 = -1) ∧
    (r.1 = 0 →
      IterProcess_ConvergenceIsMet r.2.iterprocess ∧
      nbStepBackward r.2.trace = 0 ∧ nbUndefined r.2.trace = 0 ∧
      ∀ k, startIndex jdd env ≤ k → k + 1 < jdd.dates.NbOfDates →
        ∃ t tr1 tr2, r.2.trace = tr1 ++ Event.BackupSolutionAtTime t (k + 1) ::
            Event.BackupSolutionAtPoint t (initialization jdd env sols solver).T_1 ::
            Event.Accepted t :: tr2 ∧
          jdd.dates.Date (k + 1) ≤ t) ∧
    (r.1 = -1 ↔ nbStepBackward r.2.trace ≠ 0 ∨ nbUndefined r.2.trace ≠ 0) ∧
    (¬ IterProcess_ConvergenceIsMet r.2.iterprocess → r.1 = -1) ∧
    (∀ (c : Nat → Nat → ℚ → ℚ → Int) (cl : Nat → Nat → ℚ → ℚ → Nat → Int),
      Algorithm jdd (env.withResiduCodes c cl) fuel sols solver = some r) := by
  have hs := Algorithm_spec jdd env fuel sols solver r.1 r.2 hring hcur h
  have hlast : lastDateIndex jdd.dates = jdd.dates.NbOfDates - 1 := by
    unfold lastDateIndex; omega
  have hcodes : ∀ (c : Nat → Nat → ℚ → ℚ → Int) (cl : Nat → Nat → ℚ → ℚ → Nat → Int),
      Algorithm jdd (env.withResiduCodes c cl) fuel sols solver = some r := by
    intro c cl
    rw [Algorithm_withResiduCodes, h]
  rcases hs with ⟨hc, hz, hd⟩ | ⟨hc, hb⟩ | ⟨hc, he⟩ | ⟨hc, hi⟩
  · refine ⟨Or.inl hc, fun _ => ⟨hz.1, hz.zeroCounts.2.1, hz.zeroCounts.2.2.2.1, ?_⟩, ?_, ?_,
      hcodes⟩
    · intro k h1 h2
      exact hd k h1 (by rw [hlast]; omega)
    · constructor
      · intro h1
        rw [hc] at h1
        exact absurd h1 (by decide)
      · rintro (h1 | h1)
        · exact absurd hz.zeroCounts.2.1 h1
        · exact absurd hz.zeroCounts.2.2.2.1 h1
    · intro hn
      exact absurd hz.1 hn
  · refine ⟨Or.inr hc, fun h0 => by rw [hc] at h0; exact absurd h0 (by decide), ?_,
      fun _ => hc, hcodes⟩
    exact ⟨fun _ => Or.inl (by rw [hb.backupCounts.2.1]; decide), fun _ => hc⟩
  · refine ⟨Or.inr hc, fun h0 => by rw [hc] at h0; exact absurd h0 (by decide), ?_,
      fun _ => hc, hcodes⟩
    exact ⟨fun _ => Or.inr (nbUndefined_explicit he), fun _ => hc⟩
  · refine ⟨Or.inr hc, fun h0 => by rw [hc] at h0; exact absurd h0 (by decide), ?_,
      fun _ => hc, hcodes⟩
    exact ⟨fun _ => Or.inl (nbStepBackward_idle hi), fun _ => hc⟩

/-- Witness of C10: the run of the collaborators that never fail, over two
dates. -/
theorem C10_zero_only_after_all_dates_witness :
    2 ≤ Example.sols.NbOfSolutions ∧ Example.sols.cursor < Example.sols.NbOfSolutions ∧
    2 ≤ Example.jdd.dates.NbOfDates ∧ Example.jdd.dates.NbOfDates < 4294967296 ∧
    ∃ r, Algorithm Example.jdd Example.env 1 Example.sols Example.solver = some r ∧
      r.1 = 0 ∧ IterProcess_ConvergenceIsMet r.2.iterprocess ∧
      nbStepBackward r.2.trace = 0 ∧ nbUndefined r.2.trace = 0 ∧
      ∀ k, startIndex Example.jdd Example.env ≤ k → k + 1 < Example.jdd.dates.NbOfDates →
        ∃ t tr1 tr2, r.2.trace = tr1 ++ Event.BackupSolutionAtTime t (k + 1) ::
            Event.BackupSolutionAtPoint t
              (initialization Example.jdd Example.env Example.sols Example.solver).T_1 ::
            Event.Accepted t :: tr2 ∧
          Example.jdd.dates.Date (k + 1) ≤ t := by
  have h1 : 2 ≤ Example.sols.NbOfSolutions := by simp [Example.sols]
  have h2 : Example.sols.cursor < Example.sols.NbOfSolutions := by simp [Example.sols]
  have h3 : 2 ≤ Example.jdd.dates.NbOfDates := by simp [Example.jdd]
  have h4 : Example.jdd.dates.NbOfDates < 4294967296 := by simp [Example.jdd]
  refine ⟨h1, h2, h3, h4, ?_⟩
  have hrun := run_success
  cases h : Algorithm Example.jdd Example.env 1 Example.sols Example.solver with
  | none => rw [h] at hrun; simp at hrun
  | some r =>
    rw [h] at hrun
    simp only [Option.map_some', Option.some.injEq, Prod.mk.injEq] at hrun
    exact ⟨r, rfl, hrun.1, (C10_zero_only_after_all_dates Example.jdd Example.env 1
      Example.sols Example.solver r h1 h2 h3 h4 h).2.1 hrun.1⟩

/-! ## The bounds on the repetitions and on the iterations -/

/-- C4: (1) a time step starts its attempts with repetition index 0 and they
end, with one message per attempt, the repetition index being the number of
retries, at most `NbOfRepetitions`, and at most
`(NbOfRepetitions + 1) * NbOfIterations` calls of `ComputeImplicitTerms`, one
per Newton iteration; (2) the loop on iterations of an attempt starts with
iteration index 0 and ends within `NbOfIterations` iterations; (3) an attempt
is repeated only from a repetition index below the limit, which it increments
by one; (4) when the limit is reached, a failure of `ComputeImplicitTerms`, of
`ComputeMatrix` or of the solver leaves for `backupandreturn` with its
diagnostic; (5) a run of `Algorithm` in which a diagnostic was emitted returns
-1. -/
theorem C4_bounded_repetitions (jdd : DataSet) (env : Env) (idate : Nat) (s : State)
    (fuel : Nat) (sols : Solutions) (solver : Solver) (r : Int × State) :
    ((setTimeStep jdd env idate s).iterprocess.RepetitionIndex = 0 ∧
      ∃ a m, Recommences jdd env (setTimeStep jdd env idate s).iterprocess.NbOfRepetitions
          (setTimeStep jdd env idate s) = some a ∧
        a.state.trace = m ++ s.trace ∧
        nbStep m = a.state.iterprocess.RepetitionIndex + 1 ∧
        a.state.iterprocess.RepetitionIndex ≤ s.iterprocess.NbOfRepetitions ∧
        nbImplicitTerms m
          ≤ (s.iterprocess.NbOfRepetitions + 1) * s.iterprocess.NbOfIterations) ∧
    ((beginAttempt s).iterprocess.IterationIndex = 0 ∧
      ∃ x m, NewtonLoop jdd env (beginAttempt s).iterprocess.NbOfIterations (beginAttempt s)
          = some x ∧
        x.state.trace = m ++ (beginAttempt s).trace ∧
        nbImplicitTerms m ≤ s.iterprocess.NbOfIterations) ∧
    (∀ s1, attempt jdd env s = some (Exit.recommences s1) →
      s.iterprocess.RepetitionIndex < s.iterprocess.NbOfRepetitions ∧
      s1.iterprocess.RepetitionIndex = s.iterprocess.RepetitionIndex + 1) ∧
    (¬ IterProcess_LastRepetitionIsNotReached s.iterprocess →
      (∀ i, (ComputeImplicitTerms jdd.mesh env s.clock s.T_1 s.DT_1).1 = Call.ret i → i ≠ 0 →
        Newton.implicitTerms jdd env s = Exit.backupandreturn
          ((s.log (Event.ImplicitTerms s.T_1 s.DT_1)).tick.log
            (Event.Undefined 2 s.iterprocess.IterationIndex))) ∧
      (∀ i, (ComputeMatrix jdd.mesh env s.clock s.T_1 s.DT_1 s.solver.a
          (env.stack s.clock)).code = Call.ret i → i ≠ 0 →
        Newton.matrix jdd env s = Exit.backupandreturn
          ((s.tick.setSolver { s.solver with a := (ComputeMatrix jdd.mesh env s.clock s.T_1
              s.DT_1 s.solver.a (env.stack s.clock)).a }).log
            (Event.Undefined 3 s.iterprocess.IterationIndex))) ∧
      (env.Solver_Solve s.clock s.solver.a
          ((List.range jdd.mesh.NbOfMatrixColumns).map s.solver.rhs) ≠ 0 →
        Newton.resolution jdd env s = Exit.backupandreturn
          (s.tick.log (Event.Undefined 4 s.iterprocess.IterationIndex)))) ∧
    (2 ≤ sols.NbOfSolutions → sols.cursor < sols.NbOfSolutions →
      Algorithm jdd env fuel sols solver = some r →
      (∃ k it, Event.Undefined k it ∈ r.2.trace) → r.1 = -1) := by
  refine ⟨?_, ?_, ?_, ?_, ?_⟩
  · obtain ⟨r0, hrep⟩ := setTimeStep_reach jdd env idate s
    refine ⟨hrep, ?_⟩
    obtain ⟨a, ha, m, r1, _, _, c1, d1, e1, f1, _⟩ := Recommences_spec jdd env
      (setTimeStep jdd env idate s).iterprocess.NbOfRepetitions (setTimeStep jdd env idate s)
      (by omega)
    have hR := r0.limits.2.1
    have hN := r0.limits.1
    have htr := (r0.trans r1).trace
    rw [hrep] at c1 e1
    rw [hN] at f1
    rw [hR] at e1
    have e2 := e1 (Nat.zero_le _)
    refine ⟨a, m, ha, by simpa using htr, by omega, e2, ?_⟩
    refine le_trans f1 (Nat.mul_le_mul_right _ ?_)
    omega
  · obtain ⟨m0, r0, _, _, _, _, it0⟩ := beginAttempt_reach s
    refine ⟨it0, ?_⟩
    obtain ⟨x, hx, m, r1, _, _, _, d1, _, _⟩ := NewtonLoop_spec jdd env
      (beginAttempt s).iterprocess.NbOfIterations (beginAttempt s) (by omega)
    rw [it0, r0.limits.1, Nat.sub_zero] at d1
    exact ⟨x, m, hx, r1.trace, d1⟩
  · intro s1 h
    obtain ⟨x, hx, ⟨m, _, _, _, _, _, f1, _⟩, _, _⟩ := attempt_spec jdd env s
    rw [h] at hx
    cases Option.some.inj hx
    have := f1 rfl
    exact ⟨this.2, this.1⟩
  · intro hr
    refine ⟨?_, ?_, ?_⟩
    · intro i hc hi
      simp [Newton.implicitTerms, hc, hi, hr]
    · intro i hc hi
      simp only [Newton.matrix, hc]
      simp [hi, hr]
    · intro hi
      simp [Newton.resolution, hi, hr]
  · intro hring hcur h hu
    obtain ⟨k, it, hmem⟩ := hu
    have hs := Algorithm_spec jdd env fuel sols solver r.1 r.2 hring hcur h
    rcases hs with ⟨_, hz, _⟩ | ⟨hc, _⟩ | ⟨hc, _⟩ | ⟨hc, _⟩
    · exact absurd hmem (not_mem_of_nbUndefined _ hz.zeroCounts.2.2.2.1 k it)
    · exact hc
    · exact hc
    · exact hc

/-- Witness of C4: with the repetition limit 0 and `compute_implicit_terms`
failing on its first call, the diagnostic of the implicit terms is emitted and
`Algorithm` returns -1. -/
theorem C4_bounded_repetitions_witness :
    ∃ r, Algorithm Example.jddNoRepetition Example.envImplicit 1 Example.sols Example.solver
        = some r ∧
      Event.Undefined 2 1 ∈ r.2.trace ∧ r.1 = -1 := by
  have h1 : 2 ≤ Example.sols.NbOfSolutions := by simp [Example.sols]
  have h2 : Example.sols.cursor < Example.sols.NbOfSolutions := by simp [Example.sols]
  have hrun := run_implicit_failure
  cases h : Algorithm Example.jddNoRepetition Example.envImplicit 1 Example.sols
      Example.solver with
  | none => rw [h] at hrun; simp at hrun
  | some r =>
    rw [h] at hrun
    simp only [Option.map_some', Option.some.injEq, Prod.mk.injEq] at hrun
    have hm : Event.Undefined 2 1 ∈ r.2.trace := by rw [hrun.2]; simp
    exact ⟨r, rfl, hm, (C4_bounded_repetitions Example.jddNoRepetition Example.envImplicit 0
      (Example.state 1) 1 Example.sols Example.solver r).2.2.2.2 h1 h2 h ⟨2, 1, hm⟩⟩

/-! ## Resuming from a persisted snapshot -/

/-- The loop `while(idate + 1 < nbofdates && T_1 >= date[idate + 1]) idate++`
ends within `nbofdates` passes: it stops at an index where its test fails,
having passed only dates that are not after `T`. -/
theorem resumeIndex_spec (dates : Dates) (T : ℚ) :
    ∀ fuel idate, dates.NbOfDates ≤ fuel + idate + 1 →
      idate ≤ resumeIndex dates T fuel idate ∧
      (idate < dates.NbOfDates → resumeIndex dates T fuel idate < dates.NbOfDates) ∧
      (resumeIndex dates T fuel idate = idate ∨
        dates.Date (resumeIndex dates T fuel idate) ≤ T) ∧
      ¬ (resumeIndex dates T fuel idate + 1 < dates.NbOfDates ∧
        T ≥ dates.Date (resumeIndex dates T fuel idate + 1)) := by
  intro fuel
  induction fuel with
  | zero =>
    intro idate h
    have e : resumeIndex dates T 0 idate = idate := rfl
    rw [e]
    exact ⟨le_refl _, fun h => h, Or.inl rfl, fun hc => by omega⟩
  | succ fuel ih =>
    intro idate h
    have e : resumeIndex dates T (fuel + 1) idate
        = if idate + 1 < dates.NbOfDates ∧ T ≥ dates.Date (idate + 1)
          then resumeIndex dates T fuel (idate + 1) else idate := rfl
    rw [e]
    by_cases hc : idate + 1 < dates.NbOfDates ∧ T ≥ dates.Date (idate + 1)
    · rw [if_pos hc]
      obtain ⟨a, b, c, d⟩ := ih (idate + 1) (by omega)
      refine ⟨by omega, fun _ => b hc.1, ?_, d⟩
      rcases c with c | c
      · right; rw [c]; exact hc.2
      · right; exact c
    · rw [if_neg hc]
      exact ⟨le_refl _, fun h => h, Or.inl rfl, hc⟩

/-- The index at which the loop on dates starts after a snapshot of time
`t ≥ date[0]` was loaded, the dates being strictly increasing: the largest
index whose date is not after `t`. -/
theorem startIndex_largest (jdd : DataSet) (env : Env) (t : ℚ)
    (hn : 1 ≤ jdd.dates.NbOfDates)
    (hinc : ∀ i j, i < j → j < jdd.dates.NbOfDates → jdd.dates.Date i < jdd.dates.Date j)
    (hload : env.Mesh_LoadCurrentSolution = some t) (h0 : jdd.dates.Date 0 ≤ t) :
    startIndex jdd env < jdd.dates.NbOfDates ∧
    jdd.dates.Date (startIndex jdd env) ≤ t ∧
    ∀ j, j < jdd.dates.NbOfDates → jdd.dates.Date j ≤ t → j ≤ startIndex jdd env := by
  have hs : startIndex jdd env = resumeIndex jdd.dates t jdd.dates.NbOfDates 0 := by
    simp [startIndex, hload]
  obtain ⟨_, b, c, d⟩ := resumeIndex_spec jdd.dates t jdd.dates.NbOfDates 0 (by omega)
  rw [← hs] at b c d
  refine ⟨b (by omega), ?_, ?_⟩
  · rcases c with c | c
    · rw [c]; exact h0
    · exact c
  · intro j hj hjt
    by_contra hlt
    have hlt : startIndex jdd env < j := by omega
    apply d
    have h1 : startIndex jdd env + 1 < jdd.dates.NbOfDates := by omega
    refine ⟨h1, ?_⟩
    rcases Nat.eq_or_lt_of_le (Nat.succ_le_of_lt hlt) with e | e
    · have e : startIndex jdd env + 1 = j := e
      rw [e]; exact hjt
    · exact le_trans (le_of_lt (hinc _ _ e hj)) hjt

/-- C11: for a strictly increasing date array with at least one date, the
loop on resuming from a snapshot of time `t ≥ date[0]` leaves `idate` at the
largest index with `date[idate] ≤ t`; without a snapshot `idate` is 0. -/
theorem C11_resume_index (jdd : DataSet) (env : Env)
    (hn : 1 ≤ jdd.dates.NbOfDates)
    (hinc : ∀ i j, i < j → j < jdd.dates.NbOfDates → jdd.dates.Date i < jdd.dates.Date j) :
    (env.Mesh_LoadCurrentSolution = none → startIndex jdd env = 0) ∧
    (∀ t, env.Mesh_LoadCurrentSolution = some t → jdd.dates.Date 0 ≤ t →
      startIndex jdd env < jdd.dates.NbOfDates ∧
      jdd.dates.Date (startIndex jdd env) ≤ t ∧
      ∀ j, j < jdd.dates.NbOfDates → jdd.dates.Date j ≤ t → j ≤ startIndex jdd env) :=
  ⟨fun h => by simp [startIndex, h],
    fun t hload h0 => startIndex_largest jdd env t hn hinc hload h0⟩

/-- Witness of C11: the two dates `0 < 1` and a snapshot of time 1. -/
theorem C11_resume_index_witness :
    1 ≤ Example.jdd.dates.NbOfDates ∧
    startIndex Example.jdd (Example.envResume 1) < Example.jdd.dates.NbOfDates ∧
    Example.jdd.dates.Date (startIndex Example.jdd (Example.envResume 1)) ≤ 1 ∧
    ∀ j, j < Example.jdd.dates.NbOfDates → Example.jdd.dates.Date j ≤ 1 →
      j ≤ startIndex Example.jdd (Example.envResume 1) := by
  have hn : 1 ≤ Example.jdd.dates.NbOfDates := by simp [Example.jdd]
  have hinc : ∀ i j, i < j → j < Example.jdd.dates.NbOfDates →
      Example.jdd.dates.Date i < Example.jdd.dates.Date j := by
    intro i j hij _
    simp only [Example.jdd]
    exact_mod_cast hij
  exact ⟨hn, (C11_resume_index Example.jdd (Example.envResume 1) hn hinc).2 1 rfl
    (by simp [Example.jdd])⟩

/-! ## Restart with no interval left -/

/-- C12, counterexample: a snapshot of time 1, the last date, is loaded in a
context of initialization; no interval is run, yet `Algorithm` applies the
initial conditions and calls `ComputeInitialState` on the loaded solution
before persisting it. -/
theorem C12_restart_reinitializes :
    (Algorithm Example.jdd (Example.envResume 1) 1 Example.sols Example.solver).map
        (fun r => (r.1, r.2.trace))
      = some (0, [Event.StoreCurrentSolution 1, Event.BackupSolutionAtTime 1 1,
          Event.BackupSolutionAtPoint 1 1, Event.InitialState 1]) := by
  simp [Algorithm, DateLoop, initialization, startIndex, resumeIndex, lastDateIndex, store,
    Example.envResume, Example.jdd, Example.env, Example.sols, Example.solver,
    State.log, State.T_1, State.setT_1, State.setSOL_1, IterProcess_ConvergenceIsMet,
    Function.update]

/-- C12, amended: when a snapshot of time `t` at or beyond the last date is
loaded (the dates strictly increasing), in the context "no initialization" and
with the convergence flag met on entry, `Algorithm` returns 0 in the state in
which it was entered but for the time `t` of the current solution: the ring is
not stepped, no entry point of a model is invoked (the clock is 0), the solver
and the iteration process are untouched, and the only calls made are the two
backups at time `t` and `Mesh_StoreCurrentSolution` at time `t`. -/
theorem C12_restart_preserves (jdd : DataSet) (env : Env) (fuel : Nat) (sols : Solutions)
    (solver : Solver) (t : ℚ)
    (hload : env.Mesh_LoadCurrentSolution = some t)
    (hn : 1 ≤ jdd.dates.NbOfDates) (hword : jdd.dates.NbOfDates < 4294967296)
    (hinc : ∀ i j, i < j → j < jdd.dates.NbOfDates → jdd.dates.Date i < jdd.dates.Date j)
    (hlast : jdd.dates.Date (jdd.dates.NbOfDates - 1) ≤ t)
    (hctx : jdd.ContextIsInitialization = false)
    (hconv : IterProcess_ConvergenceIsMet jdd.iterprocess) :
    Algorithm jdd env fuel sols solver = some (0,
      ⟨(State.setT_1 ⟨sols, jdd.iterprocess, solver, 0, []⟩ t).sols, jdd.iterprocess, solver,
        0, [Event.StoreCurrentSolution t,
          Event.BackupSolutionAtTime t (jdd.dates.NbOfDates - 1),
          Event.BackupSolutionAtPoint t t]⟩) := by
  have h0 : jdd.dates.Date 0 ≤ t := by
    rcases Nat.eq_zero_or_pos (jdd.dates.NbOfDates - 1) with e | e
    · rw [e] at hlast; exact hlast
    · exact le_trans (le_of_lt (hinc 0 _ e (by omega))) hlast
  obtain ⟨a, _, c⟩ := startIndex_largest jdd env t hn hinc hload h0
  have hs : startIndex jdd env = jdd.dates.NbOfDates - 1 := by
    have := c (jdd.dates.NbOfDates - 1) (by omega) hlast
    omega
  have hl : lastDateIndex jdd.dates = jdd.dates.NbOfDates - 1 := by
    unfold lastDateIndex; omega
  have hT : (State.setT_1 ⟨sols, jdd.iterprocess, solver, 0, []⟩ t).T_1 = t := by
    simp [State.setT_1, State.setSOL_1, State.T_1]
  have hi : initialization jdd env sols solver
      = ⟨(State.setT_1 ⟨sols, jdd.iterprocess, solver, 0, []⟩ t).sols, jdd.iterprocess, solver,
        0, [Event.BackupSolutionAtTime t (jdd.dates.NbOfDates - 1),
          Event.BackupSolutionAtPoint t t]⟩ := by
    simp only [initialization, hload, hctx, hs]
    simp only [Bool.false_eq_true, if_false, State.log_T_1, hT]
    rfl
  unfold Algorithm
  simp only [hi, hs, hl, Nat.sub_self, DateLoop, lt_irrefl, if_false]
  have hc : IterProcess_ConvergenceIsMet
      (State.mk (State.setT_1 ⟨sols, jdd.iterprocess, solver, 0, []⟩ t).sols jdd.iterprocess
        solver 0 [Event.BackupSolutionAtTime t (jdd.dates.NbOfDates - 1),
          Event.BackupSolutionAtPoint t t]).iterprocess := hconv
  simp only [store, hc, if_true]
  have hT2 : (State.mk (State.setT_1 ⟨sols, jdd.iterprocess, solver, 0, []⟩ t).sols
      jdd.iterprocess solver 0 [Event.BackupSolutionAtTime t (jdd.dates.NbOfDates - 1),
        Event.BackupSolutionAtPoint t t]).T_1 = t := hT
  rw [hT2]
  rfl

/-- Witness of C12 (amended): the two dates `0 < 1`, a snapshot of time 1 and
the context "no initialization". -/
theorem C12_restart_preserves_witness :
    Algorithm Example.jddContinuation (Example.envResume 1) 1 Example.sols Example.solver
      = some (0,
        ⟨(State.setT_1 ⟨Example.sols, Example.jddContinuation.iterprocess, Example.solver,
            0, []⟩ 1).sols,
          Example.jddContinuation.iterprocess, Example.solver, 0,
          [Event.StoreCurrentSolution 1,
            Event.BackupSolutionAtTime 1 (Example.jddContinuation.dates.NbOfDates - 1),
            Event.BackupSolutionAtPoint 1 1]⟩) :=
  C12_restart_preserves Example.jddContinuation (Example.envResume 1) 1 Example.sols
    Example.solver 1 rfl (by simp [Example.jddContinuation, Example.jdd])
    (by simp [Example.jddContinuation, Example.jdd])
    (by
      intro i j hij _
      simp only [Example.jddContinuation, Example.jdd]
      exact_mod_cast hij)
    (by simp [Example.jddContinuation, Example.jdd]) rfl
    (by simp [IterProcess_ConvergenceIsMet, Example.jddContinuation, Example.jdd])

/-! ## The rows of the point output -/

theorem pointRows_append (a b : List Event) : pointRows (a ++ b) = pointRows a ++ pointRows b :=
  List.filterMap_append a b Event.pointTime

theorem acceptedTimes_append (a b : List Event) :
    acceptedTimes (a ++ b) = acceptedTimes a ++ acceptedTimes b :=
  List.filterMap_append a b Event.acceptedTime

theorem minor_rows (m : List Event) (h : ∀ e ∈ m, e.minor = true) :
    pointRows m = [] ∧ acceptedTimes m = [] := by
  induction m with
  | nil => exact ⟨rfl, rfl⟩
  | cons e m ih =>
    have he := h e (List.mem_cons_self _ _)
    obtain ⟨a, b⟩ := ih (fun x hx => h x (List.mem_cons_of_mem _ hx))
    simp only [pointRows, acceptedTimes] at a b ⊢
    cases e <;> simp [Event.minor] at he <;>
      simp [List.filterMap_cons, Event.pointTime, Event.acceptedTime, a, b]

theorem backupandreturn_rows (idate : Nat) (s : State) :
    pointRows (backupandreturn idate s).trace = pointRows s.trace ∧
    acceptedTimes (backupandreturn idate s).trace = acceptedTimes s.trace := by
  simp [backupandreturn, pointRows, acceptedTimes, List.filterMap_cons, Event.pointTime,
    Event.acceptedTime]

theorem endStep_rows (t_0 : ℚ) (s x : State)
    (hp : pointRows x.trace = pointRows s.trace)
    (ha : acceptedTimes x.trace = acceptedTimes s.trace) :
    BodyRows s (endStep t_0 x) := by
  unfold endStep
  by_cases hc : IterProcess_ConvergenceIsMet x.iterprocess
  · have hn : ¬ IterProcess_ConvergenceIsNotMet x.iterprocess := fun h => h hc
    simp only [hc, if_true, State.log_iterprocess, hn, if_false]
    refine ⟨hc, ?_, ?_⟩ <;>
      simp [pointRows, acceptedTimes, List.filterMap_cons, Event.pointTime,
        Event.acceptedTime] <;>
      first
        | exact hp
        | exact ha
  · have hn : IterProcess_ConvergenceIsNotMet x.iterprocess := hc
    simp only [hc, if_false, State.log_iterprocess, hn, if_true]
    refine ⟨hn, ?_, ?_⟩ <;>
      simp [pointRows, acceptedTimes, List.filterMap_cons, Event.pointTime,
        Event.acceptedTime] <;>
      first
        | exact hp
        | exact ha

theorem InStep.rows {s x : State} {m : List Event} (h : InStep s x m) :
    pointRows x.trace = pointRows s.trace ∧ acceptedTimes x.trace = acceptedTimes s.trace := by
  obtain ⟨_, _, _, htr, hm⟩ := h
  obtain ⟨a, b⟩ := minor_rows m hm
  rw [htr, pointRows_append, acceptedTimes_append, a, b]
  simp [pointRows, acceptedTimes, List.filterMap_cons, Event.pointTime, Event.acceptedTime]

theorem backupandreturn_bodyRows {s x : State} {m : List Event} (idate : Nat)
    (h : InStep s x m) : BodyRows s (Flow.returned (-1) (backupandreturn idate x)) := by
  obtain ⟨a, b⟩ := backupandreturn_rows idate x
  exact ⟨rfl, by rw [a, h.rows.1], by rw [b, h.rows.2]⟩

/-- One pass of the body of the loop on time steps writes one row of the point
output when it reaches 3.1.7, whether the convergence is met or not, and none
when `Algorithm` returns from it. -/
theorem TimeStepBody_rows (jdd : DataSet) (env : Env) (t_0 : ℚ) (idate : Nat) (s : State) :
    ∃ fl, TimeStepBody jdd env t_0 idate s = some fl ∧ BodyRows s fl := by
  have hsf := InStep.forward s
  have hse := hsf.reach
    (Reach.tick (Reach.log (Event.ExplicitTerms
      ((s.setSols (Solutions_StepForward s.sols)).log Event.StepForward).T_n)
      (Reach.refl _))) (by simp [Event.minor])
  simp only [List.append_nil] at hse
  unfold TimeStepBody
  simp only
  split
  · exact ⟨_, rfl, backupandreturn_bodyRows idate hse⟩
  · split
    · have hsu := hse.reach (Reach.log (Event.Undefined 1 0) (Reach.refl _))
        (by simp [Event.minor])
      split
      · exact ⟨_, rfl, backupandreturn_bodyRows idate hsu⟩
      · exact ⟨_, rfl, rfl, hsu.rows.1, hsu.rows.2⟩
    · obtain ⟨r0, hrep⟩ := setTimeStep_reach jdd env idate
        ((((s.setSols (Solutions_StepForward s.sols)).log Event.StepForward).log
          (Event.ExplicitTerms
            ((s.setSols (Solutions_StepForward s.sols)).log Event.StepForward).T_n)).tick)
      obtain ⟨a, ha, m, r1, a1, b1, _, _, _, _, _⟩ := Recommences_spec jdd env _ _
        (Nat.sub_le _ _)
      rw [ha]
      have hin := (hse.reach r0 (by simp)).reach r1 a1
      cases a with
      | done s1 => exact ⟨_, rfl, endStep_rows t_0 s s1 hin.rows.1 hin.rows.2⟩
      | backupandreturn s1 => exact ⟨_, rfl, backupandreturn_bodyRows idate hin⟩

theorem RowsMatch.next {t_0 : ℚ} {s s1 : State} (h : RowsMatch t_0 s)
    (hp : pointRows s1.trace = s1.T_1 :: pointRows s.trace)
    (ha : acceptedTimes s1.trace = s1.T_1 :: acceptedTimes s.trace) : RowsMatch t_0 s1 := by
  unfold RowsMatch at h ⊢
  rw [hp, ha, h]
  rfl

theorem TimeStepLoop_rows (jdd : DataSet) (env : Env) (t_0 : ℚ) (idate : Nat) (fuel : Nat) :
    ∀ s, RowsMatch t_0 s → ∀ fl, TimeStepLoop jdd env t_0 idate fuel s = some fl →
      LoopRows t_0 fl ∧ ∀ s1, fl = Flow.next s1 → RowsMatch t_0 s1 →
        IterProcess_ConvergenceIsMet s1.iterprocess := by
  induction fuel with
  | zero => intro s _ fl h; simp [TimeStepLoop] at h
  | succ fuel ih =>
    intro s hinv fl h
    obtain ⟨fl0, h0, hb⟩ := TimeStepBody_rows jdd env t_0 idate s
    simp only [TimeStepLoop, h0] at h
    cases fl0 with
    | next s1 =>
      obtain ⟨hc1, hp, ha⟩ := hb
      simp only at h
      split at h
      · exact ih s1 (hinv.next hp ha) fl h
      · simp only [Option.some.injEq] at h
        subst h
        refine ⟨Or.inl (hinv.next hp ha), ?_⟩
        intro s2 e _
        cases e
        exact hc1
    | brk s1 =>
      obtain ⟨hc1, hp, ha⟩ := hb
      simp only [Option.some.injEq] at h
      subst h
      have hahead : RowsAhead t_0 s1 := ⟨hc1, s1.T_1, by rw [hp, ha, hinv]; rfl⟩
      refine ⟨Or.inr hahead, ?_⟩
      intro s2 e hm
      cases e
      exfalso
      obtain ⟨_, t, ht⟩ := hahead
      unfold RowsMatch at hm
      rw [hm] at ht
      have := congrArg List.length ht
      simp at this
    | returned c s1 =>
      obtain ⟨hc, hp, ha⟩ := hb
      simp only [Option.some.injEq] at h
      subst h
      refine ⟨⟨hc, by unfold RowsMatch at hinv ⊢; rw [hp, ha, hinv]⟩, ?_⟩
      intro s2 e
      cases e

theorem RowsMatch.matchLogTime {t_0 : ℚ} {s : State} (h : RowsMatch t_0 s) (t : ℚ) (k : Nat) :
    RowsMatch t_0 (s.log (Event.BackupSolutionAtTime t k)) := by
  unfold RowsMatch at h ⊢
  simpa [pointRows, acceptedTimes, List.filterMap_cons, Event.pointTime, Event.acceptedTime]
    using h

theorem RowsAhead.aheadLogTime {t_0 : ℚ} {s : State} (h : RowsAhead t_0 s) (t : ℚ) (k : Nat) :
    RowsAhead t_0 (s.log (Event.BackupSolutionAtTime t k)) := by
  obtain ⟨hc, t1, h1⟩ := h
  refine ⟨hc, t1, ?_⟩
  simpa [pointRows, acceptedTimes, List.filterMap_cons, Event.pointTime, Event.acceptedTime]
    using h1

theorem DateLoop_rows (jdd : DataSet) (env : Env) (t_0 : ℚ) (fuel : Nat) (n : Nat) :
    ∀ idate s, RowsMatch t_0 s → ∀ fl, DateLoop jdd env t_0 fuel n idate s = some fl →
      LoopRows t_0 fl ∧ ∀ s1, fl = Flow.next s1 → RowsMatch t_0 s1 := by
  induction n with
  | zero =>
    intro idate s hinv fl h
    simp only [DateLoop] at h
    split at h
    · exact absurd h (by simp)
    · simp only [Option.some.injEq] at h
      subst h
      exact ⟨Or.inl hinv, fun s1 e => by cases e; exact hinv⟩
  | succ n ih =>
    intro idate s hinv fl h
    simp only [DateLoop] at h
    split at h
    · cases hl : TimeStepLoop jdd env t_0 idate fuel s with
      | none => simp [hl] at h
      | some fl0 =>
        obtain ⟨hs, hconv⟩ := TimeStepLoop_rows jdd env t_0 idate fuel s hinv fl0 hl
        rw [hl] at h
        cases fl0 with
        | next s1 =>
          simp only [State.log_iterprocess] at h
          by_cases hn : IterProcess_ConvergenceIsNotMet s1.iterprocess
          · simp only [hn, if_true, Option.some.injEq] at h
            subst h
            rcases hs with hm | ha
            · exact absurd (hconv s1 rfl hm) hn
            · exact ⟨ha.aheadLogTime _ _, fun s2 e => by cases e⟩
          · simp only [hn, if_false] at h
            rcases hs with hm | ha
            · exact ih (idate + 1) _ (hm.matchLogTime _ _) fl h
            · exact absurd ha.1 hn
        | brk s1 =>
          simp only [State.log_iterprocess] at h
          by_cases hn : IterProcess_ConvergenceIsNotMet s1.iterprocess
          · simp only [hn, if_true, Option.some.injEq] at h
            subst h
            exact ⟨RowsAhead.aheadLogTime hs _ _, fun s2 e => by cases e⟩
          · exact absurd hs.1 hn
        | returned c s1 =>
          simp only [Option.some.injEq] at h
          subst h
          exact ⟨hs, fun s2 e => by cases e⟩
    · simp only [Option.some.injEq] at h
      subst h
      exact ⟨Or.inl hinv, fun s1 e => by cases e; exact hinv⟩

theorem initialization_rows (jdd : DataSet) (env : Env) (sols : Solutions) (solver : Solver) :
    RowsMatch (initialization jdd env sols solver).T_1 (initialization jdd env sols solver) := by
  unfold RowsMatch
  cases hl : env.Mesh_LoadCurrentSolution <;> cases hc : jdd.ContextIsInitialization <;>
    simp [initialization, hl, hc, pointRows, acceptedTimes, List.filterMap_cons,
      Event.pointTime, Event.acceptedTime]

/-- C14, counterexample: the Newton loop does not converge and the repetition
limit 0 is reached; `OutputFiles_BackupSolutionAtPoint` is called at the time
1 of that attempt, which is not accepted: `Algorithm` steps back and returns
-1. -/
theorem C14_row_of_a_rejected_step :
    (Algorithm Example.jddNoRepetition Example.envDiverge 1 Example.sols Example.solver).map
        (fun r => (r.1, r.2.trace))
      = some (-1, [Event.StoreCurrentSolution 0, Event.StepBackward,
          Event.BackupSolutionAtTime 1 1, Event.BackupSolutionAtPoint 1 0,
          Event.ImplicitTerms 1 1, Event.Step 1 1 1, Event.ExplicitTerms 0, Event.StepForward,
          Event.BackupSolutionAtTime 0 0, Event.BackupSolutionAtPoint 0 0,
          Event.InitialState 0]) := by
  norm_num [Algorithm, DateLoop, TimeStepLoop, TimeStepBody, setTimeStep, endStep,
    initialization, startIndex, lastDateIndex, store, Recommences, attempt, beginAttempt,
    smallerTimeStep, NewtonLoop, NewtonIteration,
    Exit.andThen, Newton.implicitTerms, Newton.residu, Newton.matrix, Newton.resolution,
    Newton.error, ComputeExplicitTerms, ComputeExplicitTerms.loop, ComputeImplicitTerms,
    ComputeImplicitTerms.loop, ComputeResidu, ComputeResidu.residu, ComputeResidu.loads,
    ComputeResidu.loadElements, ComputeMatrix, ComputeMatrix.loop,
    Example.jddNoRepetition, Example.jdd, Example.envDiverge, Example.env, Example.sols,
    Example.solver, Example.mesh,
    Example.bar, Example.bare, Example.loads, State.log, State.tick, State.T_1, State.T_n,
    State.DT_1, State.DT_n, State.STEP_1, State.STEP_n, State.setT_1, State.setDT_1,
    State.setSTEP_1, State.setSOL_1, State.setSols, State.setIterProcess, State.setSolver,
    Solutions_StepForward, Solutions_StepBackward, Solutions.previous,
    IterProcess_LastIterationIsNotReached, IterProcess_LastRepetitionIsNotReached,
    IterProcess_ConvergenceIsMet, IterProcess_ConvergenceIsNotMet,
    IterProcess_IncrementIterationIndex, IterProcess_IncrementRepetitionIndex, List.range,
    List.range.loop, Function.update]

/-- C14, amended: at every return of `Algorithm` the rows of the point output
(the times of the calls of `OutputFiles_BackupSolutionAtPoint`, most recent
first) are the times of the accepted steps followed by the starting time
`t_0`; except when `Algorithm` returns -1 from a last attempt that reached
3.1.7 without convergence, the repetitions being exhausted: then there is one
more row, the most recent, for that attempt.  An attempt that is repeated, or
that ends at the label `backupandreturn`, has no row. -/
theorem C14_point_rows (jdd : DataSet) (env : Env) (fuel : Nat) (sols : Solutions)
    (solver : Solver) (r : Int × State)
    (h : Algorithm jdd env fuel sols solver = some r) :
    (r.1 = 0 ∨ r.1 = -1) ∧
    (pointRows r.2.trace
        = acceptedTimes r.2.trace ++ [(initialization jdd env sols solver).T_1] ∨
      (r.1 = -1 ∧ IterProcess_ConvergenceIsNotMet r.2.iterprocess ∧
        ∃ t, pointRows r.2.trace
          = t :: acceptedTimes r.2.trace ++ [(initialization jdd env sols solver).T_1])) := by
  have hinv := initialization_rows jdd env sols solver
  unfold Algorithm at h
  simp only at h
  cases hl : DateLoop jdd env (initialization jdd env sols solver).T_1 fuel
      (lastDateIndex jdd.dates - startIndex jdd env) (startIndex jdd env)
      (initialization jdd env sols solver) with
  | none => simp [hl] at h
  | some fl =>
    obtain ⟨hs, hnext⟩ := DateLoop_rows jdd env _ fuel _ _ _ hinv fl hl
    rw [hl] at h
    cases fl with
    | next s1 =>
      have hm := hnext s1 rfl
      simp only [Option.some.injEq] at h
      subst h
      unfold RowsMatch at hm
      unfold store
      by_cases hc : IterProcess_ConvergenceIsMet s1.iterprocess
      · simp only [hc, if_true]
        refine ⟨Or.inl trivial, Or.inl ?_⟩
        simpa [pointRows, acceptedTimes, List.filterMap_cons, Event.pointTime,
          Event.acceptedTime] using hm
      · simp only [hc, if_false]
        refine ⟨Or.inr trivial, Or.inl ?_⟩
        simpa [pointRows, acceptedTimes, List.filterMap_cons, Event.pointTime,
          Event.acceptedTime] using hm
    | brk s1 =>
      obtain ⟨hn, t, ht⟩ := hs
      have hc : ¬ IterProcess_ConvergenceIsMet s1.iterprocess := hn
      simp only [Option.some.injEq] at h
      subst h
      unfold store
      simp only [hc, if_false]
      refine ⟨Or.inr trivial, Or.inr ⟨trivial, hn, t, ?_⟩⟩
      simpa [pointRows, acceptedTimes, List.filterMap_cons, Event.pointTime,
        Event.acceptedTime] using ht
    | returned c s1 =>
      simp only [Option.some.injEq] at h
      subst h
      exact ⟨Or.inr hs.1, Or.inl hs.2⟩

/-- Witness of C14 (amended): the run of the collaborators that never fail
writes the rows `[1, 0]` for the accepted step at time 1 and the starting
time 0. -/
theorem C14_point_rows_witness :
    ∃ r, Algorithm Example.jdd Example.env 1 Example.sols Example.solver = some r ∧
      pointRows r.2.trace = [1, 0] ∧
      ((r.1 = 0 ∨ r.1 = -1) ∧
      (pointRows r.2.trace = acceptedTimes r.2.trace
          ++ [(initialization Example.jdd Example.env Example.sols Example.solver).T_1] ∨
        (r.1 = -1 ∧ IterProcess_ConvergenceIsNotMet r.2.iterprocess ∧
          ∃ t, pointRows r.2.trace = t :: acceptedTimes r.2.trace
            ++ [(initialization Example.jdd Example.env Example.sols Example.solver).T_1]))) := by
  have hrun := run_success
  cases h : Algorithm Example.jdd Example.env 1 Example.sols Example.solver with
  | none => rw [h] at hrun; simp at hrun
  | some r =>
    rw [h] at hrun
    simp only [Option.map_some', Option.some.injEq, Prod.mk.injEq] at hrun
    refine ⟨r, rfl, ?_, C14_point_rows Example.jdd Example.env 1 Example.sols
      Example.solver r h⟩
    rw [hrun.2]
    simp [pointRows, List.filterMap_cons, Event.pointTime]

/-! ## Repetitions of a step whose implicit terms fail above a threshold -/

theorem beginAttempt_time (x : State) :
    (beginAttempt x).DT_1 = x.DT_1 ∧ (beginAttempt x).T_1 = x.T_n + x.DT_1 := by
  unfold beginAttempt
  simp only
  by_cases h : x.iterprocess.RepetitionIndex > 0
  · simp [h]
  · simp [h]

/-- An attempt whose first call of `ComputeImplicitTerms` fails below the
repetition limit is repeated with the time step `min(dt*rf, dt_ini)`. -/
theorem attempt_of_implicit_failure (jdd : DataSet) (env : Env) (x : State)
    (hN : 1 ≤ x.iterprocess.NbOfIterations)
    (hr : x.iterprocess.RepetitionIndex < x.iterprocess.NbOfRepetitions)
    (hfail : ∀ clk t, ∃ i, i ≠ 0 ∧
      (ComputeImplicitTerms jdd.mesh env clk t x.DT_1).1 = Call.ret i) :
    ∃ y m, attempt jdd env x = some (Exit.recommences y) ∧ Reach m x y ∧
      y.DT_1 = min (x.DT_1 * jdd.timestep.ReductionFactor) jdd.timestep.InitialTimeStep ∧
      y.iterprocess.RepetitionIndex = x.iterprocess.RepetitionIndex + 1 := by
  obtain ⟨m0, r0, _, _, _, rep0, it0⟩ := beginAttempt_reach x
  obtain ⟨hdt, _⟩ := beginAttempt_time x
  have hN0 : (beginAttempt x).iterprocess.NbOfIterations = x.iterprocess.NbOfIterations :=
    r0.limits.1
  have hR0 : (beginAttempt x).iterprocess.NbOfRepetitions = x.iterprocess.NbOfRepetitions :=
    r0.limits.2.1
  obtain ⟨i, hi, hc⟩ := hfail
    ((beginAttempt x).setIterProcess
      (IterProcess_IncrementIterationIndex (beginAttempt x).iterprocess)).clock
    ((beginAttempt x).setIterProcess
      (IterProcess_IncrementIterationIndex (beginAttempt x).iterprocess)).T_1
  have hne : (ComputeImplicitTerms jdd.mesh env
      ((beginAttempt x).setIterProcess
        (IterProcess_IncrementIterationIndex (beginAttempt x).iterprocess)).clock
      ((beginAttempt x).setIterProcess
        (IterProcess_IncrementIterationIndex (beginAttempt x).iterprocess)).T_1
      ((beginAttempt x).setIterProcess
        (IterProcess_IncrementIterationIndex (beginAttempt x).iterprocess)).DT_1).1
      ≠ Call.ret 0 := by
    rw [State.setIterProcess_DT_1, hdt, hc]
    intro h0
    exact hi (Call.ret.inj h0)
  have hrb : IterProcess_LastRepetitionIsNotReached
      ((beginAttempt x).setIterProcess
        (IterProcess_IncrementIterationIndex (beginAttempt x).iterprocess)).iterprocess := by
    simp only [State.setIterProcess_iterprocess, IterProcess_LastRepetitionIsNotReached,
      IterProcess_IncrementIterationIndex]
    rw [rep0, hR0]
    exact hr
  obtain ⟨s1, h1⟩ := implicitTerms_failure jdd env _ hne
  have himp : Newton.implicitTerms jdd env ((beginAttempt x).setIterProcess
      (IterProcess_IncrementIterationIndex (beginAttempt x).iterprocess))
      = Exit.recommences s1 := by
    rcases h1 with ⟨h1, _⟩ | ⟨_, h2 | h2⟩
    · exact h1
    · exact absurd hrb h2
    · rw [State.setIterProcess_DT_1, hdt, hc] at h2
      exact absurd h2 (by simp)
  have hit : NewtonIteration jdd env (beginAttempt x) = Exit.recommences s1 := by
    unfold NewtonIteration
    simp only [himp, Exit.andThen]
  have hlast : IterProcess_LastIterationIsNotReached (beginAttempt x).iterprocess := by
    unfold IterProcess_LastIterationIsNotReached
    rw [it0, hN0]
    exact hN
  have hloop : NewtonLoop jdd env (beginAttempt x).iterprocess.NbOfIterations (beginAttempt x)
      = some (Exit.recommences s1) := by
    obtain ⟨n, hn⟩ : ∃ n, (beginAttempt x).iterprocess.NbOfIterations = n + 1 :=
      ⟨x.iterprocess.NbOfIterations - 1, by omega⟩
    rw [hn]
    simp only [NewtonLoop, hlast, if_true, hit]
  have hatt : attempt jdd env x = some (Exit.recommences s1) := by
    unfold attempt
    simp only [hloop]
  obtain ⟨x0, hx0, ⟨m, r1, _⟩, _, _⟩ := attempt_spec jdd env x
  rw [hatt] at hx0
  cases Option.some.inj hx0
  obtain ⟨a, b, _⟩ := NewtonIteration_recommences jdd env _ _ hit
  refine ⟨s1, m, hatt, r1, ?_, ?_⟩
  · rw [a, hdt]
  · rw [b, rep0]

/-- The mesh-level `ComputeImplicitTerms` of a mesh with at least one element
that has a material, over a model whose entry point fails exactly when the
time step exceeds `d`. -/
theorem ComputeImplicitTerms_threshold (mesh : Mesh) (env : Env) (d : ℚ)
    (hmat : ∃ ie, ie < mesh.NbOfElements ∧ (mesh.Element ie).Material = true)
    (hmodel : ∀ clk ie t dt, ∃ i, env.Element_ComputeImplicitTerms clk ie t dt = Call.ret i ∧
      (i ≠ 0 ↔ d < dt)) (clk : Nat) (t dt : ℚ) :
    (d < dt → ∃ i, i ≠ 0 ∧ (ComputeImplicitTerms mesh env clk t dt).1 = Call.ret i) ∧
    (dt ≤ d → (ComputeImplicitTerms mesh env clk t dt).1 = Call.ret 0) := by
  have hv : (ComputeImplicitTerms mesh env clk t dt).1
      = (visit (fun ie => (mesh.Element ie).Material)
          (fun ie => env.Element_ComputeImplicitTerms clk ie t dt)
          (List.range mesh.NbOfElements)).1 := by
    rw [ComputeImplicitTerms, ComputeImplicitTerms_loop_eq_visit]
  rw [hv]
  constructor
  · intro hd
    classical
    have hex : ∃ ie, ie < mesh.NbOfElements ∧ (mesh.Element ie).Material = true := hmat
    have hfirst := Nat.find_spec hex
    have hmin := fun ie (h : ie < Nat.find hex) => Nat.find_min hex h
    obtain ⟨i, hi, hiff⟩ := hmodel clk (Nat.find hex) t dt
    have hne : env.Element_ComputeImplicitTerms clk (Nat.find hex) t dt ≠ Call.ret 0 := by
      rw [hi]
      intro h0
      exact (hiff.2 hd) (Call.ret.inj h0)
    have h3 := (visit_contract mesh.NbOfElements (fun ie => (mesh.Element ie).Material)
      (fun ie => env.Element_ComputeImplicitTerms clk ie t dt)).2.2.1 (Nat.find hex)
      hfirst.1 hfirst.2 hne
      (fun ie hlt hm => absurd ⟨lt_trans hlt hfirst.1, hm⟩ (hmin ie hlt))
    exact ⟨i, hiff.2 hd, by rw [h3.1]; exact hi⟩
  · intro hd
    rw [visit_ok_iff]
    intro ie _ _
    obtain ⟨i, hi, hiff⟩ := hmodel clk ie t dt
    have : i = 0 := by
      by_contra hne
      exact absurd (hiff.1 hne) (not_lt.2 hd)
    simp only [hi, this]

theorem previous_ne_cursor (sols : Solutions) (hring : 2 ≤ sols.NbOfSolutions)
    (hcur : sols.cursor < sols.NbOfSolutions) : sols.previous ≠ sols.cursor := by
  unfold Solutions.previous
  by_cases h0 : sols.cursor = 0
  · rw [h0, Nat.zero_add, Nat.mod_eq_of_lt (by omega)]
    omega
  · have e : sols.cursor + sols.NbOfSolutions - 1 = (sols.cursor - 1) + sols.NbOfSolutions := by
      omega
    rw [e, Nat.add_mod_right, Nat.mod_eq_of_lt (by omega)]
    omega

theorem Reach.T_n {m : List Event} {s s1 : State} (h : Reach m s s1)
    (hne : s.sols.previous ≠ s.sols.cursor) : s1.T_n = s.T_n := by
  have hp : s1.sols.previous = s.sols.previous := by
    unfold Solutions.previous
    rw [h.cursor, h.NbOfSolutions]
  unfold State.T_n
  rw [hp, h.solution _ hne]

/-- The first `k` attempts of a step are repeated when each of them runs with a
time step `dt0 * rf^j` above the threshold. -/
theorem repeated_spec (jdd : DataSet) (env : Env) (d : ℚ)
    (hrf0 : 0 < jdd.timestep.ReductionFactor) (hrf1 : jdd.timestep.ReductionFactor ≤ 1)
    (hfail : ∀ clk t dt, d < dt → ∃ i, i ≠ 0 ∧
      (ComputeImplicitTerms jdd.mesh env clk t dt).1 = Call.ret i) (k : Nat) :
    ∀ x : State, 0 ≤ x.DT_1 → x.DT_1 ≤ jdd.timestep.InitialTimeStep →
      1 ≤ x.iterprocess.NbOfIterations →
      (∀ j, j < k → d < x.DT_1 * jdd.timestep.ReductionFactor ^ j) →
      x.iterprocess.RepetitionIndex + k ≤ x.iterprocess.NbOfRepetitions →
      ∃ sk m, repeated jdd env k x = some sk ∧ Reach m x sk ∧
        sk.DT_1 = x.DT_1 * jdd.timestep.ReductionFactor ^ k ∧
        sk.iterprocess.RepetitionIndex = x.iterprocess.RepetitionIndex + k ∧
        ∀ fuel, Recommences jdd env (fuel + k) x = Recommences jdd env fuel sk := by
  induction k with
  | zero =>
    intro x _ _ _ _ _
    exact ⟨x, [], rfl, Reach.refl x, by simp, rfl, fun _ => rfl⟩
  | succ k ih =>
    intro x hpos hini hN hK hR
    have hd0 : d < x.DT_1 := by simpa using hK 0 (Nat.succ_pos k)
    obtain ⟨y, m, hatt, r1, hdt, hrep⟩ := attempt_of_implicit_failure jdd env x hN (by omega)
      (fun clk t => hfail clk t x.DT_1 hd0)
    have hle : x.DT_1 * jdd.timestep.ReductionFactor ≤ jdd.timestep.InitialTimeStep :=
      le_trans (mul_le_of_le_one_right hpos hrf1) hini
    rw [min_eq_left hle] at hdt
    obtain ⟨sk, m2, hk, r2, hdt2, hrep2, hrec⟩ := ih y
      (by rw [hdt]; exact mul_nonneg hpos (le_of_lt hrf0))
      (by rw [hdt]; exact hle)
      (by rw [r1.limits.1]; exact hN)
      (by
        intro j hj
        rw [hdt, mul_assoc, ← pow_succ']
        exact hK (j + 1) (by omega))
      (by rw [hrep, r1.limits.2.1]; omega)
    refine ⟨sk, m2 ++ m, ?_, r1.trans r2, ?_, ?_, ?_⟩
    · simp only [repeated, hatt]
      exact hk
    · rw [hdt2, hdt, mul_assoc, ← pow_succ']
    · rw [hrep2, hrep]; omega
    · intro fuel
      rw [← hrec fuel]
      show Recommences jdd env ((fuel + k) + 1) x = _
      simp only [Recommences, hatt]

/-- C13: a step is begun at the label `recommences` in the state `s`, with a
time step `dt0 = DT_1` between 0 and the initial time step, a reduction factor
in `(0,1]`, at least one Newton iteration allowed, and a model whose
`compute_implicit_terms` fails exactly when the time step exceeds `d` (on a
mesh with an element that has a material).  If `dt0 * rf^j > d` for every
`j < K` and `K` repetitions are within the limit, then for every `k ≤ K` the
`k`-th repetition is reached, with repetition index `k` more, and is attempted
with `dt = dt0 * rf^k` at the time `T_n + dt0 * rf^k`; it is repeated when
`k < K`; and once `dt0 * rf^k ≤ d` the implicit terms of the attempt are
computed without failure, so that no further repetition comes from them.  The
attempts of the step are those of its `k`-th repetition onwards. -/
theorem C13_step_back (jdd : DataSet) (env : Env) (s : State) (d : ℚ) (K : Nat)
    (hring : 2 ≤ s.sols.NbOfSolutions) (hcur : s.sols.cursor < s.sols.NbOfSolutions)
    (hrf0 : 0 < jdd.timestep.ReductionFactor) (hrf1 : jdd.timestep.ReductionFactor ≤ 1)
    (hpos : 0 ≤ s.DT_1) (hini : s.DT_1 ≤ jdd.timestep.InitialTimeStep)
    (hN : 1 ≤ s.iterprocess.NbOfIterations)
    (hmat : ∃ ie, ie < jdd.mesh.NbOfElements ∧ (jdd.mesh.Element ie).Material = true)
    (hmodel : ∀ clk ie t dt, ∃ i, env.Element_ComputeImplicitTerms clk ie t dt = Call.ret i ∧
      (i ≠ 0 ↔ d < dt))
    (hK : ∀ j, j < K → d < s.DT_1 * jdd.timestep.ReductionFactor ^ j)
    (hR : s.iterprocess.RepetitionIndex + K ≤ s.iterprocess.NbOfRepetitions) :
    ∀ k, k ≤ K → ∃ sk, repeated jdd env k s = some sk ∧
      sk.iterprocess.RepetitionIndex = s.iterprocess.RepetitionIndex + k ∧
      (beginAttempt sk).DT_1 = s.DT_1 * jdd.timestep.ReductionFactor ^ k ∧
      (beginAttempt sk).T_1 = s.T_n + s.DT_1 * jdd.timestep.ReductionFactor ^ k ∧
      (k < K → ∃ s1, attempt jdd env sk = some (Exit.recommences s1)) ∧
      (s.DT_1 * jdd.timestep.ReductionFactor ^ k ≤ d →
        ∃ s1, Newton.implicitTerms jdd env ((beginAttempt sk).setIterProcess
          (IterProcess_IncrementIterationIndex (beginAttempt sk).iterprocess))
            = Exit.next s1) ∧
      ∀ fuel, Recommences jdd env (fuel + k) s = Recommences jdd env fuel sk := by
  intro k hk
  have hth := ComputeImplicitTerms_threshold jdd.mesh env d hmat hmodel
  obtain ⟨sk, m, hrep, r, hdt, hidx, hrec⟩ := repeated_spec jdd env d hrf0 hrf1
    (fun clk t dt => (hth clk t dt).1) k s hpos hini hN
    (fun j hj => hK j (by omega)) (by omega)
  obtain ⟨bdt, bt⟩ := beginAttempt_time sk
  refine ⟨sk, hrep, hidx, by rw [bdt, hdt], ?_, ?_, ?_, hrec⟩
  · rw [bt, hdt, r.T_n (previous_ne_cursor s.sols hring hcur)]
  · intro hlt
    have hd : d < sk.DT_1 := by rw [hdt]; exact hK k hlt
    obtain ⟨y, _, hatt, _⟩ := attempt_of_implicit_failure jdd env sk
      (by rw [r.limits.1]; exact hN) (by rw [hidx, r.limits.2.1]; omega)
      (fun clk t => (hth clk t sk.DT_1).1 hd)
    exact ⟨y, hatt⟩
  · intro hle
    have hc := (hth ((beginAttempt sk).setIterProcess
        (IterProcess_IncrementIterationIndex (beginAttempt sk).iterprocess)).clock
      ((beginAttempt sk).setIterProcess
        (IterProcess_IncrementIterationIndex (beginAttempt sk).iterprocess)).T_1
      ((beginAttempt sk).setIterProcess
        (IterProcess_IncrementIterationIndex (beginAttempt sk).iterprocess)).DT_1).2
      (by rw [State.setIterProcess_DT_1, bdt, hdt]; exact hle)
    unfold Newton.implicitTerms
    simp only [hc]
    simp

/-- Witness of C13: `dt0 = 1/2`, `d = 1/4`, reduction factor `1/2`: the first
repetition is attempted with `dt = 1/4` at the time `T_n + 1/4`. -/
theorem C13_step_back_witness :
    ∃ sk, repeated Example.jdd Example.envQuarter 1 (Example.state (1 / 2)) = some sk ∧
      sk.iterprocess.RepetitionIndex = (Example.state (1 / 2)).iterprocess.RepetitionIndex + 1 ∧
      (beginAttempt sk).DT_1
        = (Example.state (1 / 2)).DT_1 * Example.jdd.timestep.ReductionFactor ^ 1 ∧
      (beginAttempt sk).T_1 = (Example.state (1 / 2)).T_n
        + (Example.state (1 / 2)).DT_1 * Example.jdd.timestep.ReductionFactor ^ 1 ∧
      (1 < 1 → ∃ s1, attempt Example.jdd Example.envQuarter sk = some (Exit.recommences s1)) ∧
      ((Example.state (1 / 2)).DT_1 * Example.jdd.timestep.ReductionFactor ^ 1 ≤ 1 / 4 →
        ∃ s1, Newton.implicitTerms Example.jdd Example.envQuarter
          ((beginAttempt sk).setIterProcess
            (IterProcess_IncrementIterationIndex (beginAttempt sk).iterprocess))
            = Exit.next s1) ∧
      ∀ fuel, Recommences Example.jdd Example.envQuarter (fuel + 1) (Example.state (1 / 2))
        = Recommences Example.jdd Example.envQuarter fuel sk :=
  C13_step_back Example.jdd Example.envQuarter (Example.state (1 / 2)) (1 / 4) 1
    (by simp [Example.state]) (by simp [Example.state])
    (by norm_num [Example.jdd]) (by norm_num [Example.jdd])
    (by norm_num [Example.state, State.DT_1]) (by norm_num [Example.state, State.DT_1, Example.jdd])
    (by simp [Example.state])
    ⟨0, by simp [Example.jdd, Example.mesh], by simp [Example.jdd, Example.mesh, Example.bar]⟩
    (by
      intro clk ie t dt
      by_cases h : dt > 1 / 4
      · exact ⟨1, by simp only [Example.envQuarter, if_pos h], fun _ => h, fun _ => one_ne_zero⟩
      · exact ⟨0, by simp only [Example.envQuarter, if_neg h],
          fun h0 => absurd rfl h0, fun hd => absurd hd h⟩)
    (by
      intro j hj
      have : j = 0 := by omega
      subst this
      norm_num [Example.state, State.DT_1])
    (by simp [Example.state]) 1 (le_refl 1)

/-! ## The order of assembly -/

theorem residu_none (mesh : Mesh) (env : Env) (clk : Nat) (t dt : ℚ) (l : List Nat) :
    ∀ r : Nat → ℚ,
    (∃ ie ∈ l, (mesh.Element ie).Material = true ∧
      env.Element_ComputeResidu clk ie t dt = Call.interrupt) →
    ComputeResidu.residu mesh env clk t dt l r = none := by
  induction l with
  | nil => intro r h; obtain ⟨ie, hie, _⟩ := h; simp at hie
  | cons ie rest ih =>
    intro r h
    obtain ⟨x, hx, hm, hc⟩ := h
    simp only [ComputeResidu.residu]
    by_cases hmie : (mesh.Element ie).Material = true
    · simp only [hmie, if_true]
      cases hcie : env.Element_ComputeResidu clk ie t dt with
      | interrupt => rfl
      | ret i =>
        rcases List.mem_cons.1 hx with e | e
        · rw [e, hcie] at hc; exact absurd hc (by simp)
        · exact ih _ ⟨x, e, hm, hc⟩
    · simp only [hmie]
      rcases List.mem_cons.1 hx with e | e
      · rw [e] at hm; exact absurd hm hmie
      · exact ih _ ⟨x, e, hm, hc⟩

theorem loadElements_none (mesh : Mesh) (env : Env) (clk : Nat) (t dt : ℚ) (loads : Loads)
    (i_cg : Nat) (l : List Nat) :
    ∀ r : Nat → ℚ,
    (∃ ie ∈ l, (mesh.Element ie).RegionIndex = (loads.Load i_cg).RegionIndex ∧
      (mesh.Element ie).Material = true ∧
      env.Element_ComputeLoads clk ie t dt i_cg = Call.interrupt) →
    ComputeResidu.loadElements mesh env clk t dt loads i_cg l r = none := by
  induction l with
  | nil => intro r h; obtain ⟨ie, hie, _⟩ := h; simp at hie
  | cons ie rest ih =>
    intro r h
    obtain ⟨x, hx, hr, hm, hc⟩ := h
    simp only [ComputeResidu.loadElements]
    by_cases hrie : (mesh.Element ie).RegionIndex = (loads.Load i_cg).RegionIndex
    · by_cases hmie : (mesh.Element ie).Material = true
      · simp only [hrie, hmie, if_true]
        cases hcie : env.Element_ComputeLoads clk ie t dt i_cg with
        | interrupt => rfl
        | ret i =>
          rcases List.mem_cons.1 hx with e | e
          · rw [e, hcie] at hc; exact absurd hc (by simp)
          · exact ih _ ⟨x, e, hr, hm, hc⟩
      · simp only [hrie, hmie, if_true]
        rcases List.mem_cons.1 hx with e | e
        · rw [e] at hm; exact absurd hm hmie
        · exact ih _ ⟨x, e, hr, hm, hc⟩
    · simp only [hrie, if_false]
      rcases List.mem_cons.1 hx with e | e
      · rw [e] at hr; exact absurd hr hrie
      · exact ih _ ⟨x, e, hr, hm, hc⟩

theorem loads_none (mesh : Mesh) (env : Env) (clk : Nat) (t dt : ℚ) (loads : Loads)
    (l : List Nat) :
    ∀ r : Nat → ℚ,
    (∃ i_cg ∈ l, ∃ ie, ie < mesh.NbOfElements ∧
      (mesh.Element ie).RegionIndex = (loads.Load i_cg).RegionIndex ∧
      (mesh.Element ie).Material = true ∧
      env.Element_ComputeLoads clk ie t dt i_cg = Call.interrupt) →
    ComputeResidu.loads mesh env clk t dt loads l r = none := by
  induction l with
  | nil => intro r h; obtain ⟨i, hi, _⟩ := h; simp at hi
  | cons i_cg rest ih =>
    intro r h
    obtain ⟨x, hx, ie, hie, hr, hm, hc⟩ := h
    simp only [ComputeResidu.loads]
    cases hl : ComputeResidu.loadElements mesh env clk t dt loads i_cg
        (List.range mesh.NbOfElements) r with
    | none => rfl
    | some r1 =>
      rcases List.mem_cons.1 hx with e | e
      · rw [e] at hr hc
        rw [loadElements_none mesh env clk t dt loads i_cg _ r
          ⟨ie, List.mem_range.2 hie, hr, hm, hc⟩] at hl
        exact absurd hl (by simp)
      · exact ih _ ⟨x, e, ie, hie, hr, hm, hc⟩

/-- `ComputeResidu` does not return when one of the entry points it calls
raises the interrupt. -/
theorem ComputeResidu_interrupted (mesh : Mesh) (env : Env) (clk : Nat) (t dt : ℚ)
    (r : Nat → ℚ) (loads : Loads) (h : ComputeResidu.interrupted mesh env clk t dt loads) :
    ComputeResidu mesh env clk t dt r loads = none := by
  unfold ComputeResidu
  simp only
  cases hres : ComputeResidu.residu mesh env clk t dt (List.range mesh.NbOfElements)
      (fun j => if j < mesh.NbOfMatrixColumns then 0 else r j) with
  | none => rfl
  | some r1 =>
    rcases h with ⟨ie, hie, hm, hc⟩ | ⟨i_cg, hi, rest⟩
    · rw [residu_none mesh env clk t dt _ _ ⟨ie, List.mem_range.2 hie, hm, hc⟩] at hres
      exact absurd hres (by simp)
    · exact loads_none mesh env clk t dt loads _ r1 ⟨i_cg, List.mem_range.2 hi, rest⟩

theorem range_perm_surj (n : Nat) (σ : Nat → Nat) (hσ : ∀ i, i < n → σ i < n)
    (hinj : ∀ i j, i < n → j < n → σ i = σ j → i = j) :
    ∀ j, j < n → ∃ i, i < n ∧ σ i = j := by
  have hsub : (Finset.range n).image σ ⊆ Finset.range n := by
    intro x hx
    obtain ⟨i, hi, rfl⟩ := Finset.mem_image.1 hx
    exact Finset.mem_range.2 (hσ i (Finset.mem_range.1 hi))
  have hcard : ((Finset.range n).image σ).card = (Finset.range n).card := by
    apply Finset.card_image_of_injOn
    intro i hi j hj e
    exact hinj i j (Finset.mem_range.1 (Finset.mem_coe.1 hi))
      (Finset.mem_range.1 (Finset.mem_coe.1 hj)) e
  have heq := Finset.eq_of_subset_of_card_le hsub (le_of_eq hcard.symm)
  intro j hj
  have : j ∈ (Finset.range n).image σ := by rw [heq]; exact Finset.mem_range.2 hj
  obtain ⟨i, hi, e⟩ := Finset.mem_image.1 this
  exact ⟨i, Finset.mem_range.1 hi, e⟩

theorem sum_range_perm (n : Nat) (σ : Nat → Nat) (hσ : ∀ i, i < n → σ i < n)
    (hinj : ∀ i j, i < n → j < n → σ i = σ j → i = j) (g : Nat → ℚ) :
    ∑ i ∈ Finset.range n, g (σ i) = ∑ i ∈ Finset.range n, g i := by
  refine Finset.sum_bij (fun i _ => σ i) ?_ ?_ ?_ ?_
  · intro i hi
    exact Finset.mem_range.2 (hσ i (Finset.mem_range.1 hi))
  · intro i hi j hj e
    exact hinj i j (Finset.mem_range.1 hi) (Finset.mem_range.1 hj) e
  · intro j hj
    obtain ⟨i, hi, e⟩ := range_perm_surj n σ hσ hinj j (Finset.mem_range.1 hj)
    exact ⟨i, Finset.mem_range.2 hi, e⟩
  · intro i _
    rfl

theorem interrupted_permute (mesh : Mesh) (env : Env) (clk : Nat) (t dt : ℚ) (loads : Loads)
    (σ τ : Nat → Nat)
    (hσ : ∀ i, i < mesh.NbOfElements → σ i < mesh.NbOfElements)
    (hσi : ∀ i j, i < mesh.NbOfElements → j < mesh.NbOfElements → σ i = σ j → i = j)
    (hτ : ∀ i, i < loads.NbOfLoads → τ i < loads.NbOfLoads)
    (hτi : ∀ i j, i < loads.NbOfLoads → j < loads.NbOfLoads → τ i = τ j → i = j) :
    ComputeResidu.interrupted (mesh.permute σ) (env.permute σ τ) clk t dt (loads.permute τ)
      ↔ ComputeResidu.interrupted mesh env clk t dt loads := by
  constructor
  · rintro (⟨ie, hie, hm, hc⟩ | ⟨i_cg, hi, ie, hie, hr, hm, hc⟩)
    · exact Or.inl ⟨σ ie, hσ ie hie, hm, hc⟩
    · exact Or.inr ⟨τ i_cg, hτ i_cg hi, σ ie, hσ ie hie, hr, hm, hc⟩
  · rintro (⟨ie, hie, hm, hc⟩ | ⟨i_cg, hi, ie, hie, hr, hm, hc⟩)
    · obtain ⟨i, hi, e⟩ := range_perm_surj _ σ hσ hσi ie hie
      subst e
      exact Or.inl ⟨i, hi, hm, hc⟩
    · obtain ⟨i, hi1, e⟩ := range_perm_surj _ σ hσ hσi ie hie
      obtain ⟨j, hj, e2⟩ := range_perm_surj _ τ hτ hτi i_cg hi
      subst e
      subst e2
      exact Or.inr ⟨j, hj, i, hi1, hr, hm, hc⟩

theorem residuSum_permute (mesh : Mesh) (env : Env) (clk : Nat) (t dt : ℚ) (σ τ : Nat → Nat)
    (hσ : ∀ i, i < mesh.NbOfElements → σ i < mesh.NbOfElements)
    (hσi : ∀ i j, i < mesh.NbOfElements → j < mesh.NbOfElements → σ i = σ j → i = j)
    (k : Nat) :
    residuSum (mesh.permute σ) (env.permute σ τ) clk t dt k = residuSum mesh env clk t dt k :=
  sum_range_perm mesh.NbOfElements σ hσ hσi (fun ie =>
    if (mesh.Element ie).Material then dofSum (mesh.Element ie) (env.re clk ie t dt) k else 0)

theorem loadsSum_permute (mesh : Mesh) (env : Env) (clk : Nat) (t dt : ℚ) (loads : Loads)
    (σ τ : Nat → Nat)
    (hσ : ∀ i, i < mesh.NbOfElements → σ i < mesh.NbOfElements)
    (hσi : ∀ i j, i < mesh.NbOfElements → j < mesh.NbOfElements → σ i = σ j → i = j)
    (hτ : ∀ i, i < loads.NbOfLoads → τ i < loads.NbOfLoads)
    (hτi : ∀ i j, i < loads.NbOfLoads → j < loads.NbOfLoads → τ i = τ j → i = j)
    (k : Nat) :
    loadsSum (mesh.permute σ) (env.permute σ τ) clk t dt (loads.permute τ) k
      = loadsSum mesh env clk t dt loads k := by
  have h1 := sum_range_perm loads.NbOfLoads τ hτ hτi (fun i_cg =>
    ∑ ie ∈ Finset.range mesh.NbOfElements,
      if (mesh.Element ie).RegionIndex = (loads.Load i_cg).RegionIndex ∧
          (mesh.Element ie).Material = true
      then dofSum (mesh.Element ie) (env.reLoads clk ie t dt i_cg) k else 0)
  unfold loadsSum
  rw [← h1]
  refine Finset.sum_congr rfl (fun i_cg _ => ?_)
  exact sum_range_perm mesh.NbOfElements σ hσ hσi (fun ie =>
    if (mesh.Element ie).RegionIndex = (loads.Load (τ i_cg)).RegionIndex ∧
        (mesh.Element ie).Material = true
    then dofSum (mesh.Element ie) (env.reLoads clk ie t dt (τ i_cg)) k else 0)

/-- C15: for every mesh, every reordering `σ` of its element list and every
reordering `τ` of the load list (one-to-one maps of the index ranges onto
themselves), `ComputeResidu` on the reordered lists gives the same array `r`
as on the original ones, the arithmetic being exact; it is interrupted on the
one exactly when it is on the other. -/
theorem C15_order_of_assembly (mesh : Mesh) (env : Env) (clk : Nat) (t dt : ℚ) (r : Nat → ℚ)
    (loads : Loads) (σ τ : Nat → Nat)
    (hσ : ∀ i, i < mesh.NbOfElements → σ i < mesh.NbOfElements)
    (hσi : ∀ i j, i < mesh.NbOfElements → j < mesh.NbOfElements → σ i = σ j → i = j)
    (hτ : ∀ i, i < loads.NbOfLoads → τ i < loads.NbOfLoads)
    (hτi : ∀ i j, i < loads.NbOfLoads → j < loads.NbOfLoads → τ i = τ j → i = j) :
    ComputeResidu (mesh.permute σ) (env.permute σ τ) clk t dt r (loads.permute τ)
      = ComputeResidu mesh env clk t dt r loads := by
  by_cases hint : ComputeResidu.interrupted mesh env clk t dt loads
  · rw [ComputeResidu_interrupted mesh env clk t dt r loads hint,
      ComputeResidu_interrupted _ _ clk t dt r _
        ((interrupted_permute mesh env clk t dt loads σ τ hσ hσi hτ hτi).2 hint)]
  · have hint2 : ¬ ComputeResidu.interrupted (mesh.permute σ) (env.permute σ τ) clk t dt
        (loads.permute τ) :=
      fun h => hint ((interrupted_permute mesh env clk t dt loads σ τ hσ hσi hτ hτi).1 h)
    obtain ⟨r1, h1, h2⟩ := ComputeResidu_apply mesh env clk t dt r loads
      (fun ie hie hm hc => hint (Or.inl ⟨ie, hie, hm, hc⟩))
      (fun i_cg hi ie hie hr hm hc => hint (Or.inr ⟨i_cg, hi, ie, hie, hr, hm, hc⟩))
    obtain ⟨r3, h3, h4⟩ := ComputeResidu_apply (mesh.permute σ) (env.permute σ τ) clk t dt r
      (loads.permute τ)
      (fun ie hie hm hc => hint2 (Or.inl ⟨ie, hie, hm, hc⟩))
      (fun i_cg hi ie hie hr hm hc => hint2 (Or.inr ⟨i_cg, hi, ie, hie, hr, hm, hc⟩))
    rw [h1, h3]
    congr 1
    funext k
    rw [h2 k, h4 k, residuSum_permute mesh env clk t dt σ τ hσ hσi k,
      loadsSum_permute mesh env clk t dt loads σ τ hσ hσi hτ hτi k]
    rfl

/-- Witness of C15: the two elements of `Example.mesh` exchanged. -/
theorem C15_order_of_assembly_witness :
    ComputeResidu (Example.mesh.permute (fun i => 1 - i))
        (Example.env.permute (fun i => 1 - i) id) 0 0 1 (fun _ => 5)
        (Example.loads.permute id)
      = ComputeResidu Example.mesh Example.env 0 0 1 (fun _ => 5) Example.loads :=
  C15_order_of_assembly Example.mesh Example.env 0 0 1 (fun _ => 5) Example.loads
    (fun i => 1 - i) id
    (by intro i hi; simp only [Example.mesh] at hi ⊢; omega)
    (by intro i j hi hj e; simp only [Example.mesh] at hi hj; simp only at e; omega)
    (by intro i hi; exact hi)
    (by intro i j _ _ e; exact e)

/-! ## ESAC2: the residual of a two-node element -/

/-- C16: for a two-node element that is not a submanifold (a line element, the
space having dimension at most 1), after `ESAC2.ComputeResidu` the two nodal
residuals of the charge equation cancel, `R(0,E_q) + R(1,E_q) = 0`, and for
each `X` among S, Ca, K, Al the sum `R(0,E_X) + R(1,E_X)` is
`-(volume[0]*(N_X(0) - N_Xn(0)) + volume[1]*(N_X(1) - N_Xn(1)))`, in which the
flux `W_X` does not occur; hence `R(0,E_X) = -R(1,E_X)` when the contents
`N_X` are those of the previous step. -/
theorem C16_two_point_flux_cancels (el : ESAC2.Element) (dt : ℚ) (r : Nat → ℚ)
    (hnn : el.NbOfNodes = 2) (hsub : el.IsSubmanifold = false)
    (hdim : el.DimensionOfSpace ≤ 1) :
    ((ESAC2.ComputeResidu el dt r).2 (ESAC2.R 0 ESAC2.E_q)
      + (ESAC2.ComputeResidu el dt r).2 (ESAC2.R 1 ESAC2.E_q) = 0) ∧
    ((ESAC2.ComputeResidu el dt r).2 (ESAC2.R 0 ESAC2.E_S)
      + (ESAC2.ComputeResidu el dt r).2 (ESAC2.R 1 ESAC2.E_S)
      = -(el.volume 0 * (el.f (ESAC2.N_S 0) - el.f_n (ESAC2.N_S 0))
          + el.volume 1 * (el.f (ESAC2.N_S 1) - el.f_n (ESAC2.N_S 1)))) ∧
    ((ESAC2.ComputeResidu el dt r).2 (ESAC2.R 0 ESAC2.E_Ca)
      + (ESAC2.ComputeResidu el dt r).2 (ESAC2.R 1 ESAC2.E_Ca)
      = -(el.volume 0 * (el.f (ESAC2.N_Ca 0) - el.f_n (ESAC2.N_Ca 0))
          + el.volume 1 * (el.f (ESAC2.N_Ca 1) - el.f_n (ESAC2.N_Ca 1)))) ∧
    ((ESAC2.ComputeResidu el dt r).2 (ESAC2.R 0 ESAC2.E_K)
      + (ESAC2.ComputeResidu el dt r).2 (ESAC2.R 1 ESAC2.E_K)
      = -(el.volume 0 * (el.f (ESAC2.N_K 0) - el.f_n (ESAC2.N_K 0))
          + el.volume 1 * (el.f (ESAC2.N_K 1) - el.f_n (ESAC2.N_K 1)))) ∧
    ((ESAC2.ComputeResidu el dt r).2 (ESAC2.R 0 ESAC2.E_Al)
      + (ESAC2.ComputeResidu el dt r).2 (ESAC2.R 1 ESAC2.E_Al)
      = -(el.volume 0 * (el.f (ESAC2.N_Al 0) - el.f_n (ESAC2.N_Al 0))
          + el.volume 1 * (el.f (ESAC2.N_Al 1) - el.f_n (ESAC2.N_Al 1)))) ∧
    ((el.f (ESAC2.N_S 0) = el.f_n (ESAC2.N_S 0) ∧ el.f (ESAC2.N_S 1) = el.f_n (ESAC2.N_S 1)) →
      (ESAC2.ComputeResidu el dt r).2 (ESAC2.R 0 ESAC2.E_S)
        = -(ESAC2.ComputeResidu el dt r).2 (ESAC2.R 1 ESAC2.E_S)) ∧
    ((el.f (ESAC2.N_Ca 0) = el.f_n (ESAC2.N_Ca 0) ∧
        el.f (ESAC2.N_Ca 1) = el.f_n (ESAC2.N_Ca 1)) →
      (ESAC2.ComputeResidu el dt r).2 (ESAC2.R 0 ESAC2.E_Ca)
        = -(ESAC2.ComputeResidu el dt r).2 (ESAC2.R 1 ESAC2.E_Ca)) ∧
    ((el.f (ESAC2.N_K 0) = el.f_n (ESAC2.N_K 0) ∧ el.f (ESAC2.N_K 1) = el.f_n (ESAC2.N_K 1)) →
      (ESAC2.ComputeResidu el dt r).2 (ESAC2.R 0 ESAC2.E_K)
        = -(ESAC2.ComputeResidu el dt r).2 (ESAC2.R 1 ESAC2.E_K)) ∧
    ((el.f (ESAC2.N_Al 0) = el.f_n (ESAC2.N_Al 0) ∧
        el.f (ESAC2.N_Al 1) = el.f_n (ESAC2.N_Al 1)) →
      (ESAC2.ComputeResidu el dt r).2 (ESAC2.R 0 ESAC2.E_Al)
        = -(ESAC2.ComputeResidu el dt r).2 (ESAC2.R 1 ESAC2.E_Al)) := by
  have hd : el.DimensionOfSpace = 0 ∨ el.DimensionOfSpace = 1 := by omega
  rcases hd with hd | hd
  · simp only [ESAC2.ComputeResidu, ESAC2.ComputeResidu.mechanics, hnn, hsub, hd]
    simp [ESAC2.sub, ESAC2.R, ESAC2.NEQ, ESAC2.E_S, ESAC2.E_q, ESAC2.E_Ca, ESAC2.E_K,
      ESAC2.E_Al, ESAC2.E_el, ESAC2.E_Mech, Function.update, List.range, List.range.loop]
    refine ⟨by ring, by ring, by ring, by ring, ?_, ?_, ?_, ?_⟩ <;>
      · intro h0 h1
        rw [h0, h1]
        ring
  · simp only [ESAC2.ComputeResidu, ESAC2.ComputeResidu.mechanics, hnn, hsub, hd]
    simp [ESAC2.sub, ESAC2.R, ESAC2.NEQ, ESAC2.E_S, ESAC2.E_q, ESAC2.E_Ca, ESAC2.E_K,
      ESAC2.E_Al, ESAC2.E_el, ESAC2.E_Mech, Function.update, List.range, List.range.loop]
    refine ⟨by ring, by ring, by ring, by ring, ?_, ?_, ?_, ?_⟩ <;>
      · intro h0 h1
        rw [h0, h1]
        ring

/-- Witness of C16 on the element `ESAC2.bar`, with `dt = 1`: the charge
residuals cancel and the sulfur residuals add up to `-(0 + 1)`. -/
theorem C16_two_point_flux_cancels_witness :
    ESAC2.bar.NbOfNodes = 2 ∧ ESAC2.bar.IsSubmanifold = false ∧
    ESAC2.bar.DimensionOfSpace ≤ 1 ∧
    ((ESAC2.ComputeResidu ESAC2.bar 1 (fun _ => 5)).2 (ESAC2.R 0 ESAC2.E_q)
      + (ESAC2.ComputeResidu ESAC2.bar 1 (fun _ => 5)).2 (ESAC2.R 1 ESAC2.E_q) = 0) ∧
    ((ESAC2.ComputeResidu ESAC2.bar 1 (fun _ => 5)).2 (ESAC2.R 0 ESAC2.E_S)
      + (ESAC2.ComputeResidu ESAC2.bar 1 (fun _ => 5)).2 (ESAC2.R 1 ESAC2.E_S)
      = -(ESAC2.bar.volume 0 * (ESAC2.bar.f (ESAC2.N_S 0) - ESAC2.bar.f_n (ESAC2.N_S 0))
          + ESAC2.bar.volume 1
            * (ESAC2.bar.f (ESAC2.N_S 1) - ESAC2.bar.f_n (ESAC2.N_S 1)))) :=
  ⟨rfl, rfl, le_refl 1,
    (C16_two_point_flux_cancels ESAC2.bar 1 (fun _ => 5) rfl rfl (le_refl 1)).1,
    (C16_two_point_flux_cancels ESAC2.bar 1 (fun _ => 5) rfl rfl (le_refl 1)).2.1⟩

/-! ## ESAC2: the failure of the implicit terms -/

/-- The loop over the nodes, when `ComputeVariables` returns `x i` at every
node `i` of the list: it ends without a return when no porosity is negative,
and returns -1 at the first node whose porosity is negative, having examined
the nodes up to that one. -/
theorem ComputeImplicitTerms_nodes_spec (m : ESAC2.Model) (x : Nat → Nat → ℚ) (l : List Nat) :
    ∀ f : Nat → ℚ, (∀ i ∈ l, m.ComputeVariables i = some (x i)) →
    ∃ c f1 seen, ESAC2.ComputeImplicitTerms.nodes m l f = some (c, f1, seen) ∧
      ((∀ i ∈ l, ¬ x i ESAC2.I_PHI < 0) → c = none ∧ seen = l) ∧
      (∀ l1 i0 l2, l = l1 ++ i0 :: l2 → (∀ i ∈ l1, ¬ x i ESAC2.I_PHI < 0) →
        x i0 ESAC2.I_PHI < 0 → c = some (-1) ∧ seen = l1 ++ [i0]) := by
  induction l with
  | nil =>
    intro f _
    refine ⟨none, f, [], rfl, fun _ => ⟨rfl, rfl⟩, ?_⟩
    intro l1 i0 l2 h
    simp at h
  | cons i rest ih =>
    intro f hx
    have hxi := hx i (List.mem_cons_self _ _)
    by_cases hphi : x i ESAC2.I_PHI < 0
    · refine ⟨some (-1), ESAC2.ComputeImplicitTerms.store (x i) i f, [i], ?_, ?_, ?_⟩
      · simp [ESAC2.ComputeImplicitTerms.nodes, hxi, hphi]
      · intro h
        exact absurd hphi (h i (List.mem_cons_self _ _))
      · intro l1 i0 l2 h hl1 _
        cases l1 with
        | nil =>
          simp only [List.nil_append, List.cons.injEq] at h
          rw [h.1]
          exact ⟨rfl, rfl⟩
        | cons a l1 =>
          simp only [List.cons_append, List.cons.injEq] at h
          rw [← h.1] at hl1
          exact absurd hphi (hl1 i (List.mem_cons_self _ _))
    · obtain ⟨c, f1, seen, h1, h2, h3⟩ := ih (ESAC2.ComputeImplicitTerms.store (x i) i f)
        (fun j hj => hx j (List.mem_cons_of_mem _ hj))
      refine ⟨c, f1, i :: seen, ?_, ?_, ?_⟩
      · simp [ESAC2.ComputeImplicitTerms.nodes, hxi, hphi, h1]
      · intro h
        obtain ⟨a, b⟩ := h2 (fun j hj => h j (List.mem_cons_of_mem _ hj))
        exact ⟨a, by rw [b]⟩
      · intro l1 i0 l2 h hl1 h0
        cases l1 with
        | nil =>
          simp only [List.nil_append, List.cons.injEq] at h
          rw [← h.1] at h0
          exact absurd h0 hphi
        | cons a l1 =>
          simp only [List.cons_append, List.cons.injEq] at h
          obtain ⟨a1, b1⟩ := h3 l1 i0 l2 h.2
            (fun j hj => hl1 j (List.mem_cons_of_mem _ hj)) h0
          exact ⟨a1, by rw [b1, h.1]; rfl⟩

theorem ComputeImplicitTerms_mechanics_some (m : ESAC2.Model) (l : List Nat) :
    ∀ f : Nat → ℚ, (∀ p ∈ l, ∃ y, m.ComputeVariables2 p = some y) →
    ∃ f1, ESAC2.ComputeImplicitTerms.mechanics m l f = some f1 := by
  induction l with
  | nil => intro f _; exact ⟨f, rfl⟩
  | cons p rest ih =>
    intro f h
    obtain ⟨y, hy⟩ := h p (List.mem_cons_self _ _)
    obtain ⟨f1, h1⟩ := ih
      ((List.range 9).foldl
        (fun f i => Function.update f (ESAC2.SIG + p * 9 + i) (y (ESAC2.I_STRESS + i)))
        (Function.update f (ESAC2.PRESSURE + p) (y ESAC2.I_PRESSURE)))
      (fun q hq => h q (List.mem_cons_of_mem _ hq))
    exact ⟨f1, by simp only [ESAC2.ComputeImplicitTerms.mechanics, hy]; exact h1⟩

/-- C17: when the constitutive functions return (no exception is raised),
`x i` being the variables computed by `ComputeVariables` at the node `i`,
`ESAC2.ComputeImplicitTerms` returns 0 or -1; it returns a non-zero value if
and only if the porosity `x i [I_PHI]` is negative at some node `i < nn`; it
then returns -1 at the first such node, the nodes being examined in increasing
order and none after that one; otherwise it returns 0 after all the nodes. -/
theorem C17_negative_porosity (el : ESAC2.Element) (m : ESAC2.Model) (x : Nat → Nat → ℚ)
    (hx : ∀ i, i < el.NbOfNodes → m.ComputeVariables i = some (x i))
    (hy : ∀ p, p < el.NbOfIntPoints → ∃ y, m.ComputeVariables2 p = some y)
    (hw : ∃ w, m.ComputeVariableFluxes = some w) :
    ∃ c f1 seen, ESAC2.ComputeImplicitTerms el m = some (c, f1, seen) ∧
      (c = 0 ∨ c = -1) ∧
      (c ≠ 0 ↔ ∃ i, i < el.NbOfNodes ∧ x i ESAC2.I_PHI < 0) ∧
      (∀ i0, i0 < el.NbOfNodes → x i0 ESAC2.I_PHI < 0 →
        (∀ i, i < i0 → ¬ x i ESAC2.I_PHI < 0) → c = -1 ∧ seen = List.range (i0 + 1)) ∧
      ((∀ i, i < el.NbOfNodes → ¬ x i ESAC2.I_PHI < 0) →
        c = 0 ∧ seen = List.range el.NbOfNodes) := by
  obtain ⟨c0, f0, seen, h1, h2, h3⟩ := ComputeImplicitTerms_nodes_spec m x
    (List.range el.NbOfNodes) el.f (fun i hi => hx i (List.mem_range.1 hi))
  by_cases hall : ∀ i, i < el.NbOfNodes → ¬ x i ESAC2.I_PHI < 0
  · obtain ⟨hc, hseen⟩ := h2 (fun i hi => hall i (List.mem_range.1 hi))
    subst hc
    have hret : ∃ f1, ESAC2.ComputeImplicitTerms el m = some (0, f1, seen) := by
      unfold ESAC2.ComputeImplicitTerms
      simp only [h1]
      by_cases hs : el.IsSubmanifold = true
      · exact ⟨f0, by simp [hs]⟩
      · obtain ⟨f1, hf1⟩ := ComputeImplicitTerms_mechanics_some m
          (List.range el.NbOfIntPoints) f0 (fun p hp => hy p (List.mem_range.1 hp))
        obtain ⟨w, hw⟩ := hw
        exact ⟨_, by simp only [hs, hf1, hw]; rfl⟩
    obtain ⟨f1, hf1⟩ := hret
    refine ⟨0, f1, seen, hf1, Or.inl rfl, ?_, ?_, fun _ => ⟨rfl, hseen⟩⟩
    · constructor
      · intro h; exact absurd rfl h
      · rintro ⟨i, hi, hneg⟩; exact absurd hneg (hall i hi)
    · intro i0 hi0 hneg _
      exact absurd hneg (hall i0 hi0)
  · have hex : ∃ i, i < el.NbOfNodes ∧ x i ESAC2.I_PHI < 0 := by
      by_contra hne
      apply hall
      intro i hi hneg
      exact hne ⟨i, hi, hneg⟩
    have hfirst : ∀ i0, i0 < el.NbOfNodes → x i0 ESAC2.I_PHI < 0 →
        (∀ i, i < i0 → ¬ x i ESAC2.I_PHI < 0) →
        c0 = some (-1) ∧ seen = List.range (i0 + 1) := by
      intro i0 hi0 hneg hbefore
      obtain ⟨l2, hl⟩ := range_split el.NbOfNodes i0 hi0
      obtain ⟨a, b⟩ := h3 (List.range i0) i0 l2 hl
        (fun i hi => hbefore i (List.mem_range.1 hi)) hneg
      exact ⟨a, by rw [b, List.range_succ]⟩
    classical
    have hmin := Nat.find_spec hex
    obtain ⟨hc, _⟩ := hfirst (Nat.find hex) hmin.1 hmin.2
      (fun i hi hneg => Nat.find_min hex hi ⟨lt_trans hi hmin.1, hneg⟩)
    subst hc
    have hret : ESAC2.ComputeImplicitTerms el m = some (-1, f0, seen) := by
      unfold ESAC2.ComputeImplicitTerms
      simp only [h1]
    refine ⟨-1, f0, seen, hret, Or.inr rfl, ?_, ?_, ?_⟩
    · exact ⟨fun _ => hex, fun _ => by decide⟩
    · intro i0 hi0 hneg hbefore
      exact ⟨rfl, (hfirst i0 hi0 hneg hbefore).2⟩
    · intro h
      exact absurd h hall

/-- Witness of C17: the porosity of `ESAC2.model` is `1/2` at the node 0 and
`-1/2` at the node 1 of `ESAC2.bar`: -1 is returned at the node 1. -/
theorem C17_negative_porosity_witness :
    ∃ c f1 seen, ESAC2.ComputeImplicitTerms ESAC2.bar ESAC2.model = some (c, f1, seen) ∧
      c = -1 ∧ seen = List.range (1 + 1) := by
  obtain ⟨c, f1, seen, h, _, _, hfirst, _⟩ := C17_negative_porosity ESAC2.bar ESAC2.model
    (fun i _ => 1 / 2 - i) (fun i _ => rfl) (fun p _ => ⟨_, rfl⟩) ⟨_, rfl⟩
  obtain ⟨hc, hseen⟩ := hfirst 1 (by simp [ESAC2.bar]) (by norm_num)
    (by
      intro i hi
      have : i = 0 := by omega
      subst this
      norm_num)
  exact ⟨c, f1, seen, h, hc, hseen⟩

/-! ## The options of the command line -/

theorem strncmp_abbrev (a b : String) :
    strncmp a b (strlen a) = 0 ↔ a.toList <+: b.toList := by
  unfold strncmp strlen
  have hl : a.length = a.toList.length := rfl
  rw [hl, List.take_length, List.prefix_iff_eq_take]
  by_cases h : a.toList = List.take a.toList.length b.toList
  · simp [h.symm]
  · simp [h]

theorem strncmp_starts (a b : String) :
    strncmp a b (strlen b) = 0 ↔ b.toList <+: a.toList := by
  unfold strncmp strlen
  have hl : b.length = b.toList.length := rfl
  rw [hl, List.take_length, List.prefix_iff_eq_take]
  by_cases h : List.take b.toList.length a.toList = b.toList
  · rw [if_pos h]; exact ⟨fun _ => h.symm, fun _ => rfl⟩
  · rw [if_neg h]; exact ⟨fun e => absurd e (by decide), fun e => absurd e.symm h⟩

/-- A pass entered on an argument that is not recognized ends in the fatal
error "Unknown option". -/
theorem body_unknown (argv : List String) (i : Nat) (ctx : Context) (a : String)
    (ha : argv[i]? = some a) (hu : UnknownOption a) :
    Context_Initialize.body argv i ctx = Pass.fatal "Unknown option" := by
  obtain ⟨h0, h1, h2, h3⟩ := hu
  have hinfo : ¬ strncmp a "-info" 5 = 0 := fun h => h1 ((strncmp_starts a "-info").1 h)
  have hhelp : ¬ strncmp a "-help" 5 = 0 := fun h => h2 ((strncmp_starts a "-help").1 h)
  have hf : ∀ F ∈ Context_Initialize.flags, ¬ strncmp a F (strlen a) = 0 :=
    fun F hF h => h3 F hF ((strncmp_abbrev a F).1 h)
  simp only [Context_Initialize.flags, List.mem_cons, List.mem_singleton, forall_eq_or_imp,
    forall_eq, List.not_mem_nil, false_implies, implies_true, and_true] at hf
  obtain ⟨f1, f2, f3, f4, f5, f6, f7, f8, f9, f10, f11, f12, f13, f14⟩ := hf
  simp only [Context_Initialize.body, ha, h0, ne_eq, not_true_eq_false, if_false, hinfo, hhelp,
    f1, f2, f3, f4, f5, f6, f7, f8, f9, f10, f11, f12, f13, f14]

theorem value_not_unknown (argc i : Nat) (ctx : Context) (msg : String)
    (hm : msg ≠ "Unknown option") :
    Context_Initialize.value argc i ctx msg ≠ Pass.fatal "Unknown option" := by
  unfold Context_Initialize.value
  split
  · simp
  · intro h
    exact hm (Pass.fatal.inj h)

theorem solver_not_unknown (argv : List String) (i : Nat) (ctx : Context) :
    Context_Initialize.solver argv i ctx ≠ Pass.fatal "Unknown option" := by
  unfold Context_Initialize.solver
  simp only
  split
  · split
    · simp
    · split
      · split
        · simp
        · simp
      · simp
  · simp

/-- The fatal error "Unknown option" is raised only by a pass entered on an
argument that is not recognized. -/
theorem body_fatal_unknown (argv : List String) (i : Nat) (ctx : Context)
    (h : Context_Initialize.body argv i ctx = Pass.fatal "Unknown option") :
    ∃ a, argv[i]? = some a ∧ UnknownOption a := by
  unfold Context_Initialize.body at h
  cases ha : argv[i]? with
  | none => simp [ha] at h
  | some a =>
    simp only [ha] at h
    refine ⟨a, rfl, ?_⟩
    by_cases c0 : a.toList.head? ≠ some '-'
    · rw [if_pos c0] at h; exact absurd h (by simp)
    rw [if_neg c0] at h
    by_cases cinfo : strncmp a "-info" 5 = 0
    · rw [if_pos cinfo] at h; exact absurd h (by simp)
    rw [if_neg cinfo] at h
    by_cases chelp : strncmp a "-help" 5 = 0
    · rw [if_pos chelp] at h; exact absurd h (by simp)
    rw [if_neg chelp] at h
    by_cases c1 : strncmp a "-solver" (strlen a) = 0
    · rw [if_pos c1] at h; exact absurd h (solver_not_unknown _ _ _)
    rw [if_neg c1] at h
    by_cases c2 : strncmp a "-debug" (strlen a) = 0
    · rw [if_pos c2] at h; exact absurd h (value_not_unknown _ _ _ _ (by decide))
    rw [if_neg c2] at h
    by_cases c3 : strncmp a "-level" (strlen a) = 0
    · rw [if_pos c3] at h; exact absurd h (value_not_unknown _ _ _ _ (by decide))
    rw [if_neg c3] at h
    by_cases c4 : strncmp a "-with" (strlen a) = 0
    · rw [if_pos c4] at h; exact absurd h (value_not_unknown _ _ _ _ (by decide))
    rw [if_neg c4] at h
    by_cases c5 : strncmp a "-models" (strlen a) = 0
    · rw [if_pos c5] at h; exact absurd h (by simp)
    rw [if_neg c5] at h
    by_cases c6 : strncmp a "-modules" (strlen a) = 0
    · rw [if_pos c6] at h; exact absurd h (by simp)
    rw [if_neg c6] at h
    by_cases c7 : strncmp a "-readonly" (strlen a) = 0
    · rw [if_pos c7] at h
      split at h <;> simp at h
    rw [if_neg c7] at h
    by_cases c8 : strncmp a "-graph" (strlen a) = 0
    · rw [if_pos c8] at h; exact absurd h (value_not_unknown _ _ _ _ (by decide))
    rw [if_neg c8] at h
    by_cases c9 : strncmp a "-iperm" (strlen a) = 0
    · rw [if_pos c9] at h; exact absurd h (by simp)
    rw [if_neg c9] at h
    by_cases c10 : strncmp a "-eordering" (strlen a) = 0
    · rw [if_pos c10] at h; exact absurd h (value_not_unknown _ _ _ _ (by decide))
    rw [if_neg c10] at h
    by_cases c11 : strncmp a "-nordering" (strlen a) = 0
    · rw [if_pos c11] at h; exact absurd h (value_not_unknown _ _ _ _ (by decide))
    rw [if_neg c11] at h
    by_cases c12 : strncmp a "-postprocessing" (strlen a) = 0
    · rw [if_pos c12] at h; exact absurd h (value_not_unknown _ _ _ _ (by decide))
    rw [if_neg c12] at h
    by_cases c13 : strncmp a "-miscellaneous" (strlen a) = 0
    · rw [if_pos c13] at h; exact absurd h (by simp)
    rw [if_neg c13] at h
    by_cases c14 : strncmp a "-test" (strlen a) = 0
    · rw [if_pos c14] at h; exact absurd h (by simp)
    rw [if_neg c14] at h
    refine ⟨not_not.1 c0, fun hp => cinfo ((strncmp_starts a "-info").2 hp),
      fun hp => chelp ((strncmp_starts a "-help").2 hp), ?_⟩
    intro F hF hp
    have hs := (strncmp_abbrev a F).2 hp
    simp only [Context_Initialize.flags, List.mem_cons, List.mem_singleton, List.not_mem_nil,
      or_false] at hF
    rcases hF with e | e | e | e | e | e | e | e | e | e | e | e | e | e <;> subst e

    · exact c1 hs
    · exact c2 hs
    · exact c3 hs
    · exact c4 hs
    · exact c5 hs
    · exact c6 hs
    · exact c7 hs
    · exact c8 hs
    · exact c9 hs
    · exact c10 hs
    · exact c11 hs
    · exact c12 hs
    · exact c13 hs
    · exact c14 hs

/-- The ways in which a pass entered at an index `i < argc` ends: with the
index unchanged, as an option that takes a value, as the option `-solver`, or
in a fatal error. -/
theorem body_shape (argv : List String) (i : Nat) (ctx : Context) (hi : i < argv.length) :
    (∃ ctx1, Context_Initialize.body argv i ctx = Pass.next i ctx1) ∨
    (∃ ctx1 msg, Context_Initialize.body argv i ctx
      = Context_Initialize.value argv.length i ctx1 msg) ∨
    (∃ a, argv[i]? = some a ∧ a.toList <+: "-solver".toList ∧
      Context_Initialize.body argv i ctx = Context_Initialize.solver argv i ctx) ∨
    (∃ msg, Context_Initialize.body argv i ctx = Pass.fatal msg) := by
  unfold Context_Initialize.body
  cases ha : argv[i]? with
  | none =>
    rw [List.getElem?_eq_none_iff] at ha
    omega
  | some a =>
    simp only
    by_cases c0 : a.toList.head? ≠ some '-'
    · rw [if_pos c0]; exact Or.inl ⟨_, rfl⟩
    rw [if_neg c0]
    by_cases cinfo : strncmp a "-info" 5 = 0
    · rw [if_pos cinfo]; exact Or.inl ⟨_, rfl⟩
    rw [if_neg cinfo]
    by_cases chelp : strncmp a "-help" 5 = 0
    · rw [if_pos chelp]; exact Or.inl ⟨_, rfl⟩
    rw [if_neg chelp]
    by_cases c1 : strncmp a "-solver" (strlen a) = 0
    · rw [if_pos c1]
      exact Or.inr (Or.inr (Or.inl ⟨a, rfl, (strncmp_abbrev a "-solver").1 c1, rfl⟩))
    rw [if_neg c1]
    by_cases c2 : strncmp a "-debug" (strlen a) = 0
    · rw [if_pos c2]; exact Or.inr (Or.inl ⟨_, _, rfl⟩)
    rw [if_neg c2]
    by_cases c3 : strncmp a "-level" (strlen a) = 0
    · rw [if_pos c3]; exact Or.inr (Or.inl ⟨_, _, rfl⟩)
    rw [if_neg c3]
    by_cases c4 : strncmp a "-with" (strlen a) = 0
    · rw [if_pos c4]; exact Or.inr (Or.inl ⟨_, _, rfl⟩)
    rw [if_neg c4]
    by_cases c5 : strncmp a "-models" (strlen a) = 0
    · rw [if_pos c5]; exact Or.inl ⟨_, rfl⟩
    rw [if_neg c5]
    by_cases c6 : strncmp a "-modules" (strlen a) = 0
    · rw [if_pos c6]; exact Or.inl ⟨_, rfl⟩
    rw [if_neg c6]
    by_cases c7 : strncmp a "-readonly" (strlen a) = 0
    · rw [if_pos c7]
      split
      · exact Or.inr (Or.inr (Or.inr ⟨_, rfl⟩))
      · exact Or.inl ⟨_, rfl⟩
    rw [if_neg c7]
    by_cases c8 : strncmp a "-graph" (strlen a) = 0
    · rw [if_pos c8]; exact Or.inr (Or.inl ⟨_, _, rfl⟩)
    rw [if_neg c8]
    by_cases c9 : strncmp a "-iperm" (strlen a) = 0
    · rw [if_pos c9]; exact Or.inl ⟨_, rfl⟩
    rw [if_neg c9]
    by_cases c10 : strncmp a "-eordering" (strlen a) = 0
    · rw [if_pos c10]; exact Or.inr (Or.inl ⟨_, _, rfl⟩)
    rw [if_neg c10]
    by_cases c11 : strncmp a "-nordering" (strlen a) = 0
    · rw [if_pos c11]; exact Or.inr (Or.inl ⟨_, _, rfl⟩)
    rw [if_neg c11]
    by_cases c12 : strncmp a "-postprocessing" (strlen a) = 0
    · rw [if_pos c12]; exact Or.inr (Or.inl ⟨_, _, rfl⟩)
    rw [if_neg c12]
    by_cases c13 : strncmp a "-miscellaneous" (strlen a) = 0
    · rw [if_pos c13]; exact Or.inl ⟨_, rfl⟩
    rw [if_neg c13]
    by_cases c14 : strncmp a "-test" (strlen a) = 0
    · rw [if_pos c14]; exact Or.inl ⟨_, rfl⟩
    rw [if_neg c14]
    exact Or.inr (Or.inr (Or.inr ⟨_, rfl⟩))


theorem value_next (argc i : Nat) (ctx ctx1 : Context) (msg : String) (i1 : Nat)
    (h : Context_Initialize.value argc i ctx msg = Pass.next i1 ctx1) :
    i ≤ i1 ∧ i1 < argc := by
  unfold Context_Initialize.value at h
  split at h
  · simp only [Pass.next.injEq] at h
    omega
  · exact absurd h (by simp)

theorem value_not_outside (argc i : Nat) (ctx : Context) (msg : String) (k : Nat) :
    Context_Initialize.value argc i ctx msg ≠ Pass.outside k := by
  unfold Context_Initialize.value
  split <;> simp

theorem solver_next (argv : List String) (i : Nat) (ctx ctx1 : Context) (i1 : Nat)
    (h : Context_Initialize.solver argv i ctx = Pass.next i1 ctx1) :
    i ≤ i1 ∧ i1 < argv.length := by
  unfold Context_Initialize.solver at h
  simp only at h
  split at h
  · split at h
    · exact absurd h (by simp)
    · split at h
      · split at h
        · simp only [Pass.next.injEq] at h
          omega
        · exact absurd h (by simp)
      · simp only [Pass.next.injEq] at h
        omega
  · exact absurd h (by simp)

/-- The look-ahead of `-solver` reads outside `argv` exactly when the value of
`-solver` is the last argument: it then reads `argv[argc]`. -/
theorem solver_outside (argv : List String) (i : Nat) (ctx : Context) (k : Nat) :
    Context_Initialize.solver argv i ctx = Pass.outside k
      ↔ i + 2 = argv.length ∧ k = argv.length := by
  unfold Context_Initialize.solver
  simp only
  constructor
  · intro h
    split at h
    · rename_i hlt
      split at h
      · rename_i hnone
        rw [List.getElem?_eq_none_iff] at hnone
        simp only [Pass.outside.injEq] at h
        omega
      · split at h
        · split at h <;> exact absurd h (by simp)
        · exact absurd h (by simp)
    · exact absurd h (by simp)
  · rintro ⟨h1, h2⟩
    have hlt : i + 1 < argv.length := by omega
    have hnone : argv[i + 1 + 1]? = none := by
      rw [List.getElem?_eq_none_iff]; omega
    rw [if_pos hlt]
    simp only [hnone]
    rw [h2, ← h1]

theorem body_next (argv : List String) (i : Nat) (ctx ctx1 : Context) (i1 : Nat)
    (hi : i < argv.length) (h : Context_Initialize.body argv i ctx = Pass.next i1 ctx1) :
    i ≤ i1 ∧ i1 < argv.length := by
  rcases body_shape argv i ctx hi with ⟨c, hc⟩ | ⟨c, msg, hc⟩ | ⟨a, _, _, hc⟩ | ⟨msg, hc⟩
  · rw [hc] at h
    simp only [Pass.next.injEq] at h
    omega
  · rw [hc] at h
    exact value_next _ _ _ _ _ _ h
  · rw [hc] at h
    exact solver_next _ _ _ _ _ h
  · rw [hc] at h
    exact absurd h (by simp)

/-- A pass entered at an index `i < argc` reads outside `argv` only in the
look-ahead of `-solver`, when the value of `-solver` is the last argument. -/
theorem body_outside (argv : List String) (i : Nat) (ctx : Context) (k : Nat)
    (hi : i < argv.length) (h : Context_Initialize.body argv i ctx = Pass.outside k) :
    k = argv.length ∧ i + 2 = argv.length ∧
      ∃ a, argv[i]? = some a ∧ a.toList <+: "-solver".toList := by
  rcases body_shape argv i ctx hi with ⟨c, hc⟩ | ⟨c, msg, hc⟩ | ⟨a, ha, hp, hc⟩ | ⟨msg, hc⟩
  · rw [hc] at h
    exact absurd h (by simp)
  · rw [hc] at h
    exact absurd h (value_not_outside _ _ _ _ _)
  · rw [hc] at h
    obtain ⟨h1, h2⟩ := (solver_outside argv i ctx k).1 h
    exact ⟨h2, h1, a, ha, hp⟩
  · rw [hc] at h
    exact absurd h (by simp)

/-- The loop on the arguments ends within `argc` passes. -/
theorem loop_total (argv : List String) (fuel : Nat) :
    ∀ i ctx, argv.length ≤ fuel + i →
      ∃ o, Context_Initialize.loop argv fuel i ctx = some o := by
  induction fuel with
  | zero =>
    intro i ctx h
    have : ¬ i < argv.length := by omega
    exact ⟨(Result.done ctx, []), by simp only [Context_Initialize.loop, if_neg this]⟩
  | succ fuel ih =>
    intro i ctx h
    simp only [Context_Initialize.loop]
    by_cases hi : i < argv.length
    · rw [if_pos hi]
      cases hb : Context_Initialize.body argv i ctx with
      | next i1 ctx1 =>
        obtain ⟨hge, _⟩ := body_next argv i ctx ctx1 i1 hi hb
        obtain ⟨o, ho⟩ := ih (i1 + 1) ctx1 (by omega)
        exact ⟨(o.1, i :: o.2), by simp only [ho]⟩
      | fatal msg => exact ⟨_, rfl⟩
      | outside k => exact ⟨_, rfl⟩
    · rw [if_neg hi]
      exact ⟨_, rfl⟩

/-- What the loop on the arguments returns, in terms of the passes it
entered: an unrecognized argument on which a pass is entered makes the result
the fatal error "Unknown option", which has no other cause; a read outside
`argv` is the read of `argv[argc]` in the look-ahead of a `-solver` whose value
is the last argument. -/
theorem loop_spec (argv : List String) (fuel : Nat) :
    ∀ i ctx r passes, Context_Initialize.loop argv fuel i ctx = some (r, passes) →
      (∀ j ∈ passes, j < argv.length) ∧
      (∀ j ∈ passes, ∀ a, argv[j]? = some a → UnknownOption a →
        r = Result.fatal "Unknown option") ∧
      (r = Result.fatal "Unknown option" →
        ∃ j a, j ∈ passes ∧ argv[j]? = some a ∧ UnknownOption a) ∧
      (∀ k, r = Result.outside k → k = argv.length ∧
        ∃ j a, j ∈ passes ∧ j + 2 = argv.length ∧ argv[j]? = some a ∧
          a.toList <+: "-solver".toList) := by
  induction fuel with
  | zero =>
    intro i ctx r passes h
    simp only [Context_Initialize.loop] at h
    split at h
    · exact absurd h (by simp)
    · simp only [Option.some.injEq, Prod.mk.injEq] at h
      obtain ⟨rfl, rfl⟩ := h
      refine ⟨by simp, by simp, by simp, by simp⟩
  | succ fuel ih =>
    intro i ctx r passes h
    simp only [Context_Initialize.loop] at h
    split at h
    · rename_i hi
      cases hb : Context_Initialize.body argv i ctx with
      | next i1 ctx1 =>
        rw [hb] at h
        simp only at h
        cases hl : Context_Initialize.loop argv fuel (i1 + 1) ctx1 with
        | none => rw [hl] at h; exact absurd h (by simp)
        | some o =>
          obtain ⟨r1, p1⟩ := o
          rw [hl] at h
          simp only [Option.some.injEq, Prod.mk.injEq] at h
          obtain ⟨rfl, rfl⟩ := h
          obtain ⟨a1, a2, a3, a4⟩ := ih (i1 + 1) ctx1 r1 p1 hl
          refine ⟨?_, ?_, ?_, ?_⟩
          · intro j hj
            rcases List.mem_cons.1 hj with e | e
            · rw [e]; exact hi
            · exact a1 j e
          · intro j hj a ha hu
            rcases List.mem_cons.1 hj with e | e
            · rw [e] at ha
              rw [body_unknown argv i ctx a ha hu] at hb
              exact absurd hb (by simp)
            · exact a2 j e a ha hu
          · intro hr
            obtain ⟨j, a, hj, ha, hu⟩ := a3 hr
            exact ⟨j, a, List.mem_cons_of_mem _ hj, ha, hu⟩
          · intro k hk
            obtain ⟨e, j, a, hj, rest⟩ := a4 k hk
            exact ⟨e, j, a, List.mem_cons_of_mem _ hj, rest⟩
      | fatal msg =>
        rw [hb] at h
        simp only [Option.some.injEq, Prod.mk.injEq] at h
        obtain ⟨rfl, rfl⟩ := h
        refine ⟨?_, ?_, ?_, ?_⟩
        · intro j hj
          rw [List.mem_singleton.1 hj]; exact hi
        · intro j hj a ha hu
          rw [List.mem_singleton.1 hj] at ha
          rw [body_unknown argv i ctx a ha hu] at hb
          rw [Pass.fatal.inj hb]
        · intro hr
          rw [Result.fatal.inj hr] at hb
          obtain ⟨a, ha, hu⟩ := body_fatal_unknown argv i ctx hb
          exact ⟨i, a, List.mem_singleton.2 rfl, ha, hu⟩
        · intro k hk
          exact absurd hk (by simp)
      | outside k =>
        rw [hb] at h
        simp only [Option.some.injEq, Prod.mk.injEq] at h
        obtain ⟨rfl, rfl⟩ := h
        obtain ⟨b1, b2, a, ha, hp⟩ := body_outside argv i ctx k hi hb
        refine ⟨?_, ?_, ?_, ?_⟩
        · intro j hj
          rw [List.mem_singleton.1 hj]; exact hi
        · intro j hj a1 ha1 hu
          rw [List.mem_singleton.1 hj] at ha1
          rw [body_unknown argv i ctx a1 ha1 hu] at hb
          exact absurd hb (by simp)
        · intro hr
          exact absurd hr (by simp)
        · intro k1 hk1
          rw [← Result.outside.inj hk1]
          exact ⟨b1, i, a, List.mem_singleton.2 rfl, b2, ha, hp⟩
    · simp only [Option.some.injEq, Prod.mk.injEq] at h
      obtain ⟨rfl, rfl⟩ := h
      refine ⟨by simp, by simp, by simp, by simp⟩

/-- C19: on `bil file -solver crout` the look-ahead made after the value of
`-solver` reads `argv[4]`, outside the four arguments, before the value is
consumed.  Apart from that look-ahead the options that take a value behave as
stated: a pass entered on one of the flags `-solver`, `-debug`, `-level`,
`-with`, `-graph`, `-eordering`, `-nordering`, `-postprocessing` sets the entry
of the flag to its position; when the flag is the last argument a fatal error
is raised; otherwise the index moves onto the following argument, on which no
pass is entered; and when the argument after the value of `-solver` is `-ff`,
two more arguments are consumed, with a fatal error when the second is
missing. -/
theorem C19_value_taking_options (argv : List String) (i : Nat) (ctx : Context) :
    Context_Initialize ["bil", "file", "-solver", "crout"] Context.null
      = some (Result.outside 4, [1, 2]) ∧
    (argv[i]? = some "-solver" →
      Context_Initialize.body argv i ctx = Context_Initialize.solver argv i ctx) ∧
    (argv[i]? = some "-debug" →
      Context_Initialize.body argv i ctx = Context_Initialize.value argv.length i
        { ctx with Debug := some i } "Missing name of data to be printed") ∧
    (argv[i]? = some "-level" →
      Context_Initialize.body argv i ctx = Context_Initialize.value argv.length i
        { ctx with PrintLevel := some i } "Missing level") ∧
    (argv[i]? = some "-with" →
      Context_Initialize.body argv i ctx = Context_Initialize.value argv.length i
        { ctx with UseModule := some i } "Missing module") ∧
    (argv[i]? = some "-graph" →
      Context_Initialize.body argv i ctx = Context_Initialize.value argv.length i
        { ctx with Graph := some i } "Missing graph method") ∧
    (argv[i]? = some "-eordering" →
      Context_Initialize.body argv i ctx = Context_Initialize.value argv.length i
        { ctx with ElementOrdering := some i } "Missing element ordering method") ∧
    (argv[i]? = some "-nordering" →
      Context_Initialize.body argv i ctx = Context_Initialize.value argv.length i
        { ctx with NodalOrdering := some i } "Missing nodal ordering method") ∧
    (argv[i]? = some "-postprocessing" →
      Context_Initialize.body argv i ctx = Context_Initialize.value argv.length i
        { ctx with PostProcessing := some i } "Missing post-processing method") ∧
    (∀ msg, Context_Initialize.value argv.length i ctx msg
      = if i + 1 < argv.length then Pass.next (i + 1) ctx else Pass.fatal msg) ∧
    (¬ i + 1 < argv.length →
      Context_Initialize.solver argv i ctx = Pass.fatal "Missing solver") ∧
    (i + 2 = argv.length →
      Context_Initialize.solver argv i ctx = Pass.outside argv.length) ∧
    (∀ a, argv[i + 2]? = some a → ¬ a.toList <+: "-ff".toList →
      Context_Initialize.solver argv i ctx = Pass.next (i + 1) { ctx with Solver := some i }) ∧
    (argv[i + 2]? = some "-ff" →
      Context_Initialize.solver argv i ctx
        = if i + 3 < argv.length then Pass.next (i + 3) { ctx with Solver := some i }
          else Pass.fatal "Missing solver") ∧
    (∀ fuel i1 ctx1, i < argv.length →
      Context_Initialize.body argv i ctx = Pass.next i1 ctx1 →
      Context_Initialize.loop argv (fuel + 1) i ctx
        = (Context_Initialize.loop argv fuel (i1 + 1) ctx1).map
            (fun o => (o.1, i :: o.2))) := by
  refine ⟨by decide, ?_, ?_, ?_, ?_, ?_, ?_, ?_, ?_, fun _ => rfl, ?_, ?_, ?_, ?_, ?_⟩
  · intro ha; simp only [Context_Initialize.body, ha]; rfl
  · intro ha; simp only [Context_Initialize.body, ha]; rfl
  · intro ha; simp only [Context_Initialize.body, ha]; rfl
  · intro ha; simp only [Context_Initialize.body, ha]; rfl
  · intro ha; simp only [Context_Initialize.body, ha]; rfl
  · intro ha; simp only [Context_Initialize.body, ha]; rfl
  · intro ha; simp only [Context_Initialize.body, ha]; rfl
  · intro ha; simp only [Context_Initialize.body, ha]; rfl
  · intro h
    simp only [Context_Initialize.solver, if_neg h]
  · intro h
    exact (solver_outside argv i ctx argv.length).2 ⟨h, rfl⟩
  · intro a ha hp
    have hlt : i + 1 < argv.length := by
      have := (List.getElem?_eq_some_iff.1 ha).1
      omega
    have hc : ¬ strncmp a "-ff" (strlen a) = 0 := fun h => hp ((strncmp_abbrev a "-ff").1 h)
    have ha2 : argv[i + 1 + 1]? = some a := ha
    simp only [Context_Initialize.solver, if_pos hlt, ha2, if_neg hc]
  · intro ha
    have hlt : i + 1 < argv.length := by
      have := (List.getElem?_eq_some_iff.1 ha).1
      omega
    have hc : strncmp "-ff" "-ff" (strlen "-ff") = 0 := by decide
    have ha2 : argv[i + 1 + 1]? = some "-ff" := ha
    simp only [Context_Initialize.solver, if_pos hlt, ha2, if_pos hc]
  · intro fuel i1 ctx1 hi hb
    simp only [Context_Initialize.loop, if_pos hi, hb]
    cases Context_Initialize.loop argv fuel (i1 + 1) ctx1 with
    | none => rfl
    | some o => rfl

/-- C20: when `-solver NAME` are the last two arguments, the look-ahead for a
following `-ff` reads `argv[argc]`: on `bil -solver NAME` it reads `argv[3]`,
and in general a pass entered on `-solver` at the index `argc - 2` reads
`argv[argc]`.  This is the only read of `Context_Initialize` outside
`argv[0..argc-1]`. -/
theorem C20_look_ahead_reads_argv_argc (argv : List String) (ctx : Context) (name : String) :
    Context_Initialize ["bil", "-solver", name] ctx = some (Result.outside 3, [1]) ∧
    (∀ i, argv[i]? = some "-solver" → i + 2 = argv.length →
      Context_Initialize.body argv i ctx = Pass.outside argv.length) ∧
    ∃ r passes, Context_Initialize argv ctx = some (r, passes) ∧
      ∀ k, r = Result.outside k → k = argv.length ∧
        ∃ j a, j ∈ passes ∧ j + 2 = argv.length ∧ argv[j]? = some a ∧
          a.toList <+: "-solver".toList := by
  refine ⟨?_, ?_, ?_⟩
  · simp [Context_Initialize, Context_Initialize.loop, Context_Initialize.body,
      Context_Initialize.solver, strncmp, strlen]
  · intro i ha h2
    have hb : Context_Initialize.body argv i ctx = Context_Initialize.solver argv i ctx := by
      simp only [Context_Initialize.body, ha]; rfl
    rw [hb]
    exact (solver_outside argv i ctx argv.length).2 ⟨h2, rfl⟩
  · unfold Context_Initialize
    by_cases h1 : argv.length = 1
    · rw [if_pos h1]
      exact ⟨_, _, rfl, by simp⟩
    · rw [if_neg h1]
      obtain ⟨⟨r, passes⟩, ho⟩ := loop_total argv argv.length 1 ctx (by omega)
      obtain ⟨_, _, _, a4⟩ := loop_spec argv argv.length 1 ctx r passes ho
      exact ⟨r, passes, ho, a4⟩

/-! ## The layout of the term arrays of `ESAC2.c` -/

lemma AgreeFrom.update {N : Nat} {f g : Nat → ℚ} (h : AgreeFrom N f g) {j : Nat} (hj : j < N)
    (v : ℚ) : AgreeFrom N (Function.update f j v) g := by
  intro k hk
  rw [Function.update_noteq (by omega)]
  exact h k hk

lemma AgreeFrom.foldl_update {N : Nat} {g : Nat → ℚ} (b : Nat) (v : Nat → ℚ) :
    ∀ (l : List Nat) (f : Nat → ℚ), AgreeFrom N f g → (∀ i ∈ l, b + i < N) →
      AgreeFrom N (l.foldl (fun f i => Function.update f (b + i) (v i)) f) g
  | [], f, h, _ => h
  | i :: l, f, h, hl => by
    simp only [List.foldl_cons]
    exact AgreeFrom.foldl_update b v l _ (h.update (hl i (by simp)) _)
      (fun j hj => hl j (by simp [hj]))

namespace ESAC2

lemma store_agree {f g : Nat → ℚ} (h : AgreeFrom NVI f g) (x : Nat → ℚ) {i : Nat} (hi : i < 2) :
    AgreeFrom NVI (ComputeImplicitTerms.store x i f) g := by
  unfold ComputeImplicitTerms.store
  simp only [N_S, N_Ca, N_Si, N_K, N_Cl, N_Al, N_q, N_CH, N_CSH2, N_AFm, N_AFt, N_C3AH6, PHI,
    PHI_C, PoreRadius]
  repeat (first | exact h | apply AgreeFrom.update _ (by simp only [NVI]; omega))

lemma preinit_agree (pre : Nat → PreInitialization) (r : ℚ) (g g0 : Nat → ℚ) :
    ∀ (l : List Nat) (f v0 : Nat → ℚ), (∀ i ∈ l, i < 2) → AgreeFrom NVI f g → AgreeFrom NV0 v0 g0 →
      AgreeFrom NVI (ComputeInitialState.preinit pre r l f v0).1 g ∧
      AgreeFrom NV0 (ComputeInitialState.preinit pre r l f v0).2 g0
  | [], f, v0, _, h, h0 => ⟨h, h0⟩
  | i :: l, f, v0, hl, h, h0 => by
    have hi : i < 2 := hl i (by simp)
    unfold ComputeInitialState.preinit
    simp only [N_CH, N_CSH2, N_AFm, N_AFt, N_C3AH6, PHI, PHI_C, PoreRadius, V_Cem0]
    apply preinit_agree pre r g g0 l _ _ (fun j hj => hl j (by simp [hj]))
    · repeat (first | exact h | apply AgreeFrom.update _ (by simp only [NVI]; omega))
    · exact h0.update (by simp only [NV0]; omega) _

lemma nodes_agree (m : Model) (g : Nat → ℚ) :
    ∀ (l : List Nat) (f f1 : Nat → ℚ), (∀ i ∈ l, i < 2) → AgreeFrom NVI f g →
      ComputeInitialState.nodes m l f = some f1 → AgreeFrom NVI f1 g
  | [], f, f1, _, h, e => by
    simp only [ComputeInitialState.nodes, Option.some.injEq] at e
    exact e ▸ h
  | i :: l, f, f1, hl, h, e => by
    unfold ComputeInitialState.nodes at e
    cases hx : m.ComputeVariables i with
    | none => simp [hx] at e
    | some x =>
      simp only [hx] at e
      exact nodes_agree m g l _ f1 (fun j hj => hl j (by simp [hj]))
        (store_agree h x (hl i (by simp))) e

lemma mechanics_agree (m : Model) (g : Nat → ℚ) :
    ∀ (l : List Nat) (f f1 : Nat → ℚ), (∀ p ∈ l, p < 2) → AgreeFrom NVI f g →
      ComputeInitialState.mechanics m l f = some f1 → AgreeFrom NVI f1 g
  | [], f, f1, _, h, e => by
    simp only [ComputeInitialState.mechanics, Option.some.injEq] at e
    exact e ▸ h
  | p :: l, f, f1, hl, h, e => by
    have hp : p < 2 := hl p (by simp)
    unfold ComputeInitialState.mechanics at e
    cases hy : m.ComputeVariables2 p with
    | none => simp [hy] at e
    | some y =>
      simp only [hy] at e
      refine mechanics_agree m g l _ f1 (fun j hj => hl j (by simp [hj])) ?_ e
      have hb : ∀ i ∈ List.range 9, SIG + p * 9 + i < NVI := by
        intro i hi
        have := List.mem_range.1 hi
        simp only [SIG, NVI]; omega
      have hq : PRESSURE + p < NVI := by simp only [PRESSURE, NVI]; omega
      exact AgreeFrom.foldl_update (SIG + p * 9) (fun i => y (I_STRESS + i)) _ _
        ((AgreeFrom.foldl_update (SIG + p * 9) (fun _ => 0) _ _ (h.update hq _) hb).update hq _) hb

lemma flux_agree {f g : Nat → ℚ} (h : AgreeFrom NVI f g) (w : Nat → ℚ) :
    AgreeFrom NVI (ComputeImplicitTerms.flux w f) g := by
  unfold ComputeImplicitTerms.flux
  simp only [W_S, W_Ca, W_Si, W_q, W_K, W_Cl, W_Al]
  repeat (first | exact h | apply AgreeFrom.update _ (by simp only [NVI]; omega))

lemma nodes_isSome (m : Model) :
    ∀ (l : List Nat) (f : Nat → ℚ), (∀ i ∈ l, (m.ComputeVariables i).isSome) →
      (ComputeInitialState.nodes m l f).isSome
  | [], f, _ => rfl
  | i :: l, f, hl => by
    unfold ComputeInitialState.nodes
    have hi := hl i (by simp)
    cases hx : m.ComputeVariables i with
    | none => simp [hx] at hi
    | some x => exact nodes_isSome m l _ (fun j hj => hl j (by simp [hj]))

lemma index_lt (a : ImplicitTerm) (h : a.valid 2) : a.index < NVI := by
  cases a <;>
    simp only [ImplicitTerm.valid, ImplicitTerm.node, Option.some.injEq, forall_eq',
      reduceCtorEq, false_implies, implies_true] at h <;>
    simp only [ImplicitTerm.index, N_S, N_q, N_Ca, N_Si, N_K, N_Cl, N_Al, W_S, W_q, W_Ca, W_Si,
      W_K, W_Cl, W_Al, N_CH, N_CSH2, N_AH3, N_AFm, N_AFt, N_C3AH6, PHI, PHI_C, PoreRadius, SIG,
      PRESSURE, NVI] <;>
    omega

set_option maxHeartbeats 1600000 in
lemma index_injective (a b : ImplicitTerm) (ha : a.valid 2) (hb : b.valid 2)
    (e : a.index = b.index) : a = b := by
  cases a <;> cases b <;>
    simp only [ImplicitTerm.valid, ImplicitTerm.node, Option.some.injEq, forall_eq',
      reduceCtorEq, false_implies, implies_true] at ha hb <;>
    simp only [ImplicitTerm.index, N_S, N_q, N_Ca, N_Si, N_K, N_Cl, N_Al, W_S, W_q, W_Ca, W_Si,
      W_K, W_Cl, W_Al, N_CH, N_CSH2, N_AH3, N_AFm, N_AFt, N_C3AH6, PHI, PHI_C, PoreRadius, SIG,
      PRESSURE] at e <;>
    first
      | rfl
      | (exfalso; omega)
      | (congr 1 <;> omega)

end ESAC2

namespace ESAC2

/-- C21: in `ESAC2.c`, for node indices below 2, integration points below 2 and
stress components below 9, every implicit term named by the macros lies below
`NVI = 63` and two different named terms lie at different places; the constant
terms `V_Cem0(n)` and `SIG0 + 9*p + k` lie below `NV0 = 20` and do not overlap.
`ComputeInitialState` is stopped by `arret` on a non-submanifold element with more
than 2 integration points (once the constitutive functions of the nodes have
returned); and when it returns on an element of at most 2 nodes, the element
is a submanifold or has at most 2 integration points, and nothing was written
at or beyond `NVI` in the implicit terms nor at or beyond `NV0` in the constant
terms. -/
theorem C21_layout_in_bounds :
    (∀ a : ImplicitTerm, a.valid 2 → a.index < NVI) ∧
    (∀ a b : ImplicitTerm, a.valid 2 → b.valid 2 → a.index = b.index → a = b) ∧
    (∀ n p k : Nat, n < 2 → p < 2 → k < 9 →
      V_Cem0 n < NV0 ∧ SIG0 + 9 * p + k < NV0 ∧ V_Cem0 n ≠ SIG0 + 9 * p + k) ∧
    (∀ (el : Element) (m : Model) (pre : Nat → PreInitialization) (r : ℚ) (v0 : Nat → ℚ),
      el.IsSubmanifold = false → 2 < el.NbOfIntPoints →
      (∀ i, i < el.NbOfNodes → (m.ComputeVariables i).isSome) →
      ComputeInitialState el m pre r v0
        = Outcome.stopped "ComputeInitialState: more than 2 integration points") ∧
    (∀ (el : Element) (m : Model) (pre : Nat → PreInitialization) (r : ℚ) (v0 : Nat → ℚ)
      (code : Int) (f1 v1 : Nat → ℚ),
      el.NbOfNodes ≤ 2 → ComputeInitialState el m pre r v0 = Outcome.returned code f1 v1 →
      (el.IsSubmanifold = true ∨ el.NbOfIntPoints ≤ 2) ∧
      (∀ k, NVI ≤ k → f1 k = el.f k) ∧ (∀ k, NV0 ≤ k → v1 k = v0 k)) := by
  refine ⟨index_lt, index_injective, ?_, ?_, ?_⟩
  · intro n p k hn hp hk
    simp only [V_Cem0, SIG0, NV0]
    omega
  · intro el m pre r v0 hs hp hx
    have h := nodes_isSome m (List.range el.NbOfNodes)
      (ComputeInitialState.preinit pre r (List.range el.NbOfNodes) el.f v0).1
      (fun i hi => hx i (List.mem_range.1 hi))
    unfold ComputeInitialState
    cases hn : ComputeInitialState.nodes m (List.range el.NbOfNodes)
      (ComputeInitialState.preinit pre r (List.range el.NbOfNodes) el.f v0).1 with
    | none => rw [hn] at h; simp at h
    | some f => simp [hn, hs, hp]
  · intro el m pre r v0 code f1 v1 hnn e
    have hl : ∀ i ∈ List.range el.NbOfNodes, i < 2 := fun i hi => by
      have := List.mem_range.1 hi
      omega
    have hpre := preinit_agree pre r el.f v0 (List.range el.NbOfNodes) el.f v0 hl
      (fun _ _ => rfl) (fun _ _ => rfl)
    unfold ComputeInitialState at e
    cases hn : ComputeInitialState.nodes m (List.range el.NbOfNodes)
      (ComputeInitialState.preinit pre r (List.range el.NbOfNodes) el.f v0).1 with
    | none => simp [hn] at e
    | some f =>
      have hf := nodes_agree m el.f _ _ f hl hpre.1 hn
      simp only [hn] at e
      by_cases hs : el.IsSubmanifold = true
      · simp only [hs, if_true, Outcome.returned.injEq] at e
        obtain ⟨-, rfl, rfl⟩ := e
        exact ⟨Or.inl hs, hf, hpre.2⟩
      · simp only [hs] at e
        by_cases hp : el.NbOfIntPoints > 2
        · simp [hp] at e
        · simp only [hp, if_false] at e
          cases hm : ComputeInitialState.mechanics m (List.range el.NbOfIntPoints) f with
          | none => simp [hm] at e
          | some f2 =>
            have hf2 := mechanics_agree m el.f _ _ f2
              (fun p hp2 => by have := List.mem_range.1 hp2; omega) hf hm
            simp only [hm] at e
            cases hw : m.ComputeVariableFluxes with
            | none => simp [hw] at e
            | some w =>
              simp only [hw, Outcome.returned.injEq] at e
              obtain ⟨-, rfl, rfl⟩ := e
              exact ⟨Or.inr (by omega), flux_agree hf2 w, hpre.2⟩

end ESAC2

namespace ESAC2

/-- The element `bar3`, of three integration points, stops `ComputeInitialState`. -/
theorem C21_layout_in_bounds_witness :
    ComputeInitialState bar3 model pre 1 (fun _ => 0)
      = Outcome.stopped "ComputeInitialState: more than 2 integration points" :=
  C21_layout_in_bounds.2.2.2.1 bar3 model pre 1 (fun _ => 0) rfl (by decide) (fun _ _ => rfl)

end ESAC2

/-! ## The layout of the term arrays of `MTD1c.c` -/

namespace MTD1c

lemma massAndFlux_lt {NN b i j : Nat} (hb : b ≤ 6) (hi : i < NN) (hj : j < NN) :
    MassAndFlux NN (b * NN * NN) i j < NVI NN := by
  unfold MassAndFlux NVI
  have h1 : i * NN + j < NN * NN := by
    have : (i + 1) * NN ≤ NN * NN := Nat.mul_le_mul_right NN hi
    calc i * NN + j < i * NN + NN := by omega
      _ = (i + 1) * NN := by ring
      _ ≤ NN * NN := this
  have h2 : b * NN * NN ≤ 6 * NN * NN := by
    rw [Nat.mul_assoc, Nat.mul_assoc]
    exact Nat.mul_le_mul_right _ hb
  have h3 : 7 * NN * NN = 6 * NN * NN + NN * NN := by ring
  omega

lemma transferCoefficient_lt {NN n i : Nat} (nbc : Nat) (hn : n ≤ 64) (hi : i < NN) :
    TransferCoefficient NN 0 n + i < NVE nbc NN := by
  unfold TransferCoefficient NVE
  have h1 : n * NN ≤ 64 * NN := Nat.mul_le_mul_right NN hn
  have h2 : (65 + nbc) * NN = 65 * NN + nbc * NN := by ring
  omega

lemma concentration_lt {NN i k nbc : Nat} (hi : i < NN) (hk : k < nbc) :
    CONCENTRATION nbc NN i + k < NVE nbc NN := by
  unfold CONCENTRATION TransferCoefficient NVE
  have h1 : (i + 1) * nbc ≤ NN * nbc := Nat.mul_le_mul_right nbc hi
  have h2 : (65 + nbc) * NN = 65 * NN + NN * nbc := by ring
  have h3 : (i + 1) * nbc = i * nbc + nbc := by ring
  omega

/-- C22: in `MTD1c.c`, for every number of nodes `NN` and all node indices
`i, j < NN`, the seven blocks `MassAndFlux` and `N_CH(i)` lie below
`NVI = 7*NN*NN + 2*NN`, and the blocks `TransferCoefficient(va,n)[i]`
(`n <= 64`) and `CONCENTRATION(i)[k]` lie below
`NVE = (65 + NbOfConcentrations)*NN`; but `V_S0(i) = i` lies below `NV0 = 2`
only for `i < 2`: on an element of 3 nodes, to which `DefineElementProp` gives
2 constant terms, the loop "Pre-initialization" of `ComputeInitialState`
stores the value of the node 2 at the place 2 of the constant terms. -/
theorem C22_constant_term_beyond_NV0 :
    (∀ NN i j : Nat, i < NN → j < NN →
      W_C NN i j < NVI NN ∧ W_q NN i j < NVI NN ∧ W_m NN i j < NVI NN ∧ W_Ca NN i j < NVI NN ∧
      W_Na NN i j < NVI NN ∧ W_K NN i j < NVI NN ∧ W_Si NN i j < NVI NN ∧
      N_C NN i < NVI NN ∧ N_q NN i < NVI NN ∧ Mass NN i < NVI NN ∧ N_Ca NN i < NVI NN ∧
      N_Na NN i < NVI NN ∧ N_K NN i < NVI NN ∧ N_Si NN i < NVI NN ∧ N_CH NN i < NVI NN) ∧
    (∀ nbc NN n i k : Nat, i < NN → n ≤ 64 → k < nbc →
      TransferCoefficient NN 0 n + i < NVE nbc NN ∧ CONCENTRATION nbc NN i + k < NVE nbc NN) ∧
    (∀ i : Nat, V_S0 i < NV0 ↔ i < 2) ∧
    (∀ (nbc : Nat) (sub : Bool) (v_s0 n_ch f v0 : Nat → ℚ),
      (DefineElementProp nbc 3 sub).NbOfConstantTerms = 2 ∧
      (ComputeInitialState.preinit 3 v_s0 n_ch (List.range 3) f v0).2 2 = v_s0 2) := by
  refine ⟨?_, ?_, ?_, ?_⟩
  · intro NN i j hi hj
    have e0 : ∀ a b, MassAndFlux NN 0 a b = MassAndFlux NN (0 * NN * NN) a b := by
      intro a b; simp
    have e1 : ∀ a b, MassAndFlux NN (NN * NN) a b = MassAndFlux NN (1 * NN * NN) a b := by
      intro a b; simp
    refine ⟨?_, ?_, ?_, ?_, ?_, ?_, ?_, ?_, ?_, ?_, ?_, ?_, ?_, ?_, ?_⟩
    · unfold W_C; rw [e0]; exact massAndFlux_lt (by omega) hi hj
    · unfold W_q; rw [e1]; exact massAndFlux_lt (by omega) hi hj
    · exact massAndFlux_lt (by omega) hi hj
    · exact massAndFlux_lt (by omega) hi hj
    · exact massAndFlux_lt (by omega) hi hj
    · exact massAndFlux_lt (by omega) hi hj
    · exact massAndFlux_lt (by omega) hi hj
    · unfold N_C; rw [e0]; exact massAndFlux_lt (by omega) hi hi
    · unfold N_q; rw [e1]; exact massAndFlux_lt (by omega) hi hi
    · exact massAndFlux_lt (by omega) hi hi
    · exact massAndFlux_lt (by omega) hi hi
    · exact massAndFlux_lt (by omega) hi hi
    · exact massAndFlux_lt (by omega) hi hi
    · exact massAndFlux_lt (by omega) hi hi
    · unfold N_CH NVI; omega
  · intro nbc NN n i k hi hn hk
    exact ⟨transferCoefficient_lt nbc hn hi, concentration_lt hi hk⟩
  · intro i
    simp only [V_S0, NV0]
    omega
  · intro nbc sub v_s0 n_ch f v0
    refine ⟨rfl, ?_⟩
    simp [List.range_succ, ComputeInitialState.preinit, V_S0]

end MTD1c

/-! ## The material properties of `ESAC2.c` -/

namespace ESAC2

lemma pm_cases (s : String) :
    pm s = -1 ∨ (0 ≤ pm s ∧ pm s < 19) ∨ (s = "Cijkl" ∧ pm s = 19) ∨
      (s = "BiotCoef" ∧ pm s = 100) := by
  generalize hv : pm s = v
  unfold pm at hv
  by_cases h0 : s = "porosity"
  · rw [if_pos h0] at hv; subst hv; exact Or.inr (Or.inl (by decide))
  rw [if_neg h0] at hv
  by_cases h1 : s = "N_CH"
  · rw [if_pos h1] at hv; subst hv; exact Or.inr (Or.inl (by decide))
  rw [if_neg h1] at hv
  by_cases h2 : s = "N_Si"
  · rw [if_pos h2] at hv; subst hv; exact Or.inr (Or.inl (by decide))
  rw [if_neg h2] at hv
  by_cases h3 : s = "N_CSH"
  · rw [if_pos h3] at hv; subst hv; exact Or.inr (Or.inl (by decide))
  rw [if_neg h3] at hv
  by_cases h4 : s = "T_CH"
  · rw [if_pos h4] at hv; subst hv; exact Or.inr (Or.inl (by decide))
  rw [if_neg h4] at hv
  by_cases h5 : s = "T_CSH2"
  · rw [if_pos h5] at hv; subst hv; exact Or.inr (Or.inl (by decide))
  rw [if_neg h5] at hv
  by_cases h6 : s = "N_CSH2"
  · rw [if_pos h6] at hv; subst hv; exact Or.inr (Or.inl (by decide))
  rw [if_neg h6] at hv
  by_cases h7 : s = "N_AH3"
  · rw [if_pos h7] at hv; subst hv; exact Or.inr (Or.inl (by decide))
  rw [if_neg h7] at hv
  by_cases h8 : s = "N_AFm"
  · rw [if_pos h8] at hv; subst hv; exact Or.inr (Or.inl (by decide))
  rw [if_neg h8] at hv
  by_cases h9 : s = "N_AFt"
  · rw [if_pos h9] at hv; subst hv; exact Or.inr (Or.inl (by decide))
  rw [if_neg h9] at hv
  by_cases h10 : s = "N_C3AH6"
  · rw [if_pos h10] at hv; subst hv; exact Or.inr (Or.inl (by decide))
  rw [if_neg h10] at hv
  by_cases h11 : s = "T_AFm"
  · rw [if_pos h11] at hv; subst hv; exact Or.inr (Or.inl (by decide))
  rw [if_neg h11] at hv
  by_cases h12 : s = "T_AFt"
  · rw [if_pos h12] at hv; subst hv; exact Or.inr (Or.inl (by decide))
  rw [if_neg h12] at hv
  by_cases h13 : s = "R_AFm"
  · rw [if_pos h13] at hv; subst hv; exact Or.inr (Or.inl (by decide))
  rw [if_neg h13] at hv
  by_cases h14 : s = "R_AFt"
  · rw [if_pos h14] at hv; subst hv; exact Or.inr (Or.inl (by decide))
  rw [if_neg h14] at hv
  by_cases h15 : s = "R_C3AH6"
  · rw [if_pos h15] at hv; subst hv; exact Or.inr (Or.inl (by decide))
  rw [if_neg h15] at hv
  by_cases h16 : s = "R_CSH2"
  · rw [if_pos h16] at hv; subst hv; exact Or.inr (Or.inl (by decide))
  rw [if_neg h16] at hv
  by_cases h17 : s = "a_AFt"
  · rw [if_pos h17] at hv; subst hv; exact Or.inr (Or.inl (by decide))
  rw [if_neg h17] at hv
  by_cases h18 : s = "Poisson"
  · rw [if_pos h18] at hv; subst hv; exact Or.inr (Or.inl (by decide))
  rw [if_neg h18] at hv
  by_cases h19 : s = "Young"
  · rw [if_pos h19] at hv; subst hv; exact Or.inr (Or.inl (by decide))
  rw [if_neg h19] at hv
  by_cases h20 : s = "Cijkl"
  · rw [if_pos h20] at hv; subst hv; exact Or.inr (Or.inr (Or.inl ⟨h20, rfl⟩))
  rw [if_neg h20] at hv
  by_cases h21 : s = "BiotCoef"
  · rw [if_pos h21] at hv; subst hv; exact Or.inr (Or.inr (Or.inr ⟨h21, rfl⟩))
  rw [if_neg h21] at hv
  subst hv; exact Or.inl rfl

/-- C23: every name that `pm` of `ESAC2.c` recognises has its place in
`[0, 19)`, except `Cijkl`, whose block of 81 entries starts at 19 and ends at
`Material_MaxNbOfProperties = 100` without meeting the place of another
property, and except `BiotCoef`, whose place is 100, which is not below
`Material_MaxNbOfProperties`: `GetProperties` reads `biot` at the place 100 of
the array, and `ReadMatProp` returns 101 properties, which exceeds 100. -/
theorem C23_property_beyond_the_bound :
    (∀ s : String, pm s = -1 ∨ (0 ≤ pm s ∧ pm s < 19) ∨ (s = "Cijkl" ∧ pm s = 19) ∨
      (s = "BiotCoef" ∧ pm s = 100)) ∧
    pm "Cijkl" + 81 = Material_MaxNbOfProperties ∧
    pm "BiotCoef" = Material_MaxNbOfProperties ∧
    (∀ pr : Nat → ℚ, (GetProperties pr).biot = pr Material_MaxNbOfProperties) ∧
    (∀ (pr : Nat → ℚ) (scan : (Nat → ℚ) → (Nat → ℚ)),
      (ReadMatProp pr scan true).map Prod.fst = some ((Material_MaxNbOfProperties : Int) + 1)) := by
  refine ⟨pm_cases, by decide, by decide, ?_, ?_⟩
  · intro pr
    have h : pm "BiotCoef" = 100 := by decide
    simp only [GetProperties, GetProperty, h]
    rfl
  · intro pr scan
    simp [ReadMatProp, Material_MaxNbOfProperties]

end ESAC2

/-! ## The isotropic elastic tensor of `ESAC2.c` -/

namespace ESAC2

lemma tensor_add_apply (a : Nat → ℚ) (k : Nat) (v : ℚ) (x : Nat) :
    add a k v x = a x + if x = k then v else 0 := by
  unfold add
  by_cases h : x = k
  · subst h; simp
  · simp [h]

lemma zero_apply (c : Nat) (a : Nat → ℚ) (x : Nat) :
    ∀ n, (List.range n).foldl (fun a i => Function.update a (c + i) 0) a x
      = if c ≤ x ∧ x < c + n then 0 else a x := by
  intro n
  induction n with
  | zero => rw [if_neg (by omega)]; rfl
  | succ n ih =>
    rw [List.range_succ, List.foldl_append]
    simp only [List.foldl_cons, List.foldl_nil]
    by_cases h : x = c + n
    · subst h; simp
    · rw [Function.update_noteq h, ih]
      by_cases h1 : c ≤ x ∧ x < c + n
      · rw [if_pos h1, if_pos ⟨h1.1, by omega⟩]
      · rw [if_neg h1, if_neg (by omega)]

set_option maxHeartbeats 4000000 in
lemma tensor_apply (Young Poisson : ℚ) (c : Nat) (a : Nat → ℚ) (i j k l : Nat)
    (hi : i < 3) (hj : j < 3) (hk : k < 3) (hl : l < 3) :
    IsotropicElasticTensor Young Poisson c a (IsotropicElasticTensor.C c i j k l)
      = Young / (1 + Poisson) * Poisson / (1 - 2 * Poisson) * (delta i j * delta k l)
        + Young / (1 + Poisson) / 2 * (delta i k * delta j l + delta i l * delta j k) := by
  unfold IsotropicElasticTensor
  simp only [List.range_succ, List.range_zero, List.nil_append, List.cons_append, List.foldl_cons,
    List.foldl_nil]
  simp only [tensor_add_apply]
  interval_cases i <;> interval_cases j <;> interval_cases k <;> interval_cases l <;>
    simp [IsotropicElasticTensor.C, delta, Function.update] <;> ring

lemma tensor_outside (Young Poisson : ℚ) (c : Nat) (a : Nat → ℚ) (x : Nat)
    (h : x < c ∨ c + 81 ≤ x) : IsotropicElasticTensor Young Poisson c a x = a x := by
  unfold IsotropicElasticTensor
  simp only [show List.range 3 = [0, 1, 2] from rfl, List.foldl_cons, List.foldl_nil, tensor_add_apply,
    zero_apply, IsotropicElasticTensor.C]
  rw [if_neg (by omega)]
  simp (disch := omega) only [if_neg, add_zero]

lemma delta_comm (i j : Nat) : delta i j = delta j i := by
  unfold delta
  by_cases h : i = j
  · rw [if_pos h, if_pos h.symm]
  · rw [if_neg h, if_neg (fun e => h e.symm)]

end ESAC2

namespace ESAC2

/-- C26: for `Poisson` other than `-1` and `1/2`, and whatever the array held
before, the entries that `IsotropicElasticTensor` leaves at `C(i,j,k,l)` are
`lame*d(i,j)*d(k,l) + mu*(d(i,k)*d(j,l) + d(i,l)*d(j,k))` with
`mu = Young/(2*(1+Poisson))`, `lame = Young*Poisson/((1+Poisson)*(1-2*Poisson))`
and `d` the Kronecker delta; the tensor has the minor and the major
symmetries; nothing is written outside the 81 entries; and `ReadMatProp`
leaves at the place `pm("Cijkl")` the tensor of the properties `Young` and
`Poisson` of the material. -/
theorem C26_isotropic_elastic_tensor (Young Poisson : ℚ) (c : Nat) (a : Nat → ℚ)
    (h1 : Poisson ≠ -1) (h2 : Poisson ≠ 1 / 2) :
    (∀ i j k l : Nat, i < 3 → j < 3 → k < 3 → l < 3 →
      IsotropicElasticTensor Young Poisson c a (IsotropicElasticTensor.C c i j k l)
        = Young * Poisson / ((1 + Poisson) * (1 - 2 * Poisson)) * delta i j * delta k l
          + Young / (2 * (1 + Poisson)) * (delta i k * delta j l + delta i l * delta j k)) ∧
    (∀ i j k l : Nat, i < 3 → j < 3 → k < 3 → l < 3 →
      IsotropicElasticTensor Young Poisson c a (IsotropicElasticTensor.C c i j k l)
        = IsotropicElasticTensor Young Poisson c a (IsotropicElasticTensor.C c j i k l) ∧
      IsotropicElasticTensor Young Poisson c a (IsotropicElasticTensor.C c i j k l)
        = IsotropicElasticTensor Young Poisson c a (IsotropicElasticTensor.C c i j l k) ∧
      IsotropicElasticTensor Young Poisson c a (IsotropicElasticTensor.C c i j k l)
        = IsotropicElasticTensor Young Poisson c a (IsotropicElasticTensor.C c k l i j)) ∧
    (∀ x : Nat, x < c ∨ c + 81 ≤ x → IsotropicElasticTensor Young Poisson c a x = a x) ∧
    (∀ (pr : Nat → ℚ) (scan : (Nat → ℚ) → (Nat → ℚ)),
      (ReadMatProp pr scan true).map Prod.snd
        = some (IsotropicElasticTensor (scan (ReadMatProp.selfInitialization pr) 18)
            (scan (ReadMatProp.selfInitialization pr) 17) 19
            (scan (ReadMatProp.selfInitialization pr)))) := by
  have hP1 : 1 + Poisson ≠ 0 := fun e => h1 (by linarith)
  have hP2 : 1 - 2 * Poisson ≠ 0 := fun e => h2 (by linarith)
  refine ⟨?_, ?_, tensor_outside Young Poisson c a, ?_⟩
  · intro i j k l hi hj hk hl
    rw [tensor_apply Young Poisson c a i j k l hi hj hk hl]
    field_simp
    ring
  · intro i j k l hi hj hk hl
    rw [tensor_apply Young Poisson c a i j k l hi hj hk hl,
      tensor_apply Young Poisson c a j i k l hj hi hk hl,
      tensor_apply Young Poisson c a i j l k hi hj hl hk,
      tensor_apply Young Poisson c a k l i j hk hl hi hj]
    refine ⟨?_, ?_, ?_⟩
    · rw [delta_comm i j, delta_comm i k, delta_comm j l, delta_comm i l, delta_comm j k,
        delta_comm l j, delta_comm k i, delta_comm k j, delta_comm l i]
      ring
    · rw [delta_comm k l, delta_comm i k, delta_comm j l, delta_comm i l, delta_comm j k]
      rw [delta_comm l i, delta_comm k j]
      ring
    · rw [delta_comm k i, delta_comm l j, delta_comm k j, delta_comm l i]
      ring
  · intro pr scan
    simp only [ReadMatProp, Bool.not_true, Bool.false_eq_true, if_false, Option.map_some']
    rfl

/-- The tensor of `Young = 2` and `Poisson = 0`, written at the start of an
array. -/
theorem C26_isotropic_elastic_tensor_witness :
    IsotropicElasticTensor 2 0 0 (fun _ => 7) (IsotropicElasticTensor.C 0 0 1 0 1)
      = 2 * 0 / ((1 + 0) * (1 - 2 * 0)) * delta 0 1 * delta 0 1
        + 2 / (2 * (1 + 0)) * (delta 0 0 * delta 1 1 + delta 0 1 * delta 1 0) :=
  (C26_isotropic_elastic_tensor 2 0 0 (fun _ => 7) (by norm_num) (by norm_num)).1 0 1 0 1
    (by decide) (by decide) (by decide) (by decide)

end ESAC2

/-! ## The pore radius of `ESAC2.c` -/

namespace ESAC2

end ESAC2

/-! ## The number of outputs of `ESAC2.c` and `MTD1c.c` -/

/-- C24: for an element that is not a submanifold, `ComputeOutputs` of
`ESAC2.c` stores 58 results and the one of `MTD1c.c` 48, at the places
`0, 1, ...` in the order of the calls of `Result_Store` (from `ph` to
`Stresses`, and from `x_co2` to `v_cc`), and returns this number, provided the
constitutive function it calls returns; the error for a wrong number of
outputs is never reported; for a submanifold both return 0 and store
nothing. -/
theorem C24_number_of_outputs :
    (∀ (el : ESAC2.Element) (m : ESAC2.Model) (j : Nat),
      el.IsSubmanifold = false → (m.ComputeVariables j).isSome →
      ESAC2.ComputeOutputs el m j
        = Outputs.Exit.returned 58 (ESAC2.ComputeOutputs.store ⟨[], 0⟩).stored) ∧
    ((ESAC2.ComputeOutputs.store ⟨[], 0⟩).i = 58 ∧
      (ESAC2.ComputeOutputs.store ⟨[], 0⟩).stored.length = 58 ∧
      (ESAC2.ComputeOutputs.store ⟨[], 0⟩).stored.map Prod.fst = List.range 58 ∧
      (ESAC2.ComputeOutputs.store ⟨[], 0⟩).stored.head? = some (0, "ph", 1) ∧
      (ESAC2.ComputeOutputs.store ⟨[], 0⟩).stored.getLast? = some (57, "Stresses", 9)) ∧
    (∀ (el : ESAC2.Element) (m : ESAC2.Model) (j : Nat) (msg : String),
      ESAC2.ComputeOutputs el m j ≠ Outputs.Exit.error msg) ∧
    (∀ (el : ESAC2.Element) (m : ESAC2.Model) (j : Nat),
      el.IsSubmanifold = true → ESAC2.ComputeOutputs el m j = Outputs.Exit.returned 0 []) ∧
    (∀ x : Nat → ℚ, MTD1c.ComputeOutputs false (some x)
        = Outputs.Exit.returned 48 (MTD1c.ComputeOutputs.store ⟨[], 0⟩).stored) ∧
    ((MTD1c.ComputeOutputs.store ⟨[], 0⟩).i = 48 ∧
      (MTD1c.ComputeOutputs.store ⟨[], 0⟩).stored.length = 48 ∧
      (MTD1c.ComputeOutputs.store ⟨[], 0⟩).stored.map Prod.fst = List.range 48 ∧
      (MTD1c.ComputeOutputs.store ⟨[], 0⟩).stored.head? = some (0, "x_co2", 1) ∧
      (MTD1c.ComputeOutputs.store ⟨[], 0⟩).stored.getLast? = some (47, "v_cc", 1)) ∧
    (∀ (sub : Bool) (x : Option (Nat → ℚ)) (msg : String),
      MTD1c.ComputeOutputs sub x ≠ Outputs.Exit.error msg) ∧
    (∀ x : Option (Nat → ℚ), MTD1c.ComputeOutputs true x = Outputs.Exit.returned 0 []) := by
  have he : (ESAC2.ComputeOutputs.store ⟨[], 0⟩).i = 58 := rfl
  have hm : (MTD1c.ComputeOutputs.store ⟨[], 0⟩).i = 48 := rfl
  refine ⟨?_, ⟨rfl, rfl, by decide, rfl, rfl⟩, ?_, ?_, ?_, ⟨rfl, rfl, by decide, rfl, rfl⟩, ?_, ?_⟩
  · intro el m j hs hx
    unfold ESAC2.ComputeOutputs
    cases hv : m.ComputeVariables j with
    | none => rw [hv] at hx; simp at hx
    | some x => simp [hs, he]
  · intro el m j msg
    unfold ESAC2.ComputeOutputs
    cases hv : m.ComputeVariables j with
    | none => by_cases hs : el.IsSubmanifold = true <;> simp [hs]
    | some x => by_cases hs : el.IsSubmanifold = true <;> simp [hs, he]
  · intro el m j hs
    simp [ESAC2.ComputeOutputs, hs]
  · intro x
    simp [MTD1c.ComputeOutputs, hm]
  · intro sub x msg
    unfold MTD1c.ComputeOutputs
    cases x with
    | none => cases sub <;> simp
    | some x => cases sub <;> simp [hm]
  · intro x
    simp [MTD1c.ComputeOutputs]

/-- The outputs of the two-node element `bar`. -/
theorem C24_number_of_outputs_witness :
    ESAC2.ComputeOutputs ESAC2.bar ESAC2.model 0
      = Outputs.Exit.returned 58 (ESAC2.ComputeOutputs.store ⟨[], 0⟩).stored :=
  C24_number_of_outputs.1 ESAC2.bar ESAC2.model 0 rfl rfl

/-! ## The permeability coefficient of `MTD1c.c` -/

namespace MTD1c

lemma permeability_eq (phii frac phi_r phi : ℚ) :
    PermeabilityCoefficient phii frac phi_r phi
      = if (1 - (phii - phi) / phii - phi_r) / (1 - phi_r) > 0 then
          (1 - (phii - phi) / phii - phi_r) / (1 - phi_r)
            * ((1 - (phii - phi) / phii - phi_r) / (1 - phi_r))
            * (1 - frac + (frac / ((1 + (1 / frac) / (1 / phi_r - 1))
                * (1 + (1 / frac) / (1 / phi_r - 1)))))
            / (1 - frac + frac * (((1 - (phii - phi) / phii - phi_r) / (1 - phi_r)
                / ((1 - (phii - phi) / phii - phi_r) / (1 - phi_r)
                  + (1 + (1 / frac) / (1 / phi_r - 1)) - 1)) ^ 2))
        else 0 := rfl

/-- C27: with an initial porosity `phii > 0`, `0 < phi_r < 1` and
`0 < frac <= 1`, `PermeabilityCoefficient` of `MTD1c.c` returns 0 for every
porosity `phi` with `phi/phii <= phi_r`, returns 1 at `phi = phii`, is never
negative, and is the value of the law of Verma and Pruess,
`t*t*(1 - frac + frac/(w*w))/(1 - frac + frac*(t/(t + w - 1))^2)` for `t > 0`
and 0 otherwise, with `t = (phi/phii - phi_r)/(1 - phi_r)` and
`w = 1 + (1/frac)/(1/phi_r - 1)`, in which the value of Kozeny and Carman does
not occur. -/
theorem C27_verma_pruess (phii frac phi_r : ℚ) (hphii : 0 < phii) (hr0 : 0 < phi_r)
    (hr1 : phi_r < 1) (hf0 : 0 < frac) (hf1 : frac ≤ 1) :
    (∀ phi : ℚ, phi / phii ≤ phi_r → PermeabilityCoefficient phii frac phi_r phi = 0) ∧
    PermeabilityCoefficient phii frac phi_r phii = 1 ∧
    (∀ phi : ℚ, 0 ≤ PermeabilityCoefficient phii frac phi_r phi) ∧
    (∀ phi t w : ℚ, t = (phi / phii - phi_r) / (1 - phi_r) →
      w = 1 + (1 / frac) / (1 / phi_r - 1) →
      PermeabilityCoefficient phii frac phi_r phi
        = if t > 0 then
            t * t * (1 - frac + frac / (w * w)) / (1 - frac + frac * (t / (t + w - 1)) ^ 2)
          else 0) := by
  have h1r : 0 < 1 - phi_r := by linarith
  refine ⟨?_, ?_, ?_, ?_⟩
  · intro phi h
    rw [permeability_eq]
    have e : 1 - (phii - phi) / phii - phi_r = phi / phii - phi_r := by
      field_simp
    rw [e, if_neg]
    rw [gt_iff_lt, not_lt]
    exact div_nonpos_of_nonpos_of_nonneg (by linarith) h1r.le
  · rw [permeability_eq]
    have e : (1 - (phii - phii) / phii - phi_r) / (1 - phi_r) = 1 := by
      rw [sub_self, zero_div, sub_zero, div_self h1r.ne']
    rw [e, if_pos one_pos]
    have hinv : 0 < 1 / phi_r - 1 := by
      have : 1 < 1 / phi_r := by
        rw [lt_div_iff₀ hr0]; linarith
      linarith
    have hw : 0 < (1 / frac) / (1 / phi_r - 1) := div_pos (by positivity) hinv
    have hw1 : 0 < 1 + (1 / frac) / (1 / phi_r - 1) := by linarith
    generalize 1 + (1 / frac) / (1 / phi_r - 1) = w at hw1 ⊢
    have hA : 0 < 1 - frac + frac / (w * w) := by
      have : 0 < frac / (w * w) := div_pos hf0 (mul_pos hw1 hw1)
      linarith
    have e2 : 1 - frac + frac * (1 / (1 + w - 1)) ^ 2 = 1 - frac + frac / (w * w) := by
      have : (1 : ℚ) + w - 1 = w := by ring
      rw [this]
      field_simp
      ring
    rw [e2, one_mul, one_mul, div_self hA.ne']
  · intro phi
    rw [permeability_eq]
    split_ifs with ht
    · apply div_nonneg
      · apply mul_nonneg (mul_self_nonneg _)
        have : 0 ≤ frac / ((1 + 1 / frac / (1 / phi_r - 1)) * (1 + 1 / frac / (1 / phi_r - 1))) :=
          div_nonneg hf0.le (mul_self_nonneg _)
        linarith
      · have : 0 ≤ frac * (((1 - (phii - phi) / phii - phi_r) / (1 - phi_r)
                / ((1 - (phii - phi) / phii - phi_r) / (1 - phi_r)
                  + (1 + (1 / frac) / (1 / phi_r - 1)) - 1)) ^ 2) :=
          mul_nonneg hf0.le (sq_nonneg _)
        linarith
    · exact le_refl _
  · intro phi t w ht hw
    have e : 1 - (phii - phi) / phii - phi_r = phi / phii - phi_r := by
      field_simp
    rw [permeability_eq, e, ← ht, ← hw]

/-- The coefficient at the initial porosity, for the values of the example of
the model (`porosite = 0.38`, `frac = 0.8`, `phi_r = 0.7`). -/
theorem C27_verma_pruess_witness :
    PermeabilityCoefficient (38 / 100) (4 / 5) (7 / 10) (38 / 100) = 1 :=
  (C27_verma_pruess (38 / 100) (4 / 5) (7 / 10) (by norm_num) (by norm_num) (by norm_num)
    (by norm_num) (by norm_num)).2.1

end MTD1c

/-! ## The zeta unknowns of `MTD1c.c` -/

namespace MTD1c

lemma zeta (n0 z : ℚ) (h : 0 < n0) :
    0 ≤ n0 * MAX z 0 ∧ MIN z 0 ≤ 0 ∧ n0 * MAX z 0 * MIN z 0 = 0 ∧
      z = n0 * MAX z 0 / n0 + MIN z 0 := by
  unfold MAX MIN
  rcases le_total z 0 with hz | hz
  · rw [max_eq_right hz, min_eq_left hz]
    refine ⟨by simp, hz, by simp, by simp⟩
  · rw [max_eq_left hz, min_eq_right hz]
    refine ⟨mul_nonneg h.le hz, le_refl _, by simp, ?_⟩
    field_simp

/-- C28: in `ComputeSecondaryComponents` of `MTD1c.c`, for every value `z` of
the zeta unknown of calcium and a reference content `n_ch0 > 0`, the solid
calcium content is `n = n_ch0*max(z,0)`, shared between `n_ch` and `n_cc`, and
the input `SI_Ca` handed to the chemistry is `min(z,0)`, so that `n >= 0`,
`SI_Ca <= 0`, `n*SI_Ca = 0` and `z = n/n_ch0 + SI_Ca`; the same holds for the
zeta unknown of silicon with `n_csh0 > 0`, the content `n_si_s` and the input
`SI_Si`. -/
theorem C28_zeta_unknowns (n_ch0 n_csh0 : ℚ) (x : Nat → ℚ) (s_ch s_cc kinetics : ℚ)
    (h0 : 0 < n_ch0) (h1 : 0 < n_csh0) :
    ((ComputeSecondaryComponents.solid n_ch0 n_csh0 x s_ch s_cc kinetics).n_ch_cc
        = n_ch0 * max (x U_ZN_Ca_S) 0 ∧
      (ComputeSecondaryComponents.inputs x).1 = min (x U_ZN_Ca_S) 0 ∧
      (ComputeSecondaryComponents.solid n_ch0 n_csh0 x s_ch s_cc kinetics).n_ch
        + (ComputeSecondaryComponents.solid n_ch0 n_csh0 x s_ch s_cc kinetics).n_cc
        = (ComputeSecondaryComponents.solid n_ch0 n_csh0 x s_ch s_cc kinetics).n_ch_cc ∧
      0 ≤ (ComputeSecondaryComponents.solid n_ch0 n_csh0 x s_ch s_cc kinetics).n_ch_cc ∧
      (ComputeSecondaryComponents.inputs x).1 ≤ 0 ∧
      (ComputeSecondaryComponents.solid n_ch0 n_csh0 x s_ch s_cc kinetics).n_ch_cc
        * (ComputeSecondaryComponents.inputs x).1 = 0 ∧
      x U_ZN_Ca_S
        = (ComputeSecondaryComponents.solid n_ch0 n_csh0 x s_ch s_cc kinetics).n_ch_cc / n_ch0
          + (ComputeSecondaryComponents.inputs x).1) ∧
    ((ComputeSecondaryComponents.solid n_ch0 n_csh0 x s_ch s_cc kinetics).n_si_s
        = n_csh0 * max (x U_ZN_Si_S) 0 ∧
      (ComputeSecondaryComponents.inputs x).2 = min (x U_ZN_Si_S) 0 ∧
      0 ≤ (ComputeSecondaryComponents.solid n_ch0 n_csh0 x s_ch s_cc kinetics).n_si_s ∧
      (ComputeSecondaryComponents.inputs x).2 ≤ 0 ∧
      (ComputeSecondaryComponents.solid n_ch0 n_csh0 x s_ch s_cc kinetics).n_si_s
        * (ComputeSecondaryComponents.inputs x).2 = 0 ∧
      x U_ZN_Si_S
        = (ComputeSecondaryComponents.solid n_ch0 n_csh0 x s_ch s_cc kinetics).n_si_s / n_csh0
          + (ComputeSecondaryComponents.inputs x).2) := by
  obtain ⟨a1, a2, a3, a4⟩ := zeta n_ch0 (x U_ZN_Ca_S) h0
  obtain ⟨b1, b2, b3, b4⟩ := zeta n_csh0 (x U_ZN_Si_S) h1
  refine ⟨⟨rfl, rfl, ?_, a1, a2, a3, a4⟩, ⟨rfl, rfl, b1, b2, b3, b4⟩⟩
  simp only [ComputeSecondaryComponents.solid]
  by_cases hs : s_cc > s_ch
  · rw [if_pos hs, if_pos hs]; ring
  · rw [if_neg hs, if_neg hs]; ring

/-- The contents and the inputs for the unknowns `z_ca = 2` (solid present)
and `z_si = -1` (undersaturated), with unit reference contents. -/
theorem C28_zeta_unknowns_witness :
    (ComputeSecondaryComponents.solid 1 1 (fun i => if i = U_ZN_Ca_S then 2 else -1) 1 0 0).n_ch_cc
        = 1 * max ((fun i => if i = U_ZN_Ca_S then (2 : ℚ) else -1) U_ZN_Ca_S) 0 :=
  (C28_zeta_unknowns 1 1 (fun i => if i = U_ZN_Ca_S then 2 else -1) 1 0 0
    one_pos one_pos).1.1

end MTD1c

/-! ## The tangent matrix of `MTD1c.c` -/

namespace MTD1c

lemma scale_apply (v0 v1 : ℚ) (k : Nat → ℚ) : ∀ (m i j : Nat), i < 14 → j < 14 →
    ((List.range m).foldl (fun k i => mul (mul k (ComputeMatrix.K 14 i 0) v0)
      (ComputeMatrix.K 14 i 7) v1) k) (ComputeMatrix.K 14 i j)
      = if i < m ∧ j = 0 then k (ComputeMatrix.K 14 i j) * v0
        else if i < m ∧ j = 7 then k (ComputeMatrix.K 14 i j) * v1
        else k (ComputeMatrix.K 14 i j) := by
  intro m
  induction m with
  | zero => intro i j _ _; simp
  | succ m ih =>
    intro i j hi hj
    rw [List.range_succ, List.foldl_append]
    simp only [List.foldl_cons, List.foldl_nil]
    have hm0 := ih m 0
    have hm7 := ih m 7
    have hij := ih i j hi hj
    simp only [ComputeMatrix.K, mul] at hm0 hm7 hij ⊢
    by_cases e7 : i * 14 + j = m * 14 + 7
    · have him : i = m := by omega
      have hj7 : j = 7 := by omega
      subst him; subst hj7
      rw [Function.update_same, Function.update_noteq (by omega), hij]
      simp
    · rw [Function.update_noteq e7]
      by_cases e0 : i * 14 + j = m * 14 + 0
      · have him : i = m := by omega
        have hj0 : j = 0 := by omega
        subst him; subst hj0
        rw [Function.update_same, hij]
        simp
      · rw [Function.update_noteq e0, hij]
        have c0 : (i < m + 1 ∧ j = 0) ↔ (i < m ∧ j = 0) := by
          constructor
          · rintro ⟨a, b⟩; exact ⟨by omega, b⟩
          · rintro ⟨a, b⟩; exact ⟨by omega, b⟩
        have c7 : (i < m + 1 ∧ j = 7) ↔ (i < m ∧ j = 7) := by
          constructor
          · rintro ⟨a, b⟩; exact ⟨by omega, b⟩
          · rintro ⟨a, b⟩; exact ⟨by omega, b⟩
        simp only [c0, c7]

lemma ComputeMatrix_apply (km : Nat → ℚ) (Ln10 : ℚ) (pow : ℚ → ℚ → ℚ) (u : Nat → Nat → ℚ)
    (k : Nat → ℚ) (i j : Nat) (hi : i < 14) (hj : j < 14) :
    (ComputeMatrix 2 false km Ln10 pow u k).2 (ComputeMatrix.K 14 i j)
      = if j = U_C_CO2 then km (ComputeMatrix.K 14 i j) * (Ln10 * pow 10 (u 0 U_C_CO2))
        else if j = U_C_CO2 + NEQ then
          km (ComputeMatrix.K 14 i j) * (Ln10 * pow 10 (u 1 U_C_CO2))
        else km (ComputeMatrix.K 14 i j) := by
  have h := scale_apply (Ln10 * pow 10 (u 0 U_C_CO2)) (Ln10 * pow 10 (u 1 U_C_CO2))
    (fun i => if i < 14 * 14 then km i else if i < 14 * 14 then 0 else k i) 14 i j hi hj
  have hlt : ComputeMatrix.K 14 i j < 14 * 14 := by
    simp only [ComputeMatrix.K]; omega
  simp only [hi, true_and, if_pos hlt, Nat.reduceMul, U_C_CO2] at h
  simp only [ComputeMatrix, NEQ, U_C_CO2, Bool.false_eq_true, if_false, Nat.reduceMul,
    Nat.reduceAdd, zero_add]
  rw [h]

/-- C29 does not hold as stated: on a two-node element whose matrix of mass and
conduction has all its entries equal to 1 and whose unknowns are zero (so that
the concentration of CO2 is `pow(10,0) = 1`), the entry of the row 0 in the
column of the unknown of CO2 is `1*(Ln10*1)` for every value of `Ln10`; with
`Ln10 = 2.302585` it is not `1 * 1/(Ln10*1)`. -/
theorem C29_inverse_factor_fails :
    (∀ Ln10 : ℚ,
      (ComputeMatrix 2 false (fun _ => 1) Ln10 (fun _ _ => 1) (fun _ _ => 0) (fun _ => 0)).2
        (ComputeMatrix.K 14 0 U_C_CO2) = 1 * (Ln10 * 1)) ∧
    (ComputeMatrix 2 false (fun _ => 1) (2302585 / 1000000) (fun _ _ => 1) (fun _ _ => 0)
        (fun _ => 0)).2 (ComputeMatrix.K 14 0 U_C_CO2)
      ≠ 1 * (1 / (2302585 / 1000000 * 1)) := by
  have h : ∀ Ln10 : ℚ,
      (ComputeMatrix 2 false (fun _ => 1) Ln10 (fun _ _ => 1) (fun _ _ => 0) (fun _ => 0)).2
        (ComputeMatrix.K 14 0 U_C_CO2) = 1 * (Ln10 * 1) := by
    intro Ln10
    rw [ComputeMatrix_apply _ _ _ _ _ 0 U_C_CO2 (by decide) (by decide), if_pos rfl]
  refine ⟨h, ?_⟩
  rw [h]
  norm_num

/-- C29, amended: in `ComputeMatrix` of `MTD1c.c`, for a two-node element that
is not a submanifold, the value returned is 0 and the entry `K(i,j)` of the
block is the entry of the matrix of mass and conduction multiplied by
`Ln10*C_CO2(0)` in the column `j = U_C_CO2`, multiplied by `Ln10*C_CO2(1)` in the
column `j = U_C_CO2 + NEQ`, and unchanged in every other column, where
`C_CO2(n) = pow(10,u)` is the concentration of CO2 at the node `n`. -/
theorem C29_scaled_by_ln10_c (km : Nat → ℚ) (Ln10 : ℚ) (pow : ℚ → ℚ → ℚ) (u : Nat → Nat → ℚ)
    (k : Nat → ℚ) (i j : Nat) (hi : i < 2 * NEQ) (hj : j < 2 * NEQ) :
    (ComputeMatrix 2 false km Ln10 pow u k).1 = 0 ∧
    (ComputeMatrix 2 false km Ln10 pow u k).2 (ComputeMatrix.K (2 * NEQ) i j)
      = if j = U_C_CO2 then
          km (ComputeMatrix.K (2 * NEQ) i j) * (Ln10 * pow 10 (u 0 U_C_CO2))
        else if j = U_C_CO2 + NEQ then
          km (ComputeMatrix.K (2 * NEQ) i j) * (Ln10 * pow 10 (u 1 U_C_CO2))
        else km (ComputeMatrix.K (2 * NEQ) i j) :=
  ⟨rfl, ComputeMatrix_apply km Ln10 pow u k i j hi hj⟩

/-- The entry of the row 3 in the column of the unknown of CO2 of the second
node. -/
theorem C29_scaled_by_ln10_c_witness :
    (ComputeMatrix 2 false (fun _ => 1) 2 (fun _ _ => 1) (fun _ _ => 0) (fun _ => 0)).2
        (ComputeMatrix.K (2 * NEQ) 3 7)
      = if 7 = U_C_CO2 then
          (fun _ => (1 : ℚ)) (ComputeMatrix.K (2 * NEQ) 3 7)
            * (2 * (fun _ _ => (1 : ℚ)) 10 ((fun _ _ => (0 : ℚ)) 0 U_C_CO2))
        else if 7 = U_C_CO2 + NEQ then
          (fun _ => (1 : ℚ)) (ComputeMatrix.K (2 * NEQ) 3 7)
            * (2 * (fun _ _ => (1 : ℚ)) 10 ((fun _ _ => (0 : ℚ)) 1 U_C_CO2))
        else (fun _ => (1 : ℚ)) (ComputeMatrix.K (2 * NEQ) 3 7) :=
  (C29_scaled_by_ln10_c (fun _ => 1) 2 (fun _ _ => 1) (fun _ _ => 0) (fun _ => 0) 3 7
    (by decide) (by decide)).2

end MTD1c

/-! ## The two solvers of the systems with sulfates -/

lemma Log10SaturationIndexOfCH_H2SO4_below (hcc : HardenedCementChemistry_t) (si_ca loga : ℚ)
    (h : loga ≤ hcc.Log10EquilibriumH2SO4Activity) :
    Log10SaturationIndexOfCH_H2SO4 hcc si_ca loga = Log10SaturationIndexOfCH si_ca := by
  unfold Log10SaturationIndexOfCH_H2SO4 Log10S_CH_H2SO4eq Log10SaturationIndexOfCH MIN
  rw [min_eq_right (by linarith), add_zero]

lemma Log10SaturationIndexOfCH_H2SO4_above (hcc : HardenedCementChemistry_t) (si_ca loga : ℚ)
    (h : hcc.Log10EquilibriumH2SO4Activity < loga) :
    Log10SaturationIndexOfCH_H2SO4 hcc si_ca loga
      = si_ca + (hcc.Log10EquilibriumH2SO4Activity - loga) := by
  unfold Log10SaturationIndexOfCH_H2SO4 Log10S_CH_H2SO4eq MIN
  rw [min_eq_left (by linarith)]

/-- C30: when the input `LogA_H2SO4` does not exceed the logarithm of the
activity of H2SO4 at the invariant point, the solvers
`..._SO3_Al2O3_H2O` and `..._SO3_Al2O3_H2O_2` leave the same state (the same
saturation indexes, logarithms of saturation indexes and ratios of C-S-H), for
the same solver of the chemistry of the solution; when it exceeds it, the first
stores `log10(S_CH) = SI_Ca + (Log10a_H2SO4eq - LogA_H2SO4) < SI_Ca` and the
second `SI_Ca`.  The same holds for `..._SO3_H2O` and `..._SO3_H2O_2`. -/
theorem C30_solvers_agree_below_invariant_point (lib : Library)
    (hcc : HardenedCementChemistry_t) :
    (hcc.Input.LogA_H2SO4 ≤ hcc.Log10EquilibriumH2SO4Activity →
      HardenedCementChemistry_ComputeSystem_CaO_SiO2_Na2O_K2O_SO3_Al2O3_H2O lib hcc
        = HardenedCementChemistry_ComputeSystem_CaO_SiO2_Na2O_K2O_SO3_Al2O3_H2O_2 lib hcc ∧
      HardenedCementChemistry_ComputeSystem_CaO_SiO2_Na2O_K2O_SO3_H2O lib hcc
        = HardenedCementChemistry_ComputeSystem_CaO_SiO2_Na2O_K2O_SO3_H2O_2 lib hcc) ∧
    (hcc.Log10EquilibriumH2SO4Activity < hcc.Input.LogA_H2SO4 →
      (HardenedCementChemistry_ComputeSystem_CaO_SiO2_Na2O_K2O_SO3_Al2O3_H2O lib
          hcc).Log10SaturationIndexOf Solid.CH
        = hcc.Input.SI_Ca + (hcc.Log10EquilibriumH2SO4Activity - hcc.Input.LogA_H2SO4) ∧
      (HardenedCementChemistry_ComputeSystem_CaO_SiO2_Na2O_K2O_SO3_H2O lib
          hcc).Log10SaturationIndexOf Solid.CH
        = hcc.Input.SI_Ca + (hcc.Log10EquilibriumH2SO4Activity - hcc.Input.LogA_H2SO4) ∧
      hcc.Input.SI_Ca + (hcc.Log10EquilibriumH2SO4Activity - hcc.Input.LogA_H2SO4)
        < hcc.Input.SI_Ca) ∧
    (HardenedCementChemistry_ComputeSystem_CaO_SiO2_Na2O_K2O_SO3_Al2O3_H2O_2 lib
        hcc).Log10SaturationIndexOf Solid.CH = hcc.Input.SI_Ca ∧
    (HardenedCementChemistry_ComputeSystem_CaO_SiO2_Na2O_K2O_SO3_H2O_2 lib
        hcc).Log10SaturationIndexOf Solid.CH = hcc.Input.SI_Ca := by
  refine ⟨?_, ?_, ?_, ?_⟩
  · intro h
    have e := Log10SaturationIndexOfCH_H2SO4_below hcc hcc.Input.SI_Ca hcc.Input.LogA_H2SO4 h
    constructor
    · unfold HardenedCementChemistry_ComputeSystem_CaO_SiO2_Na2O_K2O_SO3_Al2O3_H2O
        HardenedCementChemistry_ComputeSystem_CaO_SiO2_Na2O_K2O_SO3_Al2O3_H2O_2
      simp only [e]
    · unfold HardenedCementChemistry_ComputeSystem_CaO_SiO2_Na2O_K2O_SO3_H2O
        HardenedCementChemistry_ComputeSystem_CaO_SiO2_Na2O_K2O_SO3_H2O_2
      simp only [e]
  · intro h
    have e := Log10SaturationIndexOfCH_H2SO4_above hcc hcc.Input.SI_Ca hcc.Input.LogA_H2SO4 h
    refine ⟨?_, ?_, by linarith⟩
    · unfold HardenedCementChemistry_ComputeSystem_CaO_SiO2_Na2O_K2O_SO3_Al2O3_H2O
      simp [e]
    · unfold HardenedCementChemistry_ComputeSystem_CaO_SiO2_Na2O_K2O_SO3_H2O
      simp [e]
  · unfold HardenedCementChemistry_ComputeSystem_CaO_SiO2_Na2O_K2O_SO3_Al2O3_H2O_2
    simp [Log10SaturationIndexOfCH]
  · unfold HardenedCementChemistry_ComputeSystem_CaO_SiO2_Na2O_K2O_SO3_H2O_2
    simp [Log10SaturationIndexOfCH]

/-- Below the invariant point (`LogA_H2SO4 = -1 <= 0`) the two solvers of the
system with aluminium leave the same state. -/
theorem C30_solvers_agree_below_invariant_point_witness :
    HardenedCementChemistry_ComputeSystem_CaO_SiO2_Na2O_K2O_SO3_Al2O3_H2O Example.lib
        (Example.hcc (-1))
      = HardenedCementChemistry_ComputeSystem_CaO_SiO2_Na2O_K2O_SO3_Al2O3_H2O_2 Example.lib
        (Example.hcc (-1)) :=
  ((C30_solvers_agree_below_invariant_point Example.lib (Example.hcc (-1))).1
    (by norm_num [Example.hcc])).1

end Bil
